import Mathlib

/-!
EAIO path engine and file-name validity: a shallow embedding.

Paths are lists of code units (`Nat`); an iterator into a path is an index
(`Nat`).  A read through an iterator is `charAt`, which yields the
terminating nul (0) at and past the end of the string, as `c_str()` does.
The platform constants of `EAFileBase.h` (primary separator, alternate
separator, drive separator) are parameters of the development, collected
in `PathConfig`.

Loops over an iterator range `[first, last)` that move one position per
iteration are written by recursion on the remaining distance; loops whose
progress depends on another function carry explicit fuel and return `none`
when it is exhausted.
-/

namespace Eaio

/-- The three platform constants of `EAFileBase.h` used by `PathString.cpp`:
`kFilePathSeparator8`, `kFilePathSeparatorAlt8`, `kFilePathDriveSeparator8`. -/
structure PathConfig where
  kFilePathSeparator : Nat
  kFilePathSeparatorAlt : Nat
  kFilePathDriveSeparator : Nat
deriving DecidableEq, Repr

/-- Microsoft platforms: `'\\'`, `'/'`, `':'`. -/
def windowsConfig : PathConfig := ⟨92, 47, 58⟩

/-- A platform with the single directory separator `'/'` (primary and
alternate alike) and the drive separator `':'`. -/
def slashConfig : PathConfig := ⟨47, 47, 58⟩

/-- Code units of a string literal. -/
def str (x : String) : List Nat := x.toList.map Char.toNat

/-- Read through an iterator: `p[i]`, the terminating nul at the end. -/
def charAt (p : List Nat) (i : Nat) : Nat := p.getD i 0

/-- `IsDirectorySeparator(c)`. -/
def IsDirectorySeparator (cfg : PathConfig) (c : Nat) : Bool :=
  c == cfg.kFilePathSeparator || c == cfg.kFilePathSeparatorAlt

/-- Loop of `HasDrivePrefix`; `k` is the remaining distance `last - first`. -/
def HasDrivePrefixLoop (cfg : PathConfig) (p : List Nat) (last : Nat) : Nat → Nat → Bool
  | 0, _ => false
  | k + 1, first =>
    if first < last then
      if charAt p first == cfg.kFilePathDriveSeparator then true
      else if IsDirectorySeparator cfg (charAt p first) then false
      else HasDrivePrefixLoop cfg p last k (first + 1)
    else false

/-- `HasDrivePrefix(first, last)`. -/
def HasDrivePrefix (cfg : PathConfig) (p : List Nat) (first last : Nat) : Bool :=
  HasDrivePrefixLoop cfg p last (last - first) first

/-- `HasUNCPrefix(first, last)`: two backslashes. -/
def HasUNCPrefix (p : List Nat) (first last : Nat) : Bool :=
  decide (first + 2 ≤ last) && charAt p first == 92 && charAt p (first + 1) == 92

/-- Second loop of `findComponentFwd`: skip non-separator characters, stopping
right after a drive separator; `k` is the remaining distance. -/
def fwdSkipName (cfg : PathConfig) (p : List Nat) (last : Nat) : Nat → Nat → Nat
  | 0, first => first
  | k + 1, first =>
    if first < last && !IsDirectorySeparator cfg (charAt p first) then
      if charAt p first == cfg.kFilePathDriveSeparator then first + 1
      else fwdSkipName cfg p last k (first + 1)
    else first

/-- `findComponentFwd(first, last)`. -/
def findComponentFwd (cfg : PathConfig) (p : List Nat) (first last : Nat) : Nat :=
  let first1 := if HasUNCPrefix p first last then first + 2 else first
  let first2 := fwdSkipName cfg p last (last - first1) first1
  if first2 < last && IsDirectorySeparator cfg (charAt p first2) then first2 + 1 else first2

/-- Third step of `findComponentRvs`: skip backwards over characters that are
neither directory nor drive separators; `k` is the remaining distance. -/
def rvsSkipName (cfg : PathConfig) (p : List Nat) (first : Nat) : Nat → Nat → Nat
  | 0, last => last
  | k + 1, last =>
    if last > first && !IsDirectorySeparator cfg (charAt p (last - 1))
        && charAt p (last - 1) != cfg.kFilePathDriveSeparator then
      rvsSkipName cfg p first k (last - 1)
    else last

/-- `findComponentRvs(first, last)`. -/
def findComponentRvs (cfg : PathConfig) (p : List Nat) (first last : Nat) : Nat :=
  let last1 := if last > first && IsDirectorySeparator cfg (charAt p (last - 1)) then last - 1 else last
  let last2 := if last1 > first && charAt p (last1 - 1) == cfg.kFilePathDriveSeparator then last1 - 1 else last1
  let last3 := rvsSkipName cfg p first (last2 - first) last2
  if last3 == first + 2 && IsDirectorySeparator cfg (charAt p first)
      && IsDirectorySeparator cfg (charAt p (first + 1)) then first else last3

/-- Forward loop of `getPathComponentStart` (`nIndex >= 0`), by recursion on `nIndex`. -/
def getPathComponentStartFwd (cfg : PathConfig) (p : List Nat) (last : Nat) : Nat → Nat → Nat
  | 0, first => first
  | n + 1, first =>
    if first < last then getPathComponentStartFwd cfg p last n (findComponentFwd cfg p first last)
    else first

/-- Reverse loop of `getPathComponentStart` (`nIndex < 0`), by recursion on `-nIndex`. -/
def getPathComponentStartRvs (cfg : PathConfig) (p : List Nat) (first : Nat) : Nat → Nat → Nat
  | 0, last => last
  | n + 1, last =>
    if last > first then getPathComponentStartRvs cfg p first n (findComponentRvs cfg p first last)
    else last

/-- `getPathComponentStart(first, last, nIndex)`. -/
def getPathComponentStart (cfg : PathConfig) (p : List Nat) (first last : Nat) (nIndex : Int) : Nat :=
  if nIndex ≥ 0 then getPathComponentStartFwd cfg p last nIndex.toNat first
  else getPathComponentStartRvs cfg p first (-nIndex).toNat last

/-- Loop of `getFileName`: skip backwards over non-separators (same guard as
`rvsSkipName`). -/
def getFileName (cfg : PathConfig) (p : List Nat) (first last : Nat) : Nat :=
  if first < last && IsDirectorySeparator cfg (charAt p (last - 1)) then last
  else
    let fname := rvsSkipName cfg p first (last - first) last
    if fname == first + 2 && HasUNCPrefix p first last then last else fname

/-- Loop of `getFileExtension`: `it` runs from `last - 1` down to `first`;
the argument is `it + 1`, `k` the remaining distance. -/
def getFileExtensionLoop (cfg : PathConfig) (p : List Nat) (first last : Nat) : Nat → Nat → Nat
  | 0, _ => last
  | k + 1, it1 =>
    if it1 > first then
      let c := charAt p (it1 - 1)
      if IsDirectorySeparator cfg c || c == cfg.kFilePathDriveSeparator then last
      else if c == 46 then it1 - 1
      else getFileExtensionLoop cfg p first last k (it1 - 1)
    else last

/-- `getFileExtension(first, last)`. -/
def getFileExtension (cfg : PathConfig) (p : List Nat) (first last : Nat) : Nat :=
  if first < last && IsDirectorySeparator cfg (charAt p (last - 1)) then last
  else
    let first1 := if HasUNCPrefix p first last then findComponentFwd cfg p first last else first
    getFileExtensionLoop cfg p first1 last (last - first1) last

/-- `getLocalRoot(first, last)`. -/
def getLocalRoot (cfg : PathConfig) (p : List Nat) (first last : Nat) : Nat :=
  if HasDrivePrefix cfg p first last then first + 2
  else if HasUNCPrefix p first last then getPathComponentStart cfg p first last 1
  else first

/-- `isRelative(first, last)`. -/
def isRelative (cfg : PathConfig) (p : List Nat) (first last : Nat) : Bool :=
  if first ≥ last then true
  else if HasDrivePrefix cfg p first last then false
  else if last > first && IsDirectorySeparator cfg (charAt p first) then false
  else true

/-- `GetHasTrailingSeparator(path)`. -/
def GetHasTrailingSeparator (cfg : PathConfig) (path : List Nat) : Bool :=
  !path.isEmpty && IsDirectorySeparator cfg (charAt path (path.length - 1))

/-- `EnsureTrailingSeparator(path)`. -/
def EnsureTrailingSeparator (cfg : PathConfig) (path : List Nat) : List Nat :=
  if !GetHasTrailingSeparator cfg path then path ++ [cfg.kFilePathSeparator] else path

/-- `append(dst, first, last)` with the suffix given as a string. -/
def append (cfg : PathConfig) (dst suffix : List Nat) : List Nat :=
  if suffix.length = 0 then dst
  else
    let dst1 :=
      if isRelative cfg suffix 0 suffix.length then
        (if !dst.isEmpty then EnsureTrailingSeparator cfg dst else dst)
      else []
    dst1 ++ suffix

/-- Loop "skip over doubled separator": `while(first < last && IsDirectorySeparator(*first)) ++first`;
`k` is the remaining distance. -/
def skipDoubled (cfg : PathConfig) (buf : List Nat) (last : Nat) : Nat → Nat → Nat
  | 0, first => first
  | k + 1, first =>
    if first < last && IsDirectorySeparator cfg (charAt buf first) then
      skipDoubled cfg buf last k (first + 1)
    else first

/-- First loop of `PathStringnormalize` ("copy initial UNC path"); the state is
the buffer, `first` and `out`; `k` is the remaining distance. -/
def normCopyUNC (cfg : PathConfig) (bcanonicalize : Bool) (last : Nat) :
    Nat → List Nat → Nat → Nat → List Nat × Nat × Nat
  | 0, buf, first, out => (buf, first, out)
  | k + 1, buf, first, out =>
    if first < last && charAt buf first == 92 then
      normCopyUNC cfg bcanonicalize last k
        (buf.set out (if bcanonicalize then cfg.kFilePathSeparator else charAt buf first))
        (first + 1) (out + 1)
    else (buf, first, out)

/-- Inner loop of `PathStringnormalize` ("copy next component"), writing in
place; `k` is the remaining distance.  The drive-separator branch tests
`*out` after the write, as the source does. -/
def normCopyComponent (cfg : PathConfig) (bcanonicalize : Bool) (last : Nat) :
    Nat → List Nat → Nat → Nat → List Nat × Nat × Nat
  | 0, buf, first, out => (buf, first, out)
  | k + 1, buf, first, out =>
    if first < last then
      let c := charAt buf first
      let first1 := first + 1
      if IsDirectorySeparator cfg c then
        let buf1 := buf.set out (if bcanonicalize then cfg.kFilePathSeparator else c)
        (buf1, skipDoubled cfg buf1 last (last - first1) first1, out + 1)
      else if c == cfg.kFilePathDriveSeparator then
        let buf1 := buf.set out c
        if first1 ≥ last || !IsDirectorySeparator cfg (charAt buf1 (out + 1)) then
          (buf1, first1, out + 1)
        else normCopyComponent cfg bcanonicalize last k buf1 first1 (out + 1)
      else normCopyComponent cfg bcanonicalize last k (buf.set out c) first1 (out + 1)
    else (buf, first, out)

/-- Test of the `".."` branch of `PathStringnormalize`: the three characters
at `first` are `"../"`, something was written, and the previous written
component may be stripped. -/
def normStrips (cfg : PathConfig) (last : Nat) (bHasNonLocalPart : Bool)
    (buf : List Nat) (first out : Nat) : Bool :=
  (decide (first + 2 < last) && charAt buf first == 46 && charAt buf (first + 1) == 46
    && IsDirectorySeparator cfg (charAt buf (first + 2)) && decide (out > 0))
  &&
  (let prev := findComponentRvs cfg buf 0 out
   (decide (prev > 0) || !bHasNonLocalPart)
    && !(decide (prev + 2 < last) && charAt buf prev == 46 && charAt buf (prev + 1) == 46
          && IsDirectorySeparator cfg (charAt buf (prev + 2))))

/-- Main loop of `PathStringnormalize`; returns the buffer and `out` at exit,
`none` when the fuel runs out. -/
def normLoop (cfg : PathConfig) (bcanonicalize : Bool) (last : Nat) (bHasNonLocalPart : Bool) :
    Nat → List Nat → Nat → Nat → Option (List Nat × Nat)
  | 0, _, _, _ => none
  | k + 1, buf, first, out =>
    if first < last then
      if first + 1 < last && charAt buf first == 46
          && IsDirectorySeparator cfg (charAt buf (first + 1)) then
        normLoop cfg bcanonicalize last bHasNonLocalPart k buf
          (skipDoubled cfg buf last (last - (first + 2)) (first + 2)) out
      else if normStrips cfg last bHasNonLocalPart buf first out then
        normLoop cfg bcanonicalize last bHasNonLocalPart k buf
          (skipDoubled cfg buf last (last - (first + 3)) (first + 3))
          (findComponentRvs cfg buf 0 out)
      else
        let st := normCopyComponent cfg bcanonicalize last (last - first) buf first out
        normLoop cfg bcanonicalize last bHasNonLocalPart k st.1 st.2.1 st.2.2
    else some (buf, out)

/-- `PathStringnormalize(path, bcanonicalize)`: the buffer is rewritten in
place and cut at `out` (`path.erase(out, last)`). -/
def PathStringnormalize (cfg : PathConfig) (path : List Nat) (bcanonicalize : Bool) :
    Option (List Nat) :=
  let last := path.length
  let bHasNonLocalPart := HasUNCPrefix path 0 last || HasDrivePrefix cfg path 0 last
  let st := normCopyUNC cfg bcanonicalize last last path 0 0
  (normLoop cfg bcanonicalize last bHasNonLocalPart (last + 1) st.1 st.2.1 st.2.2).map
    (fun r => r.1.take r.2)

/-- `simplify(path)`. -/
def simplify (cfg : PathConfig) (path : List Nat) : Option (List Nat) :=
  PathStringnormalize cfg path false

/-- `normalize(path)`. -/
def normalize (cfg : PathConfig) (path : List Nat) : Option (List Nat) :=
  PathStringnormalize cfg path true

/-- `join(dst, suffix)`: append, then normalize. -/
def join (cfg : PathConfig) (dst suffix : List Nat) : Option (List Nat) :=
  normalize cfg (append cfg dst suffix)

/-- Iterator-level `compare(a, a_end, b, b_end)`: the `for(;;)` loop, with
fuel; `none` when the fuel runs out. -/
def compareLoop (cfg : PathConfig) (pa : List Nat) (a_end : Nat) (pb : List Nat) (b_end : Nat) :
    Nat → Nat → Nat → Option Int
  | 0, _, _ => none
  | k + 1, a, b =>
    if a ≥ a_end then
      (if b ≥ b_end then some 0 else some 1)
    else if b ≥ b_end then some (-1)
    else if charAt pa a != charAt pb b then
      if !IsDirectorySeparator cfg (charAt pa a) then some 1
      else if !IsDirectorySeparator cfg (charAt pb b) then some (-1)
      else compareLoop cfg pa a_end pb b_end k (a + 1) (b + 1)
    else compareLoop cfg pa a_end pb b_end k (a + 1) (b + 1)

/-- `compare(a, a_end, b, b_end)` on iterator ranges. -/
def compareRange (cfg : PathConfig) (pa : List Nat) (a a_end : Nat) (pb : List Nat) (b b_end : Nat) :
    Option Int :=
  compareLoop cfg pa a_end pb b_end (a_end - a + 1) a b

/-- Path-level `compare(a, b)`: the component loop, with fuel. -/
def compareWalk (cfg : PathConfig) (a b : List Nat) : Nat → Nat → Nat → Option Int
  | 0, _, _ => none
  | k + 1, a_first, b_first =>
    if a_first < a.length && b_first < b.length then
      let a_last := findComponentFwd cfg a a_first a.length
      let b_last := findComponentRvs cfg b b_first b.length
      match compareRange cfg a a_first a_last b b_first b_last with
      | none => none
      | some result =>
        if result ≠ 0 then some result
        else compareWalk cfg a b k a_last b_last
    else some 0

/-- Path-level `compare(a, b)`. -/
def compare (cfg : PathConfig) (a b : List Nat) : Option Int :=
  compareWalk cfg a b (a.length + 1) 0 0

/-- The component loop shared, line for line, by `IsSubdirectory` and
`ComputeRelative`: walk `a` forward with `findComponentFwd` and `b` with
`findComponentRvs` until a pair of ranges compares unequal; returns the
final `(a_first, b_first)`. -/
def matchWalk (cfg : PathConfig) (a b : List Nat) : Nat → Nat → Nat → Option (Nat × Nat)
  | 0, _, _ => none
  | k + 1, a_first, b_first =>
    if a_first < a.length && b_first < b.length then
      let a_last := findComponentFwd cfg a a_first a.length
      let b_last := findComponentRvs cfg b b_first b.length
      match compareRange cfg a a_first a_last b b_first b_last with
      | none => none
      | some result =>
        if result ≠ 0 then some (a_first, b_first)
        else matchWalk cfg a b k a_last b_last
    else some (a_first, b_first)

/-- `IsSubdirectory(dir, sub)`. -/
def IsSubdirectory (cfg : PathConfig) (dir sub : List Nat) : Option Bool :=
  (matchWalk cfg dir sub (dir.length + 1) 0 0).map (fun st => decide (st.1 ≥ dir.length))

/-- Second loop of `ComputeRelative`: one `"../"` per component remaining in
`source`. -/
def pushDotDots (cfg : PathConfig) (source : List Nat) : Nat → Nat → List Nat → Option (List Nat)
  | 0, _, _ => none
  | k + 1, source_first, result =>
    if source_first < source.length then
      pushDotDots cfg source k (findComponentFwd cfg source source_first source.length)
        (result ++ [46, 46, cfg.kFilePathSeparator])
    else some result

/-- `ComputeRelative(result, source, target)`; the returned string is `result`. -/
def ComputeRelative (cfg : PathConfig) (source target : List Nat) : Option (List Nat) :=
  match matchWalk cfg source target (source.length + 1) 0 0 with
  | none => none
  | some (source_first, target_first) =>
    if source_first == source.length && target_first == target.length then some []
    else if !isRelative cfg target 0 target.length then some target
    else
      match pushDotDots cfg source (source.length + 1) source_first [] with
      | none => none
      | some result => join cfg result (target.drop target_first)

/-- The string `assign(first, last)` builds from an iterator range of `path`;
`none` when the range is not a range of the string (`last < first`, or `last`
past the end). -/
def assignRange (path : List Nat) (first last : Nat) : Option (List Nat) :=
  if first ≤ last ∧ last ≤ path.length then some ((path.drop first).take (last - first)) else none

/-- `split(path, pDrive, pDirectory, pFileName, pFileExtension)`: the four strings. -/
def split (cfg : PathConfig) (path : List Nat) :
    Option (List Nat × List Nat × List Nat × List Nat) :=
  let psDirectory := getLocalRoot cfg path 0 path.length
  let psFileName := getFileName cfg path 0 path.length
  let psFileExtension := getFileExtension cfg path 0 path.length
  match assignRange path 0 psDirectory, assignRange path psDirectory psFileName,
        assignRange path psFileName psFileExtension, assignRange path psFileExtension path.length with
  | some drive, some directory, some fileName, some ext => some (drive, directory, fileName, ext)
  | _, _, _, _ => none

/-- The values of `enum FileSystem` named in `EAFileUtil.cpp`; `other` stands
for any enumerator the switch does not list. -/
inductive FileSystem where
  | kFileSystemNone | kFileSystemUnix | kFileSystemISO9660 | kFileSystemJoliet | kFileSystemUDF
  | kFileSystemWindows | kFileSystemFAT | kFileSystemFATX | kFileSystemFAT32 | kFileSystemNTFS
  | kFileSystemUDFX
  | other (n : Nat)
deriving DecidableEq, Repr

open FileSystem

/-- `isFileNameCharValid(c, fileSystemType)`. -/
def isFileNameCharValid (c : Nat) (fileSystemType : FileSystem) : Bool :=
  match fileSystemType with
  | kFileSystemUnix | kFileSystemISO9660 | kFileSystemJoliet | kFileSystemUDF | kFileSystemNone =>
    c != 47
  | _ =>
    c != 60 && c != 62 && c != 58 && c != 92 && c != 47 && c != 34 && c != 124 && c != 42 && c != 63

/-- Table `pReservedNamesWin32`. -/
def pReservedNamesWin32 : List (List Nat) :=
  [str "con", str "prn", str "aux", str "clock$", str "nul",
   str "com1", str "com2", str "com3", str "com4", str "com5",
   str "com6", str "com7", str "com8", str "com9", str "lpt1",
   str "lpt2", str "lpt3", str "lpt4", str "lpt5", str "lpt6",
   str "lpt7", str "lpt8", str "lpt9"]

/-- Modelled from the spec: the string class is not under src/; `makeLower`
lower-cases the ASCII letters `A`..`Z` and leaves every other code unit. -/
def makeLower (x : List Nat) : List Nat :=
  x.map (fun c => if 65 ≤ c ∧ c ≤ 90 then c + 32 else c)

/-- Modelled from the spec: the string class is not under src/;
`find('.')` followed by `erase(pos)` when found: the text before the first `'.'`. -/
def eraseFromDot (x : List Nat) : List Nat :=
  x.takeWhile (fun c => c != 46)

/-- Modelled from the spec: the string class is not under src/; `rtrim`
removes trailing blanks (space and tab). -/
def rtrim (x : List Nat) : List Nat :=
  (x.reverse.dropWhile (fun c => c == 32 || c == 9)).reverse

/-- Modelled from the spec: the string class is not under src/;
`findFirstNotOf(". ") == npos`: every code unit is `'.'` or `' '`. -/
def onlyDotsAndSpaces (x : List Nat) : Bool :=
  x.all (fun c => c == 46 || c == 32)

/-- The file systems that get the reserved-word test. -/
def reservedWordFileSystem (fileSystemType : FileSystem) : Bool :=
  fileSystemType == kFileSystemWindows || fileSystemType == kFileSystemFAT
    || fileSystemType == kFileSystemFAT32 || fileSystemType == kFileSystemNTFS

/-- `isFileNameStringValid(pName, fileSystemType)`; `pName` is a C string, so
`sName` is its text up to the first nul.  `kMaxFileNameLength` (of
`EAFileBase.h`) is a parameter. -/
def isFileNameStringValid (kMaxFileNameLength : Nat) (pName : List Nat)
    (fileSystemType : FileSystem) : Bool :=
  let sName := pName.takeWhile (fun c => c != 0)
  if sName.length < kMaxFileNameLength then
    if !sName.all (fun c => isFileNameCharValid c fileSystemType) then false
    else if reservedWordFileSystem fileSystemType
        && pReservedNamesWin32.contains (rtrim (eraseFromDot (makeLower sName))) then false
    else if onlyDotsAndSpaces sName then false
    else true
  else false

/-- The Unix-family file systems of `isFileNameCharValid`: the first group of
`case` labels. -/
def unixFamily (fs : FileSystem) : Bool :=
  fs == kFileSystemUnix || fs == kFileSystemISO9660 || fs == kFileSystemJoliet
    || fs == kFileSystemUDF || fs == kFileSystemNone

/-- The C-string text of `pName`: the code units before the first nul. -/
def cText (pName : List Nat) : List Nat := pName.takeWhile (fun c => c != 0)

/-- The reserved-word key in the words of the specification: the lower-cased
name, cut at its first `'.'`, with trailing spaces trimmed. -/
def reservedKey (name : List Nat) : List Nat :=
  ((eraseFromDot (makeLower name)).reverse.dropWhile (fun c => c == 32)).reverse

/-- The words of the specification: "`dst` with a trailing separator ensured"
(the primary separator is added unless the last character is a separator;
an empty string has no last character). -/
def withTrailingSeparator (cfg : PathConfig) (dst : List Nat) : List Nat :=
  match dst.getLast? with
  | some c => if IsDirectorySeparator cfg c then dst else dst ++ [cfg.kFilePathSeparator]
  | none => dst ++ [cfg.kFilePathSeparator]

/-- The three-case reference of the specification for `append(dst, suffix)`. -/
def appendSpec (cfg : PathConfig) (dst suffix : List Nat) : List Nat :=
  if suffix = [] then dst
  else if isRelative cfg suffix 0 suffix.length = false then suffix
  else withTrailingSeparator cfg dst ++ suffix

/-- The reference for `append(dst, suffix)` with the case of an empty `dst`
set apart: nothing is put in front of a relative suffix then. -/
def appendAmended (cfg : PathConfig) (dst suffix : List Nat) : List Nat :=
  if suffix = [] then dst
  else if isRelative cfg suffix 0 suffix.length = false then suffix
  else if dst = [] then suffix
  else withTrailingSeparator cfg dst ++ suffix

/-- Modelled from the spec: `isFilePathSeparator` (of `EAFileBase.h`, not under
src/) tells whether a character is one of the two path separators. -/
def isFilePathSeparator (cfg : PathConfig) (c : Nat) : Bool :=
  c == cfg.kFilePathSeparator || c == cfg.kFilePathSeparatorAlt

/-- The value `npos` of an `eastl_size_t` of `W` bits. -/
def npos (W : Nat) : Nat := 2 ^ W - 1

/-- Addition of `eastl_size_t` values of `W` bits. -/
def addW (W a b : Nat) : Nat := (a + b) % 2 ^ W

/-- Subtraction of `eastl_size_t` values of `W` bits. -/
def subW (W a b : Nat) : Nat := (a + 2 ^ W - b % 2 ^ W) % 2 ^ W

/-- Search loop of `find(c, position)`; `k` is the remaining distance. -/
def findCharLoop (W : Nat) (x : List Nat) (c : Nat) : Nat → Nat → Nat
  | 0, _ => npos W
  | k + 1, i =>
    if i < x.length then
      if charAt x i == c then i else findCharLoop W x c k (i + 1)
    else npos W

/-- Modelled from the spec: the string class is not under src/;
`find(c, position)` is the index of the first `c` at or after `position`,
`npos` when there is none. -/
def findChar (W : Nat) (x : List Nat) (c : Nat) (position : Nat) : Nat :=
  findCharLoop W x c (x.length - position) position

/-- Modelled from the spec: the string class is not under src/; the
constructor `basic_string(x, position, n)` copies at most `n` code units of
`x` from `position` on. -/
def substr (x : List Nat) (position n : Nat) : List Nat :=
  (x.drop position).take n

/-- The array `pReservedCharactersWin32`, `<>:"|*?`. -/
def pReservedCharactersWin32 : List Nat := [60, 62, 58, 34, 124, 42, 63]

/-- Modelled from the spec: the string class is not under src/;
`findFirstOf(set) != npos`: some code unit of `x` is in `set`. -/
def hasAnyOf (x set : List Nat) : Bool :=
  x.any (fun c => set.contains c)

/-- `GetNextPathComponent(sInputPath, sCurrentComponent, nCurrentPosition)`:
`none` for the return value false, otherwise the component and the new
position. -/
def GetNextPathComponent (cfg : PathConfig) (sInputPath : List Nat) (nCurrentPosition : Nat) :
    Option (List Nat × Nat) :=
  if nCurrentPosition < sInputPath.length then
    let rest := sInputPath.drop nCurrentPosition
    let comp := rest.takeWhile (fun c => !isFilePathSeparator cfg c)
    if comp.length < rest.length then some (comp, nCurrentPosition + comp.length + 1)
    else some (comp, nCurrentPosition + comp.length)
  else none

/-- The body of the component loop of `isFilePathStringValid`: the tests made
on one component (length, reserved words, dots and spaces, control
characters, reserved characters). -/
def pathComponentValid (kMaxFileNameLength : Nat) (sCurrentComponent : List Nat) : Bool :=
  if sCurrentComponent.isEmpty || decide (sCurrentComponent.length > kMaxFileNameLength) then false
  else if pReservedNamesWin32.contains (eraseFromDot (makeLower sCurrentComponent)) then false
  else if onlyDotsAndSpaces sCurrentComponent then false
  else if sCurrentComponent.any (fun c => decide (c ≤ 31)) then false
  else if hasAnyOf sCurrentComponent pReservedCharactersWin32 then false
  else true

/-- The component loop of `isFilePathStringValid`, with fuel: `some true` when
every component from `nPosition` on passes, `some false` at the first that
does not, `none` when the fuel runs out. -/
def pathComponentsLoop (cfg : PathConfig) (kMaxFileNameLength : Nat) (sPath : List Nat) :
    Nat → Nat → Option Bool
  | 0, _ => none
  | k + 1, nPosition =>
    match GetNextPathComponent cfg sPath nPosition with
    | none => some true
    | some (comp, next) =>
      if pathComponentValid kMaxFileNameLength comp then
        pathComponentsLoop cfg kMaxFileNameLength sPath k next
      else some false

/-- The UNC branch of `isFilePathStringValid`: the position at which the
components start, `none` when the prefix is rejected. -/
def uncPrefixPosition (W : Nat) (sPath : List Nat) : Option Nat :=
  let nPosition2 := 1
  let nPosition3 := findChar W sPath 92 2
  let nPosition4 := findChar W sPath 92 (addW W nPosition3 1)
  if nPosition3 > nPosition2 + 1 && nPosition4 > addW W nPosition3 1 then
    let sServer := substr sPath (nPosition2 + 1) (subW W nPosition3 nPosition2)
    let sVolume := substr sPath (addW W nPosition3 1) (subW W nPosition4 nPosition3)
    if hasAnyOf sServer pReservedCharactersWin32 then none
    else if hasAnyOf sVolume pReservedCharactersWin32 then none
    else if pReservedNamesWin32.contains (eraseFromDot (makeLower sServer))
        || pReservedNamesWin32.contains (eraseFromDot (makeLower sVolume)) then none
    else some (addW W nPosition4 1)
  else none

/-- The drive branch of `isFilePathStringValid`: a letter, `':'`, `'\\'`. -/
def drivePrefixPosition (sPath : List Nat) : Option Nat :=
  if sPath.length ≥ 3
      && ((charAt sPath 0 ≥ 97 && charAt sPath 0 ≤ 122) || (charAt sPath 0 ≥ 65 && charAt sPath 0 ≤ 90))
      && charAt sPath 1 == 58 && charAt sPath 2 == 92 then some 3
  else none

/-- `isFilePathStringValid(pPath, fileSystemType)`; `pPath` is a C string.
`kMaxPathLength` and `kMaxFileNameLength` (of `EAFileBase.h`) and the width
`W` of `eastl_size_t` are parameters.  The call of `split`, whose results
the function never reads, is left out. -/
def isFilePathStringValid (cfg : PathConfig) (W kMaxPathLength kMaxFileNameLength : Nat)
    (pPath : List Nat) (fileSystemType : FileSystem) : Option Bool :=
  let sPath := pPath.takeWhile (fun c => c != 0)
  if sPath.length < 1 then some false
  else if sPath.length > kMaxPathLength then some false
  else if reservedWordFileSystem fileSystemType then
    let start := if [92, 92].isPrefixOf sPath then uncPrefixPosition W sPath
                 else drivePrefixPosition sPath
    match start with
    | none => some false
    | some nPosition =>
      pathComponentsLoop cfg kMaxFileNameLength sPath (sPath.length + 1) nPosition
  else some true

/-- A character that is neither a directory separator nor the drive separator:
the characters a file name is made of. -/
def isNameChar (cfg : PathConfig) (c : Nat) : Bool :=
  !IsDirectorySeparator cfg c && c != cfg.kFilePathDriveSeparator

/-- `SwizzleUint16(x)`; `x` is a 16-bit value, promoted to `int` in the
expression and cut back by the cast to `uint16_t`. -/
def SwizzleUint16 (x : Nat) : Nat :=
  ((x >>> 8) ||| (x <<< 8)) % 2 ^ 16

/-- `SwizzleUint32(x)`; the shifts are shifts of a `uint32_t`. -/
def SwizzleUint32 (x : Nat) : Nat :=
  ((x >>> 24)
    ||| (((x <<< 24) % 2 ^ 32) &&& 0xff000000)
    ||| (((x <<< 8) % 2 ^ 32) &&& 0x00ff0000)
    ||| ((x >>> 8) &&& 0x0000ff00)) % 2 ^ 32

/-- `SwizzleUint64(x)`; the shifts are shifts of a `uint64_t`. -/
def SwizzleUint64 (x : Nat) : Nat :=
  ((((x &&& 0x000000ff) <<< 56) % 2 ^ 64)
    ||| ((x >>> 56) &&& 0x000000ff)
    ||| (((x &&& 0x0000ff00) <<< 40) % 2 ^ 64)
    ||| ((x >>> 40) &&& 0x0000ff00)
    ||| (((x &&& 0x00ff0000) <<< 24) % 2 ^ 64)
    ||| ((x >>> 24) &&& 0x00ff0000)
    ||| (((x &&& 0xff000000) <<< 8) % 2 ^ 64)
    ||| ((x >>> 8) &&& 0xff000000)) % 2 ^ 64

/-- Byte `i` of `x` (byte 0 is the least significant). -/
def byteAt (x i : Nat) : Nat := (x >>> (8 * i)) % 256

/-- Index of the bit that lands on bit `i` when the `w` bytes are reversed. -/
def revBit (w i : Nat) : Nat := 8 * (w - 1 - i / 8) + i % 8

/-- The two byte orders of `enum Endian`; `kEndianLocal`, which the header
defines as one of the two, is a parameter of the adapter functions. -/
inductive Endian where
  | kEndianBig | kEndianLittle
deriving DecidableEq, Repr

open Endian

/-- Modelled from the spec: the stream classes' `read`, `write` and
`setPosition` are not under src/ (only their declarations are).  A
memory-like stream is its bytes and a cursor. -/
structure MemoryStream where
  data : List Nat
  pos : Nat
deriving DecidableEq, Repr

/-- Modelled from the spec: `read(buf, n)` hands out the bytes at the cursor,
fewer than `n` at the end of the stream, and advances the cursor by the
number of bytes read. -/
def MemoryStream.read (s : MemoryStream) (n : Nat) : List Nat × MemoryStream :=
  ((s.data.drop s.pos).take n, { s with pos := s.pos + ((s.data.drop s.pos).take n).length })

/-- Modelled from the spec: `write(buf, n)` stores the bytes at the cursor,
over the bytes that are there and growing the stream at its end, and
advances the cursor; it fails when the cursor is past the end. -/
def MemoryStream.write (s : MemoryStream) (bytes : List Nat) : Bool × MemoryStream :=
  if s.pos ≤ s.data.length then
    (true, { data := s.data.take s.pos ++ bytes ++ s.data.drop (s.pos + bytes.length),
             pos := s.pos + bytes.length })
  else (false, s)

/-- Modelled from the spec: `setPosition(position, kPositionTypeBegin)` moves
the cursor to a position within the stream and fails otherwise. -/
def MemoryStream.setPosition (s : MemoryStream) (position : Nat) : Bool × MemoryStream :=
  if position ≤ s.data.length then (true, { s with pos := position }) else (false, s)

/-- Modelled from the spec: `getPosition(kPositionTypeBegin)`. -/
def MemoryStream.getPosition (s : MemoryStream) : Nat := s.pos

/-- The `w` bytes of the scalar `x` as they lie in memory on a platform
whose byte order is `order`: least significant byte first for
`kEndianLittle`, most significant first for `kEndianBig`. -/
def toBytes (order : Endian) (w x : Nat) : List Nat :=
  if order = kEndianLittle then (List.range w).map (byteAt x)
  else ((List.range w).map (byteAt x)).reverse

/-- The scalar whose bytes in memory, on a platform of byte order `order`,
are `bytes`. -/
def fromBytes (order : Endian) (bytes : List Nat) : Nat :=
  (if order = kEndianLittle then bytes else bytes.reverse).foldr (fun b acc => b + 256 * acc) 0

/-- `writeUint16(pOS, value, endianDestination)`. -/
def writeUint16 (kEndianLocal : Endian) (pOS : MemoryStream) (value : Nat)
    (endianDestination : Endian) : Bool × MemoryStream :=
  pOS.write (toBytes kEndianLocal 2
    (if endianDestination ≠ kEndianLocal then SwizzleUint16 value else value))

/-- `writeUint32(pOS, value, endianDestination)`. -/
def writeUint32 (kEndianLocal : Endian) (pOS : MemoryStream) (value : Nat)
    (endianDestination : Endian) : Bool × MemoryStream :=
  pOS.write (toBytes kEndianLocal 4
    (if endianDestination ≠ kEndianLocal then SwizzleUint32 value else value))

/-- `writeUint64(pOS, value, endianDestination)`. -/
def writeUint64 (kEndianLocal : Endian) (pOS : MemoryStream) (value : Nat)
    (endianDestination : Endian) : Bool × MemoryStream :=
  pOS.write (toBytes kEndianLocal 8
    (if endianDestination ≠ kEndianLocal then SwizzleUint64 value else value))

/-- `readUint16(pIS, value, endianSource)`: the value read, `none` for the
return value false. -/
def readUint16 (kEndianLocal : Endian) (pIS : MemoryStream) (endianSource : Endian) :
    Option Nat × MemoryStream :=
  if (pIS.read 2).1.length = 2 then
    (some (if endianSource ≠ kEndianLocal then SwizzleUint16 (fromBytes kEndianLocal (pIS.read 2).1)
           else fromBytes kEndianLocal (pIS.read 2).1), (pIS.read 2).2)
  else (none, (pIS.read 2).2)

/-- `readUint32(pIS, value, endianSource)`: the value read, `none` for the
return value false. -/
def readUint32 (kEndianLocal : Endian) (pIS : MemoryStream) (endianSource : Endian) :
    Option Nat × MemoryStream :=
  if (pIS.read 4).1.length = 4 then
    (some (if endianSource ≠ kEndianLocal then SwizzleUint32 (fromBytes kEndianLocal (pIS.read 4).1)
           else fromBytes kEndianLocal (pIS.read 4).1), (pIS.read 4).2)
  else (none, (pIS.read 4).2)

/-- `readUint64(pIS, value, endianSource)`: the value read, `none` for the
return value false. -/
def readUint64 (kEndianLocal : Endian) (pIS : MemoryStream) (endianSource : Endian) :
    Option Nat × MemoryStream :=
  if (pIS.read 8).1.length = 8 then
    (some (if endianSource ≠ kEndianLocal then SwizzleUint64 (fromBytes kEndianLocal (pIS.read 8).1)
           else fromBytes kEndianLocal (pIS.read 8).1), (pIS.read 8).2)
  else (none, (pIS.read 8).2)

/-- The private `strlen` loop of `writeString` (`while(*pCurrent++) ++nCount`):
the number of code units before the first nul. -/
def strlenLoop (pBuffer : List Nat) : Nat :=
  (pBuffer.takeWhile (fun c => c != 0)).length

/-- The 8-bit `writeString(pOS, pBuffer, nCount, endianSource)`; `kLengthNull`
(of the absent `Stream.h`) is a parameter. -/
def writeString (kEndianLocal : Endian) (kLengthNull : Nat) (pOS : MemoryStream)
    (pBuffer : List Nat) (nCount : Nat) (endianSource : Endian) : Bool × MemoryStream :=
  let nCount1 := if nCount = kLengthNull then strlenLoop pBuffer else nCount
  let r := writeUint32 kEndianLocal pOS (nCount1 % 2 ^ 32) endianSource
  if r.1 && decide (nCount1 ≠ 0) then r.2.write (pBuffer.take nCount1) else r

/-- What the 8-bit `readString` leaves behind: the return value (`none` for
`kSizeTypeError`), the code units stored into `pBuffer` (the terminator
included; empty when nothing is stored) and the stream. -/
structure ReadStringResult where
  result : Option Nat
  stored : List Nat
  stream : MemoryStream
deriving DecidableEq, Repr

/-- The character loop of the 8-bit `readString`; the fuel is
`nreadLength - nCount`, the number of characters still to read. -/
def readStringChars : Nat → MemoryStream → List Nat → List Nat × MemoryStream
  | 0, s, acc => (acc, s)
  | k + 1, s, acc =>
    if (s.read 1).1.length = 1 then readStringChars k (s.read 1).2 (acc ++ (s.read 1).1)
    else (acc, (s.read 1).2)

/-- The 8-bit `readString(pIS, pBuffer, nMaxCount, endianSource)`; `pBuffer`
says whether a destination buffer is given (false for NULL); `W` is the
width of `size_type`, which decides what `nMaxCount - 1` is for
`nMaxCount = 0`. -/
def readString (kEndianLocal : Endian) (W : Nat) (pIS : MemoryStream) (pBuffer : Bool)
    (nMaxCount : Nat) (endianSource : Endian) : ReadStringResult :=
  let ninitialPosition := pIS.getPosition
  let r := readUint32 kEndianLocal pIS endianSource
  match r.1 with
  | none => ⟨none, [], r.2⟩
  | some nLength =>
    if !pBuffer then ⟨some nLength, [], (r.2.setPosition ninitialPosition).2⟩
    else
      let nreadLength := if nLength < subW W nMaxCount 1 then nLength else subW W nMaxCount 1
      let c := readStringChars nreadLength r.2 []
      ⟨some nLength, c.1 ++ [0], (c.2.setPosition (ninitialPosition + 4 + nLength)).2⟩

/-- Every directory separator among the first `out` characters of `buf` is the
canonical one. -/
def SepCanon (cfg : PathConfig) (buf : List Nat) (out : Nat) : Prop :=
  ∀ i, i < out → IsDirectorySeparator cfg (charAt buf i) = true →
    charAt buf i = cfg.kFilePathSeparator

/-- Among the first `out` characters of `buf`, two adjacent directory separators
occur only inside the run of separators at the very start. -/
def SepLead (cfg : PathConfig) (buf : List Nat) (out : Nat) : Prop :=
  ∀ i, i + 1 < out → IsDirectorySeparator cfg (charAt buf i) = true →
    IsDirectorySeparator cfg (charAt buf (i + 1)) = true →
    ∀ j, j ≤ i → IsDirectorySeparator cfg (charAt buf j) = true

/-- The invariant of the loops of `PathStringnormalize` (with `bcanonicalize`):
the cursors are ordered, what has been written is canonical, and when the
next character to read is a separator the text written so far does not end
in a separator unless it consists of separators only. -/
def NormInv (cfg : PathConfig) (last : Nat) (buf : List Nat) (first out : Nat) : Prop :=
  buf.length = last ∧ out ≤ first ∧ first ≤ last ∧ SepCanon cfg buf out ∧ SepLead cfg buf out ∧
  (first < last → IsDirectorySeparator cfg (charAt buf first) = true →
    out = 0 ∨ IsDirectorySeparator cfg (charAt buf (out - 1)) = false ∨
    ∀ j, j < out → IsDirectorySeparator cfg (charAt buf j) = true)

/-- The text of `".."` components, one per element of `seps`, each followed by
that element as its separator. -/
def dotDots (seps : List Nat) : List Nat :=
  seps.flatMap (fun c => [46, 46, c])

/-- The first `m` characters of `buf` are `".."` components, each followed by a
directory separator. -/
def DotsIn (cfg : PathConfig) (m : Nat) (buf : List Nat) : Prop :=
  ∀ i, i < m → (i % 3 ≠ 2 → charAt buf i = 46) ∧
    (i % 3 = 2 → IsDirectorySeparator cfg (charAt buf i) = true)

/-- The first `m` characters of `buf` are `".."` components, each followed by the
canonical separator. -/
def DotsOut (cfg : PathConfig) (m : Nat) (buf : List Nat) : Prop :=
  ∀ i, i < m → charAt buf i = if i % 3 = 2 then cfg.kFilePathSeparator else 46

/-- Modelled from the spec: `setPosition(offset, kPositionTypeCurrent)` moves
the cursor relative to where it is and fails when the target lies outside the
stream. -/
def MemoryStream.setPositionCurrent (s : MemoryStream) (offset : Int) : Bool × MemoryStream :=
  if 0 ≤ (s.pos : Int) + offset ∧ (s.pos : Int) + offset ≤ (s.data.length : Int) then
    (true, { s with pos := ((s.pos : Int) + offset).toNat })
  else (false, s)

/-- What the 8-bit `readLine` leaves behind: the return value `nCount`, the
code units stored into `pLine` (the terminator included; empty when `pLine` is
NULL) and the stream. -/
structure ReadLineResult where
  result : Nat
  stored : List Nat
  stream : MemoryStream
deriving DecidableEq, Repr

/-- The `for(;;)` loop of the 8-bit `readLine`: the state is the stream,
`nCount`, `nread` and the characters stored so far; `kSizeTypeDone` (of the
absent `Stream.h`) is a parameter and `W` is the width of `size_type`.  The
result is `nCount` at the `break`, the stored characters and the stream;
`none` when the fuel runs out. -/
def readLineLoop (W kSizeTypeDone : Nat) (pLine : Bool) (nMaxCount : Nat) :
    Nat → MemoryStream → Nat → Nat → List Nat → Option (Nat × List Nat × MemoryStream)
  | 0, _, _, _, _ => none
  | k + 1, pIS, nCount, nread, acc =>
    let r := pIS.read 1
    if r.1.length = 1 then
      let cCurrent := r.1.headD 0
      if cCurrent = 13 ∨ cCurrent = 10 then
        let r2 := if cCurrent = 13 then r.2.read 1 else r
        let nResult := r2.1.length
        let cNext := r2.1.headD cCurrent
        if nResult = 1 ∧ cNext ≠ 10 then some (nCount, acc, (r2.2.setPositionCurrent (-1)).2)
        else some (nCount, acc, r2.2)
      else
        readLineLoop W kSizeTypeDone pLine nMaxCount k r.2 (nCount + 1) (nread + 1)
          (if pLine && decide (nCount < subW W nMaxCount 1) then acc ++ [cCurrent] else acc)
    else some (if nread = 0 then kSizeTypeDone else nCount, acc, r.2)

/-- The 8-bit `readLine(pIS, pLine, nMaxCount)`; `pLine` says whether a
destination buffer is given (false for NULL).  The loop reads one character
per round, so the number of characters left in the stream, plus one round for
the failing read, bounds its rounds. -/
def readLine (W kSizeTypeDone : Nat) (pIS : MemoryStream) (pLine : Bool) (nMaxCount : Nat) :
    Option ReadLineResult :=
  let ninitialPosition := if !pLine then pIS.getPosition else 0
  (readLineLoop W kSizeTypeDone pLine nMaxCount (pIS.data.length - pIS.pos + 1) pIS 0 0 []).map
    (fun r =>
      if pLine then ⟨r.1, r.2.1 ++ [0], r.2.2⟩
      else ⟨r.1, [], (r.2.2.setPosition ninitialPosition).2⟩)

/-- Modelled from the spec: the operations of the abstract class `IStream`
(of `Stream.h`, which is not under src/) that the adapters and the composing
streams call, over a type `σ` of stream states; the interface is a parameter
of everything built on it.  `read(pData, n)` gives the bytes stored into the
caller's buffer, `none` for the return value `kSizeTypeError`; sizes are
`size_type` values and positions are `off_type` values relative to
`kPositionTypeBegin`. -/
structure IStream (σ : Type) where
  getAccessFlags : σ → Nat
  close : σ → Bool × σ
  getSize : σ → Nat
  setSize : σ → Nat → Bool × σ
  getPosition : σ → Int
  setPosition : σ → Int → Bool × σ
  read : σ → Nat → Option (List Nat) × σ
  write : σ → List Nat → Bool × σ

/-- Modelled from the spec: the memory stream as an `IStream`.  `getSize` and
`getAccessFlags` are the inline functions of `StreamMemory.h` (`mnSize`,
`kAccessFlagReadWrite`); a read never reports an error, a negative position is
refused, and `setSize` cuts the data or pads it with zero bytes. -/
def memoryIStream (kAccessFlagReadWrite : Nat) : IStream MemoryStream where
  getAccessFlags := fun _ => kAccessFlagReadWrite
  close := fun s => (true, s)
  getSize := fun s => s.data.length
  setSize := fun s n => (true, { s with data := s.data.take n ++ List.replicate (n - s.data.length) 0 })
  getPosition := fun s => (s.pos : Int)
  setPosition := fun s p => if 0 ≤ p then s.setPosition p.toNat else (false, s)
  read := fun s n => (some (s.read n).1, (s.read n).2)
  write := fun s bytes => s.write bytes

/-- A stream that also remembers whether one of its `read` or `write` calls has
failed: the state of `io` paired with that flag.  Every operation is the one of
`io`. -/
def flagged {σ : Type} (io : IStream σ) : IStream (σ × Bool) where
  getAccessFlags := fun s => io.getAccessFlags s.1
  close := fun s => ((io.close s.1).1, ((io.close s.1).2, s.2))
  getSize := fun s => io.getSize s.1
  setSize := fun s n => ((io.setSize s.1 n).1, ((io.setSize s.1 n).2, s.2))
  getPosition := fun s => io.getPosition s.1
  setPosition := fun s p => ((io.setPosition s.1 p).1, ((io.setPosition s.1 p).2, s.2))
  read := fun s n => ((io.read s.1 n).1, ((io.read s.1 n).2, s.2 || (io.read s.1 n).1.isNone))
  write := fun s b => ((io.write s.1 b).1, ((io.write s.1 b).2, s.2 || !(io.write s.1 b).1))

/-- The `for` loop of `CopyStream` (`sizeof(buffer)` is 2048): the state is the
two streams and `nRemaining`.  The result is `nRemaining` at the exit of the
loop, `none` for the early `return kSizeTypeError`, with the two streams; the
outer `none` means the fuel ran out. -/
def copyLoop {σ τ : Type} (src : IStream σ) (dst : IStream τ) (W : Nat) :
    Nat → σ → τ → Nat → Option (Option Nat × σ × τ)
  | 0, _, _, _ => none
  | k + 1, pSource, pDestination, nRemaining =>
    if nRemaining ≠ 0 then
      let nCurrentCount := if nRemaining ≥ 2048 then 2048 else nRemaining
      let r := src.read pSource nCurrentCount
      match r.1 with
      | none => some (none, r.2, pDestination)
      | some bytes =>
        let w := dst.write pDestination bytes
        if !w.1 then some (none, r.2, w.2)
        else if bytes.length = 0 then some (some nRemaining, r.2, w.2)
        else copyLoop src dst W k r.2 w.2 (subW W nRemaining bytes.length)
    else some (some nRemaining, pSource, pDestination)

/-- `CopyStream(pSource, pDestination, nSize)`: the return value (`none` for
`kSizeTypeError`) and the two streams.  `kSizeTypeError` and `kLengthNull` (of
the absent `Stream.h`) are parameters.  Every round but the last copies at
least one byte, so `nSize + 1` rounds are given. -/
def CopyStream {σ τ : Type} (src : IStream σ) (dst : IStream τ) (W kSizeTypeError kLengthNull : Nat)
    (pSource : σ) (pDestination : τ) (nSize : Nat) : Option (Option Nat × σ × τ) :=
  let nSourceSize := src.getSize pSource
  let nSize1 := if nSourceSize = kSizeTypeError then kLengthNull
    else if nSize > nSourceSize then nSourceSize else nSize
  (copyLoop src dst W (nSize1 + 1) pSource pDestination nSize1).map
    (fun r => (r.1.map (fun nRemaining => subW W nSize1 nRemaining), r.2.1, r.2.2))

/-- Modelled from the spec: `enum PositionType` of `Stream.h`, which is not
under src/. -/
inductive PositionType where
  | kPositionTypeBegin | kPositionTypeCurrent | kPositionTypeEnd
deriving DecidableEq, Repr

open PositionType

/-- The conversion `(size_type)x` of an `off_type` value, both of `W` bits. -/
def toSizeType (W : Nat) (x : Int) : Nat := (x % (2 : Int) ^ W).toNat

/-- The conversion `(off_type)n` of a `size_type` value, both of `W` bits: the
two's complement reading of `n`. -/
def toOffType (W : Nat) (n : Nat) : Int :=
  if n % 2 ^ W < 2 ^ (W - 1) then ((n % 2 ^ W : Nat) : Int)
  else ((n % 2 ^ W : Nat) : Int) - (2 : Int) ^ W

/-- `StreamBufferLocal::kSizeTypeUnset`, `(size_type)-1`. -/
def kSizeTypeUnset (W : Nat) : Nat := 2 ^ W - 1

/-- `StreamBuffer::kBufferSizeUseDefault`, `(size_type)-1`. -/
def kBufferSizeUseDefault (W : Nat) : Nat := 2 ^ W - 1

/-- `StreamBuffer::kBufferSizeUnspecified`, `(size_type)-2`. -/
def kBufferSizeUnspecified (W : Nat) : Nat := 2 ^ W - 2

/-- `StreamBuffer::kBufferSizereadDefault`. -/
def kBufferSizereadDefault : Nat := 2000

/-- `StreamBuffer::kBufferSizeWriteDefault`. -/
def kBufferSizeWriteDefault : Nat := 2000

/-- `StreamBufferLocal::kBufferSizeMin`. -/
def kBufferSizeMin : Nat := 4

/-- `StreamBufferLocal::kBufferSizeMax`. -/
def kBufferSizeMax : Nat := 16000000

/-- The data members of `class StreamBuffer` over an underlying stream with
states in `σ` (the reference count and the allocator pointer are left out).
`mpStream` holds the state of the stream pointed to, `none` for NULL; a buffer
pointer holds the bytes stored in the buffer so far, `none` for NULL.  The
counters and positions are natural numbers: they stay below the sizes of the
streams, and no wrap-around of `size_type` is modelled for them. -/
structure StreamBuffer (σ : Type) where
  mpStream : Option σ
  mbEnableSizeCache : Bool
  mnStreamSize : Nat
  mnPositionExternal : Nat
  mnPositionInternal : Nat
  mpreadBuffer : Option (List Nat)
  mnreadBufferSize : Nat
  mnreadBufferstartPosition : Nat
  mnreadBufferUsed : Nat
  mpWriteBuffer : Option (List Nat)
  mnWriteBufferSize : Nat
  mnWriteBufferstartPosition : Nat
  mnWriteBufferUsed : Nat

/-- `StreamBuffer::clearReadBuffer`. -/
def StreamBuffer.clearReadBuffer {σ : Type} (b : StreamBuffer σ) : StreamBuffer σ :=
  { b with mnreadBufferstartPosition := 0, mnreadBufferUsed := 0 }

/-- `StreamBuffer::clearWriteBuffer`. -/
def StreamBuffer.clearWriteBuffer {σ : Type} (b : StreamBuffer σ) : StreamBuffer σ :=
  { b with mnWriteBufferstartPosition := 0, mnWriteBufferUsed := 0 }

/-- `StreamBuffer::flushWriteBuffer`.  It is entered with bytes in the write
buffer only when a stream is attached; without one nothing is done. -/
def StreamBuffer.flushWriteBuffer {σ : Type} (io : IStream σ) (W : Nat) (b : StreamBuffer σ) :
    Bool × StreamBuffer σ :=
  if b.mnWriteBufferUsed ≠ 0 then
    match b.mpStream with
    | none => (false, b)
    | some st =>
      let w := io.write st ((b.mpWriteBuffer.getD []).take b.mnWriteBufferUsed)
      if w.1 then
        (true, { b with mpStream := some w.2,
                        mnPositionInternal := b.mnPositionInternal + b.mnWriteBufferUsed,
                        mnWriteBufferstartPosition := b.mnPositionInternal + b.mnWriteBufferUsed,
                        mnWriteBufferUsed := 0 })
      else
        (false, { b with mpStream := some w.2,
                         mnPositionInternal := toSizeType W (io.getPosition w.2),
                         mnWriteBufferstartPosition := toSizeType W (io.getPosition w.2),
                         mnWriteBufferUsed := 0 })
  else (true, b)

/-- `StreamBuffer::flushAndClearBuffers`. -/
def StreamBuffer.flushAndClearBuffers {σ : Type} (io : IStream σ) (W : Nat) (b : StreamBuffer σ) :
    StreamBuffer σ :=
  { ((b.flushWriteBuffer io W).2.clearReadBuffer.clearWriteBuffer) with
      mnPositionExternal := 0, mnPositionInternal := 0 }

/-- `StreamBuffer::reallocBuffer(p, prevSize, n)`: the new block, `none` for
NULL.  The allocator is not under src/: `allocate n` says whether it hands out
a block of `n` bytes (never, when there is no allocator). -/
def reallocBuffer (allocate : Nat → Bool) (p : Option (List Nat)) (prevSize n : Nat) :
    Option (List Nat) :=
  match p with
  | some old =>
    if n ≠ 0 then
      if allocate n then some (old.take (if n > prevSize then prevSize else n)) else none
    else none
  | none => if allocate n then some [] else none

/-- The adjustments that `StreamBuffer::setBufferSizes` makes to a requested
buffer size: the default for `kBufferSizeUseDefault`, an even value
(`n &= ~1`), at least `kBufferSizeMin` unless zero, at most `kBufferSizeMax`. -/
def clampBufferSize (W nDefault n : Nat) : Nat :=
  let n1 := if n = kBufferSizeUseDefault W then nDefault else n
  let n2 := n1 - n1 % 2
  let n3 := if n2 > 0 ∧ n2 < kBufferSizeMin then kBufferSizeMin else n2
  if n3 > kBufferSizeMax then kBufferSizeMax else n3

/-- The first block of `StreamBuffer::setBufferSizes`, past the adjustments of
the size: the read buffer gets the size `n`. -/
def StreamBuffer.setReadBufferSize {σ : Type} (allocate : Nat → Bool) (b : StreamBuffer σ)
    (n : Nat) : StreamBuffer σ :=
  let c := if n < b.mnreadBufferSize then b.clearReadBuffer else b
  match reallocBuffer allocate c.mpreadBuffer c.mnreadBufferSize n with
  | some p => { c with mpreadBuffer := some p, mnreadBufferSize := n }
  | none => c

/-- The second block of `StreamBuffer::setBufferSizes`, past the adjustments of
the size: the write buffer gets the size `n`. -/
def StreamBuffer.setWriteBufferSize {σ : Type} (io : IStream σ) (W : Nat) (allocate : Nat → Bool)
    (b : StreamBuffer σ) (n : Nat) : StreamBuffer σ :=
  let c := if n < b.mnWriteBufferSize then (b.flushWriteBuffer io W).2 else b
  match reallocBuffer allocate c.mpWriteBuffer c.mnWriteBufferSize n with
  | some p => { c with mpWriteBuffer := some p, mnWriteBufferSize := n }
  | none => c

/-- `StreamBuffer::setBufferSizes(nreadBufferSize, nWriteBufferSize)`. -/
def StreamBuffer.setBufferSizes {σ : Type} (io : IStream σ) (W : Nat) (allocate : Nat → Bool)
    (b : StreamBuffer σ) (nreadBufferSize nWriteBufferSize : Nat) : Bool × StreamBuffer σ :=
  let b1 :=
    if nreadBufferSize ≠ kBufferSizeUnspecified W then
      b.setReadBufferSize allocate (clampBufferSize W kBufferSizereadDefault nreadBufferSize)
    else b
  let b2 :=
    if nWriteBufferSize ≠ kBufferSizeUnspecified W then
      b1.setWriteBufferSize io W allocate
        (clampBufferSize W kBufferSizeWriteDefault nWriteBufferSize)
    else b1
  (true, b2)

/-- `StreamBuffer::setStream(pStream)`, `none` for NULL.  A stream that is
passed is taken to be another object than the one attached, so the pointers
differ unless both are NULL; the previous stream is released after the flush
and leaves the model.  Reference counts are not modelled. -/
def StreamBuffer.setStream {σ : Type} (io : IStream σ) (W : Nat) (b : StreamBuffer σ)
    (pStream : Option σ) : Bool × StreamBuffer σ :=
  if pStream.isSome || b.mpStream.isSome then
    let b1 := { b with mnStreamSize := kSizeTypeUnset W }
    let b2 := if b1.mpStream.isSome then b1.flushAndClearBuffers io W else b1
    match pStream with
    | some st =>
      if io.getAccessFlags st ≠ 0 then
        (true, { b2 with mpStream := some st,
                         mnPositionExternal := toSizeType W (io.getPosition st),
                         mnPositionInternal := toSizeType W (io.getPosition st) })
      else (false, { b2 with mpStream := some st })
    | none => (true, { b2 with mpStream := none })
  else (true, b)

/-- The constructor `StreamBuffer(nreadBufferSize, nWriteBufferSize, pStream,
pAllocator)`. -/
def StreamBuffer.construct {σ : Type} (io : IStream σ) (W : Nat) (allocate : Nat → Bool)
    (nreadBufferSize nWriteBufferSize : Nat) (pStream : Option σ) : StreamBuffer σ :=
  let b0 : StreamBuffer σ :=
    { mpStream := none, mbEnableSizeCache := false, mnStreamSize := kSizeTypeUnset W,
      mnPositionExternal := 0, mnPositionInternal := 0,
      mpreadBuffer := none, mnreadBufferSize := 0, mnreadBufferstartPosition := 0,
      mnreadBufferUsed := 0,
      mpWriteBuffer := none, mnWriteBufferSize := 0, mnWriteBufferstartPosition := 0,
      mnWriteBufferUsed := 0 }
  ((b0.setBufferSizes io W allocate nreadBufferSize nWriteBufferSize).2.setStream io W pStream).2

/-- `StreamBuffer::close`. -/
def StreamBuffer.close {σ : Type} (io : IStream σ) (W : Nat) (b : StreamBuffer σ) :
    Bool × StreamBuffer σ :=
  match b.mpStream with
  | some _ =>
    let b1 := b.flushAndClearBuffers io W
    match b1.mpStream with
    | some st => ((io.close st).1, { b1 with mpStream := some (io.close st).2 })
    | none => (false, b1)
  | none => (false, b)

/-- `StreamBuffer::getSize`: the size and the state, whose cached size the
function may set; `kSizeTypeError` (of the absent `Stream.h`) is a parameter. -/
def StreamBuffer.getSize {σ : Type} (io : IStream σ) (W kSizeTypeError : Nat) (b : StreamBuffer σ) :
    Nat × StreamBuffer σ :=
  match b.mpStream with
  | some st =>
    if b.mnStreamSize ≠ kSizeTypeUnset W then (b.mnStreamSize, b)
    else
      let nSize := io.getSize st
      let nSize1 :=
        if nSize ≠ kSizeTypeError then
          if b.mnWriteBufferUsed ≠ 0 then
            if nSize < b.mnPositionExternal then b.mnPositionExternal else nSize
          else nSize
        else nSize
      (nSize1, if b.mbEnableSizeCache then { b with mnStreamSize := nSize1 } else b)
  | none => (kSizeTypeError, b)

/-- `StreamBuffer::setSize`. -/
def StreamBuffer.setSize {σ : Type} (io : IStream σ) (W : Nat) (b : StreamBuffer σ) (nSize : Nat) :
    Bool × StreamBuffer σ :=
  match b.mpStream with
  | some _ =>
    let b1 := (b.clearReadBuffer.flushWriteBuffer io W).2
    match b1.mpStream with
    | some st =>
      let r := io.setSize st nSize
      (r.1, { b1 with mpStream := some r.2,
                      mnPositionExternal := toSizeType W (io.getPosition r.2),
                      mnPositionInternal := toSizeType W (io.getPosition r.2) })
    | none => (false, b1)
  | none => (false, b)

/-- `StreamBuffer::getPosition(positionType)`, with the state because of the
cached size. -/
def StreamBuffer.getPosition {σ : Type} (io : IStream σ) (W kSizeTypeError : Nat)
    (b : StreamBuffer σ) (positionType : PositionType) : Int × StreamBuffer σ :=
  match b.mpStream with
  | some _ =>
    match positionType with
    | kPositionTypeBegin => (toOffType W b.mnPositionExternal, b)
    | kPositionTypeEnd =>
      (toOffType W (subW W b.mnPositionExternal (b.getSize io W kSizeTypeError).1),
        (b.getSize io W kSizeTypeError).2)
    | kPositionTypeCurrent => (0, b)
  | none => (toOffType W kSizeTypeError, b)

/-- The first step of `StreamBuffer::setPosition`: a relative position is made
absolute. -/
def StreamBuffer.absolutePosition {σ : Type} (io : IStream σ) (W kSizeTypeError : Nat)
    (b : StreamBuffer σ) (nPosition : Int) (positionType : PositionType) : Int × StreamBuffer σ :=
  match positionType with
  | kPositionTypeCurrent =>
    (toOffType W (toSizeType W nPosition + b.mnPositionExternal), b)
  | kPositionTypeEnd =>
    (toOffType W (toSizeType W nPosition + (b.getSize io W kSizeTypeError).1),
      (b.getSize io W kSizeTypeError).2)
  | kPositionTypeBegin => (nPosition, b)

/-- `StreamBuffer::setPosition(nPosition, positionType)`. -/
def StreamBuffer.setPosition {σ : Type} (io : IStream σ) (W kSizeTypeError : Nat)
    (b : StreamBuffer σ) (nPosition : Int) (positionType : PositionType) : Bool × StreamBuffer σ :=
  match b.mpStream with
  | some _ =>
    let a := b.absolutePosition io W kSizeTypeError nPosition positionType
    if a.2.mnreadBufferUsed ≠ 0 ∧ a.1 ≥ 0 then
      (true, { a.2 with mnPositionExternal := toSizeType W a.1 })
    else if a.1 = toOffType W a.2.mnPositionExternal then (true, a.2)
    else
      let b1 := (a.2.flushWriteBuffer io W).2
      match b1.mpStream with
      | some st =>
        let r := io.setPosition st a.1
        if r.1 then
          (true, { b1 with mpStream := some r.2, mnPositionExternal := toSizeType W a.1,
                           mnPositionInternal := toSizeType W a.1 })
        else
          (false, { b1 with mpStream := some r.2,
                            mnPositionExternal := toSizeType W (io.getPosition r.2),
                            mnPositionInternal := toSizeType W (io.getPosition r.2) })
      | none => (false, b1)
  | none => (false, b)

/-- `StreamBuffer::fillReadBuffer`. -/
def StreamBuffer.fillReadBuffer {σ : Type} (io : IStream σ) (b : StreamBuffer σ) :
    Bool × StreamBuffer σ :=
  match b.mpStream with
  | some st =>
    let r := io.read st b.mnreadBufferSize
    match r.1 with
    | some bytes =>
      (true, { b with mpStream := some r.2, mpreadBuffer := some bytes,
                      mnreadBufferstartPosition := b.mnPositionInternal,
                      mnreadBufferUsed := bytes.length,
                      mnPositionInternal := b.mnPositionInternal + bytes.length })
    | none =>
      (false, { b with mpStream := some r.2, mnreadBufferstartPosition := 0,
                       mnreadBufferUsed := 0 })
  | none => (false, b)

/-- What `StreamBuffer::read` leaves behind: the return value (`none` for
`kSizeTypeError`), the bytes stored into `pData`, and the buffered stream. -/
structure BufferReadResult (σ : Type) where
  count : Option Nat
  data : List Nat
  buffer : StreamBuffer σ

/-- The `while(nBytesRemaining)` loop of `StreamBuffer::read`: the state is the
buffered stream, `nBytesRemaining` and the bytes stored into `pData` so far.
`bResult` is true at the top of every round, since the loop is left as soon as
it is false.  `none` when the fuel runs out. -/
def StreamBuffer.readLoop {σ : Type} (io : IStream σ) (W : Nat) :
    Nat → StreamBuffer σ → Nat → List Nat → Option (StreamBuffer σ × Nat × List Nat)
  | 0, _, _, _ => none
  | k + 1, b, nBytesRemaining, pData =>
    if nBytesRemaining ≠ 0 then
      let b1 := b.clearReadBuffer
      match b1.mpStream with
      | none => some (b1, nBytesRemaining, pData)
      | some st =>
        let s :=
          if b1.mnPositionInternal ≠ b1.mnPositionExternal then
            io.setPosition st (toOffType W b1.mnPositionExternal)
          else (true, st)
        if s.1 then
          let b2 := { b1 with mpStream := some s.2, mnPositionInternal := b1.mnPositionExternal }
          if nBytesRemaining > 2 * b2.mnreadBufferSize then
            let r := io.read s.2 nBytesRemaining
            match r.1 with
            | some bytes =>
              some ({ b2 with mpStream := some r.2,
                              mnPositionInternal := b2.mnPositionInternal + bytes.length,
                              mnPositionExternal := b2.mnPositionExternal + bytes.length },
                    nBytesRemaining - bytes.length, pData ++ bytes)
            | none => some ({ b2 with mpStream := some r.2 }, nBytesRemaining, pData)
          else
            let f := b2.fillReadBuffer io
            if f.1 && decide (f.2.mnreadBufferUsed ≠ 0) then
              let n := if f.2.mnreadBufferUsed < nBytesRemaining then f.2.mnreadBufferUsed
                else nBytesRemaining
              StreamBuffer.readLoop io W k
                { f.2 with mnPositionExternal := f.2.mnPositionExternal + n }
                (nBytesRemaining - n) (pData ++ (f.2.mpreadBuffer.getD []).take n)
            else some (f.2, nBytesRemaining, pData)
        else some ({ b1 with mpStream := some s.2 }, nBytesRemaining, pData)
    else some (b, nBytesRemaining, pData)

/-- `StreamBuffer::read(pData, nSize)`.  Every round of the loop but the last
delivers at least one byte, so `nSize + 1` rounds are given. -/
def StreamBuffer.read {σ : Type} (io : IStream σ) (W : Nat) (b : StreamBuffer σ) (nSize : Nat) :
    Option (BufferReadResult σ) :=
  match b.mpStream with
  | some _ =>
    if nSize ≠ 0 then
      let b1 := if b.mnWriteBufferUsed ≠ 0 then (b.flushWriteBuffer io W).2 else b
      if b1.mnreadBufferSize ≠ 0 then
        let breadstartIsWithinCache :=
          decide (b1.mnPositionExternal ≥ b1.mnreadBufferstartPosition) &&
          decide (b1.mnPositionExternal < b1.mnreadBufferstartPosition + b1.mnreadBufferUsed)
        let nOffsetWithinreadBuffer := b1.mnPositionExternal - b1.mnreadBufferstartPosition
        let nBytesToGetFromreadBuffer :=
          if b1.mnreadBufferUsed - nOffsetWithinreadBuffer < nSize
          then b1.mnreadBufferUsed - nOffsetWithinreadBuffer else nSize
        let b2 := if breadstartIsWithinCache then
            { b1 with mnPositionExternal := b1.mnPositionExternal + nBytesToGetFromreadBuffer }
          else b1
        let pData := if breadstartIsWithinCache then
            ((b1.mpreadBuffer.getD []).drop nOffsetWithinreadBuffer).take nBytesToGetFromreadBuffer
          else []
        let nBytesRemaining := if breadstartIsWithinCache then nSize - nBytesToGetFromreadBuffer
          else nSize
        (StreamBuffer.readLoop io W (nBytesRemaining + 1) b2 nBytesRemaining pData).map
          (fun r => ⟨some (nSize - r.2.1), r.2.2, r.1⟩)
      else
        match b1.mpStream with
        | some st =>
          let r := io.read st nSize
          match r.1 with
          | some bytes =>
            some ⟨some bytes.length, bytes,
              { b1 with mpStream := some r.2,
                        mnPositionInternal := b1.mnPositionInternal + nSize,
                        mnPositionExternal := b1.mnPositionInternal + nSize }⟩
          | none =>
            some ⟨none, [],
              { b1 with mpStream := some r.2,
                        mnPositionInternal := toSizeType W (io.getPosition r.2),
                        mnPositionExternal := toSizeType W (io.getPosition r.2) }⟩
        | none => some ⟨none, [], b1⟩
    else some ⟨some 0, [], b⟩
  | none => some ⟨none, [], b⟩

/-- `StreamBuffer::flush`. -/
def StreamBuffer.flush {σ : Type} (io : IStream σ) (W : Nat) (b : StreamBuffer σ) :
    Bool × StreamBuffer σ :=
  match b.mpStream with
  | some _ => b.flushWriteBuffer io W
  | none => (false, b)

/-- The `while(nSize && bReturnValue)` loop of `StreamBuffer::fillWriteBuffer`;
`pData` is what is left of the input.  `none` when the fuel runs out. -/
def StreamBuffer.fillWriteLoop {σ : Type} (io : IStream σ) (W : Nat) :
    Nat → StreamBuffer σ → List Nat → Option (Bool × StreamBuffer σ)
  | 0, _, _ => none
  | k + 1, b, pData =>
    if pData.length ≠ 0 then
      let nSizeToBuffer :=
        if b.mnWriteBufferSize - b.mnWriteBufferUsed < pData.length
        then b.mnWriteBufferSize - b.mnWriteBufferUsed else pData.length
      let b1 := if nSizeToBuffer ≠ 0 then
          { b with mpWriteBuffer := some ((b.mpWriteBuffer.getD []).take b.mnWriteBufferUsed
                                            ++ pData.take nSizeToBuffer),
                   mnWriteBufferUsed := b.mnWriteBufferUsed + nSizeToBuffer }
        else b
      if b1.mnWriteBufferUsed = b1.mnWriteBufferSize then
        let f := b1.flushWriteBuffer io W
        if f.1 then StreamBuffer.fillWriteLoop io W k f.2 (pData.drop nSizeToBuffer)
        else some (false, f.2)
      else StreamBuffer.fillWriteLoop io W k b1 (pData.drop nSizeToBuffer)
    else some (true, b)

/-- `StreamBuffer::fillWriteBuffer(pData, nSize)`.  A round of the loop that
buffers nothing flushes a full buffer, so `2 * nSize + 2` rounds are given. -/
def StreamBuffer.fillWriteBuffer {σ : Type} (io : IStream σ) (W : Nat) (b : StreamBuffer σ)
    (pData : List Nat) : Option (Bool × StreamBuffer σ) :=
  if pData.length > 0 then
    let b1 := if b.mnWriteBufferUsed = 0
      then { b with mnWriteBufferstartPosition := b.mnPositionInternal } else b
    if b1.mnWriteBufferUsed + pData.length ≤ b1.mnWriteBufferSize then
      some (true, { b1 with mpWriteBuffer := some ((b1.mpWriteBuffer.getD []).take
                                                     b1.mnWriteBufferUsed ++ pData),
                            mnWriteBufferUsed := b1.mnWriteBufferUsed + pData.length })
    else StreamBuffer.fillWriteLoop io W (2 * pData.length + 2) b1 pData
  else some (true, b)

/-- `StreamBuffer::write(pData, nSize)`. -/
def StreamBuffer.write {σ : Type} (io : IStream σ) (W : Nat) (b : StreamBuffer σ)
    (pData : List Nat) : Option (Bool × StreamBuffer σ) :=
  match b.mpStream with
  | some st =>
    let b1 :=
      if b.mnreadBufferUsed ≠ 0 then
        if b.mnPositionExternal ≠ b.mnPositionInternal then
          { b.clearReadBuffer with
              mpStream := some (io.setPosition st (toOffType W b.mnPositionExternal)).2 }
        else b.clearReadBuffer
      else b
    if b1.mnWriteBufferSize ≠ 0 then
      (b1.fillWriteBuffer io W pData).map
        (fun r => (r.1, { r.2 with mnPositionExternal := r.2.mnPositionExternal + pData.length }))
    else
      match b1.mpStream with
      | some st1 =>
        let w := io.write st1 pData
        if w.1 then
          some (true, { b1 with mpStream := some w.2,
                                mnPositionInternal := b1.mnPositionInternal + pData.length,
                                mnPositionExternal := b1.mnPositionInternal + pData.length })
        else
          some (false, { b1 with mpStream := some w.2,
                                 mnPositionInternal := toSizeType W (io.getPosition w.2),
                                 mnPositionExternal := toSizeType W (io.getPosition w.2) })
      | none => some (false, b1)
  | none => some (false, b)

/-- The calls of the public interface of a `StreamBuffer` that change it. -/
inductive BufferCall where
  | read (nSize : Nat)
  | write (pData : List Nat)
  | setPosition (nPosition : Int) (positionType : PositionType)
  | setSize (nSize : Nat)
  | flush
  | setBufferSizes (nreadBufferSize nWriteBufferSize : Nat)
  | close

/-- The state after one call; `none` if a loop ran out of its fuel. -/
def StreamBuffer.call {σ : Type} (io : IStream σ) (W kSizeTypeError : Nat)
    (allocate : Nat → Bool) (b : StreamBuffer σ) : BufferCall → Option (StreamBuffer σ)
  | BufferCall.read nSize => (b.read io W nSize).map (fun r => r.buffer)
  | BufferCall.write pData => (b.write io W pData).map (fun r => r.2)
  | BufferCall.setPosition nPosition positionType =>
    some (b.setPosition io W kSizeTypeError nPosition positionType).2
  | BufferCall.setSize nSize => some (b.setSize io W nSize).2
  | BufferCall.flush => some (b.flush io W).2
  | BufferCall.setBufferSizes r w => some (b.setBufferSizes io W allocate r w).2
  | BufferCall.close => some (b.close io W).2

/-- The state after a sequence of calls. -/
def StreamBuffer.calls {σ : Type} (io : IStream σ) (W kSizeTypeError : Nat)
    (allocate : Nat → Bool) : StreamBuffer σ → List BufferCall → Option (StreamBuffer σ)
  | b, [] => some b
  | b, c :: cs =>
    match b.call io W kSizeTypeError allocate c with
    | some b1 => StreamBuffer.calls io W kSizeTypeError allocate b1 cs
    | none => none

/-- The exclusivity of the two buffers of a `StreamBuffer`, with what keeps it:
the write buffer holds no more than its size and holds bytes only when a
stream is attached. -/
def BufferInv {σ : Type} (b : StreamBuffer σ) : Prop :=
  (b.mnreadBufferUsed = 0 ∨ b.mnWriteBufferUsed = 0) ∧
  b.mnWriteBufferUsed ≤ b.mnWriteBufferSize ∧
  (b.mnWriteBufferUsed ≠ 0 → b.mpStream.isSome = true)

/-- The bytes of the memory stream under a `StreamBuffer`. -/
def dataOf (b : StreamBuffer MemoryStream) : Option (List Nat) :=
  b.mpStream.map (fun s => s.data)

/-- A buffered memory stream `1 2 3 4 5` at position 0 after `write` of the two
bytes `9 8` into its write buffer of size 4. -/
def pendingWrite : StreamBuffer MemoryStream :=
  { mpStream := some ⟨[1, 2, 3, 4, 5], 0⟩, mbEnableSizeCache := false,
    mnStreamSize := kSizeTypeUnset 64, mnPositionExternal := 2, mnPositionInternal := 0,
    mpreadBuffer := some [], mnreadBufferSize := 4, mnreadBufferstartPosition := 0,
    mnreadBufferUsed := 0,
    mpWriteBuffer := some [9, 8], mnWriteBufferSize := 4, mnWriteBufferstartPosition := 0,
    mnWriteBufferUsed := 2 }

/-- The data members of `class StreamChild` over a parent stream with states in
`σ` (the reference count is left out); `mpStreamParent` holds the state of the
parent pointed to, `none` for NULL. -/
structure StreamChild (σ : Type) where
  mnAccessFlags : Nat
  mpStreamParent : Option σ
  mnPositionParent : Nat
  mnPosition : Nat
  mnSize : Nat
deriving DecidableEq, Repr

/-- `StreamChild::open(pStreamParent, nPosition, nSize)` for a `size_type` of
`W` bits; `kAccessFlagRead` (of the absent `Stream.h`) is a parameter. -/
def StreamChild.open {σ : Type} (io : IStream σ) (W kAccessFlagRead : Nat) (c : StreamChild σ)
    (pStreamParent : Option σ) (nPosition nSize : Nat) : Bool × StreamChild σ :=
  match pStreamParent with
  | some p =>
    if c.mnAccessFlags = 0 ∧ (io.getAccessFlags p &&& kAccessFlagRead) ≠ 0 then
      let nParentStreamSize := io.getSize p
      let nEndPosition := addW W nPosition nSize
      if nPosition < nParentStreamSize ∧ nEndPosition ≤ nParentStreamSize
          ∧ nEndPosition ≥ nPosition then
        (true, { mnAccessFlags := kAccessFlagRead, mpStreamParent := some p,
                 mnPositionParent := nPosition, mnPosition := 0, mnSize := nSize })
      else (false, c)
    else (false, c)
  | none => (false, c)

/-- The state that the constructor of `StreamChild` sets before it calls
`open`: a closed child. -/
def StreamChild.closed {σ : Type} : StreamChild σ :=
  { mnAccessFlags := 0, mpStreamParent := none, mnPositionParent := 0, mnPosition := 0,
    mnSize := 0 }

/-- Modelled from the spec: `StrEnd(first)` (defined outside src/) is the
position of the first nul code unit at or after `first`, the end of the text. -/
def StrEnd (p : List Nat) (first : Nat) : Nat :=
  first + ((p.drop first).takeWhile (fun c => c != 0)).length

/-- Forward loop of `getPathComponentEnd` (`nIndex >= 0`), by recursion on the
counter `nIndex`; returns the position and the counter that is left. -/
def getPathComponentEndFwd (cfg : PathConfig) (p : List Nat) (last : Nat) : Nat → Nat → Nat × Nat
  | 0, result => (result, 0)
  | n + 1, result =>
    if result < last then getPathComponentEndFwd cfg p last n (findComponentFwd cfg p result last)
    else (result, n + 1)

/-- Reverse loop of `getPathComponentEnd` (`nIndex < 0`), by recursion on `-nIndex`. -/
def getPathComponentEndRvs (cfg : PathConfig) (p : List Nat) (first : Nat) : Nat → Nat → Nat
  | 0, result => result
  | n + 1, result =>
    if result > first then getPathComponentEndRvs cfg p first n (findComponentRvs cfg p first result)
    else result

/-- The 8-bit `getPathComponentEnd(first, last, nIndex)` with an explicit `last`. -/
def getPathComponentEnd (cfg : PathConfig) (p : List Nat) (first last : Nat) (nIndex : Int) : Nat :=
  if nIndex ≥ 0 then
    let r := getPathComponentEndFwd cfg p last (nIndex + 1).toNat first
    if r.2 == 0 && decide (r.1 > first) && IsDirectorySeparator cfg (charAt p (r.1 - 1)) then r.1 - 1
    else r.1
  else
    let result := getPathComponentEndRvs cfg p first (-(nIndex + 1)).toNat last
    if decide (result > first) && IsDirectorySeparator cfg (charAt p (result - 1)) then result - 1
    else result

/-- The 16-bit `getPathComponentEnd(first, last, nIndex)`: its test of `last`
against `kEndAuto16` is commented out, so `last = StrEnd(first)` always. -/
def getPathComponentEnd16 (cfg : PathConfig) (p : List Nat) (first _last : Nat) (nIndex : Int) : Nat :=
  getPathComponentEnd cfg p first (StrEnd p first) nIndex

/-- The walk of `Directory::create` over the ancestors of `fullDirPath`:
`it = getPathComponentEnd(begin, end, 1); while(it != end) { ...;
it = getPathComponentEnd(it, end, 1); }`; the result is the list of the
positions `it` visited by the loop body, `none` when `fuel` iterations do not
reach `end`. -/
def createWalk (cfg : PathConfig) (p : List Nat) : Nat → Nat → Option (List Nat)
  | 0, _ => none
  | fuel + 1, it =>
    if it ≠ p.length then
      (createWalk cfg p fuel (getPathComponentEnd16 cfg p it p.length 1)).map (fun l => it :: l)
    else some []

/-- Where the scan of `findComponentFwd(first, last)` starts: after a leading
UNC double backslash. -/
def uncSkip (p : List Nat) (first last : Nat) : Nat :=
  if HasUNCPrefix p first last then first + 2 else first

/-- What the specification says of the result `r` of
`findComponentFwd(first, last)`: the component text `[uncSkip, e)` holds no
directory separator and no drive separator before its last character; it ends
at `last`, at a directory separator, or right after a drive separator; and `r`
is just after the directory separator at `e`, or `e` if there is none. -/
def ComponentFwdSpec (cfg : PathConfig) (p : List Nat) (first last r : Nat) : Prop :=
  ∃ e, uncSkip p first last ≤ e ∧ e ≤ last ∧
    (∀ j, uncSkip p first last ≤ j → j < e → IsDirectorySeparator cfg (charAt p j) = false) ∧
    (∀ j, uncSkip p first last ≤ j → j + 1 < e → charAt p j ≠ cfg.kFilePathDriveSeparator) ∧
    (e = last ∨ IsDirectorySeparator cfg (charAt p e) = true ∨
      (uncSkip p first last < e ∧ charAt p (e - 1) = cfg.kFilePathDriveSeparator)) ∧
    r = if e < last ∧ IsDirectorySeparator cfg (charAt p e) = true then e + 1 else e

/-- Modelled from the spec: the values of `enum LineEnd` (declared outside
src/) that `writeLine` distinguishes. -/
inductive LineEnd where
  | kLineEndNone | kLineEndAuto | kLineEndNewline | kLineEndWindows
deriving DecidableEq, Repr

open LineEnd

/-- The 8-bit `writeLine(pOS, pLine, nCount, lineEndToUse)`; `kLengthNull` is a
parameter. -/
def writeLine (kLengthNull : Nat) (pOS : MemoryStream) (pLine : List Nat) (nCount : Nat)
    (lineEndToUse : LineEnd) : Bool × MemoryStream :=
  let nCount1 := if nCount = kLengthNull then strlenLoop pLine else nCount
  let r := if nCount1 ≠ 0 then pOS.write ((List.range nCount1).map (charAt pLine)) else (true, pOS)
  if r.1 then
    let lineEnd1 :=
      if lineEndToUse = kLineEndAuto ∧
          (nCount1 = 0 ∨ (charAt pLine (nCount1 - 1) ≠ 10 ∧ charAt pLine (nCount1 - 1) ≠ 13)) then
        kLineEndNewline
      else lineEndToUse
    if lineEnd1 = kLineEndWindows then r.2.write [13, 10]
    else if lineEnd1 = kLineEndNewline then r.2.write [10]
    else r
  else r

/-- Loop of the array overload of `writeUint16` (`endianDestination !=
kEndianLocal`): `while(count--)` writes the swizzled unit `*value++`; `i` is
the index the pointer has reached. -/
def writeUint16Loop (kEndianLocal : Endian) (value : List Nat) : Nat → Nat → MemoryStream →
    Bool × MemoryStream
  | 0, _, s => (true, s)
  | count + 1, i, s =>
    let r := s.write (toBytes kEndianLocal 2 (SwizzleUint16 (charAt value i)))
    if r.1 then writeUint16Loop kEndianLocal value count (i + 1) r.2 else (false, r.2)

/-- The array overload `writeUint16(pOS, value, count, endianDestination)`;
`value` is the memory of 16-bit units at the pointer. -/
def writeUint16Array (kEndianLocal : Endian) (pOS : MemoryStream) (value : List Nat) (count : Nat)
    (endianDestination : Endian) : Bool × MemoryStream :=
  if endianDestination ≠ kEndianLocal then writeUint16Loop kEndianLocal value count 0 pOS
  else pOS.write ((List.range count).flatMap (fun i => toBytes kEndianLocal 2 (charAt value i)))

/-- The 16-bit `writeLine(pOS, pLine, nCount, lineEndToUse, endianDestination)`.
The call for `kLineEndNewline` is `writeUint16(pOS, terminator,
endianDestination)` with three arguments: a `const uint16_t*` second argument
selects the array overload, so that `endianDestination` is converted to its
`count` and the byte order is the default argument `kEndianBig`.
`endianCode` gives the integer values of the enumerators of `enum Endian`
(declared outside src/). -/
def writeLine16 (kEndianLocal : Endian) (endianCode : Endian → Nat) (kLengthNull : Nat)
    (pOS : MemoryStream) (pLine : List Nat) (nCount : Nat) (lineEndToUse : LineEnd)
    (endianDestination : Endian) : Bool × MemoryStream :=
  let nCount1 := if nCount = kLengthNull then strlenLoop pLine else nCount
  let r :=
    if nCount1 ≠ 0 then writeUint16Array kEndianLocal pOS pLine nCount1 endianDestination
    else (true, pOS)
  if r.1 then
    let lineEnd1 :=
      if lineEndToUse = kLineEndAuto ∧
          (nCount1 = 0 ∨ (charAt pLine (nCount1 - 1) ≠ 10 ∧ charAt pLine (nCount1 - 1) ≠ 13)) then
        kLineEndNewline
      else lineEndToUse
    if lineEnd1 = kLineEndWindows then writeUint16Array kEndianLocal r.2 [13, 10] 2 endianDestination
    else if lineEnd1 = kLineEndNewline then
      writeUint16Array kEndianLocal r.2 [10] (endianCode endianDestination) kEndianBig
    else r
  else r

/-- The bytes of a sequence of 16-bit code units in a given byte order. -/
def unitBytes (order : Endian) (units : List Nat) : List Nat :=
  units.flatMap (toBytes order 2)

/-- `StreamChild::close()`. -/
def StreamChild.close {σ : Type} (c : StreamChild σ) : Bool × StreamChild σ :=
  if c.mnAccessFlags ≠ 0 then
    (true, { mnAccessFlags := 0, mpStreamParent := none, mnPositionParent := 0, mnPosition := 0,
             mnSize := 0 })
  else (true, c)

/-- `StreamChild::getSize()`. -/
def StreamChild.getSize {σ : Type} (c : StreamChild σ) : Nat := c.mnSize

/-- `StreamChild::getPosition(positionType)` for a `size_type` and an
`off_type` of `W` bits. -/
def StreamChild.getPosition {σ : Type} (W : Nat) (c : StreamChild σ) (positionType : PositionType) :
    Int :=
  match positionType with
  | kPositionTypeBegin => toOffType W c.mnPosition
  | kPositionTypeEnd => toOffType W (subW W c.mnPosition c.mnSize)
  | kPositionTypeCurrent => 0

/-- `StreamChild::setPosition(position, positionType)`.  The function calls
itself, so the model counts the calls in `fuel` and gives `none` when they
are used up.  The `kPositionTypeBegin` case of the `switch` has no `break`
after its `if`, so a position outside the window falls through to the
`kPositionTypeCurrent` case.  The sums are `size_type` sums cast to
`off_type`. -/
def StreamChild.setPosition {σ : Type} (W : Nat) :
    Nat → StreamChild σ → Int → PositionType → Option (Bool × StreamChild σ)
  | 0, _, _, _ => none
  | fuel + 1, c, position, positionType =>
    if c.mnAccessFlags ≠ 0 then
      match positionType with
      | kPositionTypeBegin =>
        if toSizeType W position < c.mnSize then
          some (true, { c with mnPosition := toSizeType W position })
        else
          StreamChild.setPosition W fuel c
            (toOffType W (toSizeType W ((c.mnPosition : Int) + position))) kPositionTypeBegin
      | kPositionTypeCurrent =>
        StreamChild.setPosition W fuel c
          (toOffType W (toSizeType W ((c.mnPosition : Int) + position))) kPositionTypeBegin
      | kPositionTypeEnd =>
        StreamChild.setPosition W fuel c
          (toOffType W (toSizeType W ((c.mnPosition : Int) + (c.mnSize : Int) + position)))
          kPositionTypeBegin
    else some (false, c)

/-- `StreamChild::getAvailable()`. -/
def StreamChild.getAvailable {σ : Type} (W : Nat) (c : StreamChild σ) : Nat :=
  subW W c.mnSize c.mnPosition

/-- What `StreamChild::read` leaves behind: the return value, the bytes the
parent stored into `pData`, and the child. -/
structure ChildReadResult (σ : Type) where
  result : Nat
  data : List Nat
  child : StreamChild σ

/-- `StreamChild::read(pData, nSize)`; `kSizeTypeError` is a parameter.  The
outer `none` stands for the dereference of a NULL `mpStreamParent`. -/
def StreamChild.read {σ : Type} (io : IStream σ) (W kSizeTypeError : Nat) (c : StreamChild σ)
    (nSize : Nat) : Option (ChildReadResult σ) :=
  if c.mnAccessFlags ≠ 0 then
    match c.mpStreamParent with
    | none => none
    | some p =>
      let s := io.setPosition p (toOffType W (addW W c.mnPositionParent c.mnPosition))
      if s.1 then
        let nAvailable := c.getAvailable W
        let nSize1 := if nAvailable < nSize then nAvailable else nSize
        let r := io.read s.2 nSize1
        let nRead := match r.1 with
          | none => kSizeTypeError
          | some bytes => bytes.length
        if nRead = nSize1 then
          some { result := nSize1, data := r.1.getD [],
                 child := { c with mpStreamParent := some r.2, mnPosition := addW W c.mnPosition nSize1 } }
        else
          some { result := kSizeTypeError, data := r.1.getD [],
                 child := { c with mpStreamParent := some r.2 } }
      else some { result := kSizeTypeError, data := [], child := { c with mpStreamParent := some s.2 } }
  else some { result := kSizeTypeError, data := [], child := c }

/-- `StreamChild::write(pData, nSize)` with `nSize` the length of `pData`.  The
function does not test `mnAccessFlags`; `none` stands for the dereference of a
NULL `mpStreamParent`. -/
def StreamChild.write {σ : Type} (io : IStream σ) (W : Nat) (c : StreamChild σ)
    (pData : List Nat) : Option (Bool × StreamChild σ) :=
  let nSize1 :=
    if pData.length > subW W c.mnSize c.mnPosition then subW W c.mnSize c.mnPosition
    else pData.length
  match c.mpStreamParent with
  | none => none
  | some p =>
    let s := io.setPosition p (toOffType W (addW W c.mnPositionParent c.mnPosition))
    if s.1 then
      let w := io.write s.2 (pData.take nSize1)
      if w.1 then
        some (true, { c with mpStreamParent := some w.2, mnPosition := addW W c.mnPosition nSize1 })
      else some (false, { c with mpStreamParent := some w.2 })
    else some (false, { c with mpStreamParent := some s.2 })

/-- The calls of the `StreamChild` interface that change the child. -/
inductive ChildCall (σ : Type) where
  | open (pStreamParent : Option σ) (nPosition nSize : Nat)
  | setPosition (position : Int) (positionType : PositionType)
  | read (nSize : Nat)
  | write (pData : List Nat)
  | close

/-- One call on a child; `none` when the call does not return (the recursion
of `setPosition` outlasts `fuel`, or a NULL parent is dereferenced). -/
def StreamChild.call {σ : Type} (io : IStream σ) (W kAccessFlagRead kSizeTypeError fuel : Nat)
    (c : StreamChild σ) : ChildCall σ → Option (StreamChild σ)
  | ChildCall.open p nPosition nSize => some (c.open io W kAccessFlagRead p nPosition nSize).2
  | ChildCall.setPosition position positionType =>
    (StreamChild.setPosition W fuel c position positionType).map (fun r => r.2)
  | ChildCall.read nSize => (c.read io W kSizeTypeError nSize).map (fun r => r.child)
  | ChildCall.write pData => (c.write io W pData).map (fun r => r.2)
  | ChildCall.close => some c.close.2

/-- A sequence of calls on a child, each of which returns. -/
def StreamChild.calls {σ : Type} (io : IStream σ) (W kAccessFlagRead kSizeTypeError fuel : Nat) :
    StreamChild σ → List (ChildCall σ) → Option (StreamChild σ)
  | c, [] => some c
  | c, x :: xs =>
    match c.call io W kAccessFlagRead kSizeTypeError fuel x with
    | none => none
    | some c1 => StreamChild.calls io W kAccessFlagRead kSizeTypeError fuel c1 xs

/-- The example of the specification: a child with the window (10, 20) on a
parent of 100 bytes, its cursor at the local position 15. -/
def windowChild : StreamChild MemoryStream :=
  { mnAccessFlags := 1, mpStreamParent := some ⟨List.range 100, 0⟩, mnPositionParent := 10,
    mnPosition := 15, mnSize := 20 }

/-- An open child with a window of length 10 at the offset 10 of a parent of
100 bytes, its cursor at the local position `p`. -/
def childAt (p : Nat) : StreamChild MemoryStream :=
  { mnAccessFlags := 1, mpStreamParent := some ⟨List.range 100, 0⟩, mnPositionParent := 10,
    mnPosition := p, mnSize := 10 }

/-- The canonical form of a character: every directory separator becomes
`kFilePathSeparator`. -/
def canonChar (cfg : PathConfig) (c : Nat) : Nat :=
  if IsDirectorySeparator cfg c then cfg.kFilePathSeparator else c

/-- The relation between the buffer `bS` of a run of `PathStringnormalize`
without canonicalization and the buffer `bN` of the run with it, both at the
same `first` and `out`: the unread text from `first` on is the same, the
output below `out` differs by canonicalization only, and anywhere else a
character of `bN` is the one of `bS` or its canonical form. -/
def PathSim (cfg : PathConfig) (last first out : Nat) (bS bN : List Nat) : Prop :=
  bS.length = bN.length ∧ last ≤ bS.length ∧ out ≤ first ∧ first ≤ last ∧
  (∀ i, first ≤ i → charAt bN i = charAt bS i) ∧
  (∀ i, i < out → charAt bN i = canonChar cfg (charAt bS i)) ∧
  (∀ i, charAt bN i = charAt bS i ∨ charAt bN i = canonChar cfg (charAt bS i))

/-- Two buffers whose characters answer alike to the tests of the path
engine: directory separator, `'.'`, drive separator. -/
def SameClass (cfg : PathConfig) (bS bN : List Nat) : Prop :=
  ∀ i, IsDirectorySeparator cfg (charAt bN i) = IsDirectorySeparator cfg (charAt bS i) ∧
    (charAt bN i == 46) = (charAt bS i == 46) ∧
    (charAt bN i == cfg.kFilePathDriveSeparator) = (charAt bS i == cfg.kFilePathDriveSeparator)

/-- The state of a `StreamBuffer` over a memory stream holding the bytes `B`
that is used for reading only: the bytes of the stream are `B`, no write is
pending, a filled read buffer holds the bytes of `B` from its start position
on, and the cursor of the stream is `mnPositionInternal`; without a read
buffer the cursor is `mnPositionExternal`, or is at the end of the stream with
`mnPositionExternal` beyond it. -/
def ReadInv (B : List Nat) (b : StreamBuffer MemoryStream) : Prop :=
  ∃ c, b.mpStream = some ⟨B, c⟩ ∧ c ≤ B.length ∧ b.mnWriteBufferUsed = 0 ∧
    (b.mnreadBufferUsed ≠ 0 → b.mnreadBufferSize ≠ 0 ∧
      b.mpreadBuffer.getD [] = (B.drop b.mnreadBufferstartPosition).take b.mnreadBufferUsed ∧
      b.mnreadBufferstartPosition + b.mnreadBufferUsed ≤ B.length) ∧
    (b.mnreadBufferSize ≠ 0 → c = b.mnPositionInternal) ∧
    (b.mnreadBufferSize = 0 → b.mnPositionExternal = b.mnPositionInternal ∧
      (c = b.mnPositionExternal ∨ (c = B.length ∧ B.length ≤ b.mnPositionExternal)))

/-- The calls of the claim on buffered reads: `read`, and `setPosition` to a
non-negative position from the beginning. -/
def BufferCall.isReadOrSeek : BufferCall → Prop
  | BufferCall.read _ => True
  | BufferCall.setPosition nPosition kPositionTypeBegin => 0 ≤ nPosition
  | _ => False

/-- The distance a call can move the external position: the size of a read,
the target of a seek. -/
def BufferCall.weight : BufferCall → Nat
  | BufferCall.read nSize => nSize
  | BufferCall.setPosition nPosition _ => nPosition.toNat
  | _ => 0

/-! ## Properties -/

/-! ### File-name validity -/

/-- C10: `isFileNameCharValid(c, fs)` is false exactly for `'/'` on the
Unix-family file systems, and exactly for the nine characters
`< > : \ / " | * ?` on every other file system type (the Windows family and any
unlisted enumerator); it is true for every other character. -/
theorem C10_isFileNameCharValid_exact (c : Nat) (fs : FileSystem) :
    (unixFamily fs = true → (isFileNameCharValid c fs = false ↔ c = 47)) ∧
    (unixFamily fs = false →
      (isFileNameCharValid c fs = false ↔ c ∈ [60, 62, 58, 92, 47, 34, 124, 42, 63])) := by
  cases fs <;> simp [unixFamily, isFileNameCharValid] <;> tauto

theorem takeWhile_ne_zero_of_dots (name : List Nat) (h : ∀ c ∈ name, c = 46 ∨ c = 32) :
    name.takeWhile (fun c => c != 0) = name := by
  rw [List.takeWhile_eq_self_iff]
  intro c hc
  rcases h c hc with rfl | rfl <;> decide

theorem dotSpace_valid (c : Nat) (fs : FileSystem) (h : c = 46 ∨ c = 32) :
    isFileNameCharValid c fs = true := by
  rcases h with rfl | rfl <;> cases fs <;> rfl

/-- C9: a name that consists solely of `'.'` and `' '` characters (the empty
name included) is rejected by `isFileNameStringValid`, for every file system
type and every value of `kMaxFileNameLength`. -/
theorem C9_dots_and_spaces_rejected (kMaxFileNameLength : Nat) (name : List Nat) (fs : FileSystem)
    (h : ∀ c ∈ name, c = 46 ∨ c = 32) :
    isFileNameStringValid kMaxFileNameLength name fs = false := by
  have hall : onlyDotsAndSpaces name = true := by
    simp only [onlyDotsAndSpaces, List.all_eq_true]
    intro c hc
    rcases h c hc with rfl | rfl <;> decide
  unfold isFileNameStringValid
  rw [takeWhile_ne_zero_of_dots name h]
  simp only [hall]
  split_ifs <;> rfl

/-- C9 at the name `". ."` on a Unix file system. -/
theorem C9_dots_and_spaces_rejected_witness :
    (∀ c ∈ str ". .", c = 46 ∨ c = 32) ∧
    isFileNameStringValid 256 (str ". .") kFileSystemUnix = false :=
  ⟨by decide, C9_dots_and_spaces_rejected 256 (str ". .") kFileSystemUnix (by decide)⟩

theorem dropWhile_dropWhile_of_imp (p q : Nat → Bool) (hpq : ∀ c, p c = true → q c = true)
    (l : List Nat) : (l.dropWhile p).dropWhile q = l.dropWhile q := by
  induction l with
  | nil => rfl
  | cons a t ih =>
    by_cases hp : p a = true
    · have hq := hpq a hp
      simp [List.dropWhile_cons, hp, hq, ih]
    · simp [List.dropWhile_cons, hp]

theorem reserved_rev_dropWhile :
    ∀ r ∈ pReservedNamesWin32, r.reverse.dropWhile (fun c => c == 32 || c == 9) = r.reverse := by
  decide

theorem rtrim_eq_of_reservedKey (x : List Nat)
    (h : (x.reverse.dropWhile (fun c => c == 32)).reverse ∈ pReservedNamesWin32) :
    rtrim x = (x.reverse.dropWhile (fun c => c == 32)).reverse := by
  have h1 := reserved_rev_dropWhile _ h
  rw [List.reverse_reverse] at h1
  unfold rtrim
  rw [← dropWhile_dropWhile_of_imp (fun c => c == 32) (fun c => c == 32 || c == 9)
    (by intro c hc; simp at hc; simp [hc]) x.reverse, h1]

/-- C8: on a Windows-family file system (Windows, FAT, FAT32, NTFS),
`isFileNameStringValid(name)` is false whenever the lower-cased name, cut at
its first `'.'`, with trailing spaces trimmed, is one of the reserved device
names; so `"con"` and `"con.txt"` are rejected, while `"controller"`, which
merely starts with a reserved word, is accepted (its length being below
`kMaxFileNameLength`). -/
theorem C8_reserved_names_rejected (kMaxFileNameLength : Nat) :
    (∀ (pName : List Nat) (fs : FileSystem), reservedWordFileSystem fs = true →
        reservedKey (cText pName) ∈ pReservedNamesWin32 →
        isFileNameStringValid kMaxFileNameLength pName fs = false) ∧
    (∀ fs, reservedWordFileSystem fs = true → 10 < kMaxFileNameLength →
        isFileNameStringValid kMaxFileNameLength (str "con") fs = false ∧
        isFileNameStringValid kMaxFileNameLength (str "con.txt") fs = false ∧
        isFileNameStringValid kMaxFileNameLength (str "controller") fs = true) := by
  constructor
  · intro pName fs hfs hkey
    unfold reservedKey cText at hkey
    have hr := rtrim_eq_of_reservedKey _ hkey
    rw [← hr] at hkey
    have hc : pReservedNamesWin32.contains
        (rtrim (eraseFromDot (makeLower (List.takeWhile (fun c => c != 0) pName)))) = true := by
      simpa using hkey
    unfold isFileNameStringValid
    simp only [hfs, hc, Bool.and_self, if_true]
    split_ifs <;> rfl
  · intro fs hfs hk
    have h3 : (3 : Nat) < kMaxFileNameLength := by omega
    have h7 : (7 : Nat) < kMaxFileNameLength := by omega
    refine ⟨?_, ?_, ?_⟩
    · cases fs <;> simp [reservedWordFileSystem] at hfs <;>
        simp [isFileNameStringValid, str, h3] <;> decide
    · cases fs <;> simp [reservedWordFileSystem] at hfs <;>
        simp [isFileNameStringValid, str, h7] <;> decide
    · cases fs <;> simp [reservedWordFileSystem] at hfs <;>
        simp [isFileNameStringValid, str, hk] <;> decide

/-- C8 at `"LPT1  .tar.gz"` on NTFS (rejected) and `"controller"` on FAT32
(accepted), with `kMaxFileNameLength = 64`. -/
theorem C8_reserved_names_rejected_witness :
    reservedKey (cText (str "LPT1  .tar.gz")) ∈ pReservedNamesWin32 ∧
    isFileNameStringValid 64 (str "LPT1  .tar.gz") kFileSystemNTFS = false ∧
    isFileNameStringValid 64 (str "controller") kFileSystemFAT32 = true :=
  ⟨by decide,
   (C8_reserved_names_rejected 64).1 (str "LPT1  .tar.gz") kFileSystemNTFS (by decide) (by decide),
   ((C8_reserved_names_rejected 64).2 kFileSystemFAT32 (by decide) (by decide)).2.2⟩

/-! ### Classification and concatenation of paths -/

theorem charAt_cons_succ (a : Nat) (t : List Nat) (i : Nat) :
    charAt (a :: t) (i + 1) = charAt t i := by
  simp [charAt]

theorem charAt_of_ge (p : List Nat) (i : Nat) (h : p.length ≤ i) : charAt p i = 0 := by
  simp [charAt, List.getD, List.getElem?_eq_none h]

theorem HasDrivePrefixLoop_iff (cfg : PathConfig) (p : List Nat) (last : Nat) :
    ∀ (k first : Nat), HasDrivePrefixLoop cfg p last k first = true ↔
      ∃ i, first ≤ i ∧ i < first + k ∧ i < last ∧ charAt p i = cfg.kFilePathDriveSeparator ∧
        ∀ j, first ≤ j → j < i → IsDirectorySeparator cfg (charAt p j) = false := by
  intro k
  induction k with
  | zero =>
    intro first
    simp only [HasDrivePrefixLoop, Bool.false_eq_true, false_iff]
    rintro ⟨i, h1, h2, -⟩
    omega
  | succ k ih =>
    intro first
    unfold HasDrivePrefixLoop
    by_cases hlt : first < last
    · simp only [hlt, if_true]
      by_cases hd : charAt p first = cfg.kFilePathDriveSeparator
      · simp only [hd, beq_self_eq_true, if_true, true_iff]
        exact ⟨first, le_refl _, by omega, hlt, hd, fun j h1 h2 => by omega⟩
      · have hd' : (charAt p first == cfg.kFilePathDriveSeparator) = false := by
          simpa using hd
        simp only [hd', Bool.false_eq_true, if_false]
        by_cases hs : IsDirectorySeparator cfg (charAt p first) = true
        · simp only [hs, if_true, Bool.false_eq_true, false_iff]
          rintro ⟨i, h1, h2, h3, h4, h5⟩
          rcases Nat.eq_or_lt_of_le h1 with h | h
          · subst h; exact hd h4
          · have := h5 first (le_refl _) h
            rw [hs] at this
            exact Bool.noConfusion this
        · have hs' : IsDirectorySeparator cfg (charAt p first) = false := by simpa using hs
          simp only [hs', Bool.false_eq_true, if_false]
          rw [ih (first + 1)]
          constructor
          · rintro ⟨i, h1, h2, h3, h4, h5⟩
            refine ⟨i, by omega, by omega, h3, h4, fun j hj1 hj2 => ?_⟩
            rcases Nat.eq_or_lt_of_le hj1 with h | h
            · subst h; simpa using hs
            · exact h5 j h hj2
          · rintro ⟨i, h1, h2, h3, h4, h5⟩
            rcases Nat.eq_or_lt_of_le h1 with h | h
            · subst h; exact absurd h4 hd
            · exact ⟨i, h, by omega, h3, h4, fun j hj1 hj2 => h5 j (by omega) hj2⟩
    · simp only [hlt, if_false, Bool.false_eq_true, false_iff]
      rintro ⟨i, h1, h2, h3, -⟩
      omega

theorem HasDrivePrefix_iff (cfg : PathConfig) (p : List Nat) :
    HasDrivePrefix cfg p 0 p.length = true ↔
      ∃ i, i < p.length ∧ charAt p i = cfg.kFilePathDriveSeparator ∧
        ∀ j, j < i → IsDirectorySeparator cfg (charAt p j) = false := by
  unfold HasDrivePrefix
  rw [HasDrivePrefixLoop_iff]
  constructor
  · rintro ⟨i, -, -, h3, h4, h5⟩
    exact ⟨i, h3, h4, fun j hj => h5 j (Nat.zero_le _) hj⟩
  · rintro ⟨i, h3, h4, h5⟩
    exact ⟨i, Nat.zero_le _, by omega, h3, h4, fun j _ hj => h5 j hj⟩

/-- C6: `isRelative` classifies paths: the empty path is relative; a path with
a drive prefix (a drive separator before any directory separator) or
beginning with a directory separator is not relative; every other path is
relative.  With the Microsoft constants, `"C:\a"` and `"\\server\vol\x"` are
not relative, `"a/b"` and `""` are. -/
theorem C6_isRelative_classifies :
    (∀ (cfg : PathConfig) (p : List Nat),
      isRelative cfg p 0 p.length = false ↔
        p ≠ [] ∧
        ((∃ i, i < p.length ∧ charAt p i = cfg.kFilePathDriveSeparator ∧
            ∀ j, j < i → IsDirectorySeparator cfg (charAt p j) = false) ∨
         IsDirectorySeparator cfg (charAt p 0) = true)) ∧
    isRelative windowsConfig (str "C:\\a") 0 (str "C:\\a").length = false ∧
    isRelative windowsConfig (str "\\\\server\\vol\\x") 0 (str "\\\\server\\vol\\x").length = false ∧
    isRelative windowsConfig (str "a/b") 0 (str "a/b").length = true ∧
    isRelative windowsConfig (str "") 0 (str "").length = true := by
  refine ⟨?_, by decide, by decide, by decide, by decide⟩
  intro cfg p
  rw [← HasDrivePrefix_iff]
  unfold isRelative
  by_cases hp : p = []
  · subst hp; simp
  · have hpos : 0 < p.length := List.length_pos.mpr hp
    have hge : ¬ (0 ≥ p.length) := by omega
    simp only [hge, if_false, gt_iff_lt, hpos, decide_True, Bool.true_and]
    cases hd : HasDrivePrefix cfg p 0 p.length <;>
      cases hs : IsDirectorySeparator cfg (charAt p 0) <;> simp [hp]

theorem GetHasTrailingSeparator_eq (cfg : PathConfig) (dst : List Nat) :
    GetHasTrailingSeparator cfg dst =
      (match dst.getLast? with
       | some c => IsDirectorySeparator cfg c
       | none => false) := by
  rcases List.eq_nil_or_concat dst with rfl | ⟨l, c, rfl⟩
  · rfl
  · simp [GetHasTrailingSeparator, charAt, List.getD]

theorem EnsureTrailingSeparator_eq (cfg : PathConfig) (dst : List Nat) :
    EnsureTrailingSeparator cfg dst = withTrailingSeparator cfg dst := by
  unfold EnsureTrailingSeparator withTrailingSeparator
  rw [GetHasTrailingSeparator_eq]
  cases h : dst.getLast? with
  | none => simp
  | some c => by_cases hc : IsDirectorySeparator cfg c = true <;> simp [hc]

/-- C7, as the claim states it, fails: appending the relative suffix `"a"` to
the empty `dst` gives `"a"`, not a separator followed by `"a"`, which is what
`EnsureTrailingSeparator` of the empty string followed by `"a"` is. -/
theorem C7_append_empty_dst_counterexample :
    append windowsConfig (str "") (str "a") = str "a" ∧
    EnsureTrailingSeparator windowsConfig (str "") ++ str "a" = str "\\a" ∧
    appendSpec windowsConfig (str "") (str "a") = str "\\a" ∧
    append windowsConfig (str "") (str "a") ≠ appendSpec windowsConfig (str "") (str "a") := by
  decide

/-- C7 (amended): `append(dst, suffix)` leaves `dst` unchanged when `suffix` is
empty; makes `dst` exactly `suffix` when `suffix` is absolute; and when
`suffix` is relative makes `dst` exactly `suffix` if `dst` is empty, and
otherwise `dst` with a trailing separator ensured, followed by `suffix`. -/
theorem C7_append_amended (cfg : PathConfig) (dst suffix : List Nat) :
    append cfg dst suffix = appendAmended cfg dst suffix := by
  unfold append appendAmended
  by_cases hs : suffix = []
  · simp [hs]
  · have hl : ¬ suffix.length = 0 := by simpa using hs
    simp only [hl, hs, if_false]
    by_cases hr : isRelative cfg suffix 0 suffix.length = true
    · by_cases hd : dst = []
      · simp [hr, hd]
      · have hd' : dst.isEmpty = false := by simpa using hd
        simp [hr, hd, hd', EnsureTrailingSeparator_eq]
    · simp [hr]


/-! ### Normalization: the write cursor never passes the read cursor -/

theorem skipDoubled_ge (cfg : PathConfig) (buf : List Nat) (last : Nat) :
    ∀ (k first : Nat), first ≤ skipDoubled cfg buf last k first := by
  intro k
  induction k with
  | zero => intro first; simp [skipDoubled]
  | succ k ih =>
    intro first
    unfold skipDoubled
    split_ifs
    · exact Nat.le_trans (Nat.le_succ _) (ih (first + 1))
    · exact Nat.le_refl _

theorem skipDoubled_le (cfg : PathConfig) (buf : List Nat) (last : Nat) :
    ∀ (k first : Nat), first ≤ last → skipDoubled cfg buf last k first ≤ last := by
  intro k
  induction k with
  | zero => intro first h; simpa [skipDoubled] using h
  | succ k ih =>
    intro first h
    unfold skipDoubled
    split_ifs with hc
    · have hlt : first < last := by
        simp only [Bool.and_eq_true, decide_eq_true_eq] at hc
        exact hc.1
      exact ih (first + 1) hlt
    · exact h

theorem rvsSkipName_le (cfg : PathConfig) (p : List Nat) (first : Nat) :
    ∀ (k last : Nat), rvsSkipName cfg p first k last ≤ last := by
  intro k
  induction k with
  | zero => intro last; simp [rvsSkipName]
  | succ k ih =>
    intro last
    unfold rvsSkipName
    split_ifs
    · exact Nat.le_trans (ih (last - 1)) (Nat.sub_le _ _)
    · exact Nat.le_refl _

theorem findComponentRvs_le (cfg : PathConfig) (p : List Nat) (first last : Nat)
    (h : first ≤ last) : findComponentRvs cfg p first last ≤ last := by
  unfold findComponentRvs
  simp only
  have h3 := rvsSkipName_le cfg p first
  split_ifs <;> first | omega | (refine Nat.le_trans (h3 _ _) ?_; omega)

theorem normCopyUNC_inv (cfg : PathConfig) (b : Bool) (last : Nat) :
    ∀ (k : Nat) (buf : List Nat) (first out : Nat), out ≤ first → first ≤ last →
      (normCopyUNC cfg b last k buf first out).1.length = buf.length ∧
      (normCopyUNC cfg b last k buf first out).2.2 ≤ (normCopyUNC cfg b last k buf first out).2.1 ∧
      (normCopyUNC cfg b last k buf first out).2.1 ≤ last := by
  intro k
  induction k with
  | zero => intro buf first out h1 h2; simp [normCopyUNC, h1, h2]
  | succ k ih =>
    intro buf first out h1 h2
    unfold normCopyUNC
    by_cases hc : (decide (first < last) && charAt buf first == 92) = true
    · rw [if_pos hc]
      have hlt : first < last := by
        simp only [Bool.and_eq_true, decide_eq_true_eq] at hc
        exact hc.1
      have := ih (buf.set out (if b then cfg.kFilePathSeparator else charAt buf first))
        (first + 1) (out + 1) (by omega) hlt
      rw [List.length_set] at this
      exact this
    · rw [if_neg hc]
      exact ⟨rfl, h1, h2⟩

theorem normCopyComponent_inv (cfg : PathConfig) (b : Bool) (last : Nat) :
    ∀ (k : Nat) (buf : List Nat) (first out : Nat), out ≤ first → first ≤ last →
      (normCopyComponent cfg b last k buf first out).1.length = buf.length ∧
      (normCopyComponent cfg b last k buf first out).2.2
        ≤ (normCopyComponent cfg b last k buf first out).2.1 ∧
      (normCopyComponent cfg b last k buf first out).2.1 ≤ last ∧
      (0 < k → first < last → first < (normCopyComponent cfg b last k buf first out).2.1) := by
  intro k
  induction k with
  | zero => intro buf first out h1 h2; simp [normCopyComponent, h1, h2]
  | succ k ih =>
    intro buf first out h1 h2
    have hrec : ∀ (buf1 : List Nat), buf1.length = buf.length → first < last →
        (normCopyComponent cfg b last k buf1 (first + 1) (out + 1)).1.length = buf.length ∧
        (normCopyComponent cfg b last k buf1 (first + 1) (out + 1)).2.2
          ≤ (normCopyComponent cfg b last k buf1 (first + 1) (out + 1)).2.1 ∧
        (normCopyComponent cfg b last k buf1 (first + 1) (out + 1)).2.1 ≤ last ∧
        first < (normCopyComponent cfg b last k buf1 (first + 1) (out + 1)).2.1 := by
      intro buf1 hb1 hlt
      have := ih buf1 (first + 1) (out + 1) (by omega) hlt
      refine ⟨by rw [this.1, hb1], this.2.1, this.2.2.1, ?_⟩
      cases k with
      | zero => simp [normCopyComponent]
      | succ k' =>
        by_cases hl2 : first + 1 < last
        · exact Nat.lt_trans (Nat.lt_succ_self _) (this.2.2.2 (Nat.succ_pos _) hl2)
        · unfold normCopyComponent
          rw [if_neg hl2]
          exact Nat.lt_succ_self _
    unfold normCopyComponent
    by_cases hlt : first < last
    · rw [if_pos hlt]
      simp only []
      by_cases hs : IsDirectorySeparator cfg (charAt buf first) = true
      · rw [if_pos hs]
        have hge := skipDoubled_ge cfg
          (buf.set out (if b then cfg.kFilePathSeparator else charAt buf first)) last
          (last - (first + 1)) (first + 1)
        have hle := skipDoubled_le cfg
          (buf.set out (if b then cfg.kFilePathSeparator else charAt buf first)) last
          (last - (first + 1)) (first + 1) hlt
        exact ⟨List.length_set _ _ _, by simp only; omega, hle, fun _ _ => by simp only; omega⟩
      · rw [if_neg hs]
        by_cases hd : (charAt buf first == cfg.kFilePathDriveSeparator) = true
        · rw [if_pos hd]
          by_cases hbr : (decide (first + 1 ≥ last) ||
              !IsDirectorySeparator cfg (charAt (buf.set out (charAt buf first)) (out + 1))) = true
          · rw [if_pos hbr]
            exact ⟨List.length_set _ _ _, by simp only; omega, hlt, fun _ _ => by simp only; omega⟩
          · rw [if_neg hbr]
            have := hrec (buf.set out (charAt buf first)) (List.length_set _ _ _) hlt
            exact ⟨this.1, this.2.1, this.2.2.1, fun _ _ => this.2.2.2⟩
        · rw [if_neg hd]
          have := hrec (buf.set out (charAt buf first)) (List.length_set _ _ _) hlt
          exact ⟨this.1, this.2.1, this.2.2.1, fun _ _ => this.2.2.2⟩
    · rw [if_neg hlt]
      exact ⟨rfl, h1, h2, fun _ h => absurd h hlt⟩


theorem normStrips_bound (cfg : PathConfig) (last : Nat) (nl : Bool) (buf : List Nat)
    (first out : Nat) (h : normStrips cfg last nl buf first out = true) : first + 2 < last := by
  unfold normStrips at h
  simp only [Bool.and_eq_true, decide_eq_true_eq] at h
  exact h.1.1.1.1.1

theorem normLoop_total (cfg : PathConfig) (b : Bool) (last : Nat) (nl : Bool) :
    ∀ (k : Nat) (buf : List Nat) (first out : Nat), out ≤ first → first ≤ last →
      last - first < k →
      ∃ r, normLoop cfg b last nl k buf first out = some r ∧ r.1.length = buf.length ∧
        r.2 ≤ last := by
  intro k
  induction k with
  | zero => intro buf first out _ _ h; omega
  | succ k ih =>
    intro buf first out h1 h2 hk
    unfold normLoop
    by_cases hlt : first < last
    · rw [if_pos hlt]
      by_cases hdot : (decide (first + 1 < last) && charAt buf first == 46
          && IsDirectorySeparator cfg (charAt buf (first + 1))) = true
      · rw [if_pos hdot]
        have hb : first + 1 < last := by
          simp only [Bool.and_eq_true, decide_eq_true_eq] at hdot
          exact hdot.1.1
        have hge := skipDoubled_ge cfg buf last (last - (first + 2)) (first + 2)
        have hle := skipDoubled_le cfg buf last (last - (first + 2)) (first + 2) hb
        exact ih buf _ out (by omega) hle (by omega)
      · rw [if_neg hdot]
        by_cases hst : normStrips cfg last nl buf first out = true
        · rw [if_pos hst]
          have hb := normStrips_bound cfg last nl buf first out hst
          have hge := skipDoubled_ge cfg buf last (last - (first + 3)) (first + 3)
          have hle := skipDoubled_le cfg buf last (last - (first + 3)) (first + 3) hb
          have hprev := findComponentRvs_le cfg buf 0 out (Nat.zero_le _)
          exact ih buf _ _ (by omega) hle (by omega)
        · rw [if_neg hst]
          simp only []
          have hinv := normCopyComponent_inv cfg b last (last - first) buf first out h1 h2
          obtain ⟨r, hr1, hr2, hr3⟩ := ih
            (normCopyComponent cfg b last (last - first) buf first out).1
            (normCopyComponent cfg b last (last - first) buf first out).2.1
            (normCopyComponent cfg b last (last - first) buf first out).2.2
            hinv.2.1 hinv.2.2.1 (by have := hinv.2.2.2 (by omega) hlt; omega)
          exact ⟨r, hr1, by rw [hr2, hinv.1], hr3⟩
    · rw [if_neg hlt]
      exact ⟨(buf, out), rfl, rfl, by simp only; omega⟩

theorem PathStringnormalize_total (cfg : PathConfig) (path : List Nat) (b : Bool) :
    ∃ r, PathStringnormalize cfg path b = some r ∧ r.length ≤ path.length := by
  unfold PathStringnormalize
  simp only []
  have hu := normCopyUNC_inv cfg b path.length path.length path 0 0 (Nat.le_refl _) (Nat.zero_le _)
  obtain ⟨r, hr1, hr2, hr3⟩ := normLoop_total cfg b path.length
    (HasUNCPrefix path 0 path.length || HasDrivePrefix cfg path 0 path.length)
    (path.length + 1)
    (normCopyUNC cfg b path.length path.length path 0 0).1
    (normCopyUNC cfg b path.length path.length path 0 0).2.1
    (normCopyUNC cfg b path.length path.length path 0 0).2.2
    hu.2.1 hu.2.2 (by omega)
  refine ⟨r.1.take r.2, ?_, ?_⟩
  · rw [hr1]; rfl
  · rw [List.length_take]; omega

/-- C1 (the code at the failing input): normalizing `".//c:./x"` gives
`"c:.\x"`, and normalizing that again gives `"c:x"`; the first pass keeps the
`"./"` after the drive separator because the test that follows the drive
separator reads `*out`, a stale character of the buffer, where the comment
says "the next char". -/
theorem C1_normalize_twice_differs :
    normalize windowsConfig (str ".//c:./x") = some (str "c:.\\x") ∧
    normalize windowsConfig (str "c:.\\x") = some (str "c:x") ∧
    (normalize windowsConfig (str ".//c:./x")).bind (normalize windowsConfig)
      ≠ normalize windowsConfig (str ".//c:./x") := by
  decide
/-! ### The component walk of `IsSubdirectory` and `ComputeRelative` -/

/-- C3 (the code at the failing input): `IsSubdirectory("/a/b/", "/a/b/c/d")`
is false, with either set of separator constants: the first range of `dir`
is `"/"`, the first range of `sub` (cut by `findComponentRvs`) is `"/a/b/c/"`,
and the two compare unequal.  `IsSubdirectory("/a/b/", "/a/c/")` is false as
well. -/
theorem C3_IsSubdirectory_rejects_subdirectory :
    IsSubdirectory windowsConfig (str "/a/b/") (str "/a/b/c/d") = some false ∧
    IsSubdirectory slashConfig (str "/a/b/") (str "/a/b/c/d") = some false ∧
    findComponentFwd windowsConfig (str "/a/b/") 0 5 = 1 ∧
    findComponentRvs windowsConfig (str "/a/b/c/d") 0 8 = 7 ∧
    IsSubdirectory windowsConfig (str "/a/b/") (str "/a/c/") = some false := by
  decide

/-- C4, as the claim states it, fails: for source `"/a/b/c/"` and target
`"/a/b/x/y"`, `ComputeRelative` yields the target itself, not `"../x/y"` (nor
`"..\x\y"`). -/
theorem C4_ComputeRelative_counterexample :
    ComputeRelative windowsConfig (str "/a/b/c/") (str "/a/b/x/y") = some (str "/a/b/x/y") ∧
    ComputeRelative slashConfig (str "/a/b/c/") (str "/a/b/x/y") = some (str "/a/b/x/y") ∧
    ComputeRelative windowsConfig (str "/a/b/c/") (str "/a/b/x/y") ≠ some (str "../x/y") ∧
    ComputeRelative windowsConfig (str "/a/b/c/") (str "/a/b/x/y") ≠ some (str "..\\x\\y") ∧
    ComputeRelative slashConfig (str "/a/b/c/") (str "/a/b/x/y") ≠ some (str "../x/y") := by
  decide


theorem fwdSkipName_ge (cfg : PathConfig) (p : List Nat) (last : Nat) :
    ∀ (k first : Nat), first ≤ fwdSkipName cfg p last k first := by
  intro k
  induction k with
  | zero => intro first; simp [fwdSkipName]
  | succ k ih =>
    intro first
    unfold fwdSkipName
    split_ifs
    · exact Nat.le_succ _
    · exact Nat.le_trans (Nat.le_succ _) (ih (first + 1))
    · exact Nat.le_refl _

theorem findComponentFwd_gt (cfg : PathConfig) (p : List Nat) (first last : Nat)
    (h : first < last) : first < findComponentFwd cfg p first last := by
  unfold findComponentFwd
  simp only []
  by_cases hu : HasUNCPrefix p first last = true
  · rw [if_pos hu]
    have := fwdSkipName_ge cfg p last (last - (first + 2)) (first + 2)
    split_ifs <;> omega
  · rw [if_neg hu]
    obtain ⟨k, hk⟩ : ∃ k, last - first = k + 1 := ⟨last - first - 1, by omega⟩
    rw [hk]
    by_cases hs : IsDirectorySeparator cfg (charAt p first) = true
    · have h0 : fwdSkipName cfg p last (k + 1) first = first := by
        unfold fwdSkipName
        simp [hs]
      rw [h0]
      simp [h, hs]
    · have h1 : first < fwdSkipName cfg p last (k + 1) first := by
        unfold fwdSkipName
        have hc : (decide (first < last) && !IsDirectorySeparator cfg (charAt p first)) = true := by
          simp [h, hs]
        rw [if_pos hc]
        have := fwdSkipName_ge cfg p last k (first + 1)
        split_ifs <;> omega
      split_ifs <;> omega

theorem findComponentRvs_lt (cfg : PathConfig) (p : List Nat) (first last : Nat)
    (h : first < last) : findComponentRvs cfg p first last < last := by
  unfold findComponentRvs
  simp only []
  by_cases hs : IsDirectorySeparator cfg (charAt p (last - 1)) = true
  · have hc : (decide (last > first) && IsDirectorySeparator cfg (charAt p (last - 1))) = true := by
      simp [h, hs]
    rw [if_pos hc]
    have h3 := rvsSkipName_le cfg p first
    split_ifs <;> first | omega | (refine Nat.lt_of_le_of_lt (h3 _ _) ?_; omega)
  · have hc : ¬ (decide (last > first) && IsDirectorySeparator cfg (charAt p (last - 1))) = true := by
      simp [hs]
    rw [if_neg hc]
    by_cases hd : (charAt p (last - 1) == cfg.kFilePathDriveSeparator) = true
    · have hc2 : (decide (last > first) && charAt p (last - 1) == cfg.kFilePathDriveSeparator)
          = true := by simp [h, hd]
      rw [if_pos hc2]
      have h3 := rvsSkipName_le cfg p first
      split_ifs <;> first | omega | (refine Nat.lt_of_le_of_lt (h3 _ _) ?_; omega)
    · have hc2 : ¬ (decide (last > first) && charAt p (last - 1) == cfg.kFilePathDriveSeparator)
          = true := by simp [hd]
      rw [if_neg hc2]
      obtain ⟨k, hk⟩ : ∃ k, last - first = k + 1 := ⟨last - first - 1, by omega⟩
      rw [hk]
      have h1 : rvsSkipName cfg p first (k + 1) last < last := by
        unfold rvsSkipName
        have hc3 : (decide (last > first) && !IsDirectorySeparator cfg (charAt p (last - 1))
            && charAt p (last - 1) != cfg.kFilePathDriveSeparator) = true := by
          simp only [Bool.and_eq_true, decide_eq_true_eq, Bool.not_eq_true', bne_iff_ne, ne_eq]
          refine ⟨⟨h, by simpa using hs⟩, by simpa using hd⟩
        rw [if_pos hc3]
        have := rvsSkipName_le cfg p first k (last - 1)
        omega
      split_ifs <;> omega

theorem compareLoop_total (cfg : PathConfig) (pa : List Nat) (a_end : Nat) (pb : List Nat)
    (b_end : Nat) :
    ∀ (k a b : Nat), a_end - a < k → ∃ r, compareLoop cfg pa a_end pb b_end k a b = some r := by
  intro k
  induction k with
  | zero => intro a b h; omega
  | succ k ih =>
    intro a b h
    unfold compareLoop
    by_cases ha : a ≥ a_end
    · rw [if_pos ha]
      split_ifs <;> exact ⟨_, rfl⟩
    · rw [if_neg ha]
      have hrec := ih (a + 1) (b + 1) (by omega)
      split_ifs <;> first | exact ⟨_, rfl⟩ | exact hrec

theorem matchWalk_total (cfg : PathConfig) (a b : List Nat) :
    ∀ (k a_first b_first : Nat), a.length - a_first < k → b_first < b.length →
      ∃ st, matchWalk cfg a b k a_first b_first = some st ∧ st.2 < b.length := by
  intro k
  induction k with
  | zero => intro a_first b_first h; omega
  | succ k ih =>
    intro a_first b_first h hb
    unfold matchWalk
    by_cases hc : (decide (a_first < a.length) && decide (b_first < b.length)) = true
    · rw [if_pos hc]
      simp only []
      have ha : a_first < a.length := by
        simp only [Bool.and_eq_true, decide_eq_true_eq] at hc
        exact hc.1
      obtain ⟨r, hr⟩ := compareLoop_total cfg a (findComponentFwd cfg a a_first a.length) b
        (findComponentRvs cfg b b_first b.length)
        (findComponentFwd cfg a a_first a.length - a_first + 1) a_first b_first (by omega)
      unfold compareRange
      rw [hr]
      simp only []
      by_cases hres : r ≠ 0
      · rw [if_pos hres]
        exact ⟨_, rfl, hb⟩
      · rw [if_neg hres]
        have hfwd := findComponentFwd_gt cfg a a_first a.length ha
        have hrvs := findComponentRvs_lt cfg b b_first b.length hb
        exact ih _ _ (by omega) hrvs
    · rw [if_neg hc]
      exact ⟨_, rfl, hb⟩

theorem isRelative_false_length_pos (cfg : PathConfig) (p : List Nat)
    (h : isRelative cfg p 0 p.length = false) : 0 < p.length := by
  rcases Nat.eq_zero_or_pos p.length with h0 | h0
  · unfold isRelative at h
    rw [if_pos (by omega)] at h
    exact Bool.noConfusion h
  · exact h0

theorem append_absolute (cfg : PathConfig) (dst suffix : List Nat)
    (h : isRelative cfg suffix 0 suffix.length = false) : append cfg dst suffix = suffix := by
  have hpos := isRelative_false_length_pos cfg suffix h
  unfold append
  rw [if_neg (by omega)]
  simp [h]

/-- After `append` with an empty suffix `join` normalizes `dst` alone: the
round trip of `ComputeRelative` also holds for the empty result that the
comment "If both were equal, then we're done" announces for equal paths. -/
theorem join_empty_suffix (cfg : PathConfig) (dst : List Nat) :
    join cfg dst [] = normalize cfg dst := by
  unfold join append
  simp

/-- C4 (amended): for an absolute target and a source that is not the same
path (`compare` of the two whole texts is not 0: they differ in more than the
kind of their separators), `ComputeRelative(source, target)` returns (the
loops end) the target itself; and for every source, joining the source with
the result gives `normalize(target)`, which is defined. -/
theorem C4_ComputeRelative_absolute_target (cfg : PathConfig) (source target : List Nat)
    (h : isRelative cfg target 0 target.length = false) :
    (compareRange cfg source 0 source.length target 0 target.length ≠ some 0 →
      ComputeRelative cfg source target = some target) ∧
    (ComputeRelative cfg source target).bind (join cfg source) = normalize cfg target ∧
    ∃ r, normalize cfg target = some r := by
  have hpos := isRelative_false_length_pos cfg target h
  obtain ⟨st, hst, hlt⟩ := matchWalk_total cfg source target (source.length + 1) 0 0
    (by omega) hpos
  have hcr : ComputeRelative cfg source target = some target := by
    unfold ComputeRelative
    rw [hst]
    obtain ⟨sf, tf⟩ := st
    simp only [] at hlt ⊢
    have hne : (sf == source.length && tf == target.length) = false := by
      have : tf ≠ target.length := by omega
      simp [this]
    simp [hne, h]
  refine ⟨fun _ => hcr, ?_, ?_⟩
  · rw [hcr]
    simp only [Option.some_bind]
    unfold join
    rw [append_absolute cfg source target h]
  · obtain ⟨r, hr, -⟩ := PathStringnormalize_total cfg target true
    exact ⟨r, hr⟩

/-- C4 (amended) at source `"/a/b/c/"` and target `"/a/b/x/y"`. -/
theorem C4_ComputeRelative_absolute_target_witness :
    isRelative windowsConfig (str "/a/b/x/y") 0 (str "/a/b/x/y").length = false ∧
    compareRange windowsConfig (str "/a/b/c/") 0 (str "/a/b/c/").length
      (str "/a/b/x/y") 0 (str "/a/b/x/y").length ≠ some 0 ∧
    ComputeRelative windowsConfig (str "/a/b/c/") (str "/a/b/x/y") = some (str "/a/b/x/y") ∧
    (ComputeRelative windowsConfig (str "/a/b/c/") (str "/a/b/x/y")).bind
        (join windowsConfig (str "/a/b/c/"))
      = normalize windowsConfig (str "/a/b/x/y") :=
  ⟨by decide, by decide,
   (C4_ComputeRelative_absolute_target windowsConfig (str "/a/b/c/") (str "/a/b/x/y")
      (by decide)).1 (by decide),
   (C4_ComputeRelative_absolute_target windowsConfig (str "/a/b/c/") (str "/a/b/x/y")
      (by decide)).2.1⟩

/-! ### The boundaries used by `split` -/

/-- C5 (the code at the failing input): for the path `":x"` the boundaries are
out of order, `getLocalRoot = 2 > getFileName = 1`, so `split` is handed the
ill-formed range `[2, 1)` for the directory; for `":"` the local root, 2, lies
past the end of the string.  `getLocalRoot` answers `first + 2` for every
path in which `HasDrivePrefix` finds a drive separator, wherever it found it. -/
theorem C5_split_boundaries_out_of_order :
    getLocalRoot windowsConfig (str ":x") 0 (str ":x").length = 2 ∧
    getFileName windowsConfig (str ":x") 0 (str ":x").length = 1 ∧
    getFileExtension windowsConfig (str ":x") 0 (str ":x").length = 2 ∧
    split windowsConfig (str ":x") = none ∧
    getLocalRoot windowsConfig (str ":") 0 (str ":").length = 2 ∧
    (str ":").length = 1 ∧
    split windowsConfig (str "C:\\dir\\name.ext")
      = some (str "C:", str "\\dir\\", str "name", str ".ext") := by
  decide

/-! ### Component walks: `compare` and `getPathComponentStart` -/

/-- C17 (the code at the failing input): path-level `compare("a", "a")` is -1,
not 0, and so is `compare("a/b", "a/b")`; only the empty path compares equal
to itself.  The loop cuts `b` with `findComponentRvs(b_first, b.end())`, so
the first range of `b` is the text before its last component (empty for
`"a"`), which the range compare finds shorter than the first component of `a`. -/
theorem C17_compare_self_not_zero :
    compare windowsConfig (str "a") (str "a") = some (-1) ∧
    compare slashConfig (str "a") (str "a") = some (-1) ∧
    compare windowsConfig (str "a/b") (str "a/b") = some (-1) ∧
    compare windowsConfig (str "a/b") (str "a\\b") = some (-1) ∧
    findComponentFwd windowsConfig (str "a") 0 1 = 1 ∧
    findComponentRvs windowsConfig (str "a") 0 1 = 0 ∧
    compareRange windowsConfig (str "a") 0 1 (str "a") 0 0 = some (-1) ∧
    compare windowsConfig (str "") (str "") = some 0 := by
  decide

/-- C14 (the code at the failing input): for `"//a"` the forward walk takes three
`findComponentFwd` steps (`0, 1, 2, 3`), yet one reverse step already reaches
the start: `getPathComponentStart(p, -1) = begin`.  For the UNC prefix alone,
two backslashes, the forward walk takes one step, yet
`getPathComponentStart(p, -1)` stops one character after the start.
`findComponentFwd` recognises a UNC prefix by `HasUNCPrefix` (two
backslashes, at any `first`), `findComponentRvs` by two directory separators
of any kind at the very start and only when the scan stops right after them. -/
theorem C14_component_counts_disagree :
    findComponentFwd windowsConfig (str "//a") 0 3 = 1 ∧
    findComponentFwd windowsConfig (str "//a") 1 3 = 2 ∧
    findComponentFwd windowsConfig (str "//a") 2 3 = 3 ∧
    getPathComponentStart windowsConfig (str "//a") 0 3 2 = 2 ∧
    getPathComponentStart windowsConfig (str "//a") 0 3 3 = 3 ∧
    getPathComponentStart windowsConfig (str "//a") 0 3 (-1) = 0 ∧
    getPathComponentStart slashConfig (str "//a") 0 3 3 = 3 ∧
    getPathComponentStart slashConfig (str "//a") 0 3 2 = 2 ∧
    getPathComponentStart slashConfig (str "//a") 0 3 (-1) = 0 ∧
    findComponentFwd windowsConfig (str "\\\\") 0 2 = 2 ∧
    getPathComponentStart windowsConfig (str "\\\\") 0 2 (-1) = 1 ∧
    getPathComponentStart windowsConfig (str "\\\\") 0 2 (-2) = 0 := by
  decide

/-! ### Path validity -/

/-- C11 (the code at the failing input): on a Windows file system the path
`"C:\con "` (the component is `con` followed by a space) is accepted by
`isFilePathStringValid`, although `isFileNameStringValid` rejects its only
component: the path-level reserved-word test compares the lower-cased,
dot-cut component without the `rtrim` that the file-name test applies first. -/
theorem C11_path_accepts_reserved_component :
    isFilePathStringValid windowsConfig 64 260 256 (str "C:\\con ") kFileSystemWindows = some true ∧
    GetNextPathComponent windowsConfig (str "C:\\con ") 3 = some (str "con ", 7) ∧
    GetNextPathComponent windowsConfig (str "C:\\con ") 7 = none ∧
    isFileNameStringValid 256 (str "con ") kFileSystemWindows = false ∧
    isFilePathStringValid windowsConfig 32 260 256 (str "C:\\con ") kFileSystemNTFS = some true ∧
    isFileNameStringValid 256 (str "con ") kFileSystemNTFS = false ∧
    isFilePathStringValid windowsConfig 64 260 256 (str "C:\\con") kFileSystemWindows = some false := by
  decide


/-! ### File name and extension -/

theorem rvsSkipName_spec (cfg : PathConfig) (p : List Nat) (first : Nat) :
    ∀ (k n : Nat), first ≤ n → n - first ≤ k →
      first ≤ rvsSkipName cfg p first k n ∧ rvsSkipName cfg p first k n ≤ n ∧
      (∀ j, rvsSkipName cfg p first k n ≤ j → j < n → isNameChar cfg (charAt p j) = true) ∧
      (rvsSkipName cfg p first k n = first ∨
        isNameChar cfg (charAt p (rvsSkipName cfg p first k n - 1)) = false) := by
  intro k
  induction k with
  | zero =>
    intro n h1 h2
    have : n = first := by omega
    subst this
    have e : rvsSkipName cfg p n 0 n = n := rfl
    rw [e]
    exact ⟨Nat.le_refl _, Nat.le_refl _, fun j hj1 hj2 => by omega, Or.inl rfl⟩
  | succ k ih =>
    intro n h1 h2
    unfold rvsSkipName
    by_cases hc : (decide (n > first) && !IsDirectorySeparator cfg (charAt p (n - 1))
        && charAt p (n - 1) != cfg.kFilePathDriveSeparator) = true
    · rw [if_pos hc]
      have hn : n > first := by
        simp only [Bool.and_eq_true, decide_eq_true_eq] at hc
        exact hc.1.1
      have hg : isNameChar cfg (charAt p (n - 1)) = true := by
        simp only [Bool.and_eq_true, decide_eq_true_eq] at hc
        simp only [isNameChar, Bool.and_eq_true]
        exact ⟨hc.1.2, hc.2⟩
      obtain ⟨i1, i2, i3, i4⟩ := ih (n - 1) (by omega) (by omega)
      refine ⟨i1, by omega, fun j hj1 hj2 => ?_, i4⟩
      rcases Nat.lt_or_ge j (n - 1) with hlt | hge
      · exact i3 j hj1 hlt
      · have : j = n - 1 := by omega
        rw [this]; exact hg
    · rw [if_neg hc]
      refine ⟨h1, Nat.le_refl _, fun j hj1 hj2 => by omega, ?_⟩
      rcases Nat.eq_or_lt_of_le h1 with heq | hlt
      · left; exact heq.symm
      · right
        have hd : decide (n > first) = true := by simpa using hlt
        rw [hd, Bool.true_and] at hc
        simpa [isNameChar] using hc

/-- C15: `getFileName` returns `last` when the path ends in a directory
separator; otherwise, with `f` the start of the longest suffix that contains
no directory separator and no drive separator, it returns `f`, except that it
returns `last` when `f` is 2 and the path has a UNC prefix (the suffix is the
server name). -/
theorem C15_getFileName_spec (cfg : PathConfig) (p : List Nat) :
    ∃ f, f ≤ p.length ∧
      (∀ j, f ≤ j → j < p.length → isNameChar cfg (charAt p j) = true) ∧
      (f = 0 ∨ isNameChar cfg (charAt p (f - 1)) = false) ∧
      getFileName cfg p 0 p.length =
        if 0 < p.length ∧ IsDirectorySeparator cfg (charAt p (p.length - 1)) = true then p.length
        else if f = 2 ∧ HasUNCPrefix p 0 p.length = true then p.length
        else f := by
  obtain ⟨-, h2, h3, h4⟩ := rvsSkipName_spec cfg p 0 (p.length - 0) p.length (Nat.zero_le _)
    (Nat.le_refl _)
  refine ⟨rvsSkipName cfg p 0 (p.length - 0) p.length, h2, h3, h4, ?_⟩
  unfold getFileName
  by_cases hs : 0 < p.length ∧ IsDirectorySeparator cfg (charAt p (p.length - 1)) = true
  · rw [if_pos hs]
    have : (decide (0 < p.length) && IsDirectorySeparator cfg (charAt p (p.length - 1))) = true := by
      simp [hs.1, hs.2]
    rw [if_pos this]
  · rw [if_neg hs]
    have : ¬ (decide (0 < p.length) && IsDirectorySeparator cfg (charAt p (p.length - 1))) = true := by
      simpa using hs
    rw [if_neg this]
    simp only [Nat.zero_add, Bool.and_eq_true, beq_iff_eq]


theorem getFileExtensionLoop_spec (cfg : PathConfig) (p : List Nat) (first last : Nat) :
    ∀ (k it1 : Nat), first ≤ it1 → it1 ≤ last → it1 - first ≤ k →
      (getFileExtensionLoop cfg p first last k it1 < it1 ∧
        first ≤ getFileExtensionLoop cfg p first last k it1 ∧
        charAt p (getFileExtensionLoop cfg p first last k it1) = 46 ∧
        (∀ j, getFileExtensionLoop cfg p first last k it1 ≤ j → j < it1 →
          isNameChar cfg (charAt p j) = true) ∧
        (∀ j, getFileExtensionLoop cfg p first last k it1 < j → j < it1 → charAt p j ≠ 46))
      ∨
      (getFileExtensionLoop cfg p first last k it1 = last ∧
        ((∃ s, first ≤ s ∧ s < it1 ∧ isNameChar cfg (charAt p s) = false ∧
            ∀ j, s < j → j < it1 → isNameChar cfg (charAt p j) = true ∧ charAt p j ≠ 46)
          ∨ (∀ j, first ≤ j → j < it1 → isNameChar cfg (charAt p j) = true ∧ charAt p j ≠ 46))) := by
  intro k
  induction k with
  | zero =>
    intro it1 h1 h2 h3
    right
    have e : getFileExtensionLoop cfg p first last 0 it1 = last := rfl
    exact ⟨e, Or.inr (fun j hj1 hj2 => by omega)⟩
  | succ k ih =>
    intro it1 h1 h2 h3
    unfold getFileExtensionLoop
    by_cases hgt : it1 > first
    · rw [if_pos hgt]
      simp only []
      by_cases hbad : (IsDirectorySeparator cfg (charAt p (it1 - 1))
          || charAt p (it1 - 1) == cfg.kFilePathDriveSeparator) = true
      · rw [if_pos hbad]
        right
        refine ⟨rfl, Or.inl ⟨it1 - 1, by omega, by omega, ?_, fun j hj1 hj2 => by omega⟩⟩
        simp only [Bool.or_eq_true, beq_iff_eq] at hbad
        rcases hbad with hb | hb
        · simp [isNameChar, hb]
        · simp [isNameChar, hb]
      · rw [if_neg hbad]
        have hgood : isNameChar cfg (charAt p (it1 - 1)) = true := by
          simp only [Bool.or_eq_true, beq_iff_eq, not_or] at hbad
          simp only [isNameChar, Bool.and_eq_true, Bool.not_eq_true', bne_iff_ne, ne_eq]
          exact ⟨by simpa using hbad.1, hbad.2⟩
        by_cases hdot : (charAt p (it1 - 1) == 46) = true
        · rw [if_pos hdot]
          left
          refine ⟨by omega, by omega, by simpa using hdot, fun j hj1 hj2 => ?_,
            fun j hj1 hj2 => by omega⟩
          have : j = it1 - 1 := by omega
          rw [this]; exact hgood
        · rw [if_neg hdot]
          have hnd : charAt p (it1 - 1) ≠ 46 := by simpa using hdot
          rcases ih (it1 - 1) (by omega) (by omega) (by omega) with ⟨a1, a2, a3, a4, a5⟩ | ⟨b1, b2⟩
          · left
            refine ⟨by omega, a2, a3, fun j hj1 hj2 => ?_, fun j hj1 hj2 => ?_⟩
            · rcases Nat.lt_or_ge j (it1 - 1) with hlt | hge
              · exact a4 j hj1 hlt
              · have : j = it1 - 1 := by omega
                rw [this]; exact hgood
            · rcases Nat.lt_or_ge j (it1 - 1) with hlt | hge
              · exact a5 j hj1 hlt
              · have : j = it1 - 1 := by omega
                rw [this]; exact hnd
          · right
            refine ⟨b1, ?_⟩
            rcases b2 with ⟨s, s1, s2, s3, s4⟩ | b3
            · left
              refine ⟨s, s1, by omega, s3, fun j hj1 hj2 => ?_⟩
              rcases Nat.lt_or_ge j (it1 - 1) with hlt | hge
              · exact s4 j hj1 hlt
              · have : j = it1 - 1 := by omega
                rw [this]; exact ⟨hgood, hnd⟩
            · right
              intro j hj1 hj2
              rcases Nat.lt_or_ge j (it1 - 1) with hlt | hge
              · exact b3 j hj1 hlt
              · have : j = it1 - 1 := by omega
                rw [this]; exact ⟨hgood, hnd⟩
    · rw [if_neg hgt]
      right
      exact ⟨rfl, Or.inr (fun j hj1 hj2 => by omega)⟩

theorem fwdSkipName_spec (cfg : PathConfig) (p : List Nat) (last : Nat) :
    ∀ (k first : Nat), first ≤ last → last - first ≤ k →
      first ≤ fwdSkipName cfg p last k first ∧ fwdSkipName cfg p last k first ≤ last ∧
      ((first < fwdSkipName cfg p last k first ∧
          charAt p (fwdSkipName cfg p last k first - 1) = cfg.kFilePathDriveSeparator)
        ∨ (fwdSkipName cfg p last k first < last ∧
            IsDirectorySeparator cfg (charAt p (fwdSkipName cfg p last k first)) = true)
        ∨ (fwdSkipName cfg p last k first = last ∧
            ∀ j, first ≤ j → j < last → isNameChar cfg (charAt p j) = true)) := by
  intro k
  induction k with
  | zero =>
    intro first h1 h2
    have e : fwdSkipName cfg p last 0 first = first := rfl
    rw [e]
    exact ⟨Nat.le_refl _, h1, Or.inr (Or.inr ⟨by omega, fun j hj1 hj2 => by omega⟩)⟩
  | succ k ih =>
    intro first h1 h2
    unfold fwdSkipName
    by_cases hc : (decide (first < last) && !IsDirectorySeparator cfg (charAt p first)) = true
    · rw [if_pos hc]
      have hlt : first < last := by
        simp only [Bool.and_eq_true, decide_eq_true_eq] at hc
        exact hc.1
      have hns : IsDirectorySeparator cfg (charAt p first) = false := by
        simp only [Bool.and_eq_true, decide_eq_true_eq, Bool.not_eq_true'] at hc
        exact hc.2
      by_cases hd : (charAt p first == cfg.kFilePathDriveSeparator) = true
      · rw [if_pos hd]
        refine ⟨by omega, by omega, Or.inl ⟨by omega, ?_⟩⟩
        simpa using hd
      · rw [if_neg hd]
        obtain ⟨i1, i2, i3⟩ := ih (first + 1) (by omega) (by omega)
        refine ⟨by omega, i2, ?_⟩
        rcases i3 with ⟨a1, a2⟩ | ⟨b1, b2⟩ | ⟨c1, c2⟩
        · exact Or.inl ⟨by omega, a2⟩
        · exact Or.inr (Or.inl ⟨b1, b2⟩)
        · refine Or.inr (Or.inr ⟨c1, fun j hj1 hj2 => ?_⟩)
          rcases Nat.eq_or_lt_of_le hj1 with heq | hlt2
          · rw [← heq]
            simp only [isNameChar, Bool.and_eq_true, Bool.not_eq_true', bne_iff_ne, ne_eq]
            exact ⟨hns, by simpa using hd⟩
          · exact c2 j hlt2 hj2
    · rw [if_neg hc]
      refine ⟨Nat.le_refl _, h1, ?_⟩
      rcases Nat.eq_or_lt_of_le h1 with heq | hlt
      · exact Or.inr (Or.inr ⟨heq, fun j hj1 hj2 => by omega⟩)
      · refine Or.inr (Or.inl ⟨hlt, ?_⟩)
        have hd : decide (first < last) = true := by simpa using hlt
        rw [hd, Bool.true_and] at hc
        simpa using hc


theorem findComponentFwd_unc_spec (cfg : PathConfig) (p : List Nat)
    (hu : HasUNCPrefix p 0 p.length = true) :
    2 ≤ findComponentFwd cfg p 0 p.length ∧ findComponentFwd cfg p 0 p.length ≤ p.length ∧
    ((3 ≤ findComponentFwd cfg p 0 p.length ∧
        isNameChar cfg (charAt p (findComponentFwd cfg p 0 p.length - 1)) = false)
      ∨ (findComponentFwd cfg p 0 p.length = p.length ∧
          ∀ j, 2 ≤ j → j < p.length → isNameChar cfg (charAt p j) = true)) := by
  have hlen : 2 ≤ p.length := by
    unfold HasUNCPrefix at hu
    simp only [Bool.and_eq_true, decide_eq_true_eq] at hu
    omega
  obtain ⟨s1, s2, s3⟩ := fwdSkipName_spec cfg p p.length (p.length - (0 + 2)) (0 + 2)
    (by omega) (Nat.le_refl _)
  unfold findComponentFwd
  simp only []
  rw [if_pos hu]
  by_cases hc : (decide (fwdSkipName cfg p p.length (p.length - (0 + 2)) (0 + 2) < p.length)
      && IsDirectorySeparator cfg
        (charAt p (fwdSkipName cfg p p.length (p.length - (0 + 2)) (0 + 2)))) = true
  · rw [if_pos hc]
    simp only [Bool.and_eq_true, decide_eq_true_eq] at hc
    refine ⟨by omega, by omega, Or.inl ⟨by omega, ?_⟩⟩
    simp [isNameChar, hc.2]
  · rw [if_neg hc]
    refine ⟨by omega, s2, ?_⟩
    rcases s3 with ⟨a1, a2⟩ | ⟨b1, b2⟩ | ⟨c1, c2⟩
    · exact Or.inl ⟨by omega, by simp [isNameChar, a2]⟩
    · exfalso; apply hc; simp [b1, b2]
    · exact Or.inr ⟨c1, fun j hj1 hj2 => c2 j (by omega) hj2⟩

theorem extension_core (cfg : PathConfig) (p : List Nat) (f fn first1 e : Nat)
    (r1 : f ≤ p.length)
    (r2 : ∀ j, f ≤ j → j < p.length → isNameChar cfg (charAt p j) = true)
    (r3 : f = 0 ∨ isNameChar cfg (charAt p (f - 1)) = false)
    (hx : (first1 ≤ f ∧ fn = f) ∨ (first1 = p.length ∧ fn = p.length))
    (he : (e < p.length ∧ first1 ≤ e ∧ charAt p e = 46 ∧
            (∀ j, e ≤ j → j < p.length → isNameChar cfg (charAt p j) = true) ∧
            (∀ j, e < j → j < p.length → charAt p j ≠ 46))
          ∨ (e = p.length ∧
            ((∃ s, first1 ≤ s ∧ s < p.length ∧ isNameChar cfg (charAt p s) = false ∧
                ∀ j, s < j → j < p.length → isNameChar cfg (charAt p j) = true ∧ charAt p j ≠ 46)
              ∨ (∀ j, first1 ≤ j → j < p.length →
                  isNameChar cfg (charAt p j) = true ∧ charAt p j ≠ 46)))) :
    fn ≤ e ∧ e ≤ p.length ∧
    (e < p.length → charAt p e = 46 ∧ ∀ j, e < j → j < p.length → charAt p j ≠ 46) ∧
    (e = p.length ↔ ∀ j, fn ≤ j → j < p.length → charAt p j ≠ 46) := by
  rcases hx with ⟨x1, x2⟩ | ⟨x1, x2⟩
  · subst x2
    rcases he with ⟨a1, a2, a3, a4, a5⟩ | ⟨b1, b2⟩
    · have hfe : fn ≤ e := by
        rcases r3 with r0 | r0
        · omega
        · by_contra hcon
          have := a4 (fn - 1) (by omega) (by omega)
          rw [r0] at this
          exact Bool.noConfusion this
      refine ⟨hfe, by omega, fun _ => ⟨a3, a5⟩, ?_⟩
      constructor
      · intro h; omega
      · intro h; exact absurd a3 (h e hfe a1)
    · subst b1
      refine ⟨r1, Nat.le_refl _, fun h => by omega, ?_⟩
      constructor
      · intro _ j hj1 hj2
        rcases b2 with ⟨s, s1, s2, s3, s4⟩ | b3
        · have hsj : s < j := by
            by_contra hcon
            have := r2 s (by omega) s2
            rw [s3] at this
            exact Bool.noConfusion this
          exact (s4 j hsj hj2).2
        · exact (b3 j (by omega) hj2).2
      · intro _; rfl
  · subst x2
    rcases he with ⟨a1, a2, a3, a4, a5⟩ | ⟨b1, b2⟩
    · omega
    · subst b1
      refine ⟨Nat.le_refl _, Nat.le_refl _, fun h => by omega, ?_⟩
      constructor
      · intro _ j hj1 hj2; omega
      · intro _; rfl

/-- C16: on a platform where the backslash is a directory separator,
`getFileExtension` lies in `[getFileName(p), last]`; when it is below `last`
it is the position of a `'.'` with no `'.'` after it; and it is `last` exactly
when the file-name component `[getFileName(p), last)` contains no `'.'`, in
particular when the path ends in a directory separator. -/
theorem C16_getFileExtension_spec (cfg : PathConfig) (p : List Nat)
    (hbs : IsDirectorySeparator cfg 92 = true) :
    getFileName cfg p 0 p.length ≤ getFileExtension cfg p 0 p.length ∧
    getFileExtension cfg p 0 p.length ≤ p.length ∧
    (getFileExtension cfg p 0 p.length < p.length →
      charAt p (getFileExtension cfg p 0 p.length) = 46 ∧
      ∀ j, getFileExtension cfg p 0 p.length < j → j < p.length → charAt p j ≠ 46) ∧
    (getFileExtension cfg p 0 p.length = p.length ↔
      ∀ j, getFileName cfg p 0 p.length ≤ j → j < p.length → charAt p j ≠ 46) ∧
    (0 < p.length ∧ IsDirectorySeparator cfg (charAt p (p.length - 1)) = true →
      getFileExtension cfg p 0 p.length = p.length) := by
  by_cases hs : (decide (0 < p.length) && IsDirectorySeparator cfg (charAt p (p.length - 1))) = true
  · have e1 : getFileName cfg p 0 p.length = p.length := by
      unfold getFileName; rw [if_pos hs]
    have e2 : getFileExtension cfg p 0 p.length = p.length := by
      unfold getFileExtension; rw [if_pos hs]
    rw [e1, e2]
    refine ⟨Nat.le_refl _, Nat.le_refl _, fun h => by omega, ?_, fun _ => rfl⟩
    exact ⟨fun _ j hj1 hj2 => by omega, fun _ => rfl⟩
  · obtain ⟨-, r1, r2, r3⟩ := rvsSkipName_spec cfg p 0 (p.length - 0) p.length (Nat.zero_le _)
      (Nat.le_refl _)
    have e1 : getFileName cfg p 0 p.length =
        if (rvsSkipName cfg p 0 (p.length - 0) p.length == 0 + 2 && HasUNCPrefix p 0 p.length) = true
          then p.length else rvsSkipName cfg p 0 (p.length - 0) p.length := by
      unfold getFileName; rw [if_neg hs]
    have hcore : ∀ first1, first1 ≤ p.length →
        ((first1 ≤ rvsSkipName cfg p 0 (p.length - 0) p.length ∧
            getFileName cfg p 0 p.length = rvsSkipName cfg p 0 (p.length - 0) p.length)
          ∨ (first1 = p.length ∧ getFileName cfg p 0 p.length = p.length)) →
        getFileName cfg p 0 p.length ≤ getFileExtensionLoop cfg p first1 p.length
            (p.length - first1) p.length ∧
        getFileExtensionLoop cfg p first1 p.length (p.length - first1) p.length ≤ p.length ∧
        (getFileExtensionLoop cfg p first1 p.length (p.length - first1) p.length < p.length →
          charAt p (getFileExtensionLoop cfg p first1 p.length (p.length - first1) p.length) = 46 ∧
          ∀ j, getFileExtensionLoop cfg p first1 p.length (p.length - first1) p.length < j →
            j < p.length → charAt p j ≠ 46) ∧
        (getFileExtensionLoop cfg p first1 p.length (p.length - first1) p.length = p.length ↔
          ∀ j, getFileName cfg p 0 p.length ≤ j → j < p.length → charAt p j ≠ 46) := by
      intro first1 hf1 hx
      exact extension_core cfg p _ _ first1 _ r1 r2 r3 hx
        (getFileExtensionLoop_spec cfg p first1 p.length (p.length - first1) p.length hf1
          (Nat.le_refl _) (Nat.le_refl _))
    have hfinal : ∀ first1, first1 ≤ p.length →
        ((first1 ≤ rvsSkipName cfg p 0 (p.length - 0) p.length ∧
            getFileName cfg p 0 p.length = rvsSkipName cfg p 0 (p.length - 0) p.length)
          ∨ (first1 = p.length ∧ getFileName cfg p 0 p.length = p.length)) →
        getFileExtension cfg p 0 p.length =
          getFileExtensionLoop cfg p first1 p.length (p.length - first1) p.length →
        getFileName cfg p 0 p.length ≤ getFileExtension cfg p 0 p.length ∧
        getFileExtension cfg p 0 p.length ≤ p.length ∧
        (getFileExtension cfg p 0 p.length < p.length →
          charAt p (getFileExtension cfg p 0 p.length) = 46 ∧
          ∀ j, getFileExtension cfg p 0 p.length < j → j < p.length → charAt p j ≠ 46) ∧
        (getFileExtension cfg p 0 p.length = p.length ↔
          ∀ j, getFileName cfg p 0 p.length ≤ j → j < p.length → charAt p j ≠ 46) ∧
        (0 < p.length ∧ IsDirectorySeparator cfg (charAt p (p.length - 1)) = true →
          getFileExtension cfg p 0 p.length = p.length) := by
      intro first1 hf1 hx heq
      obtain ⟨c1, c2, c3, c4⟩ := hcore first1 hf1 hx
      rw [heq]
      refine ⟨c1, c2, c3, c4, fun h => ?_⟩
      exfalso; apply hs; simp [h.1, h.2]
    by_cases hu : HasUNCPrefix p 0 p.length = true
    · obtain ⟨u1, u2, u3⟩ := findComponentFwd_unc_spec cfg p hu
      have hlen : 2 ≤ p.length := by omega
      have hp1 : isNameChar cfg (charAt p 1) = false := by
        unfold HasUNCPrefix at hu
        simp only [Bool.and_eq_true, decide_eq_true_eq, beq_iff_eq] at hu
        have : charAt p 1 = 92 := hu.2
        simp [isNameChar, this, hbs]
      have hf2 : 2 ≤ rvsSkipName cfg p 0 (p.length - 0) p.length := by
        by_contra hcon
        have := r2 1 (by omega) (by omega)
        rw [hp1] at this
        exact Bool.noConfusion this
      apply hfinal (findComponentFwd cfg p 0 p.length) u2
      · rcases u3 with ⟨v1, v2⟩ | ⟨v1, v2⟩
        · left
          have hle : findComponentFwd cfg p 0 p.length
              ≤ rvsSkipName cfg p 0 (p.length - 0) p.length := by
            by_contra hcon
            have := r2 (findComponentFwd cfg p 0 p.length - 1) (by omega) (by omega)
            rw [v2] at this
            exact Bool.noConfusion this
          refine ⟨hle, ?_⟩
          rw [e1]
          have hne : ¬ (rvsSkipName cfg p 0 (p.length - 0) p.length == 0 + 2
              && HasUNCPrefix p 0 p.length) = true := by
            simp only [Bool.and_eq_true, beq_iff_eq, not_and]
            intro h; omega
          rw [if_neg hne]
        · right
          refine ⟨v1, ?_⟩
          have hfeq : rvsSkipName cfg p 0 (p.length - 0) p.length = 2 := by
            rcases r3 with r0 | r0
            · omega
            · by_contra hcon
              have := v2 (rvsSkipName cfg p 0 (p.length - 0) p.length - 1) (by omega) (by omega)
              rw [r0] at this
              exact Bool.noConfusion this
          rw [e1]
          have hyes : (rvsSkipName cfg p 0 (p.length - 0) p.length == 0 + 2
              && HasUNCPrefix p 0 p.length) = true := by
            rw [hfeq, hu]; rfl
          rw [if_pos hyes]
      · unfold getFileExtension
        rw [if_neg hs]
        simp only []
        rw [if_pos hu]
    · apply hfinal 0 (Nat.zero_le _)
      · left
        refine ⟨Nat.zero_le _, ?_⟩
        rw [e1]
        have hne : ¬ (rvsSkipName cfg p 0 (p.length - 0) p.length == 0 + 2
            && HasUNCPrefix p 0 p.length) = true := by
          simp [hu]
        rw [if_neg hne]
      · unfold getFileExtension
        rw [if_neg hs]
        simp only []
        rw [if_neg hu]

/-- C16 at `"\\server\dir\name.tar.gz"` with the Microsoft constants: the
extension starts at the last `'.'`. -/
theorem C16_getFileExtension_spec_witness :
    IsDirectorySeparator windowsConfig 92 = true ∧
    getFileName windowsConfig (str "\\\\server\\dir\\name.tar.gz") 0 24 = 13 ∧
    getFileExtension windowsConfig (str "\\\\server\\dir\\name.tar.gz") 0 24 = 21 ∧
    getFileName windowsConfig (str "\\\\server\\dir\\name.tar.gz") 0 24
      ≤ getFileExtension windowsConfig (str "\\\\server\\dir\\name.tar.gz") 0 24 :=
  ⟨by decide, by decide, by decide,
   (C16_getFileExtension_spec windowsConfig (str "\\\\server\\dir\\name.tar.gz") (by decide)).1⟩

/-! ### Byte order -/

theorem testBit_byteMask (lo i : Nat) :
    Nat.testBit (255 <<< lo) i = (decide (lo ≤ i) && decide (i < lo + 8)) := by
  have e : (255 : Nat) = 2 ^ 8 - 1 := by norm_num
  rw [e, Nat.testBit_shiftLeft, Nat.testBit_two_pow_sub_one]
  by_cases h : lo ≤ i
  · have : (i - lo < 8) ↔ (i < lo + 8) := by omega
    simp [h, this]
  · have : ¬ i ≥ lo := by omega
    simp [h, this]

theorem testBit_mask0 (i : Nat) : Nat.testBit 0x000000ff i = decide (i < 8) := by
  have := testBit_byteMask 0 i
  simpa using this
theorem testBit_mask1 (i : Nat) : Nat.testBit 0x0000ff00 i = (decide (8 ≤ i) && decide (i < 16)) :=
  testBit_byteMask 8 i
theorem testBit_mask2 (i : Nat) : Nat.testBit 0x00ff0000 i = (decide (16 ≤ i) && decide (i < 24)) :=
  testBit_byteMask 16 i
theorem testBit_mask3 (i : Nat) : Nat.testBit 0xff000000 i = (decide (24 ≤ i) && decide (i < 32)) :=
  testBit_byteMask 24 i

theorem swz32_testBit (x : Nat) (h : x < 2 ^ 32) (i : Nat) :
    (SwizzleUint32 x).testBit i = (decide (i < 32) && x.testBit (revBit 4 i)) := by
  have hb : ∀ j, 32 ≤ j → x.testBit j = false := fun j hj =>
    Nat.testBit_lt_two_pow (Nat.lt_of_lt_of_le h (Nat.pow_le_pow_right (by norm_num) hj))
  unfold SwizzleUint32
  rw [Nat.testBit_mod_two_pow]
  by_cases hi : i < 32
  · simp only [hi, decide_True, Bool.true_and, Nat.testBit_or, Nat.testBit_and,
      Nat.testBit_shiftRight, Nat.testBit_shiftLeft, Nat.testBit_mod_two_pow, revBit,
      testBit_mask0, testBit_mask1, testBit_mask2, testBit_mask3]
    interval_cases i <;> simp [hb]
  · simp [hi]

theorem swz64_testBit (x : Nat) (h : x < 2 ^ 64) (i : Nat) :
    (SwizzleUint64 x).testBit i = (decide (i < 64) && x.testBit (revBit 8 i)) := by
  have hb : ∀ j, 64 ≤ j → x.testBit j = false := fun j hj =>
    Nat.testBit_lt_two_pow (Nat.lt_of_lt_of_le h (Nat.pow_le_pow_right (by norm_num) hj))
  unfold SwizzleUint64
  rw [Nat.testBit_mod_two_pow]
  by_cases hi : i < 64
  · simp only [hi, decide_True, Bool.true_and, Nat.testBit_or, Nat.testBit_and,
      Nat.testBit_shiftRight, Nat.testBit_shiftLeft, Nat.testBit_mod_two_pow, revBit,
      testBit_mask0, testBit_mask1, testBit_mask2, testBit_mask3]
    interval_cases i <;> simp [hb]
  · simp [hi]

theorem swz16_testBit (x : Nat) (h : x < 2 ^ 16) (i : Nat) :
    (SwizzleUint16 x).testBit i = (decide (i < 16) && x.testBit (revBit 2 i)) := by
  have hb : ∀ j, 16 ≤ j → x.testBit j = false := fun j hj =>
    Nat.testBit_lt_two_pow (Nat.lt_of_lt_of_le h (Nat.pow_le_pow_right (by norm_num) hj))
  unfold SwizzleUint16
  rw [Nat.testBit_mod_two_pow]
  by_cases hi : i < 16
  · simp only [hi, decide_True, Bool.true_and, Nat.testBit_or, Nat.testBit_and,
      Nat.testBit_shiftRight, Nat.testBit_shiftLeft, Nat.testBit_mod_two_pow, revBit]
    interval_cases i <;> simp [hb]
  · simp [hi]

theorem swizzle_props (w : Nat) (S : Nat → Nat)
    (hS : ∀ x, x < 2 ^ (8 * w) → ∀ i,
      (S x).testBit i = (decide (i < 8 * w) && x.testBit (revBit w i)))
    (x : Nat) (hx : x < 2 ^ (8 * w)) :
    (∀ i, i < w → byteAt (S x) i = byteAt x (w - 1 - i)) ∧ S (S x) = x := by
  constructor
  · intro i hi
    apply Nat.eq_of_testBit_eq
    intro j
    unfold byteAt
    have e : (256 : Nat) = 2 ^ 8 := by norm_num
    rw [e, Nat.testBit_mod_two_pow, Nat.testBit_mod_two_pow, Nat.testBit_shiftRight,
      Nat.testBit_shiftRight, hS x hx]
    by_cases hj : j < 8
    · have h1 : revBit w (8 * i + j) = 8 * (w - 1 - i) + j := by
        unfold revBit; omega
      have h2 : 8 * i + j < 8 * w := by omega
      simp [hj, h1, h2]
    · simp [hj]
  · have hSx : S x < 2 ^ (8 * w) := by
      apply Nat.lt_pow_two_of_testBit
      intro i hi
      rw [hS x hx]
      have : ¬ i < 8 * w := by omega
      simp [this]
    apply Nat.eq_of_testBit_eq
    intro i
    rw [hS (S x) hSx, hS x hx]
    by_cases hi : i < 8 * w
    · have h1 : revBit w (revBit w i) = i := by
        unfold revBit; omega
      have h2 : revBit w i < 8 * w := by
        unfold revBit; omega
      simp [hi, h1, h2]
    · have : x.testBit i = false :=
        Nat.testBit_lt_two_pow (Nat.lt_of_lt_of_le hx (Nat.pow_le_pow_right (by norm_num) (by omega)))
      simp [hi, this]

/-- C19: `SwizzleUint16`, `SwizzleUint32` and `SwizzleUint64` return their
argument with the byte order reversed (byte `i` of the result is byte
`w - 1 - i` of the input, `w` the width in bytes), and each is an involution. -/
theorem C19_swizzle_reverses_bytes :
    (∀ x, x < 2 ^ 16 →
      (∀ i, i < 2 → byteAt (SwizzleUint16 x) i = byteAt x (2 - 1 - i)) ∧
      SwizzleUint16 (SwizzleUint16 x) = x) ∧
    (∀ x, x < 2 ^ 32 →
      (∀ i, i < 4 → byteAt (SwizzleUint32 x) i = byteAt x (4 - 1 - i)) ∧
      SwizzleUint32 (SwizzleUint32 x) = x) ∧
    (∀ x, x < 2 ^ 64 →
      (∀ i, i < 8 → byteAt (SwizzleUint64 x) i = byteAt x (8 - 1 - i)) ∧
      SwizzleUint64 (SwizzleUint64 x) = x) :=
  ⟨fun x hx => swizzle_props 2 SwizzleUint16 (fun y hy i => swz16_testBit y hy i) x hx,
   fun x hx => swizzle_props 4 SwizzleUint32 (fun y hy i => swz32_testBit y hy i) x hx,
   fun x hx => swizzle_props 8 SwizzleUint64 (fun y hy i => swz64_testBit y hy i) x hx⟩

/-- C19 at `0x11223344`: the swizzled value is `0x44332211`, and swizzling
twice gives the value back. -/
theorem C19_swizzle_reverses_bytes_witness :
    (0x11223344 : Nat) < 2 ^ 32 ∧ SwizzleUint32 0x11223344 = 0x44332211 ∧
    SwizzleUint32 (SwizzleUint32 0x11223344) = 0x11223344 ∧
    byteAt (SwizzleUint32 0x11223344) 0 = byteAt 0x11223344 (4 - 1 - 0) :=
  ⟨by norm_num, by decide,
   (C19_swizzle_reverses_bytes.2.1 0x11223344 (by norm_num)).2,
   (C19_swizzle_reverses_bytes.2.1 0x11223344 (by norm_num)).1 0 (by norm_num)⟩

/-! ### The typed adapter over a memory-like stream -/

theorem toBytes_length (order : Endian) (w x : Nat) : (toBytes order w x).length = w := by
  unfold toBytes
  split_ifs <;> simp

theorem fromBytes_toBytes2 (order : Endian) (x : Nat) (hx : x < 2 ^ 16) :
    fromBytes order (toBytes order 2 x) = x := by
  cases order <;>
    simp [fromBytes, toBytes, byteAt, List.range_succ, Nat.shiftRight_eq_div_pow] <;> omega

theorem fromBytes_toBytes4 (order : Endian) (x : Nat) (hx : x < 2 ^ 32) :
    fromBytes order (toBytes order 4 x) = x := by
  cases order <;>
    simp [fromBytes, toBytes, byteAt, List.range_succ, Nat.shiftRight_eq_div_pow] <;> omega

theorem fromBytes_toBytes8 (order : Endian) (x : Nat) (hx : x < 2 ^ 64) :
    fromBytes order (toBytes order 8 x) = x := by
  cases order <;>
    simp [fromBytes, toBytes, byteAt, List.range_succ, Nat.shiftRight_eq_div_pow] <;> omega

theorem write_seek_read (s : MemoryStream) (bytes rest : List Nat) (hs : s.pos ≤ s.data.length) :
    (s.write (bytes ++ rest)).1 = true ∧
    ((s.write (bytes ++ rest)).2.setPosition s.pos).1 = true ∧
    ((((s.write (bytes ++ rest)).2.setPosition s.pos).2).read bytes.length).1 = bytes ∧
    ((((s.write (bytes ++ rest)).2.setPosition s.pos).2).read bytes.length).2.pos
      = s.pos + bytes.length ∧
    ((((s.write (bytes ++ rest)).2.setPosition s.pos).2).read bytes.length).2.data
      = s.data.take s.pos ++ (bytes ++ rest) ++ s.data.drop (s.pos + (bytes ++ rest).length) := by
  have hw : s.write (bytes ++ rest) = (true,
      { data := s.data.take s.pos ++ (bytes ++ rest) ++ s.data.drop (s.pos + (bytes ++ rest).length),
        pos := s.pos + (bytes ++ rest).length }) := by
    unfold MemoryStream.write
    rw [if_pos hs]
  rw [hw]
  have hlen : (List.take s.pos s.data).length = s.pos := by
    rw [List.length_take]; omega
  have hsp : s.pos ≤ (s.data.take s.pos ++ (bytes ++ rest)
      ++ s.data.drop (s.pos + (bytes ++ rest).length)).length := by
    simp only [List.length_append, hlen]; omega
  have hset : MemoryStream.setPosition
      { data := s.data.take s.pos ++ (bytes ++ rest) ++ s.data.drop (s.pos + (bytes ++ rest).length),
        pos := s.pos + (bytes ++ rest).length } s.pos = (true,
      { data := s.data.take s.pos ++ (bytes ++ rest) ++ s.data.drop (s.pos + (bytes ++ rest).length),
        pos := s.pos }) := by
    unfold MemoryStream.setPosition
    rw [if_pos hsp]
  simp only [hset]
  have hdrop : List.drop s.pos (s.data.take s.pos ++ (bytes ++ rest)
      ++ s.data.drop (s.pos + (bytes ++ rest).length))
      = bytes ++ (rest ++ s.data.drop (s.pos + (bytes ++ rest).length)) := by
    rw [List.append_assoc, List.drop_append_of_le_length (by omega)]
    rw [List.drop_of_length_le (by omega), List.nil_append, List.append_assoc]
  have htake : List.take bytes.length (bytes ++ (rest ++ s.data.drop (s.pos + (bytes ++ rest).length)))
      = bytes := by
    rw [List.take_append_of_le_length (Nat.le_refl _), List.take_length]
  unfold MemoryStream.read
  simp only [hdrop, htake]
  exact ⟨trivial, trivial, trivial, trivial, trivial⟩


theorem write_seek_read_scalar (order : Endian) (w x : Nat) (s : MemoryStream)
    (hs : s.pos ≤ s.data.length) :
    (s.write (toBytes order w x)).1 = true ∧
    ((s.write (toBytes order w x)).2.setPosition s.pos).1 = true ∧
    ((((s.write (toBytes order w x)).2.setPosition s.pos).2).read w).1 = toBytes order w x := by
  have h := write_seek_read s (toBytes order w x) [] hs
  rw [List.append_nil, toBytes_length] at h
  exact ⟨h.1, h.2.1, h.2.2.1⟩

theorem SwizzleUint16_lt (x : Nat) : SwizzleUint16 x < 2 ^ 16 :=
  Nat.mod_lt _ (by norm_num)

theorem SwizzleUint32_lt (x : Nat) : SwizzleUint32 x < 2 ^ 32 :=
  Nat.mod_lt _ (by norm_num)

theorem SwizzleUint64_lt (x : Nat) : SwizzleUint64 x < 2 ^ 64 :=
  Nat.mod_lt _ (by norm_num)

theorem SwizzleUint16_invol (x : Nat) (hx : x < 2 ^ 16) : SwizzleUint16 (SwizzleUint16 x) = x :=
  (swizzle_props 2 SwizzleUint16 (fun y hy i => swz16_testBit y hy i) x hx).2

theorem SwizzleUint32_invol (x : Nat) (hx : x < 2 ^ 32) : SwizzleUint32 (SwizzleUint32 x) = x :=
  (swizzle_props 4 SwizzleUint32 (fun y hy i => swz32_testBit y hy i) x hx).2

theorem SwizzleUint64_invol (x : Nat) (hx : x < 2 ^ 64) : SwizzleUint64 (SwizzleUint64 x) = x :=
  (swizzle_props 8 SwizzleUint64 (fun y hy i => swz64_testBit y hy i) x hx).2

theorem uint32_round_trip (kEndianLocal e : Endian) (s : MemoryStream)
    (hs : s.pos ≤ s.data.length) (v : Nat) (hv : v < 2 ^ 32) :
    (writeUint32 kEndianLocal s v e).1 = true ∧
    ((writeUint32 kEndianLocal s v e).2.setPosition s.pos).1 = true ∧
    (readUint32 kEndianLocal ((writeUint32 kEndianLocal s v e).2.setPosition s.pos).2 e).1
      = some v := by
  unfold writeUint32
  obtain ⟨h1, h2, h3⟩ := write_seek_read_scalar kEndianLocal 4
    (if e ≠ kEndianLocal then SwizzleUint32 v else v) s hs
  refine ⟨h1, h2, ?_⟩
  unfold readUint32
  rw [h3, toBytes_length]
  simp only [if_true]
  by_cases he : e ≠ kEndianLocal
  · rw [if_pos he, if_pos he, fromBytes_toBytes4 _ _ (SwizzleUint32_lt v),
      SwizzleUint32_invol v hv]
  · rw [if_neg he, if_neg he, fromBytes_toBytes4 _ _ hv]

theorem uint16_round_trip (kEndianLocal e : Endian) (s : MemoryStream)
    (hs : s.pos ≤ s.data.length) (v : Nat) (hv : v < 2 ^ 16) :
    (writeUint16 kEndianLocal s v e).1 = true ∧
    ((writeUint16 kEndianLocal s v e).2.setPosition s.pos).1 = true ∧
    (readUint16 kEndianLocal ((writeUint16 kEndianLocal s v e).2.setPosition s.pos).2 e).1
      = some v := by
  unfold writeUint16
  obtain ⟨h1, h2, h3⟩ := write_seek_read_scalar kEndianLocal 2
    (if e ≠ kEndianLocal then SwizzleUint16 v else v) s hs
  refine ⟨h1, h2, ?_⟩
  unfold readUint16
  rw [h3, toBytes_length]
  simp only [if_true]
  by_cases he : e ≠ kEndianLocal
  · rw [if_pos he, if_pos he, fromBytes_toBytes2 _ _ (SwizzleUint16_lt v),
      SwizzleUint16_invol v hv]
  · rw [if_neg he, if_neg he, fromBytes_toBytes2 _ _ hv]

theorem uint64_round_trip (kEndianLocal e : Endian) (s : MemoryStream)
    (hs : s.pos ≤ s.data.length) (v : Nat) (hv : v < 2 ^ 64) :
    (writeUint64 kEndianLocal s v e).1 = true ∧
    ((writeUint64 kEndianLocal s v e).2.setPosition s.pos).1 = true ∧
    (readUint64 kEndianLocal ((writeUint64 kEndianLocal s v e).2.setPosition s.pos).2 e).1
      = some v := by
  unfold writeUint64
  obtain ⟨h1, h2, h3⟩ := write_seek_read_scalar kEndianLocal 8
    (if e ≠ kEndianLocal then SwizzleUint64 v else v) s hs
  refine ⟨h1, h2, ?_⟩
  unfold readUint64
  rw [h3, toBytes_length]
  simp only [if_true]
  by_cases he : e ≠ kEndianLocal
  · rw [if_pos he, if_pos he, fromBytes_toBytes8 _ _ (SwizzleUint64_lt v),
      SwizzleUint64_invol v hv]
  · rw [if_neg he, if_neg he, fromBytes_toBytes8 _ _ hv]

/-- C18: on a memory-like stream positioned at 0, for every 32-bit value `v`,
every byte order `e` and either byte order of the platform,
`writeUint32(stream, v, e)` succeeds, `setPosition(0)` succeeds, and
`readUint32(stream, out, e)` then yields `out = v`; the same holds for the
16-bit and the 64-bit functions. -/
theorem C18_typed_adapter_round_trip (kEndianLocal e : Endian) (s : MemoryStream)
    (hs : s.pos = 0) :
    (∀ v, v < 2 ^ 32 →
      (writeUint32 kEndianLocal s v e).1 = true ∧
      ((writeUint32 kEndianLocal s v e).2.setPosition 0).1 = true ∧
      (readUint32 kEndianLocal ((writeUint32 kEndianLocal s v e).2.setPosition 0).2 e).1
        = some v) ∧
    (∀ v, v < 2 ^ 16 →
      (writeUint16 kEndianLocal s v e).1 = true ∧
      ((writeUint16 kEndianLocal s v e).2.setPosition 0).1 = true ∧
      (readUint16 kEndianLocal ((writeUint16 kEndianLocal s v e).2.setPosition 0).2 e).1
        = some v) ∧
    (∀ v, v < 2 ^ 64 →
      (writeUint64 kEndianLocal s v e).1 = true ∧
      ((writeUint64 kEndianLocal s v e).2.setPosition 0).1 = true ∧
      (readUint64 kEndianLocal ((writeUint64 kEndianLocal s v e).2.setPosition 0).2 e).1
        = some v) := by
  have hle : s.pos ≤ s.data.length := by omega
  refine ⟨fun v hv => ?_, fun v hv => ?_, fun v hv => ?_⟩
  · have := uint32_round_trip kEndianLocal e s hle v hv
    rwa [hs] at this
  · have := uint16_round_trip kEndianLocal e s hle v hv
    rwa [hs] at this
  · have := uint64_round_trip kEndianLocal e s hle v hv
    rwa [hs] at this

/-- C18 at `0x11223344` with `kEndianBig` on a little-endian platform, on an
empty stream: the bytes on the wire are `11 22 33 44`. -/
theorem C18_typed_adapter_round_trip_witness :
    (⟨[], 0⟩ : MemoryStream).pos = 0 ∧ (0x11223344 : Nat) < 2 ^ 32 ∧
    (writeUint32 kEndianLittle ⟨[], 0⟩ 0x11223344 kEndianBig).2.data = [0x11, 0x22, 0x33, 0x44] ∧
    (readUint32 kEndianLittle
      ((writeUint32 kEndianLittle ⟨[], 0⟩ 0x11223344 kEndianBig).2.setPosition 0).2 kEndianBig).1
      = some 0x11223344 :=
  ⟨rfl, by norm_num, by decide,
   ((C18_typed_adapter_round_trip kEndianLittle kEndianBig ⟨[], 0⟩ rfl).1 0x11223344
      (by norm_num)).2.2⟩

theorem write_append (s : MemoryStream) (a b : List Nat) (hs : s.pos ≤ s.data.length) :
    (s.write a).2.write b = s.write (a ++ b) := by
  have hlen : (List.take s.pos s.data).length = s.pos := by
    rw [List.length_take]; omega
  unfold MemoryStream.write
  rw [if_pos hs, if_pos hs]
  simp only []
  have h1 : s.pos + a.length ≤ (s.data.take s.pos ++ a ++ s.data.drop (s.pos + a.length)).length := by
    simp only [List.length_append, hlen]; omega
  rw [if_pos h1]
  have h2 : List.take (s.pos + a.length) (s.data.take s.pos ++ a ++ s.data.drop (s.pos + a.length))
      = s.data.take s.pos ++ a := by
    rw [List.take_append_of_le_length (by simp only [List.length_append, hlen]; omega)]
    rw [List.take_of_length_le (by simp only [List.length_append, hlen]; omega)]
  have h3 : List.drop (s.pos + a.length + b.length)
      (s.data.take s.pos ++ a ++ s.data.drop (s.pos + a.length))
      = s.data.drop (s.pos + (a ++ b).length) := by
    have e : s.pos + a.length + b.length = (s.data.take s.pos ++ a).length + b.length := by
      simp only [List.length_append, hlen]
    rw [e, List.drop_append, List.drop_drop, List.length_append]
    congr 1; omega
  rw [h2, h3, List.length_append]
  simp only [List.append_assoc, Nat.add_assoc]

theorem readStringChars_spec (data : List Nat) :
    ∀ (n pos : Nat) (acc : List Nat), pos + n ≤ data.length →
      readStringChars n ⟨data, pos⟩ acc = (acc ++ (data.drop pos).take n, ⟨data, pos + n⟩) := by
  intro n
  induction n with
  | zero => intro pos acc _; simp [readStringChars]
  | succ n ih =>
    intro pos acc h
    have hlt : pos < data.length := by omega
    have hr : (List.take 1 (List.drop pos data)) = [data[pos]] := by
      rw [List.drop_eq_getElem_cons hlt]; rfl
    unfold readStringChars
    simp only [MemoryStream.read, hr, List.length_singleton, if_true]
    rw [ih (pos + 1) (acc ++ [data[pos]]) (by omega)]
    have : acc ++ [data[pos]] ++ List.take n (List.drop (pos + 1) data)
        = acc ++ List.take (n + 1) (List.drop pos data) := by
      rw [List.drop_eq_getElem_cons hlt, List.take_succ_cons, List.append_assoc]
      rfl
    rw [this, Nat.add_assoc, Nat.add_comm 1 n]

theorem toBytes_swizzle4 (kEndianLocal e : Endian) (v : Nat) (hv : v < 2 ^ 32) :
    toBytes kEndianLocal 4 (if e ≠ kEndianLocal then SwizzleUint32 v else v) = toBytes e 4 v := by
  obtain ⟨hb, -⟩ := swizzle_props 4 SwizzleUint32 (fun y hy i => swz32_testBit y hy i) v hv
  have b0 := hb 0 (by norm_num)
  have b1 := hb 1 (by norm_num)
  have b2 := hb 2 (by norm_num)
  have b3 := hb 3 (by norm_num)
  cases kEndianLocal <;> cases e <;>
    simp [toBytes, List.range_succ, b0, b1, b2, b3]


theorem write_eq (s : MemoryStream) (x : List Nat) (hs : s.pos ≤ s.data.length) :
    s.write x = (true, ⟨s.data.take s.pos ++ x ++ s.data.drop (s.pos + x.length),
      s.pos + x.length⟩) := by
  unfold MemoryStream.write
  rw [if_pos hs]

theorem subW_one (W n : Nat) (h1 : 1 ≤ n) (h2 : n < 2 ^ W) : subW W n 1 = n - 1 := by
  unfold subW
  have hN : 1 < 2 ^ W := by omega
  rw [Nat.mod_eq_of_lt hN]
  have e : n + 2 ^ W - 1 = (n - 1) + 2 ^ W := by omega
  rw [e, Nat.add_mod_right, Nat.mod_eq_of_lt (by omega)]

theorem writeString_eq (kEndianLocal e : Endian) (kLengthNull : Nat) (st : MemoryStream)
    (s : List Nat) (hst : st.pos ≤ st.data.length) (hlen : s.length < 2 ^ 32)
    (hk : s.length ≠ kLengthNull) :
    writeString kEndianLocal kLengthNull st s s.length e
      = st.write (toBytes kEndianLocal 4
          (if e ≠ kEndianLocal then SwizzleUint32 s.length else s.length) ++ s) := by
  unfold writeString
  simp only []
  rw [if_neg hk, Nat.mod_eq_of_lt hlen]
  unfold writeUint32
  by_cases h0 : s.length = 0
  · have hnil : s = [] := List.eq_nil_of_length_eq_zero h0
    subst hnil
    simp
  · have h1 : ((st.write (toBytes kEndianLocal 4
        (if e ≠ kEndianLocal then SwizzleUint32 s.length else s.length))).1
          && decide (s.length ≠ 0)) = true := by
      rw [write_eq st _ hst]
      simp [h0]
    rw [if_pos h1, List.take_length, write_append st _ _ hst]

/-- C20: for every 8-bit string `s` shorter than `2^32` (and whose length is
not the sentinel `kLengthNull`), every byte order `e` and either byte order
of the platform, `writeString(stream, s, |s|, e)` succeeds and puts at the
cursor exactly the 4 bytes of `|s|` in order `e` followed by the bytes of `s`,
with no terminator; `readString` from the same start position with a
capacity above `|s|` then returns `|s|`, stores the bytes of `s` followed by a
nul, and leaves the stream `4 + |s|` bytes after the start. -/
theorem C20_string_round_trip (kEndianLocal e : Endian) (W kLengthNull : Nat)
    (st : MemoryStream) (s : List Nat) (nMaxCount : Nat)
    (hst : st.pos ≤ st.data.length) (hlen : s.length < 2 ^ 32) (hk : s.length ≠ kLengthNull)
    (hcap : s.length < nMaxCount) (hW : nMaxCount < 2 ^ W) :
    (writeString kEndianLocal kLengthNull st s s.length e).1 = true ∧
    (writeString kEndianLocal kLengthNull st s s.length e).2.data
      = st.data.take st.pos ++ (toBytes e 4 s.length ++ s)
          ++ st.data.drop (st.pos + (4 + s.length)) ∧
    (writeString kEndianLocal kLengthNull st s s.length e).2.pos = st.pos + (4 + s.length) ∧
    (readString kEndianLocal W
        ((writeString kEndianLocal kLengthNull st s s.length e).2.setPosition st.pos).2
        true nMaxCount e).result = some s.length ∧
    (readString kEndianLocal W
        ((writeString kEndianLocal kLengthNull st s s.length e).2.setPosition st.pos).2
        true nMaxCount e).stored = s ++ [0] ∧
    (readString kEndianLocal W
        ((writeString kEndianLocal kLengthNull st s s.length e).2.setPosition st.pos).2
        true nMaxCount e).stream.pos = st.pos + (4 + s.length) := by
  rw [writeString_eq kEndianLocal e kLengthNull st s hst hlen hk]
  have hwire := toBytes_swizzle4 kEndianLocal e s.length hlen
  have hhl : (toBytes kEndianLocal 4
      (if e ≠ kEndianLocal then SwizzleUint32 s.length else s.length)).length = 4 :=
    toBytes_length _ _ _
  have hval : (if e ≠ kEndianLocal then
        SwizzleUint32 (fromBytes kEndianLocal (toBytes kEndianLocal 4
          (if e ≠ kEndianLocal then SwizzleUint32 s.length else s.length)))
      else fromBytes kEndianLocal (toBytes kEndianLocal 4
          (if e ≠ kEndianLocal then SwizzleUint32 s.length else s.length))) = s.length := by
    by_cases he : e ≠ kEndianLocal
    · rw [if_pos he, if_pos he, fromBytes_toBytes4 _ _ (SwizzleUint32_lt _),
        SwizzleUint32_invol _ hlen]
    · rw [if_neg he, if_neg he, fromBytes_toBytes4 _ _ hlen]
  generalize toBytes kEndianLocal 4
    (if e ≠ kEndianLocal then SwizzleUint32 s.length else s.length) = hdr at hwire hhl hval
  have htk : (List.take st.pos st.data).length = st.pos := by
    rw [List.length_take]; omega
  rw [write_eq st (hdr ++ s) hst]
  simp only [List.length_append, hhl]
  have hDlen : (List.take st.pos st.data ++ (hdr ++ s)
      ++ List.drop (st.pos + (4 + s.length)) st.data).length
      = st.pos + (4 + s.length) + (st.data.length - (st.pos + (4 + s.length))) := by
    simp only [List.length_append, htk, hhl, List.length_drop]
  refine ⟨trivial, by rw [hwire], trivial, ?_⟩
  generalize hD : List.take st.pos st.data ++ (hdr ++ s)
      ++ List.drop (st.pos + (4 + s.length)) st.data = D at hDlen
  have hdrop0 : List.drop st.pos D = hdr ++ (s ++ List.drop (st.pos + (4 + s.length)) st.data) := by
    rw [← hD, List.append_assoc, List.drop_append_of_le_length (by omega),
      List.drop_of_length_le (by omega), List.nil_append, List.append_assoc]
  have hdrop4 : List.drop (st.pos + 4) D = s ++ List.drop (st.pos + (4 + s.length)) st.data := by
    rw [← List.drop_drop, hdrop0]
    rw [List.drop_append_of_le_length (by omega), List.drop_of_length_le (by omega),
      List.nil_append]
  have hset : MemoryStream.setPosition ⟨D, st.pos + (4 + s.length)⟩ st.pos = (true, ⟨D, st.pos⟩) := by
    unfold MemoryStream.setPosition
    rw [if_pos (by simp only; omega)]
  have hread4 : (MemoryStream.read ⟨D, st.pos⟩ 4) = (hdr, ⟨D, st.pos + 4⟩) := by
    unfold MemoryStream.read
    simp only [hdrop0]
    rw [← hhl, List.take_append_of_le_length (Nat.le_refl _), List.take_length]
  have hru : readUint32 kEndianLocal ⟨D, st.pos⟩ e = (some s.length, ⟨D, st.pos + 4⟩) := by
    unfold readUint32
    rw [hread4]
    simp only [hhl, if_true, hval]
  have hsub : subW W nMaxCount 1 = nMaxCount - 1 := subW_one W nMaxCount (by omega) hW
  have hnr : (if s.length < subW W nMaxCount 1 then s.length else subW W nMaxCount 1)
      = s.length := by
    rw [hsub]
    split_ifs <;> omega
  have hchars := readStringChars_spec D s.length (st.pos + 4) [] (by omega)
  rw [hdrop4, List.take_append_of_le_length (Nat.le_refl _), List.take_length,
    List.nil_append] at hchars
  have hset2 : MemoryStream.setPosition ⟨D, st.pos + 4 + s.length⟩ (st.pos + 4 + s.length)
      = (true, ⟨D, st.pos + 4 + s.length⟩) := by
    unfold MemoryStream.setPosition
    rw [if_pos (by simp only; omega)]
  have hrs : readString kEndianLocal W ⟨D, st.pos⟩ true nMaxCount e
      = ⟨some s.length, s ++ [0], ⟨D, st.pos + 4 + s.length⟩⟩ := by
    unfold readString
    simp only [hru, MemoryStream.getPosition, Bool.not_true, Bool.false_eq_true, if_false, hnr,
      hchars, hset2]
  simp only [hset, hrs]
  exact ⟨trivial, trivial, by omega⟩

/-- C20 at `"hello"` with `kEndianBig` on a little-endian platform, an empty
stream and a buffer of 16 characters. -/
theorem C20_string_round_trip_witness :
    (writeString kEndianLittle (2 ^ 64 - 1) ⟨[], 0⟩ (str "hello") 5 kEndianBig).2.data
      = [0, 0, 0, 5] ++ str "hello" ∧
    (readString kEndianLittle 64
        ((writeString kEndianLittle (2 ^ 64 - 1) ⟨[], 0⟩ (str "hello") (str "hello").length
          kEndianBig).2.setPosition 0).2 true 16 kEndianBig).result = some 5 ∧
    (readString kEndianLittle 64
        ((writeString kEndianLittle (2 ^ 64 - 1) ⟨[], 0⟩ (str "hello") (str "hello").length
          kEndianBig).2.setPosition 0).2 true 16 kEndianBig).stored = str "hello" ++ [0] :=
  ⟨by decide,
   (C20_string_round_trip kEndianLittle kEndianBig 64 (2 ^ 64 - 1) ⟨[], 0⟩ (str "hello") 16
      (by decide) (by decide) (by decide) (by decide) (by norm_num)).2.2.2.1,
   (C20_string_round_trip kEndianLittle kEndianBig 64 (2 ^ 64 - 1) ⟨[], 0⟩ (str "hello") 16
      (by decide) (by decide) (by decide) (by decide) (by norm_num)).2.2.2.2.1⟩


/-! ### Invariants of the normalization loop -/

theorem charAt_set_self (buf : List Nat) (i v : Nat) (h : i < buf.length) :
    charAt (buf.set i v) i = v := by
  simp [charAt, List.getD, List.getElem?_set, h]

theorem charAt_set_other (buf : List Nat) (i v n : Nat) (h : n ≠ i) :
    charAt (buf.set i v) n = charAt buf n := by
  have h' : i ≠ n := fun e => h e.symm
  simp [charAt, List.getD, List.getElem?_set, h']

theorem skipDoubled_stop (cfg : PathConfig) (buf : List Nat) (last : Nat) :
    ∀ (k first : Nat), last - first ≤ k →
      last ≤ skipDoubled cfg buf last k first ∨
      IsDirectorySeparator cfg (charAt buf (skipDoubled cfg buf last k first)) = false := by
  intro k
  induction k with
  | zero =>
    intro first h
    left
    have e : skipDoubled cfg buf last 0 first = first := rfl
    rw [e]; omega
  | succ k ih =>
    intro first h
    unfold skipDoubled
    by_cases hc : (decide (first < last) && IsDirectorySeparator cfg (charAt buf first)) = true
    · rw [if_pos hc]
      exact ih (first + 1) (by omega)
    · rw [if_neg hc]
      by_cases hlt : first < last
      · right
        have hd : decide (first < last) = true := by simpa using hlt
        rw [hd, Bool.true_and] at hc
        simpa using hc
      · left; omega

theorem normLoop_rule (cfg : PathConfig) (b : Bool) (last : Nat) (nl : Bool)
    (P : List Nat → Nat → Nat → Prop)
    (hb : ∀ buf first out, P buf first out → out ≤ first ∧ first ≤ last)
    (hdot : ∀ buf first out, P buf first out →
      (decide (first + 1 < last) && charAt buf first == 46
        && IsDirectorySeparator cfg (charAt buf (first + 1))) = true →
      P buf (skipDoubled cfg buf last (last - (first + 2)) (first + 2)) out)
    (hstrip : ∀ buf first out, P buf first out → first < last →
      normStrips cfg last nl buf first out = true →
      P buf (skipDoubled cfg buf last (last - (first + 3)) (first + 3))
        (findComponentRvs cfg buf 0 out))
    (hcopy : ∀ buf first out, P buf first out → first < last →
      ¬ (decide (first + 1 < last) && charAt buf first == 46
        && IsDirectorySeparator cfg (charAt buf (first + 1))) = true →
      ¬ normStrips cfg last nl buf first out = true →
      P (normCopyComponent cfg b last (last - first) buf first out).1
        (normCopyComponent cfg b last (last - first) buf first out).2.1
        (normCopyComponent cfg b last (last - first) buf first out).2.2) :
    ∀ (k : Nat) (buf : List Nat) (first out : Nat), P buf first out → last - first < k →
      ∃ r first1, normLoop cfg b last nl k buf first out = some r ∧ P r.1 first1 r.2 := by
  intro k
  induction k with
  | zero => intro buf first out _ h; omega
  | succ k ih =>
    intro buf first out hP hk
    obtain ⟨h1, h2⟩ := hb buf first out hP
    unfold normLoop
    by_cases hlt : first < last
    · rw [if_pos hlt]
      by_cases hd : (decide (first + 1 < last) && charAt buf first == 46
          && IsDirectorySeparator cfg (charAt buf (first + 1))) = true
      · rw [if_pos hd]
        have hge := skipDoubled_ge cfg buf last (last - (first + 2)) (first + 2)
        exact ih buf _ out (hdot buf first out hP hd) (by omega)
      · rw [if_neg hd]
        by_cases hst : normStrips cfg last nl buf first out = true
        · rw [if_pos hst]
          have hge := skipDoubled_ge cfg buf last (last - (first + 3)) (first + 3)
          exact ih buf _ _ (hstrip buf first out hP hlt hst) (by omega)
        · rw [if_neg hst]
          simp only []
          have hinv := normCopyComponent_inv cfg b last (last - first) buf first out h1 h2
          have hprog := hinv.2.2.2 (by omega) hlt
          exact ih _ _ _ (hcopy buf first out hP hlt hd hst) (by omega)
    · rw [if_neg hlt]
      exact ⟨(buf, out), first, rfl, hP⟩


theorem IsDirectorySeparator_primary (cfg : PathConfig) :
    IsDirectorySeparator cfg cfg.kFilePathSeparator = true := by
  simp [IsDirectorySeparator]

theorem NormInv_write_nonsep (cfg : PathConfig) (last : Nat) (buf : List Nat) (first out c : Nat)
    (h : NormInv cfg last buf first out) (hlt : first < last)
    (hc : IsDirectorySeparator cfg c = false) :
    NormInv cfg last (buf.set out c) (first + 1) (out + 1) := by
  obtain ⟨h1, h2, h3, h4, h5, h6⟩ := h
  have ho : out < buf.length := by omega
  refine ⟨by rw [List.length_set]; exact h1, by omega, by omega, ?_, ?_, ?_⟩
  · intro i hi hs
    by_cases hio : i = out
    · subst hio
      rw [charAt_set_self buf i c ho] at hs
      rw [hc] at hs
      exact Bool.noConfusion hs
    · rw [charAt_set_other buf out c i hio] at hs ⊢
      exact h4 i (by omega) hs
  · intro i hi hs1 hs2 j hj
    by_cases hio : i + 1 = out
    · rw [hio, charAt_set_self buf out c ho, hc] at hs2
      exact Bool.noConfusion hs2
    · have e1 : i ≠ out := by omega
      have e2 : i + 1 ≠ out := hio
      have e3 : j ≠ out := by omega
      rw [charAt_set_other buf out c i e1] at hs1
      rw [charAt_set_other buf out c (i + 1) e2] at hs2
      rw [charAt_set_other buf out c j e3]
      exact h5 i (by omega) hs1 hs2 j hj
  · intro _ _
    right; left
    rw [Nat.add_sub_cancel, charAt_set_self buf out c ho]
    exact hc

theorem NormInv_write_sep (cfg : PathConfig) (last : Nat) (buf : List Nat) (first out : Nat)
    (h : NormInv cfg last buf first out) (hlt : first < last)
    (hs : IsDirectorySeparator cfg (charAt buf first) = true) :
    NormInv cfg last (buf.set out cfg.kFilePathSeparator)
      (skipDoubled cfg (buf.set out cfg.kFilePathSeparator) last (last - (first + 1)) (first + 1))
      (out + 1) := by
  obtain ⟨h1, h2, h3, h4, h5, h6⟩ := h
  have ho : out < buf.length := by omega
  have hge := skipDoubled_ge cfg (buf.set out cfg.kFilePathSeparator) last
    (last - (first + 1)) (first + 1)
  have hle := skipDoubled_le cfg (buf.set out cfg.kFilePathSeparator) last
    (last - (first + 1)) (first + 1) hlt
  have hstop := skipDoubled_stop cfg (buf.set out cfg.kFilePathSeparator) last
    (last - (first + 1)) (first + 1) (Nat.le_refl _)
  refine ⟨by rw [List.length_set]; exact h1, by omega, hle, ?_, ?_, ?_⟩
  · intro i hi hsi
    by_cases hio : i = out
    · subst hio
      exact charAt_set_self buf i _ ho
    · rw [charAt_set_other buf out _ i hio] at hsi ⊢
      exact h4 i (by omega) hsi
  · intro i hi hs1 hs2 j hj
    have e1 : i ≠ out := by omega
    have e3 : j ≠ out := by omega
    rw [charAt_set_other buf out _ i e1] at hs1
    rw [charAt_set_other buf out _ j e3]
    by_cases hio : i + 1 = out
    · rcases h6 hlt hs with g | g | g
      · omega
      · have : out - 1 = i := by omega
        rw [this, hs1] at g
        exact Bool.noConfusion g
      · exact g j (by omega)
    · rw [charAt_set_other buf out _ (i + 1) hio] at hs2
      exact h5 i (by omega) hs1 hs2 j hj
  · intro hl hsf
    rcases hstop with g | g
    · omega
    · rw [g] at hsf
      exact Bool.noConfusion hsf

theorem normCopyComponent_NormInv (cfg : PathConfig) (last : Nat) :
    ∀ (k : Nat) (buf : List Nat) (first out : Nat), NormInv cfg last buf first out →
      NormInv cfg last (normCopyComponent cfg true last k buf first out).1
        (normCopyComponent cfg true last k buf first out).2.1
        (normCopyComponent cfg true last k buf first out).2.2 := by
  intro k
  induction k with
  | zero => intro buf first out h; exact h
  | succ k ih =>
    intro buf first out h
    unfold normCopyComponent
    by_cases hlt : first < last
    · rw [if_pos hlt]
      simp only []
      by_cases hs : IsDirectorySeparator cfg (charAt buf first) = true
      · rw [if_pos hs]
        simp only [if_true]
        exact NormInv_write_sep cfg last buf first out h hlt hs
      · rw [if_neg hs]
        have hns : IsDirectorySeparator cfg (charAt buf first) = false := by simpa using hs
        have hw := NormInv_write_nonsep cfg last buf first out (charAt buf first) h hlt hns
        by_cases hd : (charAt buf first == cfg.kFilePathDriveSeparator) = true
        · rw [if_pos hd]
          by_cases hbr : (decide (first + 1 ≥ last) ||
              !IsDirectorySeparator cfg (charAt (buf.set out (charAt buf first)) (out + 1))) = true
          · rw [if_pos hbr]
            exact hw
          · rw [if_neg hbr]
            exact ih _ _ _ hw
        · rw [if_neg hd]
          exact ih _ _ _ hw
    · rw [if_neg hlt]
      exact h

theorem normCopyUNC_allsep (cfg : PathConfig) (last : Nat) :
    ∀ (k : Nat) (buf : List Nat) (first out : Nat), out ≤ first → first ≤ last →
      buf.length = last → (∀ j, j < out → charAt buf j = cfg.kFilePathSeparator) →
      ∀ j, j < (normCopyUNC cfg true last k buf first out).2.2 →
        charAt (normCopyUNC cfg true last k buf first out).1 j = cfg.kFilePathSeparator := by
  intro k
  induction k with
  | zero => intro buf first out _ _ _ h; exact h
  | succ k ih =>
    intro buf first out h1 h2 h3 h4
    unfold normCopyUNC
    by_cases hc : (decide (first < last) && charAt buf first == 92) = true
    · rw [if_pos hc]
      simp only [if_true]
      have hlt : first < last := by
        simp only [Bool.and_eq_true, decide_eq_true_eq] at hc
        exact hc.1
      apply ih _ _ _ (by omega) hlt (by rw [List.length_set]; exact h3)
      intro j hj
      by_cases hjo : j = out
      · subst hjo
        exact charAt_set_self buf j _ (by omega)
      · rw [charAt_set_other buf out _ j hjo]
        exact h4 j (by omega)
    · rw [if_neg hc]
      exact h4

theorem charAt_take (buf : List Nat) (out i : Nat) (h : i < out) :
    charAt (buf.take out) i = charAt buf i := by
  simp [charAt, List.getD, List.getElem?_take, h]

/-- C12, as the claim states it, fails: `normalize` keeps the four leading
backslashes of `"\\\\a"`, so the separators at positions 2 and 3, both after
the two-character UNC prefix, are adjacent. -/
theorem C12_adjacent_separators_counterexample :
    normalize windowsConfig (str "\\\\\\\\a") = some (str "\\\\\\\\a") ∧
    HasUNCPrefix (str "\\\\\\\\a") 0 5 = true ∧
    IsDirectorySeparator windowsConfig (charAt (str "\\\\\\\\a") 2) = true ∧
    IsDirectorySeparator windowsConfig (charAt (str "\\\\\\\\a") 3) = true ∧
    normalize windowsConfig (str "\\\\\\/a") = some (str "\\\\\\\\a") := by
  decide

/-- C12 (amended): `normalize` returns a string in which every directory
separator is the canonical separator, and in which two adjacent separators
occur only inside the run of separators at the very start. -/
theorem C12_normalize_canonical_separators (cfg : PathConfig) (p : List Nat) :
    ∃ r, normalize cfg p = some r ∧
      (∀ i, i < r.length → IsDirectorySeparator cfg (charAt r i) = true →
        charAt r i = cfg.kFilePathSeparator) ∧
      (∀ i, i + 1 < r.length → IsDirectorySeparator cfg (charAt r i) = true →
        IsDirectorySeparator cfg (charAt r (i + 1)) = true →
        ∀ j, j ≤ i → IsDirectorySeparator cfg (charAt r j) = true) := by
  have hu := normCopyUNC_inv cfg true p.length p.length p 0 0 (Nat.le_refl _) (Nat.zero_le _)
  have ha := normCopyUNC_allsep cfg p.length p.length p 0 0 (Nat.le_refl _) (Nat.zero_le _) rfl
    (fun j hj => by omega)
  have hinit : NormInv cfg p.length (normCopyUNC cfg true p.length p.length p 0 0).1
      (normCopyUNC cfg true p.length p.length p 0 0).2.1
      (normCopyUNC cfg true p.length p.length p 0 0).2.2 := by
    refine ⟨hu.1, hu.2.1, hu.2.2, fun i hi _ => ha i hi, fun i hi _ _ j hj => ?_,
      fun _ _ => Or.inr (Or.inr (fun j hj => ?_))⟩
    · rw [ha j (by omega)]; exact IsDirectorySeparator_primary cfg
    · rw [ha j hj]; exact IsDirectorySeparator_primary cfg
  obtain ⟨r, first1, hr, hP⟩ := normLoop_rule cfg true p.length
    (HasUNCPrefix p 0 p.length || HasDrivePrefix cfg p 0 p.length)
    (NormInv cfg p.length)
    (fun buf first out h => ⟨h.2.1, h.2.2.1⟩)
    (fun buf first out h hd => by
      obtain ⟨h1, h2, h3, h4, h5, h6⟩ := h
      have hb : first + 1 < p.length := by
        simp only [Bool.and_eq_true, decide_eq_true_eq] at hd
        exact hd.1.1
      have hge := skipDoubled_ge cfg buf p.length (p.length - (first + 2)) (first + 2)
      have hle := skipDoubled_le cfg buf p.length (p.length - (first + 2)) (first + 2) hb
      have hstop := skipDoubled_stop cfg buf p.length (p.length - (first + 2)) (first + 2)
        (Nat.le_refl _)
      refine ⟨h1, by omega, hle, h4, h5, fun hl hs => ?_⟩
      rcases hstop with g | g
      · omega
      · rw [g] at hs; exact Bool.noConfusion hs)
    (fun buf first out h hlt hst => by
      obtain ⟨h1, h2, h3, h4, h5, h6⟩ := h
      have hb := normStrips_bound cfg p.length _ buf first out hst
      have hge := skipDoubled_ge cfg buf p.length (p.length - (first + 3)) (first + 3)
      have hle := skipDoubled_le cfg buf p.length (p.length - (first + 3)) (first + 3) hb
      have hstop := skipDoubled_stop cfg buf p.length (p.length - (first + 3)) (first + 3)
        (Nat.le_refl _)
      have hprev := findComponentRvs_le cfg buf 0 out (Nat.zero_le _)
      refine ⟨h1, by omega, hle, fun i hi hs => h4 i (by omega) hs,
        fun i hi hs1 hs2 j hj => h5 i (by omega) hs1 hs2 j hj, fun hl hs => ?_⟩
      rcases hstop with g | g
      · omega
      · rw [g] at hs; exact Bool.noConfusion hs)
    (fun buf first out h _ _ _ => normCopyComponent_NormInv cfg p.length _ buf first out h)
    (p.length + 1) _ _ _ hinit (by omega)
  obtain ⟨h1, h2, h3, h4, h5, -⟩ := hP
  have hout : r.2 ≤ r.1.length := by omega
  have hlen : (r.1.take r.2).length = r.2 := by
    rw [List.length_take]; omega
  refine ⟨r.1.take r.2, ?_, ?_, ?_⟩
  · unfold normalize PathStringnormalize
    simp only []
    rw [hr]; rfl
  · intro i hi hs
    rw [hlen] at hi
    rw [charAt_take r.1 r.2 i hi] at hs ⊢
    exact h4 i hi hs
  · intro i hi hs1 hs2 j hj
    rw [hlen] at hi
    rw [charAt_take r.1 r.2 i (by omega)] at hs1
    rw [charAt_take r.1 r.2 (i + 1) hi] at hs2
    rw [charAt_take r.1 r.2 j (by omega)]
    exact h5 i hi hs1 hs2 j hj


/-! ### Leading `".."` components -/

theorem DotsOut_DotsIn (cfg : PathConfig) (m : Nat) (buf : List Nat) (h : DotsOut cfg m buf) :
    DotsIn cfg m buf := by
  intro i hi
  have := h i hi
  constructor
  · intro h3; rw [this, if_neg h3]
  · intro h3; rw [this, if_pos h3]; exact IsDirectorySeparator_primary cfg

theorem isNameChar_dot (cfg : PathConfig) (hd1 : IsDirectorySeparator cfg 46 = false)
    (hd2 : cfg.kFilePathDriveSeparator ≠ 46) : isNameChar cfg 46 = true := by
  simp only [isNameChar, hd1, Bool.not_false, Bool.true_and, bne_iff_ne, ne_eq]
  exact fun h => hd2 h.symm

theorem isNameChar_sep (cfg : PathConfig) (c : Nat) (h : IsDirectorySeparator cfg c = true) :
    isNameChar cfg c = false := by
  simp [isNameChar, h]

theorem findComponentRvs_dots (cfg : PathConfig) (hd1 : IsDirectorySeparator cfg 46 = false)
    (hd2 : cfg.kFilePathDriveSeparator ≠ 46) (buf : List Nat) (j : Nat) (hj : 1 ≤ j)
    (h : DotsIn cfg (3 * j) buf) :
    findComponentRvs cfg buf 0 (3 * j) = 3 * j - 3 := by
  have hs1 : IsDirectorySeparator cfg (charAt buf (3 * j - 1)) = true :=
    (h (3 * j - 1) (by omega)).2 (by omega)
  have hc2 : charAt buf (3 * j - 2) = 46 := (h (3 * j - 2) (by omega)).1 (by omega)
  have hc3 : charAt buf (3 * j - 3) = 46 := (h (3 * j - 3) (by omega)).1 (by omega)
  have hname := isNameChar_dot cfg hd1 hd2
  unfold findComponentRvs
  simp only []
  have c1 : (decide (3 * j > 0) && IsDirectorySeparator cfg (charAt buf (3 * j - 1))) = true := by
    rw [hs1]; simp; omega
  rw [if_pos c1]
  have c2 : ¬ (decide (3 * j - 1 > 0) && charAt buf (3 * j - 1 - 1)
      == cfg.kFilePathDriveSeparator) = true := by
    have e : 3 * j - 1 - 1 = 3 * j - 2 := by omega
    rw [e, hc2]
    simp only [Bool.and_eq_true, beq_iff_eq, not_and]
    intro _ h'
    exact hd2 h'.symm
  rw [if_neg c2]
  obtain ⟨-, r2, r3, r4⟩ := rvsSkipName_spec cfg buf 0 (3 * j - 1 - 0) (3 * j - 1)
    (Nat.zero_le _) (Nat.le_refl _)
  have hval : rvsSkipName cfg buf 0 (3 * j - 1 - 0) (3 * j - 1) = 3 * j - 3 := by
    by_contra hne
    rcases Nat.lt_or_gt_of_ne hne with hlt | hgt
    · have hj2 : 2 ≤ j := by omega
      have := r3 (3 * j - 4) (by omega) (by omega)
      have hs4 : IsDirectorySeparator cfg (charAt buf (3 * j - 4)) = true :=
        (h (3 * j - 4) (by omega)).2 (by omega)
      rw [isNameChar_sep cfg _ hs4] at this
      exact Bool.noConfusion this
    · rcases r4 with r0 | r0
      · omega
      · have hcase : rvsSkipName cfg buf 0 (3 * j - 1 - 0) (3 * j - 1) - 1 = 3 * j - 3 ∨
            rvsSkipName cfg buf 0 (3 * j - 1 - 0) (3 * j - 1) - 1 = 3 * j - 2 := by omega
        rcases hcase with e | e
        · rw [e, hc3, hname] at r0; exact Bool.noConfusion r0
        · rw [e, hc2, hname] at r0; exact Bool.noConfusion r0
  rw [hval]
  have c3 : ¬ (3 * j - 3 == 0 + 2 && IsDirectorySeparator cfg (charAt buf 0)
      && IsDirectorySeparator cfg (charAt buf (0 + 1))) = true := by
    simp only [Bool.and_eq_true, beq_iff_eq, not_and]
    intro h'; omega
  rw [if_neg c3]

theorem findComponentRvs_above_dots (cfg : PathConfig)
    (hd1 : IsDirectorySeparator cfg 46 = false)
    (hsd : cfg.kFilePathDriveSeparator ≠ cfg.kFilePathSeparator)
    (buf : List Nat) (k out : Nat) (hk : 1 ≤ k) (ho : 3 * k < out)
    (h : DotsOut cfg (3 * k) buf) :
    3 * k ≤ findComponentRvs cfg buf 0 out := by
  have hs1 : charAt buf (3 * k - 1) = cfg.kFilePathSeparator := by
    have := h (3 * k - 1) (by omega)
    rw [this, if_pos (by omega)]
  have hc0 : charAt buf 0 = 46 := by
    have := h 0 (by omega)
    rw [this, if_neg (by omega)]
  unfold findComponentRvs
  simp only []
  generalize hl1 : (if (decide (out > 0) && IsDirectorySeparator cfg (charAt buf (out - 1))) = true
    then out - 1 else out) = last1
  have h1 : 3 * k ≤ last1 := by
    rw [← hl1]; split_ifs <;> omega
  generalize hl2 : (if (decide (last1 > 0) && charAt buf (last1 - 1)
    == cfg.kFilePathDriveSeparator) = true then last1 - 1 else last1) = last2
  have h2 : 3 * k ≤ last2 := by
    rw [← hl2]
    by_cases hc : (decide (last1 > 0) && charAt buf (last1 - 1)
        == cfg.kFilePathDriveSeparator) = true
    · rw [if_pos hc]
      rcases Nat.eq_or_lt_of_le h1 with e | e
      · exfalso
        rw [← e, hs1] at hc
        simp only [Bool.and_eq_true, beq_iff_eq] at hc
        exact hsd hc.2.symm
      · omega
    · rw [if_neg hc]; exact h1
  obtain ⟨-, r2, r3, r4⟩ := rvsSkipName_spec cfg buf 0 (last2 - 0) last2
    (Nat.zero_le _) (Nat.le_refl _)
  have h3 : 3 * k ≤ rvsSkipName cfg buf 0 (last2 - 0) last2 := by
    by_contra hcon
    have := r3 (3 * k - 1) (by omega) (by omega)
    rw [hs1, isNameChar_sep cfg _ (IsDirectorySeparator_primary cfg)] at this
    exact Bool.noConfusion this
  have c3 : ¬ (rvsSkipName cfg buf 0 (last2 - 0) last2 == 0 + 2
      && IsDirectorySeparator cfg (charAt buf 0)
      && IsDirectorySeparator cfg (charAt buf (0 + 1))) = true := by
    rw [hc0, hd1]
    simp
  rw [if_neg c3]
  exact h3

theorem normStrips_dots (cfg : PathConfig) (hd1 : IsDirectorySeparator cfg 46 = false)
    (hd2 : cfg.kFilePathDriveSeparator ≠ 46) (last : Nat) (nl : Bool) (buf : List Nat)
    (first j : Nat) (hl : 3 * j ≤ last) (h : DotsIn cfg (3 * j) buf) :
    normStrips cfg last nl buf first (3 * j) = false := by
  unfold normStrips
  rcases Nat.eq_zero_or_pos j with h0 | hpos
  · subst h0
    simp
  · rw [findComponentRvs_dots cfg hd1 hd2 buf j hpos h]
    have hs1 : IsDirectorySeparator cfg (charAt buf (3 * j - 3 + 2)) = true :=
      (h (3 * j - 3 + 2) (by omega)).2 (by omega)
    have hc2 : charAt buf (3 * j - 3 + 1) = 46 := (h (3 * j - 3 + 1) (by omega)).1 (by omega)
    have hc3 : charAt buf (3 * j - 3) = 46 := (h (3 * j - 3) (by omega)).1 (by omega)
    have hlt : 3 * j - 3 + 2 < last := by omega
    simp [hs1, hc2, hc3, hlt]


theorem normCopyComponent_frame (cfg : PathConfig) (b : Bool) (last : Nat) :
    ∀ (k : Nat) (buf : List Nat) (first out : Nat),
      out ≤ (normCopyComponent cfg b last k buf first out).2.2 ∧
      ∀ i, i < out → charAt (normCopyComponent cfg b last k buf first out).1 i = charAt buf i := by
  intro k
  induction k with
  | zero => intro buf first out; exact ⟨Nat.le_refl _, fun i _ => rfl⟩
  | succ k ih =>
    intro buf first out
    have hrec : ∀ c, out ≤ (normCopyComponent cfg b last k (buf.set out c) (first + 1)
          (out + 1)).2.2 ∧
        ∀ i, i < out → charAt (normCopyComponent cfg b last k (buf.set out c) (first + 1)
          (out + 1)).1 i = charAt buf i := by
      intro c
      obtain ⟨i1, i2⟩ := ih (buf.set out c) (first + 1) (out + 1)
      refine ⟨by omega, fun i hi => ?_⟩
      rw [i2 i (by omega), charAt_set_other buf out c i (by omega)]
    unfold normCopyComponent
    by_cases hlt : first < last
    · rw [if_pos hlt]
      simp only []
      by_cases hs : IsDirectorySeparator cfg (charAt buf first) = true
      · rw [if_pos hs]
        exact ⟨Nat.le_succ _, fun i hi => charAt_set_other buf out _ i (by omega)⟩
      · rw [if_neg hs]
        by_cases hd : (charAt buf first == cfg.kFilePathDriveSeparator) = true
        · rw [if_pos hd]
          by_cases hbr : (decide (first + 1 ≥ last) ||
              !IsDirectorySeparator cfg (charAt (buf.set out (charAt buf first)) (out + 1))) = true
          · rw [if_pos hbr]
            exact ⟨Nat.le_succ _, fun i hi => charAt_set_other buf out _ i (by omega)⟩
          · rw [if_neg hbr]
            exact hrec _
        · rw [if_neg hd]
          exact hrec _
    · rw [if_neg hlt]
      exact ⟨Nat.le_refl _, fun i _ => rfl⟩

theorem normLoop_keeps_dots (cfg : PathConfig) (hd1 : IsDirectorySeparator cfg 46 = false)
    (hd2 : cfg.kFilePathDriveSeparator ≠ 46)
    (hsd : cfg.kFilePathDriveSeparator ≠ cfg.kFilePathSeparator)
    (last : Nat) (nl : Bool) (k : Nat) (fuel : Nat) (buf : List Nat) (first out : Nat)
    (hlen : buf.length = last) (h1 : out ≤ first) (h2 : first ≤ last) (h3 : 3 * k ≤ out)
    (h4 : DotsOut cfg (3 * k) buf) (hf : last - first < fuel) :
    ∃ r, normLoop cfg true last nl fuel buf first out = some r ∧ r.1.length = last ∧
      r.2 ≤ last ∧ 3 * k ≤ r.2 ∧ DotsOut cfg (3 * k) r.1 := by
  obtain ⟨r, first1, hr, hP⟩ := normLoop_rule cfg true last nl
    (fun buf first out => buf.length = last ∧ out ≤ first ∧ first ≤ last ∧ 3 * k ≤ out ∧
      DotsOut cfg (3 * k) buf)
    (fun buf first out h => ⟨h.2.1, h.2.2.1⟩)
    (fun buf first out h hd => by
      obtain ⟨p1, p2, p3, p4, p5⟩ := h
      have hb : first + 1 < last := by
        simp only [Bool.and_eq_true, decide_eq_true_eq] at hd
        exact hd.1.1
      have hge := skipDoubled_ge cfg buf last (last - (first + 2)) (first + 2)
      have hle := skipDoubled_le cfg buf last (last - (first + 2)) (first + 2) hb
      exact ⟨p1, by omega, hle, p4, p5⟩)
    (fun buf first out h hlt hst => by
      obtain ⟨p1, p2, p3, p4, p5⟩ := h
      have hb := normStrips_bound cfg last nl buf first out hst
      have hge := skipDoubled_ge cfg buf last (last - (first + 3)) (first + 3)
      have hle := skipDoubled_le cfg buf last (last - (first + 3)) (first + 3) hb
      have hprev := findComponentRvs_le cfg buf 0 out (Nat.zero_le _)
      refine ⟨p1, by omega, hle, ?_, p5⟩
      rcases Nat.eq_zero_or_pos k with hk | hk
      · omega
      · rcases Nat.eq_or_lt_of_le p4 with e | e
        · exfalso
          rw [← e, normStrips_dots cfg hd1 hd2 last nl buf first k (by omega)
            (DotsOut_DotsIn cfg _ buf p5)] at hst
          exact Bool.noConfusion hst
        · exact findComponentRvs_above_dots cfg hd1 hsd buf k out hk e p5)
    (fun buf first out h hlt _ _ => by
      obtain ⟨p1, p2, p3, p4, p5⟩ := h
      have hinv := normCopyComponent_inv cfg true last (last - first) buf first out p2 p3
      obtain ⟨f1, f2⟩ := normCopyComponent_frame cfg true last (last - first) buf first out
      refine ⟨by rw [hinv.1]; exact p1, hinv.2.1, hinv.2.2.1, by omega, fun i hi => ?_⟩
      rw [f2 i (by omega)]
      exact p5 i hi)
    fuel buf first out ⟨hlen, h1, h2, h3, h4⟩ hf
  obtain ⟨q1, q2, q3, q4, q5⟩ := hP
  exact ⟨r, hr, q1, by omega, q4, q5⟩

theorem skipDoubled_of_not_sep (cfg : PathConfig) (buf : List Nat) (last k first : Nat)
    (h : IsDirectorySeparator cfg (charAt buf first) = false) :
    skipDoubled cfg buf last k first = first := by
  cases k with
  | zero => rfl
  | succ k =>
    unfold skipDoubled
    rw [h]
    simp

theorem normCopyComponent_three (cfg : PathConfig) (hd1 : IsDirectorySeparator cfg 46 = false)
    (hd2 : cfg.kFilePathDriveSeparator ≠ 46) (last : Nat) (buf : List Nat) (first out n : Nat)
    (ho : out ≤ first) (hl : first + 2 < last)
    (c0 : charAt buf first = 46) (c1 : charAt buf (first + 1) = 46)
    (c2 : IsDirectorySeparator cfg (charAt buf (first + 2)) = true) :
    normCopyComponent cfg true last (n + 3) buf first out =
      ((((buf.set out 46).set (out + 1) 46).set (out + 2) cfg.kFilePathSeparator),
        skipDoubled cfg (((buf.set out 46).set (out + 1) 46).set (out + 2) cfg.kFilePathSeparator)
          last (last - (first + 3)) (first + 3),
        out + 3) := by
  have hnd : (46 == cfg.kFilePathDriveSeparator) = false := by
    simp only [beq_eq_false_iff_ne, ne_eq]
    exact fun h => hd2 h.symm
  have e1 : charAt (buf.set out 46) (first + 1) = 46 := by
    rw [charAt_set_other buf out 46 (first + 1) (by omega)]; exact c1
  have e2 : charAt ((buf.set out 46).set (out + 1) 46) (first + 1 + 1) = charAt buf (first + 2) := by
    rw [charAt_set_other _ (out + 1) 46 (first + 1 + 1) (by omega),
      charAt_set_other buf out 46 (first + 1 + 1) (by omega)]
  unfold normCopyComponent
  rw [if_pos (by omega : first < last)]
  simp only [c0, hd1, hnd, Bool.false_eq_true, if_false]
  unfold normCopyComponent
  rw [if_pos (by omega : first + 1 < last)]
  simp only [e1, hd1, hnd, Bool.false_eq_true, if_false]
  unfold normCopyComponent
  rw [if_pos (by omega : first + 1 + 1 < last)]
  simp only [e2, c2, if_true]

theorem charAt_set3 (buf : List Nat) (out c i : Nat) (h : out + 2 < buf.length) :
    charAt (((buf.set out 46).set (out + 1) 46).set (out + 2) c) i =
      if i = out then 46 else if i = out + 1 then 46 else if i = out + 2 then c
      else charAt buf i := by
  by_cases h2 : i = out + 2
  · subst h2
    rw [charAt_set_self _ _ _ (by simp only [List.length_set]; exact h)]
    rw [if_neg (by omega), if_neg (by omega), if_pos rfl]
  · rw [charAt_set_other _ _ _ _ h2]
    by_cases h1 : i = out + 1
    · subst h1
      rw [charAt_set_self _ _ _ (by simp only [List.length_set]; omega)]
      rw [if_neg (by omega), if_pos rfl]
    · rw [charAt_set_other _ _ _ _ h1]
      by_cases h0 : i = out
      · subst h0
        rw [charAt_set_self _ _ _ (by omega), if_pos rfl]
      · rw [charAt_set_other _ _ _ _ h0, if_neg h0, if_neg h1, if_neg h2]

theorem normLoop_dotdots (cfg : PathConfig) (hd1 : IsDirectorySeparator cfg 46 = false)
    (hd2 : cfg.kFilePathDriveSeparator ≠ 46)
    (hsd : cfg.kFilePathDriveSeparator ≠ cfg.kFilePathSeparator)
    (last : Nat) (nl : Bool) (k : Nat) (hk : 3 * k ≤ last) :
    ∀ (d j : Nat), j + d = k → ∀ (fuel : Nat) (buf : List Nat) (first : Nat),
      buf.length = last → DotsIn cfg (3 * k) buf → DotsOut cfg (3 * j) buf →
      3 * j ≤ first → first ≤ last → (j < k → first = 3 * j) → last - first < fuel →
      ∃ r, normLoop cfg true last nl fuel buf first (3 * j) = some r ∧ r.1.length = last ∧
        r.2 ≤ last ∧ 3 * k ≤ r.2 ∧ DotsOut cfg (3 * k) r.1 := by
  intro d
  induction d with
  | zero =>
    intro j hj fuel buf first hlen _ hout h1 h2 _ hf
    have e : j = k := by omega
    subst e
    exact normLoop_keeps_dots cfg hd1 hd2 hsd last nl j fuel buf first (3 * j) hlen h1 h2
      (Nat.le_refl _) hout hf
  | succ d ih =>
    intro j hj fuel buf first hlen hin hout h1 h2 h3 hf
    have hjk : j < k := by omega
    have hfirst := h3 hjk
    subst hfirst
    cases fuel with
    | zero => omega
    | succ f =>
      have c0 : charAt buf (3 * j) = 46 := (hin (3 * j) (by omega)).1 (by omega)
      have c1 : charAt buf (3 * j + 1) = 46 := (hin (3 * j + 1) (by omega)).1 (by omega)
      have c2 : IsDirectorySeparator cfg (charAt buf (3 * j + 2)) = true :=
        (hin (3 * j + 2) (by omega)).2 (by omega)
      have hdot : ¬ (decide (3 * j + 1 < last) && charAt buf (3 * j) == 46
          && IsDirectorySeparator cfg (charAt buf (3 * j + 1))) = true := by
        rw [c1, hd1]
        simp
      have hst : ¬ normStrips cfg last nl buf (3 * j) (3 * j) = true := by
        rw [normStrips_dots cfg hd1 hd2 last nl buf (3 * j) j (by omega)
          (DotsOut_DotsIn cfg _ buf hout)]
        exact Bool.false_ne_true
      obtain ⟨n, hn⟩ : ∃ n, last - 3 * j = n + 3 := ⟨last - 3 * j - 3, by omega⟩
      have hcopy := normCopyComponent_three cfg hd1 hd2 last buf (3 * j) (3 * j) n
        (Nat.le_refl _) (by omega) c0 c1 c2
      have hb3 : ∀ i, charAt (((buf.set (3 * j) 46).set (3 * j + 1) 46).set (3 * j + 2)
            cfg.kFilePathSeparator) i =
          if i = 3 * j then 46 else if i = 3 * j + 1 then 46
          else if i = 3 * j + 2 then cfg.kFilePathSeparator else charAt buf i :=
        fun i => charAt_set3 buf (3 * j) cfg.kFilePathSeparator i (by omega)
      have hlen3 : (((buf.set (3 * j) 46).set (3 * j + 1) 46).set (3 * j + 2)
          cfg.kFilePathSeparator).length = last := by
        simp only [List.length_set]; exact hlen
      have hin3 : DotsIn cfg (3 * k) (((buf.set (3 * j) 46).set (3 * j + 1) 46).set (3 * j + 2)
          cfg.kFilePathSeparator) := by
        intro i hi
        rw [hb3 i]
        by_cases e0 : i = 3 * j
        · rw [if_pos e0]
          exact ⟨fun _ => rfl, fun h => by omega⟩
        · rw [if_neg e0]
          by_cases e1 : i = 3 * j + 1
          · rw [if_pos e1]
            exact ⟨fun _ => rfl, fun h => by omega⟩
          · rw [if_neg e1]
            by_cases e2 : i = 3 * j + 2
            · rw [if_pos e2]
              exact ⟨fun h => by omega, fun _ => IsDirectorySeparator_primary cfg⟩
            · rw [if_neg e2]
              exact hin i hi
      have hout3 : DotsOut cfg (3 * (j + 1)) (((buf.set (3 * j) 46).set (3 * j + 1) 46).set
          (3 * j + 2) cfg.kFilePathSeparator) := by
        intro i hi
        rw [hb3 i]
        by_cases e0 : i = 3 * j
        · rw [if_pos e0, if_neg (by omega)]
        · rw [if_neg e0]
          by_cases e1 : i = 3 * j + 1
          · rw [if_pos e1, if_neg (by omega)]
          · rw [if_neg e1]
            by_cases e2 : i = 3 * j + 2
            · rw [if_pos e2, if_pos (by omega)]
            · rw [if_neg e2]
              exact hout i (by omega)
      have hge := skipDoubled_ge cfg (((buf.set (3 * j) 46).set (3 * j + 1) 46).set (3 * j + 2)
          cfg.kFilePathSeparator) last (last - (3 * j + 3)) (3 * j + 3)
      have hle := skipDoubled_le cfg (((buf.set (3 * j) 46).set (3 * j + 1) 46).set (3 * j + 2)
          cfg.kFilePathSeparator) last (last - (3 * j + 3)) (3 * j + 3) (by omega)
      have hnext : j + 1 < k → skipDoubled cfg (((buf.set (3 * j) 46).set (3 * j + 1) 46).set
          (3 * j + 2) cfg.kFilePathSeparator) last (last - (3 * j + 3)) (3 * j + 3)
            = 3 * (j + 1) := by
        intro hlt
        have e : charAt (((buf.set (3 * j) 46).set (3 * j + 1) 46).set
            (3 * j + 2) cfg.kFilePathSeparator) (3 * j + 3) = 46 := by
          rw [hb3, if_neg (by omega), if_neg (by omega), if_neg (by omega)]
          exact (hin (3 * j + 3) (by omega)).1 (by omega)
        rw [skipDoubled_of_not_sep cfg _ last _ _ (by rw [e]; exact hd1)]
        omega
      have hrec := ih (j + 1) (by omega) f
        (((buf.set (3 * j) 46).set (3 * j + 1) 46).set (3 * j + 2) cfg.kFilePathSeparator)
        (skipDoubled cfg (((buf.set (3 * j) 46).set (3 * j + 1) 46).set (3 * j + 2)
          cfg.kFilePathSeparator) last (last - (3 * j + 3)) (3 * j + 3))
        hlen3 hin3 hout3 (by omega) hle hnext (by omega)
      unfold normLoop
      rw [if_pos (by omega : 3 * j < last), if_neg hdot, if_neg hst]
      simp only []
      rw [hn, hcopy]
      exact hrec

theorem dotDots_cons (c : Nat) (t : List Nat) : dotDots (c :: t) = 46 :: 46 :: c :: dotDots t := by
  simp [dotDots, List.flatMap_cons]

theorem dotDots_length (seps : List Nat) : (dotDots seps).length = 3 * seps.length := by
  induction seps with
  | nil => rfl
  | cons c t ih =>
    rw [dotDots_cons]
    simp only [List.length_cons, ih]
    omega

theorem DotsIn_dotDots (cfg : PathConfig) (rest : List Nat) :
    ∀ (seps : List Nat), (∀ c ∈ seps, IsDirectorySeparator cfg c = true) →
      DotsIn cfg (3 * seps.length) (dotDots seps ++ rest) := by
  intro seps
  induction seps with
  | nil => intro _ i hi; simp at hi
  | cons c t ih =>
    intro hs i hi
    have iht := ih (fun x hx => hs x (List.mem_cons_of_mem _ hx))
    rw [dotDots_cons]
    simp only [List.cons_append]
    simp only [List.length_cons] at hi
    rcases i with _ | _ | _ | i
    · exact ⟨fun _ => rfl, fun h => by omega⟩
    · exact ⟨fun _ => rfl, fun h => by omega⟩
    · exact ⟨fun h => by omega, fun _ => hs c (List.mem_cons_self _ _)⟩
    · rw [charAt_cons_succ, charAt_cons_succ, charAt_cons_succ]
      have := iht i (by omega)
      exact ⟨fun h => this.1 (by omega), fun h => this.2 (by omega)⟩

theorem DotsOut_start (cfg : PathConfig) :
    ∀ (k : Nat) (r : List Nat), 3 * k ≤ r.length → DotsOut cfg (3 * k) r →
      r = dotDots (List.replicate k cfg.kFilePathSeparator) ++ r.drop (3 * k) := by
  intro k
  induction k with
  | zero => intro r _ _; rfl
  | succ k ih =>
    intro r hl h
    match r, hl, h with
    | a :: b :: c :: r1, hl, h =>
      have ha : a = 46 := h 0 (by omega)
      have hb : b = 46 := h 1 (by omega)
      have hc : c = cfg.kFilePathSeparator := h 2 (by omega)
      have h1 : DotsOut cfg (3 * k) r1 := by
        intro i hi
        have := h (i + 3) (by omega)
        rw [charAt_cons_succ, charAt_cons_succ, charAt_cons_succ] at this
        rw [this]
        by_cases e : i % 3 = 2
        · rw [if_pos e, if_pos (by omega)]
        · rw [if_neg e, if_neg (by omega)]
      simp only [List.length_cons] at hl
      have hr := ih r1 (by omega) h1
      have e3 : 3 * (k + 1) = 3 * k + 1 + 1 + 1 := by omega
      rw [List.replicate_succ, dotDots_cons, e3]
      simp only [List.drop_succ_cons, List.cons_append]
      rw [← hr, ha, hb, hc]
    | [], hl, _ => simp at hl
    | [_], hl, _ => simp at hl; omega
    | [_, _], hl, _ => simp at hl; omega

theorem normCopyUNC_of_ne (cfg : PathConfig) (b : Bool) (last k : Nat) (buf : List Nat)
    (first out : Nat) (h : charAt buf first ≠ 92) :
    normCopyUNC cfg b last k buf first out = (buf, first, out) := by
  cases k with
  | zero => rfl
  | succ k =>
    unfold normCopyUNC
    have e : (charAt buf first == 92) = false := by
      simp only [beq_eq_false_iff_ne, ne_eq]; exact h
    rw [e]
    simp

/-- C13: a path that starts with `k` components `".."`, each followed by any
directory separator, normalizes to a path that starts with the same `k`
components `".."`, each followed by the canonical separator, whatever text
follows them (in particular text without `"."` or `".."` components): nothing
written before a leading `".."` can cancel it.  So `"../a"` and `"../../a"`
keep their `".."` components, changed only in the separator, and
`"x/../../y"` normalizes to `"../y"` written with the canonical separator.
The platform constants are assumed to keep `'.'` apart from the directory and
drive separators and the drive separator apart from the path separator. -/
theorem C13_leading_dotdot_preserved (cfg : PathConfig)
    (hd1 : IsDirectorySeparator cfg 46 = false) (hd2 : cfg.kFilePathDriveSeparator ≠ 46)
    (hsd : cfg.kFilePathDriveSeparator ≠ cfg.kFilePathSeparator)
    (seps rest : List Nat) (hs : ∀ c ∈ seps, IsDirectorySeparator cfg c = true) :
    (∃ tail, normalize cfg (dotDots seps ++ rest) =
      some (dotDots (List.replicate seps.length cfg.kFilePathSeparator) ++ tail)) ∧
    normalize windowsConfig (str "../a") = some (str "..\\a") ∧
    normalize windowsConfig (str "..\\a") = some (str "..\\a") ∧
    normalize windowsConfig (str "../../a") = some (str "..\\..\\a") ∧
    normalize windowsConfig (str "..\\..\\a") = some (str "..\\..\\a") ∧
    normalize windowsConfig (str "x/../../y") = some (str "..\\y") ∧
    normalize slashConfig (str "../a") = some (str "../a") ∧
    normalize slashConfig (str "../../a") = some (str "../../a") ∧
    normalize slashConfig (str "x/../../y") = some (str "../y") := by
  refine ⟨?_, by decide, by decide, by decide, by decide, by decide, by decide, by decide,
    by decide⟩
  have hlen : (dotDots seps ++ rest).length = 3 * seps.length + rest.length := by
    rw [List.length_append, dotDots_length]
  have hin := DotsIn_dotDots cfg rest seps hs
  have hloop : ∃ r, normLoop cfg true (dotDots seps ++ rest).length
      (HasUNCPrefix (dotDots seps ++ rest) 0 (dotDots seps ++ rest).length ||
        HasDrivePrefix cfg (dotDots seps ++ rest) 0 (dotDots seps ++ rest).length)
      ((dotDots seps ++ rest).length + 1)
      (normCopyUNC cfg true (dotDots seps ++ rest).length (dotDots seps ++ rest).length
        (dotDots seps ++ rest) 0 0).1
      (normCopyUNC cfg true (dotDots seps ++ rest).length (dotDots seps ++ rest).length
        (dotDots seps ++ rest) 0 0).2.1
      (normCopyUNC cfg true (dotDots seps ++ rest).length (dotDots seps ++ rest).length
        (dotDots seps ++ rest) 0 0).2.2 = some r ∧
      r.1.length = (dotDots seps ++ rest).length ∧ r.2 ≤ (dotDots seps ++ rest).length ∧
      3 * seps.length ≤ r.2 ∧ DotsOut cfg (3 * seps.length) r.1 := by
    rcases Nat.eq_zero_or_pos seps.length with hz | hpos
    · have hu := normCopyUNC_inv cfg true (dotDots seps ++ rest).length
        (dotDots seps ++ rest).length (dotDots seps ++ rest) 0 0 (Nat.le_refl _) (Nat.zero_le _)
      rw [hz]
      exact normLoop_keeps_dots cfg hd1 hd2 hsd _ _ 0 _ _ _ _ hu.1 hu.2.1 hu.2.2
        (Nat.zero_le _) (fun i hi => absurd hi (Nat.not_lt_zero i)) (by omega)
    · have c0 : charAt (dotDots seps ++ rest) 0 = 46 := (hin 0 (by omega)).1 (by omega)
      rw [normCopyUNC_of_ne cfg true _ _ _ 0 0 (by rw [c0]; decide)]
      exact normLoop_dotdots cfg hd1 hd2 hsd _ _ seps.length (by omega) seps.length 0
        (Nat.zero_add _) _ _ 0 rfl hin (fun i hi => absurd hi (Nat.not_lt_zero i))
        (Nat.le_refl _) (Nat.zero_le _) (fun _ => rfl) (by omega)
  obtain ⟨r, hr, q1, q2, q3, q4⟩ := hloop
  have htl : (r.1.take r.2).length = r.2 := by
    rw [List.length_take]; omega
  have hout : DotsOut cfg (3 * seps.length) (r.1.take r.2) := by
    intro i hi
    rw [charAt_take r.1 r.2 i (by omega)]
    exact q4 i hi
  refine ⟨(r.1.take r.2).drop (3 * seps.length), ?_⟩
  unfold normalize PathStringnormalize
  simp only []
  rw [hr]
  exact congrArg some (DotsOut_start cfg seps.length (r.1.take r.2) (by omega) hout)

theorem C13_leading_dotdot_preserved_witness :
    IsDirectorySeparator windowsConfig 46 = false ∧
    windowsConfig.kFilePathDriveSeparator ≠ 46 ∧
    windowsConfig.kFilePathDriveSeparator ≠ windowsConfig.kFilePathSeparator ∧
    (∀ c ∈ [47, 92], IsDirectorySeparator windowsConfig c = true) ∧
    ∃ tail, normalize windowsConfig (dotDots [47, 92] ++ str "a") =
      some (dotDots (List.replicate 2 92) ++ tail) :=
  ⟨by decide, by decide, by decide, by decide,
    (C13_leading_dotdot_preserved windowsConfig (by decide) (by decide) (by decide)
      [47, 92] (str "a") (by decide)).1⟩

/-! ### `readString`: peeking and truncation -/

theorem readUint32_wire (kEndianLocal e : Endian) (D : List Nat) (pos n : Nat) (tl : List Nat)
    (hn : n < 2 ^ 32) (hD : D.drop pos = toBytes e 4 n ++ tl) :
    readUint32 kEndianLocal ⟨D, pos⟩ e = (some n, ⟨D, pos + 4⟩) := by
  have hwire := toBytes_swizzle4 kEndianLocal e n hn
  have hhl : (toBytes kEndianLocal 4
      (if e ≠ kEndianLocal then SwizzleUint32 n else n)).length = 4 := toBytes_length _ _ _
  have hval : (if e ≠ kEndianLocal then
        SwizzleUint32 (fromBytes kEndianLocal (toBytes kEndianLocal 4
          (if e ≠ kEndianLocal then SwizzleUint32 n else n)))
      else fromBytes kEndianLocal (toBytes kEndianLocal 4
          (if e ≠ kEndianLocal then SwizzleUint32 n else n))) = n := by
    by_cases he : e ≠ kEndianLocal
    · rw [if_pos he, if_pos he, fromBytes_toBytes4 _ _ (SwizzleUint32_lt _),
        SwizzleUint32_invol _ hn]
    · rw [if_neg he, if_neg he, fromBytes_toBytes4 _ _ hn]
  rw [← hwire] at hD
  generalize toBytes kEndianLocal 4
    (if e ≠ kEndianLocal then SwizzleUint32 n else n) = hdr at hD hhl hval
  have hread4 : (MemoryStream.read ⟨D, pos⟩ 4) = (hdr, ⟨D, pos + 4⟩) := by
    unfold MemoryStream.read
    simp only [hD]
    rw [← hhl, List.take_append_of_le_length (Nat.le_refl _), List.take_length]
  unfold readUint32
  rw [hread4]
  simp only [hhl, if_true, hval]

/-- C21: on a stream that holds at its cursor an encoded string (the four
bytes of the length `|chars|` in byte order `e`, then the characters, then
anything), `readString` with a NULL buffer returns `|chars|` and leaves the
stream, cursor included, as it was; with a buffer of capacity `c ≥ 1` it
returns `|chars|`, stores the first `min(|chars|, c - 1)` characters followed
by a nul, and leaves the cursor `4 + |chars|` after its start, past the whole
string. -/
theorem C21_readString_peek_and_truncate (kEndianLocal e : Endian) (W : Nat)
    (s : MemoryStream) (chars tl : List Nat) (c : Nat)
    (hlen : chars.length < 2 ^ 32) (hc : 1 ≤ c) (hW : c < 2 ^ W)
    (hs : s.data.drop s.pos = toBytes e 4 chars.length ++ (chars ++ tl)) :
    (readString kEndianLocal W s false c e).result = some chars.length ∧
    (readString kEndianLocal W s false c e).stored = [] ∧
    (readString kEndianLocal W s false c e).stream = s ∧
    (readString kEndianLocal W s true c e).result = some chars.length ∧
    (readString kEndianLocal W s true c e).stored
      = chars.take (min chars.length (c - 1)) ++ [0] ∧
    (readString kEndianLocal W s true c e).stream = ⟨s.data, s.pos + 4 + chars.length⟩ := by
  obtain ⟨D, pos⟩ := s
  simp only at hs
  have hru := readUint32_wire kEndianLocal e D pos chars.length (chars ++ tl) hlen hs
  have hDl : D.length - pos = 4 + (chars.length + tl.length) := by
    have := congrArg List.length hs
    simpa [toBytes_length] using this
  have hdrop4 : D.drop (pos + 4) = chars ++ tl := by
    rw [← List.drop_drop, hs, List.drop_append_of_le_length (by rw [toBytes_length]),
      List.drop_of_length_le (by rw [toBytes_length]), List.nil_append]
  have hset0 : MemoryStream.setPosition ⟨D, pos + 4⟩ pos = (true, ⟨D, pos⟩) := by
    unfold MemoryStream.setPosition
    rw [if_pos (by simp only; omega)]
  have hsub : subW W c 1 = c - 1 := subW_one W c hc hW
  have hnr : (if chars.length < subW W c 1 then chars.length else subW W c 1)
      = min chars.length (c - 1) := by
    rw [hsub]
    split_ifs <;> omega
  have hchars := readStringChars_spec D (min chars.length (c - 1)) (pos + 4) [] (by omega)
  rw [hdrop4, List.take_append_of_le_length (by omega), List.nil_append] at hchars
  have hset2 : ∀ q, MemoryStream.setPosition ⟨D, q⟩ (pos + 4 + chars.length)
      = (true, ⟨D, pos + 4 + chars.length⟩) := by
    intro q
    unfold MemoryStream.setPosition
    rw [if_pos (by simp only; omega)]
  refine ⟨?_, ?_, ?_, ?_, ?_, ?_⟩ <;>
    · unfold readString
      simp only [hru, MemoryStream.getPosition, Bool.not_true, Bool.not_false, Bool.false_eq_true,
        if_false, if_true, hnr, hchars, hset2, hset0]

/-- C21 on the stream `00 00 00 05 "hello" "!"` read in big-endian order on a
little-endian platform with a buffer of three characters. -/
theorem C21_readString_peek_and_truncate_witness :
    (readString kEndianLittle 64 ⟨[0, 0, 0, 5] ++ str "hello!", 0⟩ false 3 kEndianBig).stream
      = ⟨[0, 0, 0, 5] ++ str "hello!", 0⟩ ∧
    (readString kEndianLittle 64 ⟨[0, 0, 0, 5] ++ str "hello!", 0⟩ true 3 kEndianBig).stored
      = str "he" ++ [0] ∧
    (readString kEndianLittle 64 ⟨[0, 0, 0, 5] ++ str "hello!", 0⟩ true 3 kEndianBig).stream.pos
      = 9 :=
  have h := C21_readString_peek_and_truncate kEndianLittle kEndianBig 64
    ⟨[0, 0, 0, 5] ++ str "hello!", 0⟩ (str "hello") (str "!") 3 (by decide) (by decide)
    (by norm_num) (by decide)
  ⟨h.2.2.1, h.2.2.2.2.1, (congrArg MemoryStream.pos h.2.2.2.2.2).trans (by decide)⟩

/-! ### `readLine` -/

theorem read_one_cons (D : List Nat) (pos x : Nat) (tl : List Nat) (h : D.drop pos = x :: tl) :
    MemoryStream.read ⟨D, pos⟩ 1 = ([x], ⟨D, pos + 1⟩) := by
  unfold MemoryStream.read
  simp only [h]
  rfl

theorem read_one_nil (D : List Nat) (pos : Nat) (h : D.drop pos = []) :
    MemoryStream.read ⟨D, pos⟩ 1 = ([], ⟨D, pos⟩) := by
  unfold MemoryStream.read
  simp only [h]
  rfl

theorem drop_succ_of_drop_cons (D : List Nat) (pos x : Nat) (tl : List Nat)
    (h : D.drop pos = x :: tl) : D.drop (pos + 1) = tl := by
  rw [← List.drop_drop, h]
  rfl

theorem readLineLoop_char (W kSizeTypeDone : Nat) (pLine : Bool) (nMaxCount : Nat) (D : List Nat)
    (x : Nat) (tl : List Nat) (k pos nCount nread : Nat) (acc : List Nat)
    (hx : x ≠ 13 ∧ x ≠ 10) (hD : D.drop pos = x :: tl) :
    readLineLoop W kSizeTypeDone pLine nMaxCount (k + 1) ⟨D, pos⟩ nCount nread acc
      = readLineLoop W kSizeTypeDone pLine nMaxCount k ⟨D, pos + 1⟩ (nCount + 1) (nread + 1)
          (if pLine && decide (nCount < subW W nMaxCount 1) then acc ++ [x] else acc) := by
  have hr := read_one_cons D pos x tl hD
  conv_lhs => unfold readLineLoop
  simp only [hr, List.length_singleton, if_true, List.headD_cons]
  rw [if_neg (by intro h; rcases h with h | h; exact hx.1 h; exact hx.2 h)]

/-- The loop of `readLine` over the characters of a line: they are counted, and
stored while the count is below `nMaxCount - 1`. -/
theorem readLineLoop_line (W kSizeTypeDone : Nat) (pLine : Bool) (nMaxCount : Nat) (D : List Nat) :
    ∀ (L tl : List Nat) (k pos nCount nread : Nat) (acc : List Nat),
      (∀ x ∈ L, x ≠ 13 ∧ x ≠ 10) → D.drop pos = L ++ tl →
      readLineLoop W kSizeTypeDone pLine nMaxCount (k + L.length) ⟨D, pos⟩ nCount nread acc
        = readLineLoop W kSizeTypeDone pLine nMaxCount k ⟨D, pos + L.length⟩
            (nCount + L.length) (nread + L.length)
            (if pLine then acc ++ L.take (subW W nMaxCount 1 - nCount) else acc) := by
  intro L
  induction L with
  | nil =>
    intro tl k pos nCount nread acc _ _
    cases pLine <;> simp
  | cons x L ih =>
    intro tl k pos nCount nread acc hL hD
    have hx := hL x (List.mem_cons_self _ _)
    have hD1 := drop_succ_of_drop_cons D pos x (L ++ tl) hD
    have e : k + (x :: L).length = (k + L.length) + 1 := by simp only [List.length_cons]; omega
    rw [e, readLineLoop_char W kSizeTypeDone pLine nMaxCount D x (L ++ tl) _ pos nCount nread acc
      hx hD]
    rw [ih tl k (pos + 1) (nCount + 1) (nread + 1) _
      (fun y hy => hL y (List.mem_cons_of_mem _ hy)) hD1]
    have e1 : pos + 1 + L.length = pos + (x :: L).length := by
      simp only [List.length_cons]; omega
    have e2 : nCount + 1 + L.length = nCount + (x :: L).length := by
      simp only [List.length_cons]; omega
    have e3 : nread + 1 + L.length = nread + (x :: L).length := by
      simp only [List.length_cons]; omega
    rw [e1, e2, e3]
    congr 1
    cases pLine
    · rfl
    · by_cases hlt : nCount < subW W nMaxCount 1
      · obtain ⟨m, hm⟩ : ∃ m, subW W nMaxCount 1 - nCount = m + 1 :=
          ⟨subW W nMaxCount 1 - nCount - 1, by omega⟩
        have hm1 : subW W nMaxCount 1 - (nCount + 1) = m := by omega
        simp [hlt, hm, hm1]
      · have h0 : subW W nMaxCount 1 - nCount = 0 := by omega
        have h1 : subW W nMaxCount 1 - (nCount + 1) = 0 := by omega
        simp [hlt, h0, h1]

theorem readLineLoop_lf (W kSizeTypeDone : Nat) (pLine : Bool) (nMaxCount : Nat) (D : List Nat)
    (tl : List Nat) (k pos nCount nread : Nat) (acc : List Nat) (hD : D.drop pos = 10 :: tl) :
    readLineLoop W kSizeTypeDone pLine nMaxCount (k + 1) ⟨D, pos⟩ nCount nread acc
      = some (nCount, acc, ⟨D, pos + 1⟩) := by
  have hr := read_one_cons D pos 10 tl hD
  unfold readLineLoop
  simp [hr]

theorem readLineLoop_crlf (W kSizeTypeDone : Nat) (pLine : Bool) (nMaxCount : Nat) (D : List Nat)
    (tl : List Nat) (k pos nCount nread : Nat) (acc : List Nat)
    (hD : D.drop pos = 13 :: 10 :: tl) :
    readLineLoop W kSizeTypeDone pLine nMaxCount (k + 1) ⟨D, pos⟩ nCount nread acc
      = some (nCount, acc, ⟨D, pos + 2⟩) := by
  have hr := read_one_cons D pos 13 (10 :: tl) hD
  have hr2 := read_one_cons D (pos + 1) 10 tl (drop_succ_of_drop_cons D pos 13 (10 :: tl) hD)
  unfold readLineLoop
  simp [hr, hr2]

theorem readLineLoop_eol (W kSizeTypeDone : Nat) (pLine : Bool) (nMaxCount : Nat) (D : List Nat)
    (x : Nat) (tl : List Nat) (k pos nCount nread : Nat) (acc : List Nat)
    (hx : x = 13 ∨ x = 10) (hD : D.drop pos = x :: tl) :
    ∃ st, readLineLoop W kSizeTypeDone pLine nMaxCount (k + 1) ⟨D, pos⟩ nCount nread acc
      = some (nCount, acc, st) := by
  have hr := read_one_cons D pos x tl hD
  unfold readLineLoop
  simp only [hr, List.length_singleton, if_true, List.headD_cons]
  rw [if_pos hx]
  split_ifs <;> exact ⟨_, rfl⟩

theorem readLineLoop_eof (W kSizeTypeDone : Nat) (pLine : Bool) (nMaxCount : Nat) (D : List Nat)
    (k pos nCount nread : Nat) (acc : List Nat) (hD : D.drop pos = []) :
    readLineLoop W kSizeTypeDone pLine nMaxCount (k + 1) ⟨D, pos⟩ nCount nread acc
      = some (if nread = 0 then kSizeTypeDone else nCount, acc, ⟨D, pos⟩) := by
  have hr := read_one_nil D pos hD
  unfold readLineLoop
  simp [hr]

/-- The loop of `readLine` returns for every stream, with `kSizeTypeDone` or
the unchanged count when nothing is left, and otherwise with a count that grew
by at most the number of characters left. -/
theorem readLineLoop_total (W kSizeTypeDone : Nat) (pLine : Bool) (nMaxCount : Nat) (D : List Nat) :
    ∀ (R : List Nat) (k pos nCount nread : Nat) (acc : List Nat),
      D.drop pos = R → R.length < k →
      ∃ r, readLineLoop W kSizeTypeDone pLine nMaxCount k ⟨D, pos⟩ nCount nread acc = some r ∧
        (R = [] → r.1 = if nread = 0 then kSizeTypeDone else nCount) ∧
        (R ≠ [] → nCount ≤ r.1 ∧ r.1 ≤ nCount + R.length) := by
  intro R
  induction R with
  | nil =>
    intro k pos nCount nread acc hD hk
    obtain ⟨k, rfl⟩ : ∃ j, k = j + 1 := ⟨k - 1, by simp at hk; omega⟩
    rw [readLineLoop_eof W kSizeTypeDone pLine nMaxCount D k pos nCount nread acc hD]
    exact ⟨_, rfl, fun _ => rfl, fun h => absurd rfl h⟩
  | cons x R ih =>
    intro k pos nCount nread acc hD hk
    simp only [List.length_cons] at hk
    obtain ⟨k, rfl⟩ : ∃ j, k = j + 1 := ⟨k - 1, by omega⟩
    by_cases hx : x = 13 ∨ x = 10
    · obtain ⟨st, hst⟩ := readLineLoop_eol W kSizeTypeDone pLine nMaxCount D x R k pos nCount
        nread acc hx hD
      rw [hst]
      refine ⟨_, rfl, fun h => absurd h (List.cons_ne_nil _ _), fun _ => ?_⟩
      simp only [List.length_cons]
      omega
    · have hx1 : x ≠ 13 ∧ x ≠ 10 := ⟨fun h => hx (Or.inl h), fun h => hx (Or.inr h)⟩
      rw [readLineLoop_char W kSizeTypeDone pLine nMaxCount D x R k pos nCount nread acc hx1 hD]
      obtain ⟨r, hr, h1, h2⟩ := ih k (pos + 1) (nCount + 1) (nread + 1)
        (if pLine && decide (nCount < subW W nMaxCount 1) then acc ++ [x] else acc)
        (drop_succ_of_drop_cons D pos x R hD) (by omega)
      refine ⟨r, hr, fun h => absurd h (List.cons_ne_nil _ _), fun _ => ?_⟩
      simp only [List.length_cons]
      by_cases hR : R = []
      · have := h1 hR
        rw [if_neg (Nat.succ_ne_zero _)] at this
        omega
      · have := h2 hR
        omega

/-- C22: on a stream whose remaining content is `L ++ T ++ rest`, where `L` has
no `'\r'` or `'\n'` and `T` is `"\n"` or `"\r\n"`, the 8-bit `readLine` with a
buffer of capacity `c ≥ 1` returns `|L|` (so 0 for an empty line), stores the
first `c - 1` characters of `L` followed by a nul, and leaves the stream at the
start of `rest`.  On every stream shorter than `kSizeTypeDone` it returns, and
the result is `kSizeTypeDone` exactly when no character is left to read. -/
theorem C22_readLine_consumes_one_line (W kSizeTypeDone c : Nat) (hc : 1 ≤ c) (hW : c < 2 ^ W) :
    (∀ (s : MemoryStream) (L T rest : List Nat), (∀ x ∈ L, x ≠ 13 ∧ x ≠ 10) →
      T = [10] ∨ T = [13, 10] → s.data.drop s.pos = L ++ (T ++ rest) →
      readLine W kSizeTypeDone s true c
        = some ⟨L.length, L.take (c - 1) ++ [0], ⟨s.data, s.pos + L.length + T.length⟩⟩) ∧
    (∀ (s : MemoryStream), s.data.length - s.pos < kSizeTypeDone →
      ∃ r, readLine W kSizeTypeDone s true c = some r ∧
        (r.result = kSizeTypeDone ↔ s.data.drop s.pos = [])) := by
  have hsub : subW W c 1 = c - 1 := subW_one W c hc hW
  constructor
  · intro s L T rest hL hT hs
    obtain ⟨D, pos⟩ := s
    simp only at hs
    have hlen : D.length - pos = L.length + (T.length + rest.length) := by
      have := congrArg List.length hs
      simpa using this
    have hdropL : D.drop (pos + L.length) = T ++ rest := by
      rw [← List.drop_drop, hs, List.drop_append_of_le_length (Nat.le_refl _),
        List.drop_of_length_le (Nat.le_refl _), List.nil_append]
    have hT1 : 1 ≤ T.length := by rcases hT with h | h <;> simp [h]
    obtain ⟨k, hk⟩ : ∃ k, D.length - pos + 1 = (k + 1) + L.length :=
      ⟨D.length - pos - L.length, by omega⟩
    unfold readLine
    simp only [hk]
    rw [readLineLoop_line W kSizeTypeDone true c D L (T ++ rest) (k + 1) pos 0 0 [] hL hs]
    rcases hT with h | h
    · subst h
      rw [readLineLoop_lf W kSizeTypeDone true c D rest k _ _ _ _ hdropL]
      simp [hsub]
    · subst h
      rw [readLineLoop_crlf W kSizeTypeDone true c D rest k _ _ _ _ hdropL]
      simp [hsub, Nat.add_assoc]
  · intro s hlt
    obtain ⟨D, pos⟩ := s
    simp only at hlt
    obtain ⟨r, hr, h1, h2⟩ := readLineLoop_total W kSizeTypeDone true c D (D.drop pos)
      (D.length - pos + 1) pos 0 0 [] rfl (by rw [List.length_drop]; omega)
    refine ⟨⟨r.1, r.2.1 ++ [0], r.2.2⟩, ?_, ?_⟩
    · unfold readLine
      simp only [hr]
      rfl
    · simp only [List.length_drop] at h2
      constructor
      · intro hd
        by_contra hne
        have := h2 hne
        change r.1 = kSizeTypeDone at hd
        omega
      · intro he
        have := h1 he
        simpa using this

/-- C22 on the stream `"ab\r\ncd"` with a buffer of two characters, and on an
exhausted stream. -/
theorem C22_readLine_consumes_one_line_witness :
    readLine 64 (2 ^ 64 - 2) ⟨str "ab\r\ncd", 0⟩ true 2
      = some ⟨2, str "a" ++ [0], ⟨str "ab\r\ncd", 4⟩⟩ ∧
    ∃ r, readLine 64 (2 ^ 64 - 2) ⟨str "ab", 2⟩ true 2 = some r ∧
      (r.result = 2 ^ 64 - 2 ↔ (str "ab").drop 2 = []) :=
  ⟨(C22_readLine_consumes_one_line 64 (2 ^ 64 - 2) 2 (by decide) (by norm_num)).1
      ⟨str "ab\r\ncd", 0⟩ (str "ab") [13, 10] (str "cd") (by decide) (Or.inr rfl) (by decide),
   (C22_readLine_consumes_one_line 64 (2 ^ 64 - 2) 2 (by decide) (by norm_num)).2
      ⟨str "ab", 2⟩ (by norm_num [str])⟩

/-! ### `CopyStream` -/

theorem subW_of_le (W a b : Nat) (hb : b ≤ a) (ha : a < 2 ^ W) : subW W a b = a - b := by
  unfold subW
  rw [Nat.mod_eq_of_lt (by omega : b < 2 ^ W)]
  have e : a + 2 ^ W - b = (a - b) + 2 ^ W := by omega
  rw [e, Nat.add_mod_right, Nat.mod_eq_of_lt (by omega)]

theorem write_pos_le (s : MemoryStream) (x : List Nat) (hs : s.pos ≤ s.data.length) :
    (s.write x).2.pos ≤ (s.write x).2.data.length := by
  rw [write_eq s x hs]
  simp only [List.length_append, List.length_take, List.length_drop]
  omega

theorem write_nil (s : MemoryStream) (hs : s.pos ≤ s.data.length) : s.write [] = (true, s) := by
  rw [write_eq s [] hs]
  simp

theorem memoryIStream_read (f : Nat) (s : MemoryStream) (n : Nat) :
    (memoryIStream f).read s n = (some (s.read n).1, (s.read n).2) := rfl

theorem memoryIStream_write (f : Nat) (s : MemoryStream) (b : List Nat) :
    (memoryIStream f).write s b = s.write b := rfl

theorem memoryIStream_getSize (f : Nat) (s : MemoryStream) :
    (memoryIStream f).getSize s = s.data.length := rfl

/-- The loop of `CopyStream` between two memory streams copies
`min(nRemaining, bytes left in the source)` bytes. -/
theorem copyLoop_memory (W f1 f2 : Nat) (S : List Nat) :
    ∀ (k p n : Nat) (d : MemoryStream), n < k → n < 2 ^ W → d.pos ≤ d.data.length →
      copyLoop (memoryIStream f1) (memoryIStream f2) W k ⟨S, p⟩ d n
        = some (some (n - min n (S.length - p)), ⟨S, p + min n (S.length - p)⟩,
            (d.write ((S.drop p).take (min n (S.length - p)))).2) := by
  intro k
  induction k with
  | zero => intro p n d h; omega
  | succ k ih =>
    intro p n d hk hW hd
    unfold copyLoop
    by_cases hn : n = 0
    · subst hn
      simp [write_nil d hd]
    · rw [if_pos hn]
      have hlen : ((S.drop p).take (if n ≥ 2048 then 2048 else n)).length
          = min (if n ≥ 2048 then 2048 else n) (S.length - p) := by
        rw [List.length_take, List.length_drop]
      simp only [memoryIStream_read, memoryIStream_write, MemoryStream.read]
      by_cases hb : ((S.drop p).take (if n ≥ 2048 then 2048 else n)).length = 0
      · have hS : S.length - p = 0 := by
          rw [hlen] at hb
          split_ifs at hb <;> omega
        have hnil : (S.drop p).take (if n ≥ 2048 then 2048 else n) = [] :=
          List.eq_nil_of_length_eq_zero hb
        simp [hnil, hS, write_nil d hd]
      · have hw := write_eq d ((S.drop p).take (if n ≥ 2048 then 2048 else n)) hd
        have hw1 : (d.write ((S.drop p).take (if n ≥ 2048 then 2048 else n))).1 = true := by
          rw [hw]
        simp only [hw1, Bool.not_true, Bool.false_eq_true, if_false, hb]
        have hble : ((S.drop p).take (if n ≥ 2048 then 2048 else n)).length ≤ n := by
          rw [hlen]; split_ifs <;> omega
        rw [subW_of_le W n _ hble hW]
        rw [ih _ _ _ (by omega) (by omega) (write_pos_le d _ hd)]
        rw [write_append d _ _ hd]
        rw [hlen] at hb ⊢
        have hm : min n (S.length - p) = min (if n ≥ 2048 then 2048 else n) (S.length - p)
            + min (n - min (if n ≥ 2048 then 2048 else n) (S.length - p))
                (S.length - (p + min (if n ≥ 2048 then 2048 else n) (S.length - p))) := by
          split_ifs <;> omega
        have htake : (S.drop p).take (if n ≥ 2048 then 2048 else n)
            = (S.drop p).take (min (if n ≥ 2048 then 2048 else n) (S.length - p)) := by
          rw [List.take_eq_take, List.length_drop]
          omega
        rw [htake]
        generalize min (if n ≥ 2048 then 2048 else n) (S.length - p) = b at hb hm ⊢
        generalize min (n - b) (S.length - (p + b)) = m1 at hm ⊢
        rw [hm, ← List.drop_drop, ← List.take_add, Nat.add_assoc, Nat.sub_sub]

/-- Remembering failures does not change what the loop of `CopyStream` does. -/
theorem copyLoop_flagged_erase {σ τ : Type} (src : IStream σ) (dst : IStream τ) (W : Nat) :
    ∀ (k : Nat) (s : σ) (d : τ) (fs fd : Bool) (n : Nat),
      (copyLoop (flagged src) (flagged dst) W k (s, fs) (d, fd) n).map
          (fun r => (r.1, r.2.1.1, r.2.2.1))
        = copyLoop src dst W k s d n := by
  intro k
  induction k with
  | zero => intro s d fs fd n; rfl
  | succ k ih =>
    intro s d fs fd n
    unfold copyLoop
    by_cases hn : n = 0
    · simp [hn]
    · rw [if_pos hn, if_pos hn]
      simp only [flagged]
      cases hr : (src.read s (if n ≥ 2048 then 2048 else n)).1 with
      | none => simp
      | some bytes =>
        simp only []
        cases hw : (dst.write d bytes).1 with
        | false => simp
        | true =>
          simp only [Bool.not_true, Bool.false_eq_true, if_false]
          by_cases hb : bytes.length = 0
          · simp [hb]
          · rw [if_neg hb, if_neg hb]
            exact ih _ _ _ _ _

/-- The loop of `CopyStream` returns when reads give no more than was asked
for, and it returns the error exactly when a read or a write has failed. -/
theorem copyLoop_error_iff {σ τ : Type} (src : IStream σ) (dst : IStream τ) (W : Nat)
    (hread : ∀ s n b, (src.read s n).1 = some b → b.length ≤ n) :
    ∀ (k : Nat) (s : σ) (d : τ) (n : Nat), n < k → n < 2 ^ W →
      ∃ res s1 d1, copyLoop (flagged src) (flagged dst) W k (s, false) (d, false) n
          = some (res, s1, d1) ∧
        (res = none ↔ (s1.2 = true ∨ d1.2 = true)) := by
  intro k
  induction k with
  | zero => intro s d n h; omega
  | succ k ih =>
    intro s d n hk hW
    unfold copyLoop
    by_cases hn : n = 0
    · simp [hn]
    · rw [if_pos hn]
      simp only [flagged]
      cases hr : (src.read s (if n ≥ 2048 then 2048 else n)).1 with
      | none => simp
      | some bytes =>
        simp only []
        cases hw : (dst.write d bytes).1 with
        | false => simp
        | true =>
          simp only [Bool.not_true, Bool.false_eq_true, if_false]
          by_cases hb : bytes.length = 0
          · simp [hb]
          · rw [if_neg hb]
            have hle := hread s _ bytes hr
            have hble : bytes.length ≤ n := by
              split_ifs at hle <;> omega
            rw [subW_of_le W n _ hble hW]
            simp only [Option.isNone_some, Bool.or_false]
            exact ih _ _ _ (by omega) (by omega)

/-- C23: between two memory streams (no stream errors) `CopyStream` copies
`m = min(nSize, bytes left in the source)` bytes, taken in order from the
source's cursor and put at the destination's cursor, moves both cursors by
`m` and returns `m`.  Over any pair of streams whose reads give no more than
was asked for it returns, and it returns `kSizeTypeError` exactly when one of
the source reads or destination writes it issued has failed. -/
theorem C23_CopyStream_count (W kSizeTypeError kLengthNull nSize : Nat) (hW : nSize < 2 ^ W)
    (hL : kLengthNull < 2 ^ W) :
    (∀ (f1 f2 : Nat) (s d : MemoryStream), s.data.length ≠ kSizeTypeError →
      d.pos ≤ d.data.length →
      CopyStream (memoryIStream f1) (memoryIStream f2) W kSizeTypeError kLengthNull s d nSize
        = some (some (min nSize (s.data.length - s.pos)),
            ⟨s.data, s.pos + min nSize (s.data.length - s.pos)⟩,
            ⟨d.data.take d.pos ++ (s.data.drop s.pos).take (min nSize (s.data.length - s.pos))
                ++ d.data.drop (d.pos + min nSize (s.data.length - s.pos)),
              d.pos + min nSize (s.data.length - s.pos)⟩)) ∧
    (∀ (σ τ : Type) (src : IStream σ) (dst : IStream τ),
      (∀ s n b, (src.read s n).1 = some b → b.length ≤ n) →
      ∀ (s : σ) (d : τ), ∃ res s1 d1,
        CopyStream (flagged src) (flagged dst) W kSizeTypeError kLengthNull (s, false) (d, false)
          nSize = some (res, s1, d1) ∧
        (res = none ↔ (s1.2 = true ∨ d1.2 = true)) ∧
        CopyStream src dst W kSizeTypeError kLengthNull s d nSize = some (res, s1.1, d1.1)) := by
  constructor
  · intro f1 f2 s d hE hd
    obtain ⟨S, p⟩ := s
    simp only at hE
    unfold CopyStream
    simp only [memoryIStream_getSize, if_neg hE]
    have hmin : (if nSize > S.length then S.length else nSize) = min nSize S.length := by
      split_ifs <;> omega
    rw [hmin]
    rw [copyLoop_memory W f1 f2 S _ p _ d (by omega) (by omega) hd]
    have hm : min (min nSize S.length) (S.length - p) = min nSize (S.length - p) := by omega
    rw [hm]
    have hlen : ((S.drop p).take (min nSize (S.length - p))).length = min nSize (S.length - p) := by
      rw [List.length_take, List.length_drop]; omega
    rw [write_eq d _ hd, hlen]
    simp only [Option.map_some']
    rw [subW_of_le W _ _ (by omega) (by omega)]
    congr 3
    omega
  · intro σ τ src dst hread s d
    have hn1 : (if src.getSize s = kSizeTypeError then kLengthNull
        else if nSize > src.getSize s then src.getSize s else nSize) < 2 ^ W := by
      split_ifs <;> omega
    have hera := copyLoop_flagged_erase src dst W
    unfold CopyStream
    have hg : (flagged src).getSize (s, false) = src.getSize s := rfl
    simp only [hg]
    generalize (if src.getSize s = kSizeTypeError then kLengthNull
        else if nSize > src.getSize s then src.getSize s else nSize) = n1 at hn1 ⊢
    obtain ⟨res, s1, d1, h1, h2⟩ := copyLoop_error_iff src dst W hread (n1 + 1) s d n1
      (by omega) hn1
    have h3 := hera (n1 + 1) s d false false n1
    rw [h1] at h3
    refine ⟨res.map (fun nRemaining => subW W n1 nRemaining), s1, d1, ?_, ?_, ?_⟩
    · rw [h1]; rfl
    · rw [← h2]
      cases res <;> simp
    · rw [← h3]; rfl

/-- C23 on the source `"abcdef"` at position 2 and the destination `"xy"` at
position 1, for 3 bytes and for more bytes than the source has left. -/
theorem C23_CopyStream_count_witness :
    CopyStream (memoryIStream 3) (memoryIStream 3) 64 (2 ^ 64 - 1) (2 ^ 64 - 1)
        ⟨str "abcdef", 2⟩ ⟨str "xy", 1⟩ 3
      = some (some 3, ⟨str "abcdef", 5⟩, ⟨str "xcde", 4⟩) ∧
    CopyStream (memoryIStream 3) (memoryIStream 3) 64 (2 ^ 64 - 1) (2 ^ 64 - 1)
        ⟨str "abcdef", 2⟩ ⟨str "xy", 1⟩ 9
      = some (some 4, ⟨str "abcdef", 6⟩, ⟨str "xcdef", 5⟩) :=
  ⟨((C23_CopyStream_count 64 (2 ^ 64 - 1) (2 ^ 64 - 1) 3 (by norm_num) (by norm_num)).1 3 3
      ⟨str "abcdef", 2⟩ ⟨str "xy", 1⟩ (by decide) (by decide)).trans (by decide),
   ((C23_CopyStream_count 64 (2 ^ 64 - 1) (2 ^ 64 - 1) 9 (by norm_num) (by norm_num)).1 3 3
      ⟨str "abcdef", 2⟩ ⟨str "xy", 1⟩ (by decide) (by decide)).trans (by decide)⟩

/-! ### The buffered stream: one buffer at a time -/

theorem flushWriteBuffer_used {σ : Type} (io : IStream σ) (W : Nat) (b : StreamBuffer σ)
    (h : b.mnWriteBufferUsed ≠ 0 → b.mpStream.isSome = true) :
    (b.flushWriteBuffer io W).2.mnWriteBufferUsed = 0 := by
  unfold StreamBuffer.flushWriteBuffer
  by_cases hu : b.mnWriteBufferUsed = 0
  · simp [hu]
  · rw [if_pos hu]
    cases hs : b.mpStream with
    | none => have := h hu; rw [hs] at this; exact absurd this (by simp)
    | some st =>
      simp only []
      split_ifs <;> rfl

@[simp] theorem flushWriteBuffer_wsize {σ : Type} (io : IStream σ) (W : Nat) (b : StreamBuffer σ) :
    (b.flushWriteBuffer io W).2.mnWriteBufferSize = b.mnWriteBufferSize := by
  unfold StreamBuffer.flushWriteBuffer
  split_ifs
  · cases b.mpStream with
    | none => rfl
    | some st => simp only []; split_ifs <;> rfl
  · rfl

@[simp] theorem flushWriteBuffer_rused {σ : Type} (io : IStream σ) (W : Nat) (b : StreamBuffer σ) :
    (b.flushWriteBuffer io W).2.mnreadBufferUsed = b.mnreadBufferUsed := by
  unfold StreamBuffer.flushWriteBuffer
  split_ifs
  · cases b.mpStream with
    | none => rfl
    | some st => simp only []; split_ifs <;> rfl
  · rfl

@[simp] theorem flushWriteBuffer_rsize {σ : Type} (io : IStream σ) (W : Nat) (b : StreamBuffer σ) :
    (b.flushWriteBuffer io W).2.mnreadBufferSize = b.mnreadBufferSize := by
  unfold StreamBuffer.flushWriteBuffer
  split_ifs
  · cases b.mpStream with
    | none => rfl
    | some st => simp only []; split_ifs <;> rfl
  · rfl

@[simp] theorem flushWriteBuffer_isSome {σ : Type} (io : IStream σ) (W : Nat) (b : StreamBuffer σ) :
    (b.flushWriteBuffer io W).2.mpStream.isSome = b.mpStream.isSome := by
  unfold StreamBuffer.flushWriteBuffer
  split_ifs
  · cases hs : b.mpStream with
    | none => simp [hs]
    | some st => simp only []; split_ifs <;> rfl
  · rfl

@[simp] theorem fillReadBuffer_wused {σ : Type} (io : IStream σ) (b : StreamBuffer σ) :
    (b.fillReadBuffer io).2.mnWriteBufferUsed = b.mnWriteBufferUsed := by
  unfold StreamBuffer.fillReadBuffer
  cases b.mpStream with
  | none => rfl
  | some st =>
    simp only []
    cases (io.read st b.mnreadBufferSize).1 <;> rfl

@[simp] theorem fillReadBuffer_wsize {σ : Type} (io : IStream σ) (b : StreamBuffer σ) :
    (b.fillReadBuffer io).2.mnWriteBufferSize = b.mnWriteBufferSize := by
  unfold StreamBuffer.fillReadBuffer
  cases b.mpStream with
  | none => rfl
  | some st =>
    simp only []
    cases (io.read st b.mnreadBufferSize).1 <;> rfl

@[simp] theorem fillReadBuffer_isSome {σ : Type} (io : IStream σ) (b : StreamBuffer σ) :
    (b.fillReadBuffer io).2.mpStream.isSome = b.mpStream.isSome := by
  unfold StreamBuffer.fillReadBuffer
  cases hs : b.mpStream with
  | none => simp [hs]
  | some st =>
    simp only []
    cases (io.read st b.mnreadBufferSize).1 <;> rfl

/-- The loop of `read` returns, and leaves the write buffer alone. -/
theorem readLoop_fields {σ : Type} (io : IStream σ) (W : Nat) (u s : Nat) (i : Bool) :
    ∀ (k : Nat) (b : StreamBuffer σ) (n : Nat) (pData : List Nat), n < k →
      b.mnWriteBufferUsed = u → b.mnWriteBufferSize = s → b.mpStream.isSome = i →
      ∃ r, StreamBuffer.readLoop io W k b n pData = some r ∧
        r.1.mnWriteBufferUsed = u ∧ r.1.mnWriteBufferSize = s ∧ r.1.mpStream.isSome = i := by
  intro k
  induction k with
  | zero => intro b n pData h; omega
  | succ k ih =>
    intro b n pData hk hu hs hi
    unfold StreamBuffer.readLoop
    by_cases hn : n = 0
    · simp [hn, hu, hs, hi]
    · rw [if_pos hn]
      simp only [StreamBuffer.clearReadBuffer]
      cases hst : b.mpStream with
      | none => simp [hu, hs, ← hi, hst]
      | some st =>
        rw [hst] at hi
        simp only []
        split_ifs with h1 h2 h3 h4 h5 h6 h7 h8
        · cases hr : (io.read (io.setPosition st (toOffType W b.mnPositionExternal)).2 n).1 <;>
            simp [hu, hs, ← hi]
        · simp only [Bool.and_eq_true, decide_eq_true_eq] at *
          exact ih _ _ _ (Nat.lt_of_lt_of_le (Nat.sub_lt (by omega) (by omega))
            (by omega)) (by simp [hu]) (by simp [hs]) (by simp [← hi])
        · exact ih _ _ _ (Nat.lt_of_lt_of_le (Nat.sub_lt (by omega) (by omega))
            (by omega)) (by simp [hu]) (by simp [hs]) (by simp [← hi])
        · exact ⟨_, rfl, by simp [hu], by simp [hs], by simp [← hi]⟩
        · exact ⟨_, rfl, by simp [hu], by simp [hs], by simp [← hi]⟩
        · cases hr : (io.read st n).1 <;> simp [hu, hs, ← hi]
        · simp only [Bool.and_eq_true, decide_eq_true_eq] at *
          exact ih _ _ _ (Nat.lt_of_lt_of_le (Nat.sub_lt (by omega) (by omega))
            (by omega)) (by simp [hu]) (by simp [hs]) (by simp [← hi])
        · exact ih _ _ _ (Nat.lt_of_lt_of_le (Nat.sub_lt (by omega) (by omega))
            (by omega)) (by simp [hu]) (by simp [hs]) (by simp [← hi])
        · exact ⟨_, rfl, by simp [hu], by simp [hs], by simp [← hi]⟩
        · exact ⟨_, rfl, by simp [hu], by simp [hs], by simp [← hi]⟩

theorem BufferInv_of_wused {σ : Type} (b : StreamBuffer σ) (h : b.mnWriteBufferUsed = 0) :
    BufferInv b :=
  ⟨Or.inr h, by rw [h]; exact Nat.zero_le _, fun hne => absurd h hne⟩

theorem readLoop_map_inv {σ : Type} (io : IStream σ) (W nSize : Nat) (k : Nat)
    (b : StreamBuffer σ) (n : Nat) (pData : List Nat) (hk : n < k)
    (hu : b.mnWriteBufferUsed = 0) :
    ∃ r, (StreamBuffer.readLoop io W k b n pData).map
        (fun r => (⟨some (nSize - r.2.1), r.2.2, r.1⟩ : BufferReadResult σ)) = some r ∧
      BufferInv r.buffer := by
  obtain ⟨r, hr, e1, -, -⟩ := readLoop_fields io W 0 b.mnWriteBufferSize b.mpStream.isSome
    k b n pData hk hu rfl rfl
  rw [hr]
  exact ⟨_, rfl, BufferInv_of_wused _ e1⟩

theorem read_inv {σ : Type} (io : IStream σ) (W : Nat) (b : StreamBuffer σ) (nSize : Nat)
    (h : BufferInv b) : ∃ r, b.read io W nSize = some r ∧ BufferInv r.buffer := by
  unfold StreamBuffer.read
  cases hst : b.mpStream with
  | none => exact ⟨_, rfl, h⟩
  | some st =>
    simp only []
    by_cases hn : nSize = 0
    · simp only [hn, ne_eq, not_true_eq_false, if_false]
      exact ⟨_, rfl, h⟩
    · rw [if_pos hn]
      have hb1 : (if b.mnWriteBufferUsed ≠ 0 then (b.flushWriteBuffer io W).2 else b).mnWriteBufferUsed
          = 0 := by
        split_ifs with hu
        · exact flushWriteBuffer_used io W b h.2.2
        · exact not_not.mp hu
      generalize (if b.mnWriteBufferUsed ≠ 0 then (b.flushWriteBuffer io W).2 else b) = b1 at hb1
      by_cases hsz : b1.mnreadBufferSize ≠ 0
      · rw [if_pos hsz]
        exact readLoop_map_inv io W nSize _ _ _ _ (Nat.lt_succ_self _)
          (by split_ifs <;> simp [hb1])
      · rw [if_neg hsz]
        cases hs1 : b1.mpStream with
        | none => exact ⟨_, rfl, BufferInv_of_wused _ hb1⟩
        | some st1 =>
          simp only []
          cases hr : (io.read st1 nSize).1 <;>
            exact ⟨_, rfl, BufferInv_of_wused _ hb1⟩

/-- The loop of `fillWriteBuffer` returns when the write buffer has a size, and
keeps the write buffer within its size and the read buffer empty. -/
theorem fillWriteLoop_inv {σ : Type} (io : IStream σ) (W s : Nat) (hs0 : s ≠ 0) :
    ∀ (k : Nat) (b : StreamBuffer σ) (pData : List Nat),
      b.mnWriteBufferSize = s → b.mnWriteBufferUsed ≤ s → b.mpStream.isSome = true →
      b.mnreadBufferUsed = 0 →
      2 * pData.length + (if b.mnWriteBufferUsed = s then 1 else 0) < k →
      ∃ r, StreamBuffer.fillWriteLoop io W k b pData = some r ∧
        r.2.mnWriteBufferSize = s ∧ r.2.mnWriteBufferUsed ≤ s ∧ r.2.mnreadBufferUsed = 0 ∧
        r.2.mpStream.isSome = true := by
  intro k
  induction k with
  | zero => intro b pData _ _ _ _ h; omega
  | succ k ih =>
    intro b pData hsz hu hst hr hk
    unfold StreamBuffer.fillWriteLoop
    by_cases hn : pData.length = 0
    · simp only [hn, ne_eq, not_true_eq_false, if_false]
      exact ⟨_, rfl, hsz, hu, hr, hst⟩
    · rw [if_pos hn]
      simp only []
      by_cases hm : (if b.mnWriteBufferSize - b.mnWriteBufferUsed < pData.length
          then b.mnWriteBufferSize - b.mnWriteBufferUsed else pData.length) = 0
      · have hfull : b.mnWriteBufferUsed = s := by
          split_ifs at hm <;> omega
        rw [hm]
        simp only [ne_eq, not_true_eq_false, if_false, List.drop_zero]
        rw [if_pos (by rw [hfull, hsz])]
        have hfu := flushWriteBuffer_used io W b (fun _ => hst)
        by_cases hf : (b.flushWriteBuffer io W).1 = true
        · rw [if_pos hf]
          refine ih _ _ (by simp [hsz]) (by rw [hfu]; exact Nat.zero_le _) (by simp [hst])
            (by simp [hr]) ?_
          rw [hfu, if_neg (fun h => hs0 h.symm)]
          rw [if_pos hfull] at hk
          omega
        · rw [if_neg hf]
          exact ⟨_, rfl, by simp [hsz], by rw [hfu]; exact Nat.zero_le _, by simp [hr],
            by simp [hst]⟩
      · have hmle : (if b.mnWriteBufferSize - b.mnWriteBufferUsed < pData.length
            then b.mnWriteBufferSize - b.mnWriteBufferUsed else pData.length)
              ≤ s - b.mnWriteBufferUsed := by
          rw [hsz]; split_ifs <;> omega
        have hmle2 : (if b.mnWriteBufferSize - b.mnWriteBufferUsed < pData.length
            then b.mnWriteBufferSize - b.mnWriteBufferUsed else pData.length)
              ≤ pData.length := by
          split_ifs <;> omega
        generalize (if b.mnWriteBufferSize - b.mnWriteBufferUsed < pData.length
            then b.mnWriteBufferSize - b.mnWriteBufferUsed else pData.length) = m at hm hmle hmle2 ⊢
        rw [if_pos hm]
        simp only []
        by_cases hfull : b.mnWriteBufferUsed + m = b.mnWriteBufferSize
        · rw [if_pos hfull]
          have hfu := flushWriteBuffer_used io W
            { b with mpWriteBuffer := some ((b.mpWriteBuffer.getD []).take b.mnWriteBufferUsed
                                              ++ pData.take m),
                     mnWriteBufferUsed := b.mnWriteBufferUsed + m } (fun _ => hst)
          by_cases hf : (StreamBuffer.flushWriteBuffer io W
            { b with mpWriteBuffer := some ((b.mpWriteBuffer.getD []).take b.mnWriteBufferUsed
                                              ++ pData.take m),
                     mnWriteBufferUsed := b.mnWriteBufferUsed + m }).1 = true
          · rw [if_pos hf]
            refine ih _ _ (by simp [hsz]) (by rw [hfu]; exact Nat.zero_le _) (by simp [hst])
              (by simp [hr]) ?_
            rw [hfu, if_neg (fun h => hs0 h.symm), List.length_drop]
            omega
          · rw [if_neg hf]
            exact ⟨_, rfl, by simp [hsz], by rw [hfu]; exact Nat.zero_le _, by simp [hr],
              by simp [hst]⟩
        · rw [if_neg hfull]
          refine ih _ _ hsz (by simp only; omega) hst hr ?_
          simp only [List.length_drop]
          rw [if_neg (by rw [← hsz]; exact hfull)]
          omega

theorem fillWriteBuffer_inv {σ : Type} (io : IStream σ) (W : Nat) (b : StreamBuffer σ)
    (pData : List Nat) (hsz : b.mnWriteBufferSize ≠ 0)
    (hu : b.mnWriteBufferUsed ≤ b.mnWriteBufferSize) (hst : b.mpStream.isSome = true)
    (hr : b.mnreadBufferUsed = 0) :
    ∃ r, b.fillWriteBuffer io W pData = some r ∧
      r.2.mnWriteBufferUsed ≤ r.2.mnWriteBufferSize ∧ r.2.mnreadBufferUsed = 0 ∧
      r.2.mpStream.isSome = true := by
  unfold StreamBuffer.fillWriteBuffer
  by_cases hn : pData.length > 0
  · rw [if_pos hn]
    have hb1 : ∀ x, (if b.mnWriteBufferUsed = 0
        then { b with mnWriteBufferstartPosition := x } else b).mnWriteBufferUsed
          = b.mnWriteBufferUsed ∧
        (if b.mnWriteBufferUsed = 0
          then { b with mnWriteBufferstartPosition := x } else b).mnWriteBufferSize
          = b.mnWriteBufferSize ∧
        (if b.mnWriteBufferUsed = 0
          then { b with mnWriteBufferstartPosition := x } else b).mnreadBufferUsed
          = b.mnreadBufferUsed ∧
        (if b.mnWriteBufferUsed = 0
          then { b with mnWriteBufferstartPosition := x } else b).mpStream = b.mpStream := by
      intro x; split_ifs <;> exact ⟨rfl, rfl, rfl, rfl⟩
    obtain ⟨e1, e2, e3, e4⟩ := hb1 b.mnPositionInternal
    simp only []
    generalize (if b.mnWriteBufferUsed = 0
        then { b with mnWriteBufferstartPosition := b.mnPositionInternal } else b) = b1
        at e1 e2 e3 e4 ⊢
    by_cases hfit : b1.mnWriteBufferUsed + pData.length ≤ b1.mnWriteBufferSize
    · rw [if_pos hfit]
      exact ⟨_, rfl, hfit, by simp [e3, hr], by simp [e4, hst]⟩
    · rw [if_neg hfit]
      obtain ⟨r, h1, h2, h3, h4, h5⟩ := fillWriteLoop_inv io W b.mnWriteBufferSize hsz
        (2 * pData.length + 2) b1 pData e2 (by rw [e1]; exact hu) (by rw [e4]; exact hst)
        (by rw [e3]; exact hr) (by split_ifs <;> omega)
      exact ⟨r, h1, by rw [h2]; exact h3, h4, h5⟩
  · rw [if_neg hn]
    exact ⟨_, rfl, hu, hr, hst⟩

theorem BufferInv_of_rused {σ : Type} (b : StreamBuffer σ) (h : b.mnreadBufferUsed = 0)
    (hu : b.mnWriteBufferUsed ≤ b.mnWriteBufferSize) (hst : b.mpStream.isSome = true) :
    BufferInv b :=
  ⟨Or.inl h, hu, fun _ => hst⟩

theorem write_inv {σ : Type} (io : IStream σ) (W : Nat) (b : StreamBuffer σ) (pData : List Nat)
    (h : BufferInv b) : ∃ r, b.write io W pData = some r ∧ BufferInv r.2 := by
  unfold StreamBuffer.write
  cases hst : b.mpStream with
  | none => exact ⟨_, rfl, h⟩
  | some st =>
    simp only []
    have hb1 : ∀ x : σ, (if b.mnreadBufferUsed ≠ 0 then
          if b.mnPositionExternal ≠ b.mnPositionInternal then
            { b.clearReadBuffer with mpStream := some x }
          else b.clearReadBuffer
        else b).mnreadBufferUsed = 0 ∧
        (if b.mnreadBufferUsed ≠ 0 then
          if b.mnPositionExternal ≠ b.mnPositionInternal then
            { b.clearReadBuffer with mpStream := some x }
          else b.clearReadBuffer
        else b).mnWriteBufferUsed = b.mnWriteBufferUsed ∧
        (if b.mnreadBufferUsed ≠ 0 then
          if b.mnPositionExternal ≠ b.mnPositionInternal then
            { b.clearReadBuffer with mpStream := some x }
          else b.clearReadBuffer
        else b).mnWriteBufferSize = b.mnWriteBufferSize ∧
        (if b.mnreadBufferUsed ≠ 0 then
          if b.mnPositionExternal ≠ b.mnPositionInternal then
            { b.clearReadBuffer with mpStream := some x }
          else b.clearReadBuffer
        else b).mpStream.isSome = true := by
      intro x
      split_ifs with h1 h2
      · exact ⟨rfl, rfl, rfl, rfl⟩
      · exact ⟨rfl, rfl, rfl, by simp [StreamBuffer.clearReadBuffer, hst]⟩
      · exact ⟨not_not.mp h1, rfl, rfl, by simp [hst]⟩
    obtain ⟨e1, e2, e3, e4⟩ := hb1 (io.setPosition st (toOffType W b.mnPositionExternal)).2
    generalize (if b.mnreadBufferUsed ≠ 0 then
          if b.mnPositionExternal ≠ b.mnPositionInternal then
            { b.clearReadBuffer with
                mpStream := some (io.setPosition st (toOffType W b.mnPositionExternal)).2 }
          else b.clearReadBuffer
        else b) = b1 at e1 e2 e3 e4 ⊢
    by_cases hsz : b1.mnWriteBufferSize ≠ 0
    · rw [if_pos hsz]
      obtain ⟨r, hr, h1, h2, h3⟩ := fillWriteBuffer_inv io W b1 pData hsz
        (by rw [e2, e3]; exact h.2.1) e4 e1
      rw [hr]
      exact ⟨_, rfl, BufferInv_of_rused _ h2 h1 h3⟩
    · rw [if_neg hsz]
      have hwu : b1.mnWriteBufferUsed = 0 := by
        have := h.2.1
        rw [← e2, ← e3] at this
        omega
      cases hs1 : b1.mpStream with
      | none => exact ⟨_, rfl, BufferInv_of_wused _ hwu⟩
      | some st1 =>
        simp only []
        split_ifs <;> exact ⟨_, rfl, BufferInv_of_wused _ hwu⟩

theorem flush_inv {σ : Type} (io : IStream σ) (W : Nat) (b : StreamBuffer σ) (h : BufferInv b) :
    BufferInv (b.flush io W).2 := by
  unfold StreamBuffer.flush
  cases hst : b.mpStream with
  | none => exact h
  | some st => exact BufferInv_of_wused _ (flushWriteBuffer_used io W b h.2.2)

@[simp] theorem getSize_wused {σ : Type} (io : IStream σ) (W E : Nat) (b : StreamBuffer σ) :
    (b.getSize io W E).2.mnWriteBufferUsed = b.mnWriteBufferUsed := by
  unfold StreamBuffer.getSize
  cases b.mpStream with
  | none => rfl
  | some st => simp only []; split_ifs <;> rfl

@[simp] theorem getSize_wsize {σ : Type} (io : IStream σ) (W E : Nat) (b : StreamBuffer σ) :
    (b.getSize io W E).2.mnWriteBufferSize = b.mnWriteBufferSize := by
  unfold StreamBuffer.getSize
  cases b.mpStream with
  | none => rfl
  | some st => simp only []; split_ifs <;> rfl

@[simp] theorem getSize_rused {σ : Type} (io : IStream σ) (W E : Nat) (b : StreamBuffer σ) :
    (b.getSize io W E).2.mnreadBufferUsed = b.mnreadBufferUsed := by
  unfold StreamBuffer.getSize
  cases b.mpStream with
  | none => rfl
  | some st => simp only []; split_ifs <;> rfl

@[simp] theorem getSize_mpStream {σ : Type} (io : IStream σ) (W E : Nat) (b : StreamBuffer σ) :
    (b.getSize io W E).2.mpStream = b.mpStream := by
  unfold StreamBuffer.getSize
  cases hst : b.mpStream with
  | none => simp [hst]
  | some st => simp only []; split_ifs <;> simp [hst]

theorem absolutePosition_inv {σ : Type} (io : IStream σ) (W E : Nat) (b : StreamBuffer σ)
    (nPosition : Int) (positionType : PositionType) (h : BufferInv b) :
    BufferInv (b.absolutePosition io W E nPosition positionType).2 := by
  unfold StreamBuffer.absolutePosition
  cases positionType
  · exact h
  · exact h
  · simp only [BufferInv, getSize_wused, getSize_wsize, getSize_rused, getSize_mpStream]
    exact h

theorem setPosition_inv {σ : Type} (io : IStream σ) (W E : Nat) (b : StreamBuffer σ)
    (nPosition : Int) (positionType : PositionType) (h : BufferInv b) :
    BufferInv (b.setPosition io W E nPosition positionType).2 := by
  unfold StreamBuffer.setPosition
  cases hst : b.mpStream with
  | none => exact h
  | some st =>
    simp only []
    have ha := absolutePosition_inv io W E b nPosition positionType h
    generalize b.absolutePosition io W E nPosition positionType = a at ha ⊢
    by_cases h1 : a.2.mnreadBufferUsed ≠ 0 ∧ a.1 ≥ 0
    · rw [if_pos h1]
      exact ha
    · rw [if_neg h1]
      by_cases h2 : a.1 = toOffType W a.2.mnPositionExternal
      · rw [if_pos h2]
        exact ha
      · rw [if_neg h2]
        have hfu := flushWriteBuffer_used io W a.2 ha.2.2
        cases hs1 : (a.2.flushWriteBuffer io W).2.mpStream with
        | none => exact BufferInv_of_wused _ hfu
        | some st1 =>
          simp only []
          split_ifs <;> exact BufferInv_of_wused _ hfu

theorem setSize_inv {σ : Type} (io : IStream σ) (W : Nat) (b : StreamBuffer σ) (nSize : Nat)
    (h : BufferInv b) : BufferInv (b.setSize io W nSize).2 := by
  unfold StreamBuffer.setSize
  cases hst : b.mpStream with
  | none => exact h
  | some st =>
    simp only []
    have hfu := flushWriteBuffer_used io W b.clearReadBuffer h.2.2
    cases hs1 : (b.clearReadBuffer.flushWriteBuffer io W).2.mpStream with
    | none => exact BufferInv_of_wused _ hfu
    | some st1 => exact BufferInv_of_wused _ hfu

theorem flushAndClearBuffers_wused {σ : Type} (io : IStream σ) (W : Nat) (b : StreamBuffer σ) :
    (b.flushAndClearBuffers io W).mnWriteBufferUsed = 0 := rfl

theorem close_inv {σ : Type} (io : IStream σ) (W : Nat) (b : StreamBuffer σ) (h : BufferInv b) :
    BufferInv (b.close io W).2 := by
  unfold StreamBuffer.close
  cases hst : b.mpStream with
  | none => exact h
  | some st =>
    simp only []
    cases hs1 : (b.flushAndClearBuffers io W).mpStream with
    | none => exact BufferInv_of_wused _ rfl
    | some st1 => exact BufferInv_of_wused _ rfl

theorem setReadBufferSize_inv {σ : Type} (allocate : Nat → Bool) (b : StreamBuffer σ) (n : Nat)
    (h : BufferInv b) : BufferInv (b.setReadBufferSize allocate n) := by
  unfold StreamBuffer.setReadBufferSize
  simp only []
  have hc : BufferInv (if n < b.mnreadBufferSize then b.clearReadBuffer else b) := by
    split_ifs
    · exact ⟨Or.inl rfl, h.2.1, h.2.2⟩
    · exact h
  generalize (if n < b.mnreadBufferSize then b.clearReadBuffer else b) = c at hc ⊢
  cases reallocBuffer allocate c.mpreadBuffer c.mnreadBufferSize n with
  | none => exact hc
  | some p => exact hc

theorem setWriteBufferSize_inv {σ : Type} (io : IStream σ) (W : Nat) (allocate : Nat → Bool)
    (b : StreamBuffer σ) (n : Nat) (h : BufferInv b) :
    BufferInv (b.setWriteBufferSize io W allocate n) := by
  unfold StreamBuffer.setWriteBufferSize
  simp only []
  have hc : BufferInv (if n < b.mnWriteBufferSize then (b.flushWriteBuffer io W).2 else b) ∧
      ((if n < b.mnWriteBufferSize then (b.flushWriteBuffer io W).2 else b).mnWriteBufferUsed
        ≤ n) := by
    have hfu := flushWriteBuffer_used io W b h.2.2
    split_ifs with hlt
    · exact ⟨BufferInv_of_wused _ hfu, by rw [hfu]; exact Nat.zero_le _⟩
    · exact ⟨h, by have := h.2.1; omega⟩
  generalize (if n < b.mnWriteBufferSize then (b.flushWriteBuffer io W).2 else b) = c at hc ⊢
  cases reallocBuffer allocate c.mpWriteBuffer c.mnWriteBufferSize n with
  | none => exact hc.1
  | some p => exact ⟨hc.1.1, hc.2, hc.1.2.2⟩

theorem setBufferSizes_inv {σ : Type} (io : IStream σ) (W : Nat) (allocate : Nat → Bool)
    (b : StreamBuffer σ) (r w : Nat) (h : BufferInv b) :
    BufferInv (b.setBufferSizes io W allocate r w).2 := by
  unfold StreamBuffer.setBufferSizes
  simp only []
  have h1 : BufferInv (if r ≠ kBufferSizeUnspecified W then
      b.setReadBufferSize allocate (clampBufferSize W kBufferSizereadDefault r) else b) := by
    split_ifs
    · exact setReadBufferSize_inv allocate b _ h
    · exact h
  generalize (if r ≠ kBufferSizeUnspecified W then
      b.setReadBufferSize allocate (clampBufferSize W kBufferSizereadDefault r) else b) = b1
      at h1 ⊢
  split_ifs
  · exact setWriteBufferSize_inv io W allocate b1 _ h1
  · exact h1

theorem setStream_inv {σ : Type} (io : IStream σ) (W : Nat) (b : StreamBuffer σ)
    (pStream : Option σ) (h : BufferInv b) : BufferInv (b.setStream io W pStream).2 := by
  unfold StreamBuffer.setStream
  by_cases hp : (pStream.isSome || b.mpStream.isSome) = true
  · rw [if_pos hp]
    simp only []
    have h2 : BufferInv (if b.mpStream.isSome = true
        then StreamBuffer.flushAndClearBuffers io W { b with mnStreamSize := kSizeTypeUnset W }
        else { b with mnStreamSize := kSizeTypeUnset W }) ∧
        (b.mpStream.isSome = true → (if b.mpStream.isSome = true
          then StreamBuffer.flushAndClearBuffers io W { b with mnStreamSize := kSizeTypeUnset W }
          else { b with mnStreamSize := kSizeTypeUnset W }).mnWriteBufferUsed = 0) := by
      split_ifs with hb
      · exact ⟨BufferInv_of_wused _ rfl, fun _ => rfl⟩
      · exact ⟨h, fun hc => absurd hc hb⟩
    generalize (if b.mpStream.isSome = true
        then StreamBuffer.flushAndClearBuffers io W { b with mnStreamSize := kSizeTypeUnset W }
        else { b with mnStreamSize := kSizeTypeUnset W }) = b2 at h2 ⊢
    cases pStream with
    | none =>
      simp only [Option.isSome_none, Bool.false_or] at hp
      exact BufferInv_of_wused _ (h2.2 hp)
    | some st =>
      simp only []
      split_ifs
      · exact ⟨h2.1.1, h2.1.2.1, fun _ => rfl⟩
      · exact ⟨h2.1.1, h2.1.2.1, fun _ => rfl⟩
  · rw [if_neg hp]
    exact h

theorem construct_inv {σ : Type} (io : IStream σ) (W : Nat) (allocate : Nat → Bool)
    (r w : Nat) (pStream : Option σ) :
    BufferInv (StreamBuffer.construct io W allocate r w pStream) := by
  unfold StreamBuffer.construct
  exact setStream_inv io W _ pStream
    (setBufferSizes_inv io W allocate _ r w ⟨Or.inl rfl, Nat.le_refl _, fun h => absurd rfl h⟩)

theorem call_inv {σ : Type} (io : IStream σ) (W E : Nat) (allocate : Nat → Bool)
    (b : StreamBuffer σ) (c : BufferCall) (h : BufferInv b) :
    ∃ b1, b.call io W E allocate c = some b1 ∧ BufferInv b1 := by
  cases c with
  | read nSize =>
    obtain ⟨r, hr, hi⟩ := read_inv io W b nSize h
    exact ⟨r.buffer, by simp [StreamBuffer.call, hr], hi⟩
  | write pData =>
    obtain ⟨r, hr, hi⟩ := write_inv io W b pData h
    exact ⟨r.2, by simp [StreamBuffer.call, hr], hi⟩
  | setPosition nPosition positionType =>
    exact ⟨_, rfl, setPosition_inv io W E b nPosition positionType h⟩
  | setSize nSize => exact ⟨_, rfl, setSize_inv io W b nSize h⟩
  | flush => exact ⟨_, rfl, flush_inv io W b h⟩
  | setBufferSizes r w => exact ⟨_, rfl, setBufferSizes_inv io W allocate b r w h⟩
  | close => exact ⟨_, rfl, close_inv io W b h⟩

theorem calls_inv {σ : Type} (io : IStream σ) (W E : Nat) (allocate : Nat → Bool) :
    ∀ (cs : List BufferCall) (b : StreamBuffer σ), BufferInv b →
      ∃ b1, b.calls io W E allocate cs = some b1 ∧ BufferInv b1 := by
  intro cs
  induction cs with
  | nil => intro b h; exact ⟨b, rfl, h⟩
  | cons c cs ih =>
    intro b h
    obtain ⟨b1, h1, hi⟩ := call_inv io W E allocate b c h
    obtain ⟨b2, h2, hi2⟩ := ih b1 hi
    refine ⟨b2, ?_, hi2⟩
    unfold StreamBuffer.calls
    rw [h1]
    exact h2

/-- C24: a `StreamBuffer` constructed with any buffer sizes, over any stream or
none, whatever the stream and the allocator do, comes out of every sequence of
`read`, `write`, `setPosition`, `setSize`, `flush`, `setBufferSizes` and
`close` calls (each call returns) in a state where `mnreadBufferUsed` or
`mnWriteBufferUsed` is zero. -/
theorem C24_buffers_exclusive {σ : Type} (io : IStream σ) (W kSizeTypeError : Nat)
    (allocate : Nat → Bool) (nreadBufferSize nWriteBufferSize : Nat) (pStream : Option σ)
    (cs : List BufferCall) :
    ∃ b, (StreamBuffer.construct io W allocate nreadBufferSize nWriteBufferSize pStream).calls
        io W kSizeTypeError allocate cs = some b ∧
      (b.mnreadBufferUsed = 0 ∨ b.mnWriteBufferUsed = 0) := by
  obtain ⟨b, hb, hi⟩ := calls_inv io W kSizeTypeError allocate cs _
    (construct_inv io W allocate nreadBufferSize nWriteBufferSize pStream)
  exact ⟨b, hb, hi.1⟩

/-! ### The buffered stream: positions -/

/-- C25 fails on the code: over a memory stream of ten bytes, with both buffers
of size 4, `read` of one byte, `write` of one byte and `flush` leave both
buffers empty with the external position 2 (which is also the cursor of the
underlying stream) but the internal position 5.  `write` clears the read
buffer and seeks the underlying stream to the external position 1 without
setting `mnPositionInternal`, which stays at 4, the end of the dropped read
buffer. -/
theorem C25_positions_differ_after_flush :
    ((StreamBuffer.construct (memoryIStream 3) 64 (fun _ => true) 4 4
        (some ⟨[1, 2, 3, 4, 5, 6, 7, 8, 9, 10], 0⟩)).calls (memoryIStream 3) 64 (2 ^ 64 - 1)
        (fun _ => true) [BufferCall.read 1, BufferCall.write [77], BufferCall.flush]).map
      (fun b => (b.mnreadBufferUsed, b.mnWriteBufferUsed, b.mnPositionExternal,
        b.mnPositionInternal, b.mpStream.map (fun s => (s.data, s.pos))))
      = some (0, 0, 2, 5, some ([1, 77, 3, 4, 5, 6, 7, 8, 9, 10], 2)) := by
  rfl

/-- C26 fails on the code: over a memory stream of ten bytes, with a read buffer
of size 4 and write buffering disabled, `read` of one byte leaves the external
position 1 and the internal position 4; the following `write` of one byte
succeeds and stores the byte at position 1, but the external position becomes
5 and not 2: it is set from the internal position, which `write` did not bring
to the external position when it dropped the read buffer.  With a write buffer
of size 4 the same calls leave the external position 2. -/
theorem C26_unbuffered_write_after_read_jumps :
    ((StreamBuffer.construct (memoryIStream 3) 64 (fun _ => true) 4 0
        (some ⟨[1, 2, 3, 4, 5, 6, 7, 8, 9, 10], 0⟩)).read (memoryIStream 3) 64 1).map
      (fun r => (r.count, r.buffer.mnPositionExternal, r.buffer.mnPositionInternal,
        ((r.buffer.write (memoryIStream 3) 64 [77]).map
          (fun w => (w.1, (w.2.getPosition (memoryIStream 3) 64 (2 ^ 64 - 1)
            kPositionTypeBegin).1, w.2.mpStream.map (fun s => (s.data, s.pos)))))))
      = some (some 1, 1, 4, some (true, 5, some ([1, 77, 3, 4, 5, 6, 7, 8, 9, 10], 2))) ∧
    ((StreamBuffer.construct (memoryIStream 3) 64 (fun _ => true) 4 4
        (some ⟨[1, 2, 3, 4, 5, 6, 7, 8, 9, 10], 0⟩)).read (memoryIStream 3) 64 1).map
      (fun r => (r.count, r.buffer.mnPositionExternal, r.buffer.mnPositionInternal,
        ((r.buffer.write (memoryIStream 3) 64 [77]).map
          (fun w => (w.1, (w.2.getPosition (memoryIStream 3) 64 (2 ^ 64 - 1)
            kPositionTypeBegin).1)))))
      = some (some 1, 1, 4, some (true, 2)) :=
  ⟨rfl, rfl⟩

/-- C27 fails on the code: with read buffering disabled, `read(buf, 10)` over a
memory stream of three bytes returns 3 and delivers the three bytes, the
underlying cursor is at 3, but the external and internal positions are both
10: the non-buffered branch adds `nSize`, not the count read.  With a read
buffer of size 4 the same call leaves both positions at 3. -/
theorem C27_unbuffered_short_read_overshoots :
    ((StreamBuffer.construct (memoryIStream 3) 64 (fun _ => true) 0 0
        (some ⟨[1, 2, 3], 0⟩)).read (memoryIStream 3) 64 10).map
      (fun r => (r.count, r.data, r.buffer.mnPositionExternal, r.buffer.mnPositionInternal,
        r.buffer.mpStream.map (fun s => s.pos)))
      = some (some 3, [1, 2, 3], 10, 10, some 3) ∧
    ((StreamBuffer.construct (memoryIStream 3) 64 (fun _ => true) 4 0
        (some ⟨[1, 2, 3], 0⟩)).read (memoryIStream 3) 64 10).map
      (fun r => (r.count, r.data, r.buffer.mnPositionExternal, r.buffer.mnPositionInternal,
        r.buffer.mpStream.map (fun s => s.pos)))
      = some (some 3, [1, 2, 3], 3, 3, some 3) :=
  ⟨rfl, rfl⟩

theorem toOffType_toSizeType (W : Nat) (hW : 0 < W) (x : Int)
    (h1 : -((2 : Int) ^ (W - 1)) ≤ x) (h2 : x < (2 : Int) ^ (W - 1)) :
    toOffType W (toSizeType W x) = x := by
  obtain ⟨V, rfl⟩ : ∃ V, W = V + 1 := ⟨W - 1, by omega⟩
  simp only [Nat.add_sub_cancel] at h1 h2
  have hH : (0 : Int) < (2 : Int) ^ V := by positivity
  have hM : (2 : Int) ^ (V + 1) = 2 * (2 : Int) ^ V := by rw [pow_succ]; ring
  have hMn : (2 : Nat) ^ (V + 1) = 2 * 2 ^ V := by rw [pow_succ]; ring
  have hcast : ((2 ^ V : Nat) : Int) = (2 : Int) ^ V := by push_cast; rfl
  unfold toOffType toSizeType
  rw [hM, hMn]
  simp only [Nat.add_sub_cancel]
  generalize (2 : Int) ^ V = H at *
  generalize hHn : (2 : Nat) ^ V = Hn at *
  by_cases hx : 0 ≤ x
  · have e : x % (2 * H) = x := Int.emod_eq_of_lt hx (by omega)
    rw [e]
    have e2 : x.toNat % (2 * Hn) = x.toNat := Nat.mod_eq_of_lt (by omega)
    rw [e2, if_pos (by omega)]
    omega
  · have e : x % (2 * H) = x + 2 * H := by
      rw [← Int.add_mul_emod_self_left x (2 * H) 1, mul_one]
      exact Int.emod_eq_of_lt (by omega) (by omega)
    rw [e]
    have e2 : (x + 2 * H).toNat % (2 * Hn) = (x + 2 * H).toNat := Nat.mod_eq_of_lt (by omega)
    rw [e2, if_neg (by omega)]
    omega

/-- C28: when `setPosition` has to seek the underlying stream (no read buffer
serves the request and the target differs from the external position) and the
stream rejects the seek to the target, `setPosition` returns false, the
external and internal positions are equal, and `getPosition(kPositionTypeBegin)`
is the position that the underlying stream reports after the rejected seek
(a value of `off_type`), whatever was requested. -/
theorem C28_failed_seek_reports_position {σ : Type} (io : IStream σ) (W kSizeTypeError : Nat)
    (b : StreamBuffer σ) (nPosition : Int) (positionType : PositionType)
    (hW : 0 < W) (hst : b.mpStream.isSome = true)
    (hseek : ¬ ((b.absolutePosition io W kSizeTypeError nPosition positionType).2.mnreadBufferUsed
        ≠ 0 ∧ (b.absolutePosition io W kSizeTypeError nPosition positionType).1 ≥ 0))
    (hmove : (b.absolutePosition io W kSizeTypeError nPosition positionType).1
      ≠ toOffType W
          (b.absolutePosition io W kSizeTypeError nPosition positionType).2.mnPositionExternal)
    (hrej : ∀ s, (io.setPosition s
      (b.absolutePosition io W kSizeTypeError nPosition positionType).1).1 = false) :
    (b.setPosition io W kSizeTypeError nPosition positionType).1 = false ∧
    ∃ st, (b.setPosition io W kSizeTypeError nPosition positionType).2.mpStream = some st ∧
      (-((2 : Int) ^ (W - 1)) ≤ io.getPosition st → io.getPosition st < (2 : Int) ^ (W - 1) →
        ((b.setPosition io W kSizeTypeError nPosition positionType).2.getPosition io W
          kSizeTypeError kPositionTypeBegin).1 = io.getPosition st) ∧
      (b.setPosition io W kSizeTypeError nPosition positionType).2.mnPositionExternal
        = toSizeType W (io.getPosition st) ∧
      (b.setPosition io W kSizeTypeError nPosition positionType).2.mnPositionInternal
        = toSizeType W (io.getPosition st) := by
  unfold StreamBuffer.setPosition
  cases hs : b.mpStream with
  | none => rw [hs] at hst; exact absurd hst (by simp)
  | some st0 =>
    simp only []
    have ha : (b.absolutePosition io W kSizeTypeError nPosition positionType).2.mpStream.isSome
        = true := by
      unfold StreamBuffer.absolutePosition
      cases positionType <;> simp [hs]
    generalize b.absolutePosition io W kSizeTypeError nPosition positionType = a
      at hseek hmove hrej ha ⊢
    rw [if_neg hseek, if_neg hmove]
    have hf : (a.2.flushWriteBuffer io W).2.mpStream.isSome = true := by
      rw [flushWriteBuffer_isSome]; exact ha
    cases hs1 : (a.2.flushWriteBuffer io W).2.mpStream with
    | none => rw [hs1] at hf; exact absurd hf (by simp)
    | some st1 =>
      simp only []
      rw [if_neg (by rw [hrej st1]; exact Bool.false_ne_true)]
      refine ⟨rfl, _, rfl, fun h1 h2 => ?_, rfl, rfl⟩
      unfold StreamBuffer.getPosition
      simp only []
      exact toOffType_toSizeType W hW _ h1 h2

/-- C28 over a memory stream of three bytes with its cursor at 2: the seek to
the position -1 is rejected, and the position reported afterwards is 2. -/
theorem C28_failed_seek_reports_position_witness :
    ((StreamBuffer.construct (memoryIStream 3) 64 (fun _ => true) 0 0
        (some ⟨[1, 2, 3], 2⟩)).setPosition (memoryIStream 3) 64 (2 ^ 64 - 1) (-1)
        kPositionTypeBegin).1 = false ∧
    (((StreamBuffer.construct (memoryIStream 3) 64 (fun _ => true) 0 0
        (some ⟨[1, 2, 3], 2⟩)).setPosition (memoryIStream 3) 64 (2 ^ 64 - 1) (-1)
        kPositionTypeBegin).2.getPosition (memoryIStream 3) 64 (2 ^ 64 - 1)
        kPositionTypeBegin).1 = 2 :=
  ⟨(C28_failed_seek_reports_position (memoryIStream 3) 64 (2 ^ 64 - 1)
      (StreamBuffer.construct (memoryIStream 3) 64 (fun _ => true) 0 0 (some ⟨[1, 2, 3], 2⟩))
      (-1) kPositionTypeBegin (by decide) rfl (by decide) (by decide)
      (fun s => by simp [memoryIStream, StreamBuffer.absolutePosition])).1,
   by decide⟩

/-! ### The buffered stream: a read flushes the pending writes -/

@[simp] theorem memory_setPosition_data (f : Nat) (s : MemoryStream) (p : Int) :
    ((memoryIStream f).setPosition s p).2.data = s.data := by
  simp only [memoryIStream, MemoryStream.setPosition]
  split_ifs <;> rfl

@[simp] theorem memory_read_data (f : Nat) (s : MemoryStream) (n : Nat) :
    ((memoryIStream f).read s n).2.data = s.data := rfl

theorem memory_read_isSome (f : Nat) (s : MemoryStream) (n : Nat) :
    ((memoryIStream f).read s n).1 = some (s.read n).1 := rfl

theorem fillReadBuffer_dataOf (f : Nat) (b : StreamBuffer MemoryStream) :
    dataOf (b.fillReadBuffer (memoryIStream f)).2 = dataOf b := by
  unfold StreamBuffer.fillReadBuffer dataOf
  cases hs : b.mpStream with
  | none => simp [hs]
  | some st => simp [memory_read_isSome]

/-- The loop of `read` over a memory stream leaves the bytes of the stream as
they are. -/
theorem readLoop_dataOf (f W : Nat) (D : Option (List Nat)) :
    ∀ (k : Nat) (b : StreamBuffer MemoryStream) (n : Nat) (pData : List Nat), n < k →
      dataOf b = D →
      ∃ r, StreamBuffer.readLoop (memoryIStream f) W k b n pData = some r ∧ dataOf r.1 = D := by
  intro k
  induction k with
  | zero => intro b n pData h; omega
  | succ k ih =>
    intro b n pData hk hD
    unfold StreamBuffer.readLoop
    by_cases hn : n = 0
    · simp [hn, hD]
    · rw [if_pos hn]
      simp only [StreamBuffer.clearReadBuffer]
      cases hst : b.mpStream with
      | none => simp [← hD, dataOf, hst]
      | some st =>
        have hD1 : D = some st.data := by rw [← hD]; simp [dataOf, hst]
        simp only []
        split_ifs
        · simp [memory_read_isSome, dataOf, hD1]
        · simp only [Bool.and_eq_true, decide_eq_true_eq] at *
          exact ih _ _ _ (Nat.lt_of_lt_of_le (Nat.sub_lt (by omega) (by omega)) (by omega))
            (by rw [hD1]; exact (fillReadBuffer_dataOf f _).trans (by simp [dataOf]))
        · exact ih _ _ _ (Nat.lt_of_lt_of_le (Nat.sub_lt (by omega) (by omega)) (by omega))
            (by rw [hD1]; exact (fillReadBuffer_dataOf f _).trans (by simp [dataOf]))
        · exact ⟨_, rfl, by rw [hD1]; exact (fillReadBuffer_dataOf f _).trans (by simp [dataOf])⟩
        · exact ⟨_, rfl, by rw [hD1]; simp [dataOf]⟩
        · simp [memory_read_isSome, dataOf, hD1]
        · simp only [Bool.and_eq_true, decide_eq_true_eq] at *
          exact ih _ _ _ (Nat.lt_of_lt_of_le (Nat.sub_lt (by omega) (by omega)) (by omega))
            (by rw [hD1]; exact (fillReadBuffer_dataOf f _).trans (by simp [dataOf]))
        · exact ih _ _ _ (Nat.lt_of_lt_of_le (Nat.sub_lt (by omega) (by omega)) (by omega))
            (by rw [hD1]; exact (fillReadBuffer_dataOf f _).trans (by simp [dataOf]))
        · exact ⟨_, rfl, by rw [hD1]; exact (fillReadBuffer_dataOf f _).trans (by simp [dataOf])⟩
        · exact ⟨_, rfl, by rw [hD1]; simp [dataOf]⟩

/-- A `read` with an empty write buffer over a memory stream leaves the bytes of
the stream as they are. -/
theorem read_dataOf (f W : Nat) (b : StreamBuffer MemoryStream) (nSize : Nat)
    (hu : b.mnWriteBufferUsed = 0) :
    ∃ r, b.read (memoryIStream f) W nSize = some r ∧ dataOf r.buffer = dataOf b := by
  unfold StreamBuffer.read
  cases hst : b.mpStream with
  | none => exact ⟨_, rfl, rfl⟩
  | some st =>
    simp only []
    by_cases hn : nSize = 0
    · simp only [hn, ne_eq, not_true_eq_false, if_false]
      exact ⟨_, rfl, rfl⟩
    · rw [if_pos hn, if_neg (not_not.mpr hu)]
      by_cases hsz : b.mnreadBufferSize ≠ 0
      · rw [if_pos hsz]
        obtain ⟨r, hr, hd⟩ := readLoop_dataOf f W (dataOf b)
          ((if (decide (b.mnPositionExternal ≥ b.mnreadBufferstartPosition) &&
                decide (b.mnPositionExternal < b.mnreadBufferstartPosition + b.mnreadBufferUsed))
              = true then
              nSize - (if b.mnreadBufferUsed - (b.mnPositionExternal - b.mnreadBufferstartPosition)
                  < nSize
                then b.mnreadBufferUsed - (b.mnPositionExternal - b.mnreadBufferstartPosition)
                else nSize)
            else nSize) + 1)
          (if (decide (b.mnPositionExternal ≥ b.mnreadBufferstartPosition) &&
                decide (b.mnPositionExternal < b.mnreadBufferstartPosition + b.mnreadBufferUsed))
              = true then
            { b with mnPositionExternal := b.mnPositionExternal +
                (if b.mnreadBufferUsed - (b.mnPositionExternal - b.mnreadBufferstartPosition)
                    < nSize
                  then b.mnreadBufferUsed - (b.mnPositionExternal - b.mnreadBufferstartPosition)
                  else nSize) }
          else b) _
          (if (decide (b.mnPositionExternal ≥ b.mnreadBufferstartPosition) &&
                decide (b.mnPositionExternal < b.mnreadBufferstartPosition + b.mnreadBufferUsed))
              = true then
            ((b.mpreadBuffer.getD []).drop (b.mnPositionExternal - b.mnreadBufferstartPosition)).take
              (if b.mnreadBufferUsed - (b.mnPositionExternal - b.mnreadBufferstartPosition)
                  < nSize
                then b.mnreadBufferUsed - (b.mnPositionExternal - b.mnreadBufferstartPosition)
                else nSize)
          else []) (Nat.lt_succ_self _) (by split_ifs <;> rfl)
        exact ⟨_, by rw [hr]; rfl, hd⟩
      · rw [if_neg hsz, hst]
        simp only [memory_read_isSome]
        exact ⟨_, rfl, by simp [dataOf, hst]⟩

theorem toOffType_small (W n : Nat) (h : n < 2 ^ (W - 1)) : toOffType W n = (n : Int) := by
  have hle : 2 ^ (W - 1) ≤ 2 ^ W := Nat.pow_le_pow_right (by norm_num) (Nat.sub_le _ _)
  unfold toOffType
  rw [Nat.mod_eq_of_lt (by omega), if_pos h]

theorem memory_seek (f W : Nat) (m : MemoryStream) (p : Nat) (hp : p < 2 ^ (W - 1))
    (hle : p ≤ m.data.length) :
    ((memoryIStream f).setPosition m (toOffType W p)).2 = ⟨m.data, p⟩ := by
  rw [toOffType_small W p hp]
  simp only [memoryIStream, MemoryStream.setPosition]
  rw [if_pos (Int.natCast_nonneg _), Int.toNat_ofNat, if_pos hle]

/-- A `read` of at least one byte returns and leaves the write buffer empty. -/
theorem read_wused {σ : Type} (io : IStream σ) (W : Nat) (b : StreamBuffer σ) (nSize : Nat)
    (hn : nSize ≠ 0) (hst : b.mpStream.isSome = true) :
    ∃ r, b.read io W nSize = some r ∧ r.buffer.mnWriteBufferUsed = 0 := by
  unfold StreamBuffer.read
  cases hs : b.mpStream with
  | none => rw [hs] at hst; exact absurd hst (by simp)
  | some st =>
    simp only []
    rw [if_pos hn]
    have hb1 : (if b.mnWriteBufferUsed ≠ 0 then (b.flushWriteBuffer io W).2 else b).mnWriteBufferUsed
        = 0 := by
      split_ifs with hu
      · exact flushWriteBuffer_used io W b (fun _ => hst)
      · exact not_not.mp hu
    generalize (if b.mnWriteBufferUsed ≠ 0 then (b.flushWriteBuffer io W).2 else b) = b1 at hb1
    by_cases hsz : b1.mnreadBufferSize ≠ 0
    · rw [if_pos hsz]
      obtain ⟨r, hr, e1, -, -⟩ := readLoop_fields io W 0 b1.mnWriteBufferSize b1.mpStream.isSome
        _ (if (decide (b1.mnPositionExternal ≥ b1.mnreadBufferstartPosition) &&
                decide (b1.mnPositionExternal < b1.mnreadBufferstartPosition + b1.mnreadBufferUsed))
              = true then
            { b1 with mnPositionExternal := b1.mnPositionExternal +
                (if b1.mnreadBufferUsed - (b1.mnPositionExternal - b1.mnreadBufferstartPosition)
                    < nSize
                  then b1.mnreadBufferUsed - (b1.mnPositionExternal - b1.mnreadBufferstartPosition)
                  else nSize) }
          else b1)
        (if (decide (b1.mnPositionExternal ≥ b1.mnreadBufferstartPosition) &&
                decide (b1.mnPositionExternal < b1.mnreadBufferstartPosition + b1.mnreadBufferUsed))
              = true then
              nSize - (if b1.mnreadBufferUsed - (b1.mnPositionExternal - b1.mnreadBufferstartPosition)
                  < nSize
                then b1.mnreadBufferUsed - (b1.mnPositionExternal - b1.mnreadBufferstartPosition)
                else nSize)
            else nSize)
        (if (decide (b1.mnPositionExternal ≥ b1.mnreadBufferstartPosition) &&
                decide (b1.mnPositionExternal < b1.mnreadBufferstartPosition + b1.mnreadBufferUsed))
              = true then
            ((b1.mpreadBuffer.getD []).drop (b1.mnPositionExternal - b1.mnreadBufferstartPosition)).take
              (if b1.mnreadBufferUsed - (b1.mnPositionExternal - b1.mnreadBufferstartPosition)
                  < nSize
                then b1.mnreadBufferUsed - (b1.mnPositionExternal - b1.mnreadBufferstartPosition)
                else nSize)
          else []) (Nat.lt_succ_self _)
        (by split_ifs <;> simp [hb1]) (by split_ifs <;> rfl) (by split_ifs <;> rfl)
      exact ⟨_, by rw [hr]; rfl, e1⟩
    · rw [if_neg hsz]
      cases hs1 : b1.mpStream with
      | none => exact ⟨_, rfl, hb1⟩
      | some st1 =>
        simp only []
        cases hr : (io.read st1 nSize).1 <;> exact ⟨_, rfl, hb1⟩

/-- A `write` that fits into an empty write buffer, over a memory stream whose
cursor is where `mnPositionInternal` says: the bytes are kept in the buffer,
and the cursor of the stream is brought to the external position. -/
theorem write_pending (f W : Nat) (b : StreamBuffer MemoryStream) (m : MemoryStream)
    (pData : List Nat) (hst : b.mpStream = some m) (hu : b.mnWriteBufferUsed = 0)
    (h0 : 0 < pData.length) (hfit : pData.length ≤ b.mnWriteBufferSize)
    (hcur : m.pos = b.mnPositionInternal)
    (hsync : b.mnreadBufferUsed = 0 → b.mnPositionExternal = b.mnPositionInternal)
    (hle : b.mnPositionExternal ≤ m.data.length) (hoff : b.mnPositionExternal < 2 ^ (W - 1)) :
    ∃ b2, b.write (memoryIStream f) W pData = some (true, b2) ∧
      b2.mpStream = some ⟨m.data, b.mnPositionExternal⟩ ∧
      b2.mnWriteBufferUsed = pData.length ∧ b2.mpWriteBuffer = some pData ∧
      b2.mnPositionExternal = b.mnPositionExternal + pData.length := by
  unfold StreamBuffer.write
  rw [hst]
  simp only []
  have hseek := memory_seek f W m b.mnPositionExternal hoff hle
  have hb1 : ∃ b1, (if b.mnreadBufferUsed ≠ 0 then
        if b.mnPositionExternal ≠ b.mnPositionInternal then
          { b.clearReadBuffer with
              mpStream := some ((memoryIStream f).setPosition m (toOffType W b.mnPositionExternal)).2 }
        else b.clearReadBuffer
      else b) = b1 ∧ b1.mpStream = some ⟨m.data, b.mnPositionExternal⟩ ∧
      b1.mnWriteBufferUsed = 0 ∧ b1.mnWriteBufferSize = b.mnWriteBufferSize ∧
      b1.mnPositionExternal = b.mnPositionExternal := by
    refine ⟨_, rfl, ?_⟩
    have hm : m = ⟨m.data, m.pos⟩ := rfl
    split_ifs with h1 h2
    · exact ⟨by rw [hseek], hu, rfl, rfl⟩
    · refine ⟨?_, hu, rfl, rfl⟩
      simp only [StreamBuffer.clearReadBuffer, hst]
      rw [hm, hcur, not_not.mp h2]
    · refine ⟨?_, hu, rfl, rfl⟩
      rw [hst, hm, hcur, hsync (not_not.mp h1)]
  obtain ⟨b1, e, e1, e2, e3, e4⟩ := hb1
  rw [e]
  rw [if_pos (by rw [e3]; omega)]
  unfold StreamBuffer.fillWriteBuffer
  rw [if_pos h0]
  simp only [e2, if_true, Nat.zero_add, List.take_zero, List.nil_append]
  rw [if_pos (by rw [e3]; exact hfit)]
  exact ⟨_, rfl, e1, rfl, rfl, by simp [e4]⟩

theorem read_after_flush {σ : Type} (io : IStream σ) (W : Nat) (b : StreamBuffer σ) (nSize : Nat)
    (hn : nSize ≠ 0) (hst : b.mpStream.isSome = true) :
    b.read io W nSize = (b.flushWriteBuffer io W).2.read io W nSize := by
  have hf0 := flushWriteBuffer_used io W b (fun _ => hst)
  have hfs : (b.flushWriteBuffer io W).2.mpStream.isSome = true := by
    rw [flushWriteBuffer_isSome]; exact hst
  by_cases hu : b.mnWriteBufferUsed = 0
  · have e : (b.flushWriteBuffer io W).2 = b := by
      unfold StreamBuffer.flushWriteBuffer
      rw [if_neg (not_not.mpr hu)]
    rw [e]
  · obtain ⟨st, hs⟩ := Option.isSome_iff_exists.mp hst
    obtain ⟨st1, hs1⟩ := Option.isSome_iff_exists.mp hfs
    unfold StreamBuffer.read
    simp only [hs, hf0, ne_eq, not_true_eq_false, if_false, hu, hn, not_false_eq_true, if_true]
    simp only [hs1]

/-- C29: when bytes are pending in the write buffer, a `read` of at least one
byte first hands all of them, in order and in one `write`, to the underlying
stream as it stands, and only then does everything else (every underlying read
is issued from the state after that write); the `read` returns, with
`mnWriteBufferUsed` zero.  Over a memory stream, bytes written into the empty
write buffer at the external position `p` are not in the stream after the
`write`, and after the following `read` the stream holds them at `p`, the
position where the write began. -/
theorem C29_read_flushes_pending_writes {σ : Type} (io : IStream σ) (W : Nat)
    (b : StreamBuffer σ) (nSize : Nat) (st : σ) (hn : nSize ≠ 0) (hst : b.mpStream = some st)
    (hu : b.mnWriteBufferUsed ≠ 0) :
    ((b.flushWriteBuffer io W).2.mpStream
        = some (io.write st ((b.mpWriteBuffer.getD []).take b.mnWriteBufferUsed)).2 ∧
      b.read io W nSize = (b.flushWriteBuffer io W).2.read io W nSize ∧
      ∃ r, b.read io W nSize = some r ∧ r.buffer.mnWriteBufferUsed = 0) ∧
    (∀ (f : Nat) (bm : StreamBuffer MemoryStream) (m : MemoryStream) (pData : List Nat),
      bm.mpStream = some m → bm.mnWriteBufferUsed = 0 → 0 < pData.length →
      pData.length ≤ bm.mnWriteBufferSize → m.pos = bm.mnPositionInternal →
      (bm.mnreadBufferUsed = 0 → bm.mnPositionExternal = bm.mnPositionInternal) →
      bm.mnPositionExternal ≤ m.data.length → bm.mnPositionExternal < 2 ^ (W - 1) →
      ∃ b2 r, bm.write (memoryIStream f) W pData = some (true, b2) ∧
        dataOf b2 = some m.data ∧ b2.mnWriteBufferUsed = pData.length ∧
        b2.read (memoryIStream f) W nSize = some r ∧ r.buffer.mnWriteBufferUsed = 0 ∧
        dataOf r.buffer = some (m.data.take bm.mnPositionExternal ++ pData
          ++ m.data.drop (bm.mnPositionExternal + pData.length))) := by
  have hsome : b.mpStream.isSome = true := by rw [hst]; rfl
  refine ⟨⟨?_, read_after_flush io W b nSize hn hsome, read_wused io W b nSize hn hsome⟩, ?_⟩
  · unfold StreamBuffer.flushWriteBuffer
    rw [if_pos hu, hst]
    simp only []
    split_ifs <;> rfl
  · intro f bm m pData h1 h2 h3 h4 h5 h6 h7 h8
    obtain ⟨b2, hw, e1, e2, e3, e4⟩ := write_pending f W bm m pData h1 h2 h3 h4 h5 h6 h7 h8
    have hs2 : b2.mpStream.isSome = true := by rw [e1]; rfl
    obtain ⟨r, hr, hr0⟩ := read_wused (memoryIStream f) W b2 nSize hn hs2
    have hfl := read_after_flush (memoryIStream f) W b2 nSize hn hs2
    have hfu := flushWriteBuffer_used (memoryIStream f) W b2 (fun _ => hs2)
    obtain ⟨r1, hr1, hd1⟩ := read_dataOf f W (b2.flushWriteBuffer (memoryIStream f) W).2 nSize hfu
    rw [hfl, hr1] at hr
    have hrr : r1 = r := Option.some.inj hr
    subst hrr
    refine ⟨b2, r1, hw, by simp [dataOf, e1], e2, by rw [hfl]; exact hr1, hr0, ?_⟩
    rw [hd1]
    unfold StreamBuffer.flushWriteBuffer dataOf
    rw [if_pos (by rw [e2]; omega), e1, e3, e2]
    simp only [Option.getD_some, List.take_length, memoryIStream_write]
    rw [write_eq ⟨m.data, bm.mnPositionExternal⟩ pData h7]
    simp

/-- C29 on a buffered memory stream `1 2 3 4 5` with the two bytes `9 8`
pending in the write buffer at position 0. -/
theorem C29_read_flushes_pending_writes_witness :
    (∃ r, pendingWrite.read (memoryIStream 3) 64 1 = some r ∧ r.buffer.mnWriteBufferUsed = 0) ∧
    (pendingWrite.flushWriteBuffer (memoryIStream 3) 64).2.mpStream
      = some ⟨[9, 8, 3, 4, 5], 2⟩ :=
  ⟨(C29_read_flushes_pending_writes (memoryIStream 3) 64 pendingWrite 1 ⟨[1, 2, 3, 4, 5], 0⟩
      (by decide) rfl (by decide)).1.2.2,
   (C29_read_flushes_pending_writes (memoryIStream 3) 64 pendingWrite 1 ⟨[1, 2, 3, 4, 5], 0⟩
      (by decide) rfl (by decide)).1.1.trans rfl⟩

theorem pendingWrite_is_write :
    ((StreamBuffer.construct (memoryIStream 3) 64 (fun _ => true) 4 4
        (some ⟨[1, 2, 3, 4, 5], 0⟩)).write (memoryIStream 3) 64 [9, 8]).map
      (fun w => (w.1, w.2.mpStream, w.2.mnPositionExternal, w.2.mnPositionInternal,
        w.2.mpWriteBuffer, w.2.mnWriteBufferSize, w.2.mnWriteBufferUsed,
        w.2.mnreadBufferSize, w.2.mnreadBufferUsed))
      = some (true, pendingWrite.mpStream, pendingWrite.mnPositionExternal,
          pendingWrite.mnPositionInternal, pendingWrite.mpWriteBuffer,
          pendingWrite.mnWriteBufferSize, pendingWrite.mnWriteBufferUsed,
          pendingWrite.mnreadBufferSize, pendingWrite.mnreadBufferUsed) := by
  rfl

/-! ### The child stream: `open` -/

/-- C30, as the claim states it, fails: on a readable parent of ten bytes,
`open(parent, 10, 0)` on a closed child returns false although
`10 + 0 ≤ 10`, and so does `open(parent, 0, 0)` on an empty parent; the
window `(9, 1)` is accepted. -/
theorem C30_open_rejects_empty_window_at_end :
    (StreamChild.open (memoryIStream 3) 64 1 StreamChild.closed
        (some ⟨[0, 1, 2, 3, 4, 5, 6, 7, 8, 9], 0⟩) 10 0).1 = false ∧
    10 + 0 ≤ (memoryIStream 3).getSize ⟨[0, 1, 2, 3, 4, 5, 6, 7, 8, 9], 0⟩ ∧
    (StreamChild.open (memoryIStream 3) 64 1 StreamChild.closed (some ⟨[], 0⟩) 0 0).1 = false ∧
    (StreamChild.open (memoryIStream 3) 64 1 StreamChild.closed
        (some ⟨[0, 1, 2, 3, 4, 5, 6, 7, 8, 9], 0⟩) 9 1).1 = true := by
  decide

/-- C30 (amended): for a child that is not open and a readable parent, with
`size_type` arguments, `open(parent, offset, length)` returns true exactly when
`offset` is below the parent's size and `offset + length`, without wrap-around,
is at most the parent's size; when it returns true the child is open on the
window at local position 0, and when it returns false the child is unchanged. -/
theorem C30_open_iff_window_inside {σ : Type} (io : IStream σ) (W kAccessFlagRead : Nat)
    (c : StreamChild σ) (p : σ) (nPosition nSize : Nat)
    (hclosed : c.mnAccessFlags = 0) (hread : (io.getAccessFlags p &&& kAccessFlagRead) ≠ 0)
    (hP : nPosition < 2 ^ W) (hS : nSize < 2 ^ W) (hsz : io.getSize p < 2 ^ W) :
    ((c.open io W kAccessFlagRead (some p) nPosition nSize).1 = true ↔
      (nPosition < io.getSize p ∧ nPosition + nSize ≤ io.getSize p)) ∧
    ((c.open io W kAccessFlagRead (some p) nPosition nSize).1 = true →
      (c.open io W kAccessFlagRead (some p) nPosition nSize).2
        = { mnAccessFlags := kAccessFlagRead, mpStreamParent := some p,
            mnPositionParent := nPosition, mnPosition := 0, mnSize := nSize }) ∧
    ((c.open io W kAccessFlagRead (some p) nPosition nSize).1 = false →
      (c.open io W kAccessFlagRead (some p) nPosition nSize).2 = c) := by
  unfold StreamChild.open
  simp only []
  rw [if_pos ⟨hclosed, hread⟩]
  by_cases hwin : nPosition < io.getSize p ∧ addW W nPosition nSize ≤ io.getSize p
      ∧ addW W nPosition nSize ≥ nPosition
  · rw [if_pos hwin]
    have hnowrap : nPosition + nSize < 2 ^ W := by
      by_contra hge
      have hlt : nPosition + nSize - 2 ^ W < 2 ^ W := by omega
      have e : addW W nPosition nSize = nPosition + nSize - 2 ^ W := by
        unfold addW
        rw [Nat.mod_eq_sub_mod (by omega), Nat.mod_eq_of_lt hlt]
      rw [e] at hwin
      omega
    have e : addW W nPosition nSize = nPosition + nSize := Nat.mod_eq_of_lt hnowrap
    rw [e] at hwin
    exact ⟨⟨fun _ => ⟨hwin.1, hwin.2.1⟩, fun _ => rfl⟩, fun _ => rfl,
      fun h => absurd h (by simp)⟩
  · rw [if_neg hwin]
    refine ⟨⟨fun h => absurd h (by simp), fun h => ?_⟩, fun h => absurd h (by simp), fun _ => rfl⟩
    exfalso
    apply hwin
    have e : addW W nPosition nSize = nPosition + nSize := Nat.mod_eq_of_lt (by omega)
    rw [e]
    exact ⟨h.1, h.2, by omega⟩

/-- C30 (amended) on a readable parent of ten bytes with the window `(2, 8)`. -/
theorem C30_open_iff_window_inside_witness :
    ((StreamChild.open (memoryIStream 3) 64 1 StreamChild.closed
        (some ⟨[0, 1, 2, 3, 4, 5, 6, 7, 8, 9], 0⟩) 2 8).1 = true ↔
      (2 < (memoryIStream 3).getSize ⟨[0, 1, 2, 3, 4, 5, 6, 7, 8, 9], 0⟩ ∧
        2 + 8 ≤ (memoryIStream 3).getSize ⟨[0, 1, 2, 3, 4, 5, 6, 7, 8, 9], 0⟩)) :=
  (C30_open_iff_window_inside (memoryIStream 3) 64 1 StreamChild.closed
    ⟨[0, 1, 2, 3, 4, 5, 6, 7, 8, 9], 0⟩ 2 8 rfl (by decide) (by norm_num) (by norm_num)
    (by norm_num [memoryIStream])).1

theorem HasUNCPrefix_le (p : List Nat) (first last : Nat) (h : HasUNCPrefix p first last = true) :
    first + 2 ≤ last := by
  unfold HasUNCPrefix at h
  simp only [Bool.and_eq_true, decide_eq_true_eq] at h
  exact h.1.1

theorem findComponentFwd_le (cfg : PathConfig) (p : List Nat) (first last : Nat)
    (h : first ≤ last) : findComponentFwd cfg p first last ≤ last := by
  unfold findComponentFwd
  simp only []
  by_cases hu : HasUNCPrefix p first last = true
  · rw [if_pos hu]
    have h2 := HasUNCPrefix_le p first last hu
    have := (fwdSkipName_spec cfg p last (last - (first + 2)) (first + 2) h2 (Nat.le_refl _)).2.1
    split_ifs with hc
    · simp only [Bool.and_eq_true, decide_eq_true_eq] at hc
      omega
    · omega
  · rw [if_neg hu]
    have := (fwdSkipName_spec cfg p last (last - first) first h (Nat.le_refl _)).2.1
    split_ifs with hc
    · simp only [Bool.and_eq_true, decide_eq_true_eq] at hc
      omega
    · omega

theorem getPathComponentEnd_one (cfg : PathConfig) (p : List Nat) (first last : Nat)
    (h : first < last) :
    first < getPathComponentEnd cfg p first last 1 ∧ getPathComponentEnd cfg p first last 1 ≤ last := by
  have h1 := findComponentFwd_gt cfg p first last h
  have h1l := findComponentFwd_le cfg p first last (Nat.le_of_lt h)
  unfold getPathComponentEnd
  rw [if_pos (by decide)]
  have e2 : ((1 : Int) + 1).toNat = 2 := by decide
  simp only [e2]
  unfold getPathComponentEndFwd
  rw [if_pos h]
  unfold getPathComponentEndFwd
  by_cases h2 : findComponentFwd cfg p first last < last
  · rw [if_pos h2]
    have h3 := findComponentFwd_gt cfg p _ last h2
    have h3l := findComponentFwd_le cfg p _ last (Nat.le_of_lt h2)
    unfold getPathComponentEndFwd
    simp only []
    split_ifs <;> omega
  · rw [if_neg h2]
    simp only []
    rw [if_neg (by simp)]
    omega

theorem StrEnd_eq (p : List Nat) (hnul : ∀ c ∈ p, c ≠ 0) (first : Nat) (h : first ≤ p.length) :
    StrEnd p first = p.length := by
  unfold StrEnd
  have : (p.drop first).takeWhile (fun c => c != 0) = p.drop first := by
    rw [List.takeWhile_eq_self_iff]
    intro c hc
    have := hnul c (List.mem_of_mem_drop hc)
    simpa using this
  rw [this, List.length_drop]
  omega

theorem getPathComponentEnd16_one (cfg : PathConfig) (p : List Nat) (hnul : ∀ c ∈ p, c ≠ 0)
    (it last : Nat) (h : it < p.length) :
    it < getPathComponentEnd16 cfg p it last 1 ∧ getPathComponentEnd16 cfg p it last 1 ≤ p.length := by
  unfold getPathComponentEnd16
  rw [StrEnd_eq p hnul it (Nat.le_of_lt h)]
  exact getPathComponentEnd_one cfg p it p.length h

theorem createWalk_total (cfg : PathConfig) (p : List Nat) (hnul : ∀ c ∈ p, c ≠ 0) :
    ∀ (fuel it : Nat), it ≤ p.length → p.length - it < fuel →
      ∃ l, createWalk cfg p fuel it = some l ∧ l.length ≤ p.length - it ∧
        ∀ x ∈ l, it ≤ x ∧ x < p.length := by
  intro fuel
  induction fuel with
  | zero => intro it _ h; omega
  | succ fuel ih =>
    intro it hle hf
    unfold createWalk
    by_cases he : it = p.length
    · rw [if_neg (by simpa using he)]
      exact ⟨[], rfl, by simp, by simp⟩
    · rw [if_pos he]
      have hlt : it < p.length := by omega
      obtain ⟨h1, h2⟩ := getPathComponentEnd16_one cfg p hnul it p.length hlt
      obtain ⟨l, hl, hlen, hmem⟩ := ih _ h2 (by omega)
      refine ⟨it :: l, by rw [hl]; rfl, by simp only [List.length_cons]; omega, ?_⟩
      intro x hx
      rcases List.mem_cons.mp hx with rfl | hx
      · exact ⟨Nat.le_refl _, hlt⟩
      · have := hmem x hx
        omega

/-- C40: for every position `it` before `end`, `getPathComponentEnd(it, end, 1)`
returns a position strictly greater than `it` and at most `end`; so does, for
a path without embedded nul, the 16-bit function that `Directory::create`
calls (which takes the end of the text for `end`); hence the ancestor walk
started at any position reaches `end`, its loop body running at most
`length(path)` times. -/
theorem C40_ancestor_walk_terminates (cfg : PathConfig) (p : List Nat)
    (hnul : ∀ c ∈ p, c ≠ 0) :
    (∀ it last, it < last →
      it < getPathComponentEnd cfg p it last 1 ∧ getPathComponentEnd cfg p it last 1 ≤ last) ∧
    (∀ it, it < p.length →
      it < getPathComponentEnd16 cfg p it p.length 1 ∧
      getPathComponentEnd16 cfg p it p.length 1 ≤ p.length) ∧
    (∀ it, it ≤ p.length →
      ∃ l, createWalk cfg p (p.length + 1) it = some l ∧ l.length ≤ p.length - it) := by
  refine ⟨fun it last h => getPathComponentEnd_one cfg p it last h,
    fun it h => getPathComponentEnd16_one cfg p hnul it p.length h, fun it h => ?_⟩
  obtain ⟨l, hl, hlen, -⟩ := createWalk_total cfg p hnul (p.length + 1) it h (by omega)
  exact ⟨l, hl, hlen⟩

theorem C40_ancestor_walk_terminates_witness :
    (∀ c ∈ str "/a/b/", c ≠ 0) ∧
    ∀ it, it ≤ (str "/a/b/").length →
      ∃ l, createWalk windowsConfig (str "/a/b/") ((str "/a/b/").length + 1) it = some l ∧
        l.length ≤ (str "/a/b/").length - it :=
  ⟨by decide, (C40_ancestor_walk_terminates windowsConfig (str "/a/b/") (by decide)).2.2⟩

theorem fwdSkipName_chars (cfg : PathConfig) (p : List Nat) (last : Nat) :
    ∀ (k first : Nat), first ≤ last → last - first ≤ k →
      (∀ j, first ≤ j → j < fwdSkipName cfg p last k first →
        IsDirectorySeparator cfg (charAt p j) = false) ∧
      (∀ j, first ≤ j → j + 1 < fwdSkipName cfg p last k first →
        charAt p j ≠ cfg.kFilePathDriveSeparator) ∧
      (fwdSkipName cfg p last k first = last ∨
        IsDirectorySeparator cfg (charAt p (fwdSkipName cfg p last k first)) = true ∨
        (first < fwdSkipName cfg p last k first ∧
          charAt p (fwdSkipName cfg p last k first - 1) = cfg.kFilePathDriveSeparator)) := by
  intro k
  induction k with
  | zero =>
    intro first h1 h2
    simp only [fwdSkipName]
    exact ⟨fun j a b => by omega, fun j a b => by omega, Or.inl (by omega)⟩
  | succ k ih =>
    intro first h1 h2
    unfold fwdSkipName
    by_cases hc : (decide (first < last) && !IsDirectorySeparator cfg (charAt p first)) = true
    · rw [if_pos hc]
      simp only [Bool.and_eq_true, decide_eq_true_eq, Bool.not_eq_true'] at hc
      by_cases hd : (charAt p first == cfg.kFilePathDriveSeparator) = true
      · rw [if_pos hd]
        refine ⟨fun j a b => ?_, fun j a b => by omega, Or.inr (Or.inr ⟨by omega, ?_⟩)⟩
        · have : j = first := by omega
          rw [this]; exact hc.2
        · simpa using hd
      · rw [if_neg hd]
        have hnd : charAt p first ≠ cfg.kFilePathDriveSeparator := by simpa using hd
        obtain ⟨a1, a2, a3⟩ := ih (first + 1) (by omega) (by omega)
        have hge := fwdSkipName_ge cfg p last k (first + 1)
        refine ⟨fun j a b => ?_, fun j a b => ?_, ?_⟩
        · rcases Nat.eq_or_lt_of_le a with e | l
          · rw [← e]; exact hc.2
          · exact a1 j l b
        · rcases Nat.eq_or_lt_of_le a with e | l
          · rw [← e]; exact hnd
          · exact a2 j l b
        · rcases a3 with a | a | a
          · exact Or.inl a
          · exact Or.inr (Or.inl a)
          · exact Or.inr (Or.inr ⟨by omega, a.2⟩)
    · rw [if_neg hc]
      refine ⟨fun j a b => by omega, fun j a b => by omega, ?_⟩
      simp only [Bool.and_eq_true, decide_eq_true_eq, Bool.not_eq_true', not_and,
        Bool.not_eq_false] at hc
      rcases Nat.eq_or_lt_of_le h1 with e | l
      · exact Or.inl e
      · exact Or.inr (Or.inl (hc l))

theorem findComponentFwd_spec (cfg : PathConfig) (p : List Nat) (first last : Nat)
    (h : first ≤ last) : ComponentFwdSpec cfg p first last (findComponentFwd cfg p first last) := by
  have hs : uncSkip p first last ≤ last := by
    unfold uncSkip
    by_cases hu : HasUNCPrefix p first last = true
    · rw [if_pos hu]; exact HasUNCPrefix_le p first last hu
    · rw [if_neg hu]; exact h
  obtain ⟨a1, a2, a3⟩ := fwdSkipName_chars cfg p last (last - uncSkip p first last)
    (uncSkip p first last) hs (Nat.le_refl _)
  obtain ⟨b1, b2, -⟩ := fwdSkipName_spec cfg p last (last - uncSkip p first last)
    (uncSkip p first last) hs (Nat.le_refl _)
  refine ⟨fwdSkipName cfg p last (last - uncSkip p first last) (uncSkip p first last),
    b1, b2, a1, a2, a3, ?_⟩
  unfold findComponentFwd
  simp only [uncSkip, Bool.and_eq_true, decide_eq_true_eq]

theorem findComponentRvs_ge (cfg : PathConfig) (p : List Nat) (first last : Nat)
    (h : first ≤ last) : first ≤ findComponentRvs cfg p first last := by
  unfold findComponentRvs
  simp only []
  split_ifs with h1 h2 h3 h3 h2 h3 h3
  all_goals first
    | exact Nat.le_refl _
    | exact (rvsSkipName_spec cfg p first _ _ (by
        simp only [Bool.and_eq_true, decide_eq_true_eq] at *; omega) (Nat.le_refl _)).1

/-- C37: for `first <= last`, `findComponentFwd(first, last)` returns a
position `r` with `first <= r <= last`, and `r > first` when `first < last`;
after skipping a leading UNC double backslash it scans to the first directory
separator, to right after a drive separator, or to `last`, and `r` is just
after the directory separator found there (or that position if there is
none).  `findComponentRvs(first, last)` returns `r` with `first <= r <= last`
and `r < last` when `first < last`. -/
theorem C37_findComponent_positions (cfg : PathConfig) (p : List Nat) (first last : Nat)
    (h : first ≤ last) :
    (first ≤ findComponentFwd cfg p first last ∧ findComponentFwd cfg p first last ≤ last ∧
      (first < last → first < findComponentFwd cfg p first last) ∧
      ComponentFwdSpec cfg p first last (findComponentFwd cfg p first last)) ∧
    (first ≤ findComponentRvs cfg p first last ∧ findComponentRvs cfg p first last ≤ last ∧
      (first < last → findComponentRvs cfg p first last < last)) := by
  refine ⟨⟨?_, findComponentFwd_le cfg p first last h, findComponentFwd_gt cfg p first last,
      findComponentFwd_spec cfg p first last h⟩,
    findComponentRvs_ge cfg p first last h, findComponentRvs_le cfg p first last h,
    findComponentRvs_lt cfg p first last⟩
  rcases Nat.eq_or_lt_of_le h with e | l
  · have := findComponentFwd_le cfg p first last h
    have hs := findComponentFwd_spec cfg p first last h
    obtain ⟨e1, s1, s2, -, -, -, s6⟩ := hs
    have hu : first ≤ uncSkip p first last := by
      unfold uncSkip; split_ifs <;> omega
    rw [s6]
    split_ifs <;> omega
  · exact Nat.le_of_lt (findComponentFwd_gt cfg p first last l)

theorem C37_findComponent_positions_witness :
    0 ≤ 4 ∧
    ((0 ≤ findComponentFwd windowsConfig (str "C:/x") 0 4 ∧
      findComponentFwd windowsConfig (str "C:/x") 0 4 ≤ 4 ∧
      (0 < 4 → 0 < findComponentFwd windowsConfig (str "C:/x") 0 4) ∧
      ComponentFwdSpec windowsConfig (str "C:/x") 0 4
        (findComponentFwd windowsConfig (str "C:/x") 0 4)) ∧
    (0 ≤ findComponentRvs windowsConfig (str "C:/x") 0 4 ∧
      findComponentRvs windowsConfig (str "C:/x") 0 4 ≤ 4 ∧
      (0 < 4 → findComponentRvs windowsConfig (str "C:/x") 0 4 < 4))) :=
  ⟨by decide, C37_findComponent_positions windowsConfig (str "C:/x") 0 4 (by decide)⟩

theorem write_at_end (s : MemoryStream) (x : List Nat) (h : s.pos = s.data.length) :
    s.write x = (true, ⟨s.data ++ x, s.data.length + x.length⟩) := by
  rw [write_eq s x (by omega), h]
  simp

theorem writeUint16Loop_appends (kEndianLocal : Endian) (value : List Nat) :
    ∀ (count i : Nat) (s : MemoryStream), s.pos = s.data.length →
      ∃ X, (writeUint16Loop kEndianLocal value count i s).2.data = s.data ++ X := by
  intro count
  induction count with
  | zero => intro i s _; exact ⟨[], by simp [writeUint16Loop]⟩
  | succ c ih =>
    intro i s h
    unfold writeUint16Loop
    rw [write_at_end s _ h]
    simp only [if_true]
    obtain ⟨X, hX⟩ := ih (i + 1)
      ⟨s.data ++ toBytes kEndianLocal 2 (SwizzleUint16 (charAt value i)),
        s.data.length + (toBytes kEndianLocal 2 (SwizzleUint16 (charAt value i))).length⟩
      (by simp)
    exact ⟨toBytes kEndianLocal 2 (SwizzleUint16 (charAt value i)) ++ X, by
      rw [hX]; simp⟩

theorem newline_terminator_bytes (kEndianLocal : Endian) (d : List Nat) (n : Nat) :
    (n = 0 ∧ (writeUint16Array kEndianLocal ⟨d, d.length⟩ [10] n kEndianBig).2.data = d) ∨
    ∃ X, (writeUint16Array kEndianLocal ⟨d, d.length⟩ [10] n kEndianBig).2.data
      = d ++ [0, 10] ++ X := by
  cases n with
  | zero =>
    left
    refine ⟨rfl, ?_⟩
    cases kEndianLocal
    · unfold writeUint16Array
      rw [if_neg (by simp)]
      rw [write_at_end _ _ rfl]
      simp
    · unfold writeUint16Array
      rw [if_pos (by simp)]
      simp [writeUint16Loop]
  | succ m =>
    right
    cases kEndianLocal
    · unfold writeUint16Array
      rw [if_neg (by simp)]
      rw [write_at_end _ _ rfl]
      rw [List.range_succ_eq_map]
      simp only [List.flatMap_cons]
      have e : toBytes kEndianBig 2 (charAt [10] 0) = [0, 10] := by decide
      rw [e]
      exact ⟨(List.map Nat.succ (List.range m)).flatMap
        (fun i => toBytes kEndianBig 2 (charAt [10] i)), by simp⟩
    · unfold writeUint16Array
      rw [if_pos (by simp)]
      unfold writeUint16Loop
      rw [write_at_end _ _ rfl]
      simp only [if_true]
      have e : toBytes kEndianLittle 2 (SwizzleUint16 (charAt [10] 0)) = [0, 10] := by decide
      rw [e]
      obtain ⟨X, hX⟩ := writeUint16Loop_appends kEndianLittle [10] m (0 + 1)
        ⟨d ++ [0, 10], d.length + ([0, 10] : List Nat).length⟩ (by simp)
      exact ⟨X, by rw [hX]⟩

theorem writeLine16_newline (kEndianLocal : Endian) (endianCode : Endian → Nat)
    (kLengthNull : Nat) (pOS s1 : MemoryStream) (pLine : List Nat) (nCount : Nat)
    (e : Endian) (hcount : nCount ≠ 0)
    (hn : (if nCount = kLengthNull then strlenLoop pLine else nCount) = nCount)
    (r1 : writeUint16Array kEndianLocal pOS pLine nCount e = (true, s1)) :
    writeLine16 kEndianLocal endianCode kLengthNull pOS pLine nCount kLineEndNewline e
      = writeUint16Array kEndianLocal s1 [10] (endianCode e) kEndianBig := by
  unfold writeLine16
  simp only [hn]
  rw [if_pos hcount, r1]
  simp

/-- C38: the 16-bit `writeLine` does not write the line end the 8-bit one
writes.  The 8-bit function writes the line and one `'\n'`; the 16-bit
function with `kLineEndNewline` and `kEndianLittle` never produces the code
units of the line followed by one `'\n'` code unit in little-endian order,
whatever the local byte order and the integer values of the `Endian`
enumerators are; and when the value of `kEndianBig` is 0 it writes no line
end at all for `kEndianBig`. -/
theorem C38_writeLine16_newline_wrong (kEndianLocal : Endian) (endianCode : Endian → Nat)
    (kLengthNull : Nat) :
    (writeLine kLengthNull ⟨[], 0⟩ [104, 105] 2 kLineEndNewline).2.data = [104, 105, 10] ∧
    (writeLine16 kEndianLocal endianCode kLengthNull ⟨[], 0⟩ [104, 105] 2 kLineEndNewline
        kEndianLittle).2.data ≠ unitBytes kEndianLittle [104, 105, 10] ∧
    (writeLine16 kEndianLocal (fun e => if e = kEndianBig then 0 else endianCode e) kLengthNull
        ⟨[], 0⟩ [104, 105] 2 kLineEndNewline kEndianBig).2.data = unitBytes kEndianBig [104, 105] := by
  have hn : (if 2 = kLengthNull then strlenLoop [104, 105] else 2) = 2 := by
    split_ifs
    · decide
    · rfl
  refine ⟨?_, ?_, ?_⟩
  · unfold writeLine
    simp only [hn]
    decide
  · have hline : writeUint16Array kEndianLocal ⟨[], 0⟩ [104, 105] 2 kEndianLittle
        = (true, ⟨[104, 0, 105, 0], ([104, 0, 105, 0] : List Nat).length⟩) := by
      cases kEndianLocal <;> decide
    rw [writeLine16_newline kEndianLocal endianCode kLengthNull _ _ _ 2 kEndianLittle (by decide)
      hn hline]
    have hexp : unitBytes kEndianLittle [104, 105, 10] = [104, 0, 105, 0, 10, 0] := by decide
    rw [hexp]
    rcases newline_terminator_bytes kEndianLocal [104, 0, 105, 0] (endianCode kEndianLittle)
      with ⟨-, h⟩ | ⟨X, h⟩
    · rw [h]; decide
    · rw [h]
      intro hc
      have := congrArg (fun l => l.getD 4 0) hc
      simp at this
  · have hline : writeUint16Array kEndianLocal ⟨[], 0⟩ [104, 105] 2 kEndianBig
        = (true, ⟨[0, 104, 0, 105], ([0, 104, 0, 105] : List Nat).length⟩) := by
      cases kEndianLocal <;> decide
    rw [writeLine16_newline kEndianLocal _ kLengthNull _ _ _ 2 kEndianBig (by decide)
      hn hline]
    simp only [if_true]
    cases kEndianLocal <;> decide

/-- C39: normalization does not keep the classification: the rooted path
`"/../x"` is not relative, but `normalize` strips its root together with the
`".."` and returns `"x"`, which is relative (for both separator
configurations). -/
theorem C39_normalize_unroots :
    isRelative windowsConfig (str "/../x") 0 (str "/../x").length = false ∧
    normalize windowsConfig (str "/../x") = some (str "x") ∧
    isRelative windowsConfig (str "x") 0 (str "x").length = true ∧
    isRelative slashConfig (str "/../x") 0 (str "/../x").length = false ∧
    normalize slashConfig (str "/../x") = some (str "x") ∧
    isRelative slashConfig (str "x") 0 (str "x").length = true := by
  decide

theorem memory_seek_ok (f W : Nat) (m : MemoryStream) (p : Nat) (hp : p < 2 ^ (W - 1))
    (hle : p ≤ m.data.length) :
    (memoryIStream f).setPosition m (toOffType W p) = (true, ⟨m.data, p⟩) := by
  rw [toOffType_small W p hp]
  simp only [memoryIStream, MemoryStream.setPosition]
  rw [if_pos (Int.natCast_nonneg _), Int.toNat_ofNat, if_pos hle]

theorem addW_of_lt (W a b : Nat) (h : a + b < 2 ^ W) : addW W a b = a + b := by
  unfold addW
  exact Nat.mod_eq_of_lt h

theorem pow_pred_le (W : Nat) : 2 ^ (W - 1) ≤ 2 ^ W :=
  Nat.pow_le_pow_right (by norm_num) (Nat.sub_le _ _)

theorem child_read_memory (f W kSizeTypeError : Nat) (c : StreamChild MemoryStream) (B : List Nat)
    (cur n : Nat) (hopen : c.mnAccessFlags ≠ 0) (hpar : c.mpStreamParent = some ⟨B, cur⟩)
    (hwin : c.mnPositionParent + c.mnSize ≤ B.length) (hpos : c.mnPosition ≤ c.mnSize)
    (hB : B.length < 2 ^ (W - 1)) :
    ∃ r, c.read (memoryIStream f) W kSizeTypeError n = some r ∧
      r.result = min n (c.mnSize - c.mnPosition) ∧
      r.data = (B.drop (c.mnPositionParent + c.mnPosition)).take (min n (c.mnSize - c.mnPosition)) ∧
      r.data.length = min n (c.mnSize - c.mnPosition) ∧
      r.child = { c with
        mpStreamParent := some ⟨B, c.mnPositionParent + c.mnPosition + min n (c.mnSize - c.mnPosition)⟩,
        mnPosition := c.mnPosition + min n (c.mnSize - c.mnPosition) } := by
  have hle := pow_pred_le W
  have hav : c.getAvailable W = c.mnSize - c.mnPosition := by
    unfold StreamChild.getAvailable
    exact subW_of_le W _ _ hpos (by omega)
  have hsz : (if c.mnSize - c.mnPosition < n then c.mnSize - c.mnPosition else n)
      = min n (c.mnSize - c.mnPosition) := by
    split_ifs <;> omega
  have hlen : ((B.drop (c.mnPositionParent + c.mnPosition)).take
      (min n (c.mnSize - c.mnPosition))).length = min n (c.mnSize - c.mnPosition) := by
    rw [List.length_take, List.length_drop]
    omega
  unfold StreamChild.read
  rw [if_pos hopen, hpar]
  simp only []
  rw [addW_of_lt W _ _ (by omega), memory_seek_ok f W _ _ (by omega) (by simp only []; omega)]
  simp only [if_true, hav, hsz, memoryIStream_read, MemoryStream.read, hlen, Option.getD_some]
  rw [addW_of_lt W _ _ (by omega)]
  exact ⟨_, rfl, rfl, rfl, hlen, rfl⟩

theorem child_write_memory (f W : Nat) (c : StreamChild MemoryStream) (B : List Nat)
    (cur : Nat) (d : List Nat) (hpar : c.mpStreamParent = some ⟨B, cur⟩)
    (hwin : c.mnPositionParent + c.mnSize ≤ B.length) (hpos : c.mnPosition ≤ c.mnSize)
    (hB : B.length < 2 ^ (W - 1)) :
    c.write (memoryIStream f) W d = some (true, { c with
      mpStreamParent := some
        ⟨B.take (c.mnPositionParent + c.mnPosition) ++ d.take (min d.length (c.mnSize - c.mnPosition))
            ++ B.drop (c.mnPositionParent + c.mnPosition + min d.length (c.mnSize - c.mnPosition)),
          c.mnPositionParent + c.mnPosition + min d.length (c.mnSize - c.mnPosition)⟩,
      mnPosition := c.mnPosition + min d.length (c.mnSize - c.mnPosition) }) := by
  have hle := pow_pred_le W
  have hav : subW W c.mnSize c.mnPosition = c.mnSize - c.mnPosition :=
    subW_of_le W _ _ hpos (by omega)
  have hsz : (if d.length > c.mnSize - c.mnPosition then c.mnSize - c.mnPosition else d.length)
      = min d.length (c.mnSize - c.mnPosition) := by
    split_ifs <;> omega
  have hlen : (d.take (min d.length (c.mnSize - c.mnPosition))).length
      = min d.length (c.mnSize - c.mnPosition) := by
    rw [List.length_take]
    omega
  unfold StreamChild.write
  rw [hpar]
  simp only [hav, hsz]
  rw [addW_of_lt W _ _ (by omega), memory_seek_ok f W _ _ (by omega) (by simp only []; omega)]
  simp only [if_true, memoryIStream_write]
  rw [write_eq _ _ (by simp only []; omega)]
  simp only [if_true, hlen]
  rw [addW_of_lt W _ _ (by omega)]

/-- C31: an open child with window `(offset, L)` inside a memory parent holding
`B`, at the local position `p <= L`: `read(buf, n)` returns `min(n, L - p)`,
delivers the parent bytes from the absolute position `offset + p` on, and
advances the local position by that amount, leaving the parent bytes as they
are; `write` of `d` clamps to `k = min(|d|, L - p)` in the same way, stores
the first `k` bytes at `offset + p` and changes no parent byte before
`offset + p` or from `offset + p + k` on, so that nothing outside
`[offset, offset + L)` is read or written. -/
theorem C31_child_clamps_to_window (f W kSizeTypeError : Nat) (c : StreamChild MemoryStream)
    (B : List Nat) (cur n : Nat) (d : List Nat)
    (hopen : c.mnAccessFlags ≠ 0) (hpar : c.mpStreamParent = some ⟨B, cur⟩)
    (hwin : c.mnPositionParent + c.mnSize ≤ B.length) (hpos : c.mnPosition ≤ c.mnSize)
    (hB : B.length < 2 ^ (W - 1)) :
    (∃ r, c.read (memoryIStream f) W kSizeTypeError n = some r ∧
      r.result = min n (c.mnSize - c.mnPosition) ∧
      r.data = (B.drop (c.mnPositionParent + c.mnPosition)).take (min n (c.mnSize - c.mnPosition)) ∧
      r.data.length = min n (c.mnSize - c.mnPosition) ∧
      r.child.mnPosition = c.mnPosition + min n (c.mnSize - c.mnPosition) ∧
      r.child.mnPosition ≤ c.mnSize ∧
      r.child.mpStreamParent
        = some ⟨B, c.mnPositionParent + c.mnPosition + min n (c.mnSize - c.mnPosition)⟩) ∧
    (∃ B1 c1, c.write (memoryIStream f) W d = some (true, c1) ∧
      c1.mnPosition = c.mnPosition + min d.length (c.mnSize - c.mnPosition) ∧
      c1.mnPosition ≤ c.mnSize ∧
      c1.mpStreamParent
        = some ⟨B1, c.mnPositionParent + c.mnPosition + min d.length (c.mnSize - c.mnPosition)⟩ ∧
      B1.length = B.length ∧
      B1.take (c.mnPositionParent + c.mnPosition) = B.take (c.mnPositionParent + c.mnPosition) ∧
      (B1.drop (c.mnPositionParent + c.mnPosition)).take (min d.length (c.mnSize - c.mnPosition))
        = d.take (min d.length (c.mnSize - c.mnPosition)) ∧
      B1.drop (c.mnPositionParent + c.mnPosition + min d.length (c.mnSize - c.mnPosition))
        = B.drop (c.mnPositionParent + c.mnPosition + min d.length (c.mnSize - c.mnPosition))) := by
  constructor
  · obtain ⟨r, h1, h2, h3, h4, h5⟩ :=
      child_read_memory f W kSizeTypeError c B cur n hopen hpar hwin hpos hB
    refine ⟨r, h1, h2, h3, h4, ?_, ?_, ?_⟩
    · rw [h5]
    · rw [h5]; simp only []; omega
    · rw [h5]
  · have hw := child_write_memory f W c B cur d hpar hwin hpos hB
    have hlen : (d.take (min d.length (c.mnSize - c.mnPosition))).length
        = min d.length (c.mnSize - c.mnPosition) := by
      rw [List.length_take]; omega
    have htl : (B.take (c.mnPositionParent + c.mnPosition)).length
        = c.mnPositionParent + c.mnPosition := by
      rw [List.length_take]; omega
    refine ⟨_, _, hw, rfl, by simp only []; omega, rfl, ?_, ?_, ?_, ?_⟩
    · simp only [List.length_append, htl, hlen, List.length_drop]
      omega
    · rw [List.append_assoc, List.take_left' htl]
    · rw [List.append_assoc, List.drop_left' htl, List.take_left' hlen]
    · have e : (B.take (c.mnPositionParent + c.mnPosition)
          ++ d.take (min d.length (c.mnSize - c.mnPosition))).length
          = c.mnPositionParent + c.mnPosition + min d.length (c.mnSize - c.mnPosition) := by
        rw [List.length_append, htl, hlen]
      rw [List.drop_left' e]

theorem C31_child_clamps_to_window_witness :
    ∃ r, windowChild.read (memoryIStream 3) 64 (2 ^ 64 - 1) 50 = some r ∧
      r.result = min 50 (windowChild.mnSize - windowChild.mnPosition) :=
  have h := (C31_child_clamps_to_window 3 64 (2 ^ 64 - 1) windowChild (List.range 100) 0 50
    [7, 7, 7, 7, 7, 7, 7] (by decide) rfl (by decide) (by decide)
    (by rw [List.length_range]; norm_num)).1
  h.elim (fun r hr => ⟨r, hr.1, hr.2.1⟩)

theorem child_setPosition_le {σ : Type} (W : Nat) :
    ∀ (fuel : Nat) (c : StreamChild σ) (position : Int) (t : PositionType)
      (r : Bool × StreamChild σ), c.mnPosition ≤ c.mnSize →
      StreamChild.setPosition W fuel c position t = some r →
      r.2.mnPosition ≤ r.2.mnSize ∧ r.2.mnSize = c.mnSize ∧
        r.2.mnAccessFlags = c.mnAccessFlags ∧ r.2.mpStreamParent = c.mpStreamParent ∧
        r.2.mnPositionParent = c.mnPositionParent := by
  intro fuel
  induction fuel with
  | zero => intro c position t r _ h; simp [StreamChild.setPosition] at h
  | succ fuel ih =>
    intro c position t r hc h
    unfold StreamChild.setPosition at h
    by_cases ho : c.mnAccessFlags ≠ 0
    · rw [if_pos ho] at h
      cases t with
      | kPositionTypeBegin =>
        simp only [] at h
        by_cases hlt : toSizeType W position < c.mnSize
        · rw [if_pos hlt] at h
          cases h
          exact ⟨Nat.le_of_lt hlt, rfl, rfl, rfl, rfl⟩
        · rw [if_neg hlt] at h
          exact ih c _ _ r hc h
      | kPositionTypeCurrent => exact ih c _ _ r hc h
      | kPositionTypeEnd => exact ih c _ _ r hc h
    · rw [if_neg ho] at h
      cases h
      exact ⟨hc, rfl, rfl, rfl, rfl⟩

theorem subW_lt (W a b : Nat) : subW W a b < 2 ^ W := by
  unfold subW
  exact Nat.mod_lt _ (by positivity)

theorem child_advance_le (W p s n : Nat) (hp : p ≤ s) (hn : n ≤ subW W s p) :
    addW W p n ≤ s := by
  have hpow : 0 < 2 ^ W := by positivity
  unfold addW
  rcases Nat.lt_or_ge s (2 ^ W) with hs | hs
  · rw [subW_of_le W s p hp hs] at hn
    exact Nat.le_trans (Nat.mod_le _ _) (by omega)
  · exact Nat.le_trans (Nat.le_of_lt (Nat.mod_lt _ hpow)) hs

theorem child_read_le {σ : Type} (io : IStream σ) (W kSizeTypeError : Nat) (c : StreamChild σ)
    (nSize : Nat) (r : ChildReadResult σ) (hc : c.mnPosition ≤ c.mnSize)
    (h : c.read io W kSizeTypeError nSize = some r) : r.child.mnPosition ≤ r.child.mnSize := by
  unfold StreamChild.read at h
  by_cases ho : c.mnAccessFlags ≠ 0
  · rw [if_pos ho] at h
    cases hp : c.mpStreamParent with
    | none => rw [hp] at h; simp at h
    | some p =>
      rw [hp] at h
      simp only [] at h
      split_ifs at h with h1 h2 h3 h3
      all_goals first
        | (cases h; simp only []
           refine child_advance_le W _ _ _ hc ?_
           unfold StreamChild.getAvailable at *
           first | exact Nat.le_refl _ | omega)
        | (cases h; exact hc)
  · rw [if_neg ho] at h
    cases h
    exact hc

theorem child_write_le {σ : Type} (io : IStream σ) (W : Nat) (c : StreamChild σ)
    (pData : List Nat) (r : Bool × StreamChild σ) (hc : c.mnPosition ≤ c.mnSize)
    (h : c.write io W pData = some r) : r.2.mnPosition ≤ r.2.mnSize := by
  unfold StreamChild.write at h
  cases hp : c.mpStreamParent with
  | none => rw [hp] at h; simp at h
  | some p =>
    rw [hp] at h
    simp only [] at h
    split_ifs at h with h1 h2 h3 h3
    all_goals first
      | (cases h; simp only []
         refine child_advance_le W _ _ _ hc ?_
         first | exact Nat.le_refl _ | omega)
      | (cases h; exact hc)

theorem child_open_le {σ : Type} (io : IStream σ) (W kAccessFlagRead : Nat) (c : StreamChild σ)
    (p : Option σ) (nPosition nSize : Nat) (hc : c.mnPosition ≤ c.mnSize) :
    (c.open io W kAccessFlagRead p nPosition nSize).2.mnPosition
      ≤ (c.open io W kAccessFlagRead p nPosition nSize).2.mnSize := by
  unfold StreamChild.open
  cases p with
  | none => exact hc
  | some p =>
    simp only []
    split_ifs
    · exact Nat.zero_le _
    · exact hc
    · exact hc

theorem child_close_le {σ : Type} (c : StreamChild σ) (hc : c.mnPosition ≤ c.mnSize) :
    c.close.2.mnPosition ≤ c.close.2.mnSize := by
  unfold StreamChild.close
  split_ifs
  · exact Nat.le_refl _
  · exact hc

theorem child_call_le {σ : Type} (io : IStream σ) (W kAccessFlagRead kSizeTypeError fuel : Nat)
    (c c1 : StreamChild σ) (x : ChildCall σ) (hc : c.mnPosition ≤ c.mnSize)
    (h : c.call io W kAccessFlagRead kSizeTypeError fuel x = some c1) :
    c1.mnPosition ≤ c1.mnSize := by
  cases x with
  | «open» p nPosition nSize =>
    simp only [StreamChild.call, Option.some.injEq] at h
    rw [← h]
    exact child_open_le io W kAccessFlagRead c p nPosition nSize hc
  | setPosition position t =>
    simp only [StreamChild.call, Option.map_eq_some'] at h
    obtain ⟨r, hr, rfl⟩ := h
    exact (child_setPosition_le W fuel c position t r hc hr).1
  | read nSize =>
    simp only [StreamChild.call, Option.map_eq_some'] at h
    obtain ⟨r, hr, rfl⟩ := h
    exact child_read_le io W kSizeTypeError c nSize r hc hr
  | write pData =>
    simp only [StreamChild.call, Option.map_eq_some'] at h
    obtain ⟨r, hr, rfl⟩ := h
    exact child_write_le io W c pData r hc hr
  | close =>
    simp only [StreamChild.call, Option.some.injEq] at h
    rw [← h]
    exact child_close_le c hc

theorem child_calls_le {σ : Type} (io : IStream σ) (W kAccessFlagRead kSizeTypeError fuel : Nat) :
    ∀ (cs : List (ChildCall σ)) (c c1 : StreamChild σ), c.mnPosition ≤ c.mnSize →
      StreamChild.calls io W kAccessFlagRead kSizeTypeError fuel c cs = some c1 →
      c1.mnPosition ≤ c1.mnSize := by
  intro cs
  induction cs with
  | nil =>
    intro c c1 hc h
    simp only [StreamChild.calls, Option.some.injEq] at h
    rw [← h]; exact hc
  | cons x xs ih =>
    intro c c1 hc h
    unfold StreamChild.calls at h
    cases hx : c.call io W kAccessFlagRead kSizeTypeError fuel x with
    | none => rw [hx] at h; simp at h
    | some c2 =>
      rw [hx] at h
      exact ih c2 c1 (child_call_le io W kAccessFlagRead kSizeTypeError fuel c c2 x hc hx) h

/-- C32, counterexample: the cursor of a child is not always below the length
of its window.  After `open` with the window (0, 2) on a parent of 4 bytes and
a `read` of 2 bytes the cursor is 2, the length of the window; and after
`close` the cursor 0 is not below the length 0. -/
theorem C32_cursor_reaches_window_length :
    (∃ c1, StreamChild.calls (memoryIStream 3) 64 1 (2 ^ 64 - 1) 4 StreamChild.closed
        [ChildCall.open (some ⟨[1, 2, 3, 4], 0⟩) 0 2, ChildCall.read 2] = some c1 ∧
      c1.mnSize = 2 ∧ c1.mnPosition = 2 ∧ ¬ c1.mnPosition < c1.mnSize) ∧
    (∃ c1, StreamChild.calls (memoryIStream 3) 64 1 (2 ^ 64 - 1) 4 StreamChild.closed
        [ChildCall.open (some ⟨[1, 2, 3, 4], 0⟩) 0 2, ChildCall.close] = some c1 ∧
      c1.mnSize = 0 ∧ c1.mnPosition = 0 ∧ ¬ c1.mnPosition < c1.mnSize) :=
  ⟨⟨_, rfl, rfl, rfl, by decide⟩, ⟨_, rfl, rfl, rfl, by decide⟩⟩

/-- C32, amended: in every state reached from a closed child by calls of
`open`, `setPosition`, `read`, `write` and `close` that return, the cursor
lies in `[0, length]`, the end of the window included. -/
theorem C32_cursor_within_closed_window {σ : Type} (io : IStream σ)
    (W kAccessFlagRead kSizeTypeError fuel : Nat) (cs : List (ChildCall σ)) (c1 : StreamChild σ)
    (h : StreamChild.calls io W kAccessFlagRead kSizeTypeError fuel StreamChild.closed cs = some c1) :
    c1.mnPosition ≤ c1.mnSize :=
  child_calls_le io W kAccessFlagRead kSizeTypeError fuel cs StreamChild.closed c1
    (Nat.le_refl _) h

theorem C32_cursor_within_closed_window_witness :
    StreamChild.calls (memoryIStream 3) 64 1 (2 ^ 64 - 1) 4 StreamChild.closed
        [ChildCall.open (some ⟨[1, 2, 3, 4], 0⟩) 1 3, ChildCall.read 2,
          ChildCall.setPosition 1 kPositionTypeBegin, ChildCall.write [9, 9, 9]]
      = some { mnAccessFlags := 1, mpStreamParent := some ⟨[1, 2, 9, 9], 4⟩,
               mnPositionParent := 1, mnPosition := 3, mnSize := 3 } ∧
    (3 : Nat) ≤ 3 :=
  ⟨rfl, C32_cursor_within_closed_window (memoryIStream 3) 64 1 (2 ^ 64 - 1) 4
    [ChildCall.open (some ⟨[1, 2, 3, 4], 0⟩) 1 3, ChildCall.read 2,
      ChildCall.setPosition 1 kPositionTypeBegin, ChildCall.write [9, 9, 9]]
    { mnAccessFlags := 1, mpStreamParent := some ⟨[1, 2, 9, 9], 4⟩,
      mnPositionParent := 1, mnPosition := 3, mnSize := 3 } rfl⟩

/-- C33: a successful end-relative seek does not put the cursor at `L + d`
when the cursor is not 0.  On a child of length 10 at the position 3,
`setPosition(-5, kPositionTypeEnd)` returns true and the position is
`3 + 10 - 5 = 8`, not `10 - 5 = 5`; `getPosition(kPositionTypeEnd)` then
returns -2, not -5.  From the position 0 the same call gives the position 5. -/
theorem C33_end_seek_adds_cursor :
    (∃ c1, StreamChild.setPosition 64 2 (childAt 3) (-5) kPositionTypeEnd = some (true, c1) ∧
      c1.mnSize = 10 ∧ c1.mnPosition = 8 ∧
      c1.getPosition 64 kPositionTypeEnd = -2 ∧ c1.getPosition 64 kPositionTypeCurrent = 0) ∧
    (∃ c1, StreamChild.setPosition 64 2 (childAt 0) (-5) kPositionTypeEnd = some (true, c1) ∧
      c1.mnPosition = 5 ∧ c1.getPosition 64 kPositionTypeEnd = -5) := by
  refine ⟨⟨{ childAt 3 with mnPosition := 8 }, ?_, rfl, rfl, ?_, rfl⟩,
    ⟨{ childAt 0 with mnPosition := 5 }, ?_, rfl, ?_⟩⟩
  · decide
  · decide
  · decide
  · decide

/-- C34: a `kPositionTypeBegin` seek outside the window is not reported as a
failure.  On a child of length 10 at the position 0, `setPosition(10,
kPositionTypeBegin)` falls through to the `kPositionTypeCurrent` case and calls
itself with the same position again, so it never returns; at the position 3,
`setPosition(-2, kPositionTypeBegin)` returns true and moves the cursor to
`3 - 2 = 1`. -/
theorem C34_begin_seek_falls_through :
    (∀ fuel, StreamChild.setPosition 64 fuel (childAt 0) 10 kPositionTypeBegin = none) ∧
    StreamChild.setPosition 64 2 (childAt 3) (-2) kPositionTypeBegin
      = some (true, { childAt 3 with mnPosition := 1 }) := by
  constructor
  · intro fuel
    induction fuel with
    | zero => rfl
    | succ fuel ih =>
      unfold StreamChild.setPosition
      rw [if_pos (by decide)]
      simp only []
      rw [if_neg (by decide)]
      have e : toOffType 64 (toSizeType 64 (((childAt 0).mnPosition : Int) + 10)) = 10 := by decide
      rw [e]
      exact ih
  · decide

theorem canonChar_sep (cfg : PathConfig) (c : Nat) :
    IsDirectorySeparator cfg (canonChar cfg c) = IsDirectorySeparator cfg c := by
  unfold canonChar
  by_cases hc : IsDirectorySeparator cfg c = true
  · rw [if_pos hc, hc]; exact IsDirectorySeparator_primary cfg
  · rw [if_neg hc]

theorem canonChar_of_not_sep (cfg : PathConfig) (c : Nat)
    (h : IsDirectorySeparator cfg c = false) : canonChar cfg c = c := by
  unfold canonChar
  rw [if_neg (by simp [h])]

theorem canonChar_of_sep (cfg : PathConfig) (c : Nat)
    (h : IsDirectorySeparator cfg c = true) : canonChar cfg c = cfg.kFilePathSeparator := by
  unfold canonChar
  rw [if_pos h]

theorem canonChar_beq (cfg : PathConfig) (c x : Nat) (hx : IsDirectorySeparator cfg x = false) :
    (canonChar cfg c == x) = (c == x) := by
  by_cases hc : IsDirectorySeparator cfg c = true
  · rw [canonChar_of_sep cfg c hc]
    have h1 : cfg.kFilePathSeparator ≠ x := by
      intro e
      have := IsDirectorySeparator_primary cfg
      rw [e, hx] at this
      exact Bool.noConfusion this
    have h2 : c ≠ x := by
      intro e
      rw [e, hx] at hc
      exact Bool.noConfusion hc
    simp [h1, h2]
  · rw [canonChar_of_not_sep cfg c (by simpa using hc)]

theorem PathSim_sameClass (cfg : PathConfig) (hd1 : IsDirectorySeparator cfg 46 = false)
    (hdr : IsDirectorySeparator cfg cfg.kFilePathDriveSeparator = false)
    (last first out : Nat) (bS bN : List Nat) (h : PathSim cfg last first out bS bN) :
    SameClass cfg bS bN := by
  intro i
  rcases h.2.2.2.2.2.2 i with e | e
  · rw [e]; exact ⟨rfl, rfl, rfl⟩
  · rw [e]
    exact ⟨canonChar_sep cfg _, canonChar_beq cfg _ 46 hd1, canonChar_beq cfg _ _ hdr⟩

theorem skipDoubled_same (cfg : PathConfig) (bS bN : List Nat) (h : SameClass cfg bS bN)
    (last : Nat) :
    ∀ (k first : Nat), skipDoubled cfg bN last k first = skipDoubled cfg bS last k first := by
  intro k
  induction k with
  | zero => intro first; rfl
  | succ k ih =>
    intro first
    unfold skipDoubled
    rw [(h first).1, ih]

theorem rvsSkipName_same (cfg : PathConfig) (bS bN : List Nat) (h : SameClass cfg bS bN)
    (first : Nat) :
    ∀ (k last : Nat), rvsSkipName cfg bN first k last = rvsSkipName cfg bS first k last := by
  intro k
  induction k with
  | zero => intro last; rfl
  | succ k ih =>
    intro last
    unfold rvsSkipName
    simp only [bne, (h (last - 1)).1, (h (last - 1)).2.2, ih]

theorem findComponentRvs_same (cfg : PathConfig) (bS bN : List Nat) (h : SameClass cfg bS bN)
    (first last : Nat) :
    findComponentRvs cfg bN first last = findComponentRvs cfg bS first last := by
  have h1 : ∀ i, IsDirectorySeparator cfg (charAt bN i) = IsDirectorySeparator cfg (charAt bS i) :=
    fun i => (h i).1
  have h3 : ∀ i, (charAt bN i == cfg.kFilePathDriveSeparator)
      = (charAt bS i == cfg.kFilePathDriveSeparator) := fun i => (h i).2.2
  unfold findComponentRvs
  simp only [h1, h3, rvsSkipName_same cfg bS bN h]

theorem normStrips_same (cfg : PathConfig) (bS bN : List Nat) (h : SameClass cfg bS bN)
    (last : Nat) (nl : Bool) (first out : Nat) :
    normStrips cfg last nl bN first out = normStrips cfg last nl bS first out := by
  have h1 : ∀ i, IsDirectorySeparator cfg (charAt bN i) = IsDirectorySeparator cfg (charAt bS i) :=
    fun i => (h i).1
  have h2 : ∀ i, (charAt bN i == 46) = (charAt bS i == 46) := fun i => (h i).2.1
  unfold normStrips
  simp only [h1, h2, findComponentRvs_same cfg bS bN h]

theorem PathSim_mono (cfg : PathConfig) (last first out first1 out1 : Nat) (bS bN : List Nat)
    (h : PathSim cfg last first out bS bN) (h1 : first ≤ first1) (h2 : first1 ≤ last)
    (h3 : out1 ≤ out) : PathSim cfg last first1 out1 bS bN := by
  obtain ⟨a1, a2, a3, a4, a5, a6, a7⟩ := h
  exact ⟨a1, a2, by omega, h2, fun i hi => a5 i (by omega), fun i hi => a6 i (by omega), a7⟩

theorem PathSim_write (cfg : PathConfig) (last first out : Nat) (bS bN : List Nat)
    (h : PathSim cfg last first out bS bN) (hlt : first < last) (c : Nat) :
    PathSim cfg last (first + 1) (out + 1) (bS.set out c) (bN.set out (canonChar cfg c)) := by
  obtain ⟨a1, a2, a3, a4, a5, a6, a7⟩ := h
  refine ⟨by simp [a1], by simpa using a2, by omega, by omega, fun i hi => ?_, fun i hi => ?_,
    fun i => ?_⟩
  · rw [charAt_set_other _ _ _ _ (by omega), charAt_set_other _ _ _ _ (by omega)]
    exact a5 i (by omega)
  · rcases Nat.lt_or_ge i out with hlt1 | hge
    · rw [charAt_set_other _ _ _ _ (by omega), charAt_set_other _ _ _ _ (by omega)]
      exact a6 i hlt1
    · have e : i = out := by omega
      rw [e, charAt_set_self _ _ _ (by omega), charAt_set_self _ _ _ (by omega)]
  · by_cases e : i = out
    · right
      rw [e, charAt_set_self _ _ _ (by omega), charAt_set_self _ _ _ (by omega)]
    · rw [charAt_set_other _ _ _ _ e, charAt_set_other _ _ _ _ e]
      exact a7 i

theorem normCopyUNC_sim (cfg : PathConfig) (hbs : IsDirectorySeparator cfg 92 = true)
    (last : Nat) :
    ∀ (k : Nat) (bS bN : List Nat) (first out : Nat), PathSim cfg last first out bS bN →
      (normCopyUNC cfg true last k bN first out).2 = (normCopyUNC cfg false last k bS first out).2 ∧
      PathSim cfg last (normCopyUNC cfg false last k bS first out).2.1
        (normCopyUNC cfg false last k bS first out).2.2
        (normCopyUNC cfg false last k bS first out).1 (normCopyUNC cfg true last k bN first out).1 := by
  intro k
  induction k with
  | zero => intro bS bN first out h; exact ⟨rfl, h⟩
  | succ k ih =>
    intro bS bN first out h
    have hx : charAt bN first = charAt bS first := h.2.2.2.2.1 first (Nat.le_refl _)
    unfold normCopyUNC
    rw [hx]
    by_cases hc : (decide (first < last) && charAt bS first == 92) = true
    · rw [if_pos hc, if_pos hc]
      simp only [Bool.and_eq_true, decide_eq_true_eq, beq_iff_eq] at hc
      have hw := PathSim_write cfg last first out bS bN h hc.1 (charAt bS first)
      have ec : canonChar cfg (charAt bS first) = cfg.kFilePathSeparator := by
        rw [hc.2]; exact canonChar_of_sep cfg 92 hbs
      rw [ec] at hw
      simp only [if_true, Bool.false_eq_true, if_false]
      exact ih _ _ _ _ hw
    · rw [if_neg hc, if_neg hc]
      exact ⟨rfl, h⟩

theorem normCopyComponent_sim (cfg : PathConfig) (hd1 : IsDirectorySeparator cfg 46 = false)
    (hdr : IsDirectorySeparator cfg cfg.kFilePathDriveSeparator = false) (last : Nat) :
    ∀ (k : Nat) (bS bN : List Nat) (first out : Nat), PathSim cfg last first out bS bN →
      (normCopyComponent cfg true last k bN first out).2
        = (normCopyComponent cfg false last k bS first out).2 ∧
      PathSim cfg last (normCopyComponent cfg false last k bS first out).2.1
        (normCopyComponent cfg false last k bS first out).2.2
        (normCopyComponent cfg false last k bS first out).1
        (normCopyComponent cfg true last k bN first out).1 := by
  intro k
  induction k with
  | zero => intro bS bN first out h; exact ⟨rfl, h⟩
  | succ k ih =>
    intro bS bN first out h
    have hx : charAt bN first = charAt bS first := h.2.2.2.2.1 first (Nat.le_refl _)
    unfold normCopyComponent
    rw [hx]
    by_cases hlt : first < last
    · rw [if_pos hlt, if_pos hlt]
      simp only []
      have hw := PathSim_write cfg last first out bS bN h hlt (charAt bS first)
      by_cases hs : IsDirectorySeparator cfg (charAt bS first) = true
      · rw [if_pos hs, if_pos hs]
        rw [canonChar_of_sep cfg _ hs] at hw
        simp only [if_true, Bool.false_eq_true, if_false]
        have hcl := PathSim_sameClass cfg hd1 hdr _ _ _ _ _ hw
        rw [skipDoubled_same cfg _ _ hcl]
        refine ⟨rfl, PathSim_mono cfg last _ _ _ _ _ _ hw (skipDoubled_ge cfg _ last _ _)
          (skipDoubled_le cfg _ last _ _ (by omega)) (Nat.le_refl _)⟩
      · rw [if_neg hs, if_neg hs]
        rw [canonChar_of_not_sep cfg _ (by simpa using hs)] at hw
        have hcl := PathSim_sameClass cfg hd1 hdr _ _ _ _ _ hw
        by_cases hd : (charAt bS first == cfg.kFilePathDriveSeparator) = true
        · rw [if_pos hd, if_pos hd]
          rw [(hcl (out + 1)).1]
          by_cases hb : (decide (first + 1 ≥ last)
              || !IsDirectorySeparator cfg (charAt (bS.set out (charAt bS first)) (out + 1))) = true
          · rw [if_pos hb, if_pos hb]
            exact ⟨rfl, hw⟩
          · rw [if_neg hb, if_neg hb]
            exact ih _ _ _ _ hw
        · rw [if_neg hd, if_neg hd]
          exact ih _ _ _ _ hw
    · rw [if_neg hlt, if_neg hlt]
      exact ⟨rfl, h⟩

theorem charAt_eq_getElem (p : List Nat) (i : Nat) (h : i < p.length) : charAt p i = p[i] := by
  unfold charAt
  exact List.getD_eq_getElem _ _ h

theorem PathSim_take (cfg : PathConfig) (last first out : Nat) (bS bN : List Nat)
    (h : PathSim cfg last first out bS bN) :
    (bS.take out).map (canonChar cfg) = bN.take out := by
  obtain ⟨a1, a2, a3, a4, a5, a6, a7⟩ := h
  apply List.ext_getElem
  · simp [a1]
  · intro i h1 h2
    simp only [List.length_map, List.length_take] at h1
    have hi : i < out := by omega
    have hS : i < bS.length := by omega
    have hN : i < bN.length := by omega
    have := a6 i hi
    rw [charAt_eq_getElem bS i hS, charAt_eq_getElem bN i hN] at this
    simp only [List.getElem_map, List.getElem_take]
    exact this.symm

theorem normLoop_sim (cfg : PathConfig) (hd1 : IsDirectorySeparator cfg 46 = false)
    (hdr : IsDirectorySeparator cfg cfg.kFilePathDriveSeparator = false) (last : Nat)
    (nl : Bool) :
    ∀ (k : Nat) (bS bN : List Nat) (first out : Nat), PathSim cfg last first out bS bN →
      (normLoop cfg false last nl k bS first out).map
          (fun r => (r.1.take r.2).map (canonChar cfg))
        = (normLoop cfg true last nl k bN first out).map (fun r => r.1.take r.2) := by
  intro k
  induction k with
  | zero => intro bS bN first out h; rfl
  | succ k ih =>
    intro bS bN first out h
    have hcl := PathSim_sameClass cfg hd1 hdr _ _ _ _ _ h
    have h1 : ∀ i, IsDirectorySeparator cfg (charAt bN i) = IsDirectorySeparator cfg (charAt bS i) :=
      fun i => (hcl i).1
    have h2 : ∀ i, (charAt bN i == 46) = (charAt bS i == 46) := fun i => (hcl i).2.1
    unfold normLoop
    by_cases hlt : first < last
    · rw [if_pos hlt, if_pos hlt]
      rw [h1, h2, normStrips_same cfg bS bN hcl, skipDoubled_same cfg bS bN hcl,
        skipDoubled_same cfg bS bN hcl, findComponentRvs_same cfg bS bN hcl]
      by_cases hc1 : (decide (first + 1 < last) && charAt bS first == 46
          && IsDirectorySeparator cfg (charAt bS (first + 1))) = true
      · rw [if_pos hc1, if_pos hc1]
        have hb : first + 1 < last := by
          simp only [Bool.and_eq_true, decide_eq_true_eq] at hc1
          exact hc1.1.1
        exact ih _ _ _ _ (PathSim_mono cfg last _ _ _ _ _ _ h
          (Nat.le_trans (by omega) (skipDoubled_ge cfg _ last _ _))
          (skipDoubled_le cfg _ last _ _ (by omega)) (Nat.le_refl _))
      · rw [if_neg hc1, if_neg hc1]
        by_cases hc2 : normStrips cfg last nl bS first out = true
        · rw [if_pos hc2, if_pos hc2]
          have hb := normStrips_bound cfg last nl bS first out hc2
          exact ih _ _ _ _ (PathSim_mono cfg last _ _ _ _ _ _ h
            (Nat.le_trans (by omega) (skipDoubled_ge cfg _ last _ _))
            (skipDoubled_le cfg _ last _ _ (by omega))
            (findComponentRvs_le cfg bS 0 out (Nat.zero_le _)))
        · rw [if_neg hc2, if_neg hc2]
          simp only []
          obtain ⟨e, hs⟩ := normCopyComponent_sim cfg hd1 hdr last (last - first) bS bN first out h
          rw [e]
          exact ih _ _ _ _ hs
    · rw [if_neg hlt, if_neg hlt]
      simp only [Option.map_some']
      rw [PathSim_take cfg last first out bS bN h]

theorem simplify_normalize_sim (cfg : PathConfig) (hbs : IsDirectorySeparator cfg 92 = true)
    (hd1 : IsDirectorySeparator cfg 46 = false)
    (hdr : IsDirectorySeparator cfg cfg.kFilePathDriveSeparator = false) (p : List Nat) :
    (simplify cfg p).map (fun s => s.map (canonChar cfg)) = normalize cfg p := by
  unfold simplify normalize PathStringnormalize
  simp only [Option.map_map]
  have h0 : PathSim cfg p.length 0 0 p p :=
    ⟨rfl, Nat.le_refl _, Nat.le_refl _, Nat.zero_le _, fun i _ => rfl,
      fun i hi => absurd hi (Nat.not_lt_zero _), fun i => Or.inl rfl⟩
  obtain ⟨e, hs⟩ := normCopyUNC_sim cfg hbs p.length p.length p p 0 0 h0
  rw [e]
  exact normLoop_sim cfg hd1 hdr p.length _ _ _ _ _ _ hs

/-- C36: on a platform where the backslash of the UNC prefix is a directory
separator, and `'.'` and the drive separator are not, `simplify(p)` and
`normalize(p)` both return, replacing every directory separator of
`simplify(p)` by the canonical separator yields `normalize(p)`, and the two
have the same length. -/
theorem C36_simplify_is_normalize_uncanonicalized (cfg : PathConfig)
    (hbs : IsDirectorySeparator cfg 92 = true) (hd1 : IsDirectorySeparator cfg 46 = false)
    (hdr : IsDirectorySeparator cfg cfg.kFilePathDriveSeparator = false) (p : List Nat) :
    ∃ s n, simplify cfg p = some s ∧ normalize cfg p = some n ∧
      s.map (canonChar cfg) = n ∧ s.length = n.length := by
  obtain ⟨s, hs, -⟩ := PathStringnormalize_total cfg p false
  have h := simplify_normalize_sim cfg hbs hd1 hdr p
  have hs1 : simplify cfg p = some s := hs
  rw [hs1] at h
  refine ⟨s, s.map (canonChar cfg), hs1, h.symm, rfl, by simp⟩

theorem C36_simplify_is_normalize_uncanonicalized_witness :
    ∃ s n, simplify windowsConfig (str "a/./b\\../c:/d") = some s ∧
      normalize windowsConfig (str "a/./b\\../c:/d") = some n ∧
      s.map (canonChar windowsConfig) = n ∧ s.length = n.length :=
  C36_simplify_is_normalize_uncanonicalized windowsConfig (by decide) (by decide) (by decide)
    (str "a/./b\\../c:/d")

/-- Without a backslash that is a directory separator the two functions
differ in more than the separators: the loop "copy initial UNC path" of
`normalize` replaces a leading backslash by the canonical separator. -/
theorem simplify_normalize_leading_backslash :
    simplify slashConfig (str "\\a") = some (str "\\a") ∧
    normalize slashConfig (str "\\a") = some (str "/a") := by
  decide

theorem take_take_length (l : List Nat) (n : Nat) : l.take (l.take n).length = l.take n := by
  rw [List.length_take]
  rcases Nat.le_total n l.length with h | h
  · rw [Nat.min_eq_left h]
  · rw [Nat.min_eq_right h, List.take_of_length_le (Nat.le_refl _), List.take_of_length_le h]

theorem take_append_drop_take (l : List Nat) (a m n : Nat) (hm : m ≤ n) :
    (l.drop a).take m ++ (l.drop (a + m)).take (n - m) = (l.drop a).take n := by
  have e : n = m + (n - m) := by omega
  conv_rhs => rw [e, List.take_add]
  rw [List.drop_drop]

theorem drop_eq_nil_of_take (l : List Nat) (n : Nat) (hn : n ≠ 0) (h : l.take n = []) : l = [] := by
  cases l with
  | nil => rfl
  | cons x xs =>
    cases n with
    | zero => exact absurd rfl hn
    | succ n => simp at h

theorem fillReadBuffer_memory (f : Nat) (b : StreamBuffer MemoryStream) (B : List Nat) (c : Nat)
    (hst : b.mpStream = some ⟨B, c⟩) :
    b.fillReadBuffer (memoryIStream f)
      = (true, { b with
          mpStream := some ⟨B, c + ((B.drop c).take b.mnreadBufferSize).length⟩,
          mpreadBuffer := some ((B.drop c).take b.mnreadBufferSize),
          mnreadBufferstartPosition := b.mnPositionInternal,
          mnreadBufferUsed := ((B.drop c).take b.mnreadBufferSize).length,
          mnPositionInternal := b.mnPositionInternal + ((B.drop c).take b.mnreadBufferSize).length }) := by
  unfold StreamBuffer.fillReadBuffer
  rw [hst]
  simp only [memoryIStream_read, MemoryStream.read]

theorem memory_seek_fail (f W : Nat) (m : MemoryStream) (p : Nat) (hp : p < 2 ^ (W - 1))
    (hgt : m.data.length < p) :
    (memoryIStream f).setPosition m (toOffType W p) = (false, m) := by
  rw [toOffType_small W p hp]
  simp only [memoryIStream, MemoryStream.setPosition]
  rw [if_pos (Int.natCast_nonneg _), Int.toNat_ofNat, if_neg (by omega)]

theorem readLoop_transparent (f W : Nat) (B : List Nat) :
    ∀ (k : Nat) (b : StreamBuffer MemoryStream) (rem : Nat) (pData : List Nat),
      rem < k → ReadInv B b → b.mnreadBufferSize ≠ 0 →
      b.mnPositionExternal + rem < 2 ^ (W - 1) →
      ∃ b1, StreamBuffer.readLoop (memoryIStream f) W k b rem pData
          = some (b1, rem - ((B.drop b.mnPositionExternal).take rem).length,
              pData ++ (B.drop b.mnPositionExternal).take rem) ∧
        ReadInv B b1 ∧ b1.mnreadBufferSize = b.mnreadBufferSize ∧
        b1.mnPositionExternal ≤ b.mnPositionExternal + rem := by
  intro k
  induction k with
  | zero => intro b rem pData h; omega
  | succ k ih =>
    intro b rem pData hk hinv hsize hrange
    by_cases hrem : rem = 0
    · subst hrem
      refine ⟨b, ?_, hinv, rfl, Nat.le_refl _⟩
      unfold StreamBuffer.readLoop
      simp
    · obtain ⟨c, hst, hc, hw, hbuf, hint, -⟩ := hinv
      have hci := hint hsize
      unfold StreamBuffer.readLoop
      rw [if_pos hrem]
      simp only [StreamBuffer.clearReadBuffer, hst]
      have hs : ∃ s, (if b.mnPositionInternal ≠ b.mnPositionExternal then
            (memoryIStream f).setPosition ⟨B, c⟩ (toOffType W b.mnPositionExternal)
          else (true, ⟨B, c⟩)) = s ∧
          ((s = (true, ⟨B, b.mnPositionExternal⟩) ∧ b.mnPositionExternal ≤ B.length) ∨
            (s = (false, ⟨B, c⟩) ∧ B.length < b.mnPositionExternal)) := by
        by_cases hie : b.mnPositionInternal ≠ b.mnPositionExternal
        · rw [if_pos hie]
          rcases Nat.lt_or_ge B.length b.mnPositionExternal with hgt | hle
          · exact ⟨_, rfl, Or.inr ⟨memory_seek_fail f W _ _ (by omega) hgt, hgt⟩⟩
          · exact ⟨_, rfl, Or.inl ⟨memory_seek_ok f W _ _ (by omega) hle, hle⟩⟩
        · rw [if_neg hie]
          have e : c = b.mnPositionExternal := by
            have : b.mnPositionInternal = b.mnPositionExternal := by
              by_contra h; exact hie h
            omega
          exact ⟨_, rfl, Or.inl ⟨by rw [e], by omega⟩⟩
      obtain ⟨s, hs, hcase⟩ := hs
      rw [hs]
      rcases hcase with ⟨rfl, hle⟩ | ⟨rfl, hgt⟩
      · simp only [if_true]
        by_cases hbig : rem > 2 * b.mnreadBufferSize
        · rw [if_pos hbig]
          simp only [memoryIStream_read, MemoryStream.read]
          refine ⟨_, rfl, ⟨_, rfl, ?_, hw, ?_, ?_, ?_⟩, rfl, ?_⟩
          · simp only [List.length_take, List.length_drop]; omega
          · intro h; exact absurd rfl h
          · intro _; rfl
          · intro h; exact absurd h hsize
          · simp only [List.length_take, List.length_drop]; omega
        · rw [if_neg hbig]
          rw [fillReadBuffer_memory f _ B b.mnPositionExternal rfl]
          simp only []
          by_cases hlen : ((B.drop b.mnPositionExternal).take b.mnreadBufferSize).length = 0
          · rw [if_neg (by simp only [hlen]; simp)]
            have hnil : B.drop b.mnPositionExternal = [] :=
              drop_eq_nil_of_take _ _ hsize (List.eq_nil_of_length_eq_zero hlen)
            rw [hnil]
            simp only [List.take_nil, List.length_nil, List.append_nil, Nat.sub_zero, Nat.add_zero]
            refine ⟨_, rfl, ⟨_, rfl, hle, hw, ?_, ?_, ?_⟩, rfl, by simp only []; omega⟩
            · intro h; exact absurd rfl h
            · intro _; rfl
            · intro h; exact absurd h hsize
          · rw [if_pos (by simp only [Bool.true_and, decide_eq_true_eq]; exact hlen)]
            simp only [Option.getD_some]
            have hlenle : ((B.drop b.mnPositionExternal).take b.mnreadBufferSize).length
                ≤ B.length - b.mnPositionExternal := by
              rw [List.length_take, List.length_drop]; omega
            have hlenle2 : ((B.drop b.mnPositionExternal).take b.mnreadBufferSize).length
                ≤ b.mnreadBufferSize := by
              rw [List.length_take]; omega
            generalize hn : (if ((B.drop b.mnPositionExternal).take b.mnreadBufferSize).length < rem
              then ((B.drop b.mnPositionExternal).take b.mnreadBufferSize).length else rem) = n
            have hn1 : 1 ≤ n := by rw [← hn]; split_ifs <;> omega
            have hn2 : n ≤ rem := by rw [← hn]; split_ifs <;> omega
            have hn3 : n ≤ ((B.drop b.mnPositionExternal).take b.mnreadBufferSize).length := by
              rw [← hn]; split_ifs <;> omega
            have htk : ((B.drop b.mnPositionExternal).take b.mnreadBufferSize).take n
                = (B.drop b.mnPositionExternal).take n := by
              rw [List.take_take, Nat.min_eq_left (by omega)]
            have hln : ((B.drop b.mnPositionExternal).take n).length = n := by
              rw [List.length_take, List.length_drop]; omega
            obtain ⟨b1, h1, h2, h3, h4⟩ := ih
              { mpStream := some ⟨B, b.mnPositionExternal
                    + ((B.drop b.mnPositionExternal).take b.mnreadBufferSize).length⟩,
                mbEnableSizeCache := b.mbEnableSizeCache, mnStreamSize := b.mnStreamSize,
                mnPositionExternal := b.mnPositionExternal + n,
                mnPositionInternal := b.mnPositionExternal
                    + ((B.drop b.mnPositionExternal).take b.mnreadBufferSize).length,
                mpreadBuffer := some ((B.drop b.mnPositionExternal).take b.mnreadBufferSize),
                mnreadBufferSize := b.mnreadBufferSize,
                mnreadBufferstartPosition := b.mnPositionExternal,
                mnreadBufferUsed := ((B.drop b.mnPositionExternal).take b.mnreadBufferSize).length,
                mpWriteBuffer := b.mpWriteBuffer, mnWriteBufferSize := b.mnWriteBufferSize,
                mnWriteBufferstartPosition := b.mnWriteBufferstartPosition,
                mnWriteBufferUsed := b.mnWriteBufferUsed }
              (rem - n) (pData ++ ((B.drop b.mnPositionExternal).take b.mnreadBufferSize).take n)
              (by omega)
              ⟨_, rfl, by omega, hw,
                fun _ => ⟨hsize, (take_take_length _ _).symm, by
                  first
                    | omega
                    | (simp only []; omega)⟩,
                fun _ => rfl, fun h => absurd h hsize⟩
              hsize (by simp only []; omega)
            simp only [] at h1 h3 h4
            refine ⟨b1, ?_, h2, h3, by omega⟩
            rw [h1, htk, List.append_assoc, take_append_drop_take _ _ _ _ hn2]
            have hsplit := take_append_drop_take B b.mnPositionExternal n rem hn2
            have hlsum : ((B.drop b.mnPositionExternal).take rem).length
                = n + ((B.drop (b.mnPositionExternal + n)).take (rem - n)).length := by
              rw [← hsplit, List.length_append, hln]
            rw [hlsum, Nat.sub_sub]
      · simp only [Bool.false_eq_true, if_false]
        have hnil : B.drop b.mnPositionExternal = [] := List.drop_of_length_le (by omega)
        rw [hnil]
        simp only [List.take_nil, List.length_nil, List.append_nil, Nat.sub_zero]
        refine ⟨_, rfl, ⟨c, rfl, hc, hw, ?_, ?_, ?_⟩, rfl, by simp only []; omega⟩
        · intro h; exact absurd rfl h
        · intro _; exact hci
        · intro h; exact absurd h hsize

theorem read_transparent (f W : Nat) (B : List Nat) (b : StreamBuffer MemoryStream) (n : Nat)
    (hinv : ReadInv B b) (hrange : b.mnPositionExternal + n < 2 ^ (W - 1)) :
    ∃ r, b.read (memoryIStream f) W n = some r ∧
      r.data = (B.drop b.mnPositionExternal).take n ∧
      r.count = some (min n (B.length - b.mnPositionExternal)) ∧
      ReadInv B r.buffer ∧ r.buffer.mnreadBufferSize = b.mnreadBufferSize ∧
      r.buffer.mnPositionExternal ≤ b.mnPositionExternal + n := by
  have hinv0 := hinv
  obtain ⟨c, hst, hc, hw, hbuf, hint, hun⟩ := hinv
  unfold StreamBuffer.read
  rw [hst]
  simp only []
  by_cases hn : n = 0
  · subst hn
    rw [if_neg (by simp)]
    exact ⟨_, rfl, by simp, by simp, hinv0, rfl, Nat.le_refl _⟩
  · have hb1 : (if b.mnWriteBufferUsed ≠ 0 then (b.flushWriteBuffer (memoryIStream f) W).2 else b)
        = b := if_neg (by simp [hw])
    rw [if_pos hn, hb1]
    by_cases hsize : b.mnreadBufferSize ≠ 0
    · rw [if_pos hsize]
      by_cases hwc : (decide (b.mnPositionExternal ≥ b.mnreadBufferstartPosition) &&
          decide (b.mnPositionExternal < b.mnreadBufferstartPosition + b.mnreadBufferUsed)) = true
      · simp only [if_pos hwc]
        simp only [Bool.and_eq_true, decide_eq_true_eq] at hwc
        obtain ⟨hge, hlt⟩ := hwc
        obtain ⟨-, hbd, hbl⟩ := hbuf (by omega)
        generalize hm : (if b.mnreadBufferUsed - (b.mnPositionExternal - b.mnreadBufferstartPosition) < n
          then b.mnreadBufferUsed - (b.mnPositionExternal - b.mnreadBufferstartPosition) else n) = m
        have hm1 : m ≤ n := by rw [← hm]; split_ifs <;> omega
        have hm2 : m ≤ b.mnreadBufferUsed - (b.mnPositionExternal - b.mnreadBufferstartPosition) := by
          rw [← hm]; split_ifs <;> omega
        have hpd : ((b.mpreadBuffer.getD []).drop
            (b.mnPositionExternal - b.mnreadBufferstartPosition)).take m
            = (B.drop b.mnPositionExternal).take m := by
          rw [hbd, List.drop_take, List.take_take, Nat.min_eq_left hm2, List.drop_drop]
          congr 2
          omega
        rw [hpd]
        obtain ⟨b1, h1, h2, h3, h4⟩ := readLoop_transparent f W B (n - m + 1)
          { b with mnPositionExternal := b.mnPositionExternal + m } (n - m)
          ((B.drop b.mnPositionExternal).take m) (by omega)
          ⟨c, hst, hc, hw, fun h => hbuf h, hint, fun h => absurd h hsize⟩ hsize
          (by simp only []; omega)
        simp only [] at h1 h3 h4
        rw [h1]
        simp only [Option.map_some']
        refine ⟨_, rfl, ?_, ?_, h2, h3, by simp only []; omega⟩
        · simp only []
          exact take_append_drop_take B b.mnPositionExternal m n hm1
        · simp only [List.length_take, List.length_drop]
          congr 1
          omega
      · simp only [if_neg hwc]
        obtain ⟨b1, h1, h2, h3, h4⟩ := readLoop_transparent f W B (n + 1) b n [] (by omega)
          hinv0 hsize hrange
        rw [h1]
        simp only [Option.map_some']
        refine ⟨_, rfl, by simp, ?_, h2, h3, h4⟩
        simp only [List.length_take, List.length_drop]
        congr 1
        omega
    · rw [if_neg hsize]
      have hsz : b.mnreadBufferSize = 0 := by
        by_contra h; exact hsize h
      obtain ⟨hei, hcur⟩ := hun hsz
      rw [hst]
      simp only [memoryIStream_read, MemoryStream.read]
      have hdata : (B.drop c).take n = (B.drop b.mnPositionExternal).take n := by
        rcases hcur with e | ⟨e1, e2⟩
        · rw [e]
        · rw [List.drop_of_length_le (by omega), List.drop_of_length_le (by omega)]
      refine ⟨_, rfl, hdata, ?_, ⟨_, rfl, ?_, hw, ?_, ?_, ?_⟩, rfl, ?_⟩
      · simp only [List.length_take, List.length_drop]
        rcases hcur with e | ⟨e1, e2⟩
        · rw [e]
        · congr 1; omega
      · simp only [List.length_take, List.length_drop]; omega
      · intro h
        have hu : b.mnreadBufferUsed = 0 := by
          by_contra h0; exact absurd hsz (hbuf h0).1
        exact absurd hu h
      · intro h; exact absurd hsz h
      · intro _
        refine ⟨rfl, ?_⟩
        simp only [List.length_take, List.length_drop]
        rcases hcur with e | ⟨e1, e2⟩
        · rcases Nat.lt_or_ge (B.length - c) n with h1 | h1
          · right; omega
          · left; omega
        · right; omega
      · simp only []; omega

theorem toSizeType_of_nonneg (W : Nat) (q : Int) (h0 : 0 ≤ q) (h1 : q < 2 ^ (W - 1)) :
    toSizeType W q = q.toNat := by
  unfold toSizeType
  have hle : (2 : Int) ^ (W - 1) ≤ 2 ^ W :=
    pow_le_pow_right₀ (by norm_num) (Nat.sub_le _ _)
  rw [Int.emod_eq_of_lt h0 (by omega)]

theorem seek_readInv (f W kSizeTypeError : Nat) (B : List Nat) (b : StreamBuffer MemoryStream)
    (q : Int) (hinv : ReadInv B b) (h0 : 0 ≤ q) (h1 : q < 2 ^ (W - 1))
    (hB : B.length < 2 ^ (W - 1)) :
    ReadInv B (b.setPosition (memoryIStream f) W kSizeTypeError q kPositionTypeBegin).2 ∧
    (b.setPosition (memoryIStream f) W kSizeTypeError q kPositionTypeBegin).2.mnreadBufferSize
      = b.mnreadBufferSize ∧
    ((b.setPosition (memoryIStream f) W kSizeTypeError q kPositionTypeBegin).2.mnPositionExternal
        = q.toNat ∨
      (b.setPosition (memoryIStream f) W kSizeTypeError q kPositionTypeBegin).2.mnPositionExternal
        = b.mnPositionExternal ∨
      (b.setPosition (memoryIStream f) W kSizeTypeError q kPositionTypeBegin).2.mnPositionExternal
        ≤ B.length) := by
  have hinv0 := hinv
  obtain ⟨c, hst, hc, hw, hbuf, hint, hun⟩ := hinv
  have hts := toSizeType_of_nonneg W q h0 h1
  unfold StreamBuffer.setPosition
  rw [hst]
  simp only [StreamBuffer.absolutePosition]
  by_cases hu : b.mnreadBufferUsed ≠ 0 ∧ q ≥ 0
  · rw [if_pos hu]
    simp only []
    refine ⟨⟨c, hst, hc, hw, hbuf, hint, fun h => absurd h (hbuf hu.1).1⟩, ?_, ?_⟩
    · first
        | rfl
        | trivial
    · exact Or.inl hts
  · rw [if_neg hu]
    have hu0 : b.mnreadBufferUsed = 0 := by
      by_contra h; exact hu ⟨h, h0⟩
    by_cases he : q = toOffType W b.mnPositionExternal
    · rw [if_pos he]
      exact ⟨hinv0, rfl, Or.inr (Or.inl rfl)⟩
    · rw [if_neg he]
      have hfl : b.flushWriteBuffer (memoryIStream f) W = (true, b) := by
        unfold StreamBuffer.flushWriteBuffer
        rw [if_neg (by simp [hw])]
      rw [hfl]
      simp only [hst]
      have hseek : (memoryIStream f).setPosition ⟨B, c⟩ q
          = if q.toNat ≤ B.length then (true, ⟨B, q.toNat⟩) else (false, ⟨B, c⟩) := by
        simp only [memoryIStream, MemoryStream.setPosition]
        rw [if_pos h0]
      rw [hseek]
      by_cases hle : q.toNat ≤ B.length
      · rw [if_pos hle]
        simp only [if_true, hts]
        refine ⟨⟨_, rfl, hle, hw, fun h => absurd hu0 h, fun _ => rfl,
          fun _ => ⟨rfl, Or.inl rfl⟩⟩, ?_, ?_⟩
        · first
            | rfl
            | trivial
        · first
            | exact Or.inl rfl
            | trivial
            | simp
      · rw [if_neg hle]
        simp only [Bool.false_eq_true, if_false]
        have hpos : toSizeType W ((memoryIStream f).getPosition ⟨B, c⟩) = c := by
          have e : (memoryIStream f).getPosition ⟨B, c⟩ = (c : Int) := rfl
          rw [e, toSizeType_of_nonneg W _ (Int.natCast_nonneg _) (by exact_mod_cast (by omega : c < 2 ^ (W - 1)))]
          exact Int.toNat_ofNat c
        rw [hpos]
        refine ⟨⟨_, rfl, hc, hw, fun h => absurd hu0 h, fun _ => rfl,
          fun _ => ⟨rfl, Or.inl rfl⟩⟩, ?_, ?_⟩
        · first
            | rfl
            | trivial
        · exact Or.inr (Or.inr hc)

theorem setReadBufferSize_fresh {σ : Type} (allocate : Nat → Bool) (b : StreamBuffer σ) (n : Nat)
    (h : b.mpStream = none ∧ b.mnWriteBufferUsed = 0 ∧ b.mnreadBufferUsed = 0) :
    (b.setReadBufferSize allocate n).mpStream = none ∧
    (b.setReadBufferSize allocate n).mnWriteBufferUsed = 0 ∧
    (b.setReadBufferSize allocate n).mnreadBufferUsed = 0 := by
  unfold StreamBuffer.setReadBufferSize
  simp only []
  have hc : (if n < b.mnreadBufferSize then b.clearReadBuffer else b).mpStream = none ∧
      (if n < b.mnreadBufferSize then b.clearReadBuffer else b).mnWriteBufferUsed = 0 ∧
      (if n < b.mnreadBufferSize then b.clearReadBuffer else b).mnreadBufferUsed = 0 := by
    split_ifs
    · exact ⟨h.1, h.2.1, rfl⟩
    · exact h
  generalize (if n < b.mnreadBufferSize then b.clearReadBuffer else b) = c at hc ⊢
  cases reallocBuffer allocate c.mpreadBuffer c.mnreadBufferSize n with
  | none => exact hc
  | some p => exact hc

theorem setWriteBufferSize_fresh {σ : Type} (io : IStream σ) (W : Nat) (allocate : Nat → Bool)
    (b : StreamBuffer σ) (n : Nat)
    (h : b.mpStream = none ∧ b.mnWriteBufferUsed = 0 ∧ b.mnreadBufferUsed = 0) :
    (b.setWriteBufferSize io W allocate n).mpStream = none ∧
    (b.setWriteBufferSize io W allocate n).mnWriteBufferUsed = 0 ∧
    (b.setWriteBufferSize io W allocate n).mnreadBufferUsed = 0 := by
  unfold StreamBuffer.setWriteBufferSize
  simp only []
  have hfl : b.flushWriteBuffer io W = (true, b) := by
    unfold StreamBuffer.flushWriteBuffer
    rw [if_neg (by simp [h.2.1])]
  rw [hfl]
  simp only [ite_self]
  cases reallocBuffer allocate b.mpWriteBuffer b.mnWriteBufferSize n with
  | none => exact h
  | some p => exact h

theorem setBufferSizes_fresh {σ : Type} (io : IStream σ) (W : Nat) (allocate : Nat → Bool)
    (b : StreamBuffer σ) (r w : Nat)
    (h : b.mpStream = none ∧ b.mnWriteBufferUsed = 0 ∧ b.mnreadBufferUsed = 0) :
    (b.setBufferSizes io W allocate r w).2.mpStream = none ∧
    (b.setBufferSizes io W allocate r w).2.mnWriteBufferUsed = 0 ∧
    (b.setBufferSizes io W allocate r w).2.mnreadBufferUsed = 0 := by
  unfold StreamBuffer.setBufferSizes
  simp only []
  have h1 : (if r ≠ kBufferSizeUnspecified W then
        b.setReadBufferSize allocate (clampBufferSize W kBufferSizereadDefault r) else b).mpStream
          = none ∧
      (if r ≠ kBufferSizeUnspecified W then
        b.setReadBufferSize allocate (clampBufferSize W kBufferSizereadDefault r)
          else b).mnWriteBufferUsed = 0 ∧
      (if r ≠ kBufferSizeUnspecified W then
        b.setReadBufferSize allocate (clampBufferSize W kBufferSizereadDefault r)
          else b).mnreadBufferUsed = 0 := by
    split_ifs
    · exact setReadBufferSize_fresh allocate b _ h
    · exact h
  generalize (if r ≠ kBufferSizeUnspecified W then
      b.setReadBufferSize allocate (clampBufferSize W kBufferSizereadDefault r) else b) = b1
      at h1 ⊢
  split_ifs
  · exact setWriteBufferSize_fresh io W allocate b1 _ h1
  · exact h1

theorem construct_readInv (f W : Nat) (allocate : Nat → Bool) (r w : Nat) (B : List Nat)
    (c0 : Nat) (hf : f ≠ 0) (hc0 : c0 ≤ B.length) (hB : B.length < 2 ^ (W - 1)) :
    ReadInv B (StreamBuffer.construct (memoryIStream f) W allocate r w (some ⟨B, c0⟩)) ∧
    (StreamBuffer.construct (memoryIStream f) W allocate r w
      (some ⟨B, c0⟩)).mnPositionExternal = c0 := by
  unfold StreamBuffer.construct
  simp only []
  have h := setBufferSizes_fresh (memoryIStream f) W allocate
    ({ mpStream := none, mbEnableSizeCache := false, mnStreamSize := kSizeTypeUnset W,
       mnPositionExternal := 0, mnPositionInternal := 0,
       mpreadBuffer := none, mnreadBufferSize := 0, mnreadBufferstartPosition := 0,
       mnreadBufferUsed := 0,
       mpWriteBuffer := none, mnWriteBufferSize := 0, mnWriteBufferstartPosition := 0,
       mnWriteBufferUsed := 0 } : StreamBuffer MemoryStream) r w ⟨rfl, rfl, rfl⟩
  generalize (StreamBuffer.setBufferSizes (memoryIStream f) W allocate
    ({ mpStream := none, mbEnableSizeCache := false, mnStreamSize := kSizeTypeUnset W,
       mnPositionExternal := 0, mnPositionInternal := 0,
       mpreadBuffer := none, mnreadBufferSize := 0, mnreadBufferstartPosition := 0,
       mnreadBufferUsed := 0,
       mpWriteBuffer := none, mnWriteBufferSize := 0, mnWriteBufferstartPosition := 0,
       mnWriteBufferUsed := 0 } : StreamBuffer MemoryStream) r w).2 = b1 at h ⊢
  obtain ⟨h1, h2, h3⟩ := h
  have hpos : toSizeType W ((memoryIStream f).getPosition ⟨B, c0⟩) = c0 := by
    have e : (memoryIStream f).getPosition ⟨B, c0⟩ = (c0 : Int) := rfl
    rw [e, toSizeType_of_nonneg W _ (Int.natCast_nonneg _)
      (by exact_mod_cast (by omega : c0 < 2 ^ (W - 1)))]
    exact Int.toNat_ofNat c0
  have hfl : (memoryIStream f).getAccessFlags ⟨B, c0⟩ ≠ 0 := hf
  unfold StreamBuffer.setStream
  rw [if_pos (by simp)]
  simp only [h1, Option.isSome_none, Bool.false_eq_true, if_false]
  rw [if_pos hfl, hpos]
  exact ⟨⟨c0, rfl, hc0, h2, fun h => absurd h3 h, fun _ => rfl, fun _ => ⟨rfl, Or.inl rfl⟩⟩, rfl⟩

theorem calls_readInv (f W kSizeTypeError : Nat) (allocate : Nat → Bool) (B : List Nat) (n : Nat)
    (hB : B.length < 2 ^ (W - 1)) :
    ∀ (cs : List BufferCall) (b : StreamBuffer MemoryStream), ReadInv B b →
      (∀ x ∈ cs, x.isReadOrSeek) →
      b.mnPositionExternal + (cs.map BufferCall.weight).sum + n < 2 ^ (W - 1) →
      B.length + (cs.map BufferCall.weight).sum + n < 2 ^ (W - 1) →
      ∃ b1, b.calls (memoryIStream f) W kSizeTypeError allocate cs = some b1 ∧ ReadInv B b1 ∧
        b1.mnreadBufferSize = b.mnreadBufferSize ∧
        b1.mnPositionExternal + n < 2 ^ (W - 1) := by
  intro cs
  induction cs with
  | nil =>
    intro b hinv _ h1 _
    refine ⟨b, rfl, hinv, rfl, ?_⟩
    simpa using h1
  | cons x xs ih =>
    intro b hinv hcs h1 h2
    have hxs : ∀ y ∈ xs, y.isReadOrSeek := fun y hy => hcs y (List.mem_cons_of_mem _ hy)
    have hx := hcs x (List.mem_cons_self _ _)
    simp only [List.map_cons, List.sum_cons] at h1 h2
    unfold StreamBuffer.calls
    cases x with
    | read m =>
      simp only [BufferCall.weight] at h1 h2
      obtain ⟨r, hr, -, -, hri, hrs, hre⟩ := read_transparent f W B b m hinv (by omega)
      simp only [StreamBuffer.call, hr, Option.map_some']
      obtain ⟨b1, e1, e2, e3, e4⟩ := ih r.buffer hri hxs (by omega) (by omega)
      exact ⟨b1, e1, e2, by rw [e3, hrs], e4⟩
    | setPosition p t =>
      cases t with
      | kPositionTypeBegin =>
        simp only [BufferCall.weight] at h1 h2
        have hp0 : 0 ≤ p := hx
        have hp1 : p < 2 ^ (W - 1) := by
          have : (p.toNat : Int) < ((2 ^ (W - 1) : Nat) : Int) := by
            exact_mod_cast (by omega : p.toNat < 2 ^ (W - 1))
          rw [Int.toNat_of_nonneg hp0] at this
          simpa using this
        obtain ⟨hi, hs, he⟩ := seek_readInv f W kSizeTypeError B b p hinv hp0 hp1 hB
        simp only [StreamBuffer.call]
        obtain ⟨b1, e1, e2, e3, e4⟩ := ih _ hi hxs (by
          rcases he with e | e | e <;> omega) (by omega)
        exact ⟨b1, e1, e2, by rw [e3, hs], e4⟩
      | kPositionTypeCurrent => exact absurd hx (by simp [BufferCall.isReadOrSeek])
      | kPositionTypeEnd => exact absurd hx (by simp [BufferCall.isReadOrSeek])
    | write d => exact absurd hx (by simp [BufferCall.isReadOrSeek])
    | setSize d => exact absurd hx (by simp [BufferCall.isReadOrSeek])
    | flush => exact absurd hx (by simp [BufferCall.isReadOrSeek])
    | setBufferSizes r w => exact absurd hx (by simp [BufferCall.isReadOrSeek])
    | close => exact absurd hx (by simp [BufferCall.isReadOrSeek])

/-- C35: a `StreamBuffer` constructed with any buffer sizes (the read buffer
may get the size 0) over an open memory stream holding the bytes `B`, after
any sequence of `read` calls and `setPosition` calls to non-negative positions
from the beginning: `read(buf, n)` at the external position `p` returns
`min(n, |B| - p)` and fills `buf` with the bytes of `B` from `p` on, which is
what the stream delivers when it is read at `p`, and what seeking it to `p`
and reading `n` bytes gives when `p` is a position of the stream.  All
positions are taken to stay below `2^(W-1)`. -/
theorem C35_buffered_reads_transparent (f W kSizeTypeError : Nat) (allocate : Nat → Bool)
    (B : List Nat) (c0 nreadBufferSize nWriteBufferSize : Nat) (cs : List BufferCall) (n : Nat)
    (hf : f ≠ 0) (hc0 : c0 ≤ B.length) (hcs : ∀ x ∈ cs, x.isReadOrSeek)
    (hrange : B.length + (cs.map BufferCall.weight).sum + n < 2 ^ (W - 1)) :
    ∃ b r,
      (StreamBuffer.construct (memoryIStream f) W allocate nreadBufferSize nWriteBufferSize
        (some ⟨B, c0⟩)).calls (memoryIStream f) W kSizeTypeError allocate cs = some b ∧
      b.read (memoryIStream f) W n = some r ∧
      r.count = some (min n (B.length - b.mnPositionExternal)) ∧
      r.data = (B.drop b.mnPositionExternal).take n ∧
      r.data = (MemoryStream.read ⟨B, b.mnPositionExternal⟩ n).1 ∧
      (b.mnPositionExternal ≤ B.length →
        ((memoryIStream f).read
          ((memoryIStream f).setPosition ⟨B, c0⟩ (b.mnPositionExternal : Int)).2 n).1
          = some r.data) := by
  have hB : B.length < 2 ^ (W - 1) := by omega
  obtain ⟨hinv, hext⟩ := construct_readInv f W allocate nreadBufferSize nWriteBufferSize B c0 hf
    hc0 hB
  obtain ⟨b, hb, hbi, -, hbe⟩ := calls_readInv f W kSizeTypeError allocate B n hB cs _ hinv hcs
    (by rw [hext]; omega) hrange
  obtain ⟨r, hr, hd, hcnt, -, -, -⟩ := read_transparent f W B b n hbi hbe
  refine ⟨b, r, hb, hr, hcnt, hd, hd, fun hle => ?_⟩
  rw [hd]
  simp only [memoryIStream, MemoryStream.setPosition, MemoryStream.read]
  rw [if_pos (Int.natCast_nonneg _), Int.toNat_ofNat, if_pos hle]

theorem C35_buffered_reads_transparent_witness :
    ∃ b r,
      (StreamBuffer.construct (memoryIStream 3) 64 (fun _ => true) 4 0
        (some ⟨[10, 11, 12, 13, 14, 15, 16, 17, 18, 19], 0⟩)).calls (memoryIStream 3) 64
          (2 ^ 64 - 1) (fun _ => true)
          [BufferCall.read 3, BufferCall.setPosition 8 kPositionTypeBegin, BufferCall.read 5,
            BufferCall.setPosition 1 kPositionTypeBegin] = some b ∧
      b.read (memoryIStream 3) 64 6 = some r ∧
      r.count = some (min 6 (([10, 11, 12, 13, 14, 15, 16, 17, 18, 19] : List Nat).length
        - b.mnPositionExternal)) ∧
      r.data = (([10, 11, 12, 13, 14, 15, 16, 17, 18, 19] : List Nat).drop
        b.mnPositionExternal).take 6 :=
  have h := C35_buffered_reads_transparent 3 64 (2 ^ 64 - 1) (fun _ => true)
    [10, 11, 12, 13, 14, 15, 16, 17, 18, 19] 0 4 0
    [BufferCall.read 3, BufferCall.setPosition 8 kPositionTypeBegin, BufferCall.read 5,
      BufferCall.setPosition 1 kPositionTypeBegin] 6 (by decide) (by decide)
    (by
      intro x hx
      simp only [List.mem_cons, List.mem_singleton, List.not_mem_nil, or_false] at hx
      rcases hx with rfl | rfl | rfl | rfl <;> simp [BufferCall.isReadOrSeek])
    (by decide)
  h.elim (fun b hb => hb.elim (fun r hr => ⟨b, r, hr.1, hr.2.1, hr.2.2.1, hr.2.2.2.1⟩))

end Eaio
